import Mathlib

/-!
# Collision avoidance (graphite2, `src/Collider.cpp`)

A shallow embedding of `ShiftCollider` (`initSlot`, `addBox_slopex`, `addBox_slopey`,
`removeBox`, `mergeSlot`, `resolve`), of `KernCollider` (`initSlot`, `mergeSlot`, `resolve`),
of `SlotCollision::initFromSlot` and `SlotCollision::getKern`, and of the records they read.

Conventions.
* `float` values are idealised as exact rationals (`ℚ`): comparisons, `std::min`/`std::max`
  and the affine formulas are transcribed verbatim, rounding and NaN are not modelled.
* `uint16` attributes are natural numbers; order flags are combined with the bitwise
  operations of `Nat`.
* Debug-only code (`GRAPHITE2_NTRACING`, the `json` sink) and locals that are assigned but
  never read (`cdiff`, `tempv`, `vcmin`, `vcmax` in `mergeSlot`; `tleft` in `resolve`) are left out.
* The four axes are the integers `0` (x), `1` (y), `2` (sum), `3` (diff), as in the source.
* `int` values are integers; the conversion `int(f)` truncates toward zero. A read of a
  vector element outside its bounds has no result (`none`).
-/

namespace graphite2

/-! ## Geometry records (declared in headers outside `src/`) -/

/-- A point or vector (`inc/Position.h`). -/
structure Position where
  x : ℚ
  y : ℚ
deriving DecidableEq

instance : Add Position := ⟨fun a b => ⟨a.x + b.x, a.y + b.y⟩⟩
instance : Sub Position := ⟨fun a b => ⟨a.x - b.x, a.y - b.y⟩⟩

/-- A rectangle given by its bottom-left and top-right corners (`inc/Position.h`). -/
structure Rect where
  bl : Position
  tr : Position
deriving DecidableEq

/-- Horizontal extent of a rectangle (`Rect::width`). -/
def Rect.width (r : Rect) : ℚ := r.tr.x - r.bl.x

/-- Vertical extent of a rectangle (`Rect::height`). -/
def Rect.height (r : Rect) : ℚ := r.tr.y - r.bl.y

/-- Upright bounding box of a glyph (`BBox` of the glyph cache). -/
structure BBox where
  xi : ℚ
  yi : ℚ
  xa : ℚ
  ya : ℚ
deriving DecidableEq

/-- Diagonal bounding box of a glyph: extents of `x + y` (`si`, `sa`) and of `x - y`
(`di`, `da`). -/
structure SlantBox where
  si : ℚ
  di : ℚ
  sa : ℚ
  da : ℚ
deriving DecidableEq

/-- The collision metadata record of one glyph (`class SlotCollision`, `inc/Collider.h`). -/
structure SlotCollision where
  limit : Rect
  shift : Position
  offset : Position
  exclOffset : Position
  margin : Nat
  marginWt : Nat
  flags : Nat
  status : Nat
  exclGlyph : Nat
  seqClass : Nat
  seqOrder : Nat
  seqAboveXoff : Nat
  seqAboveWt : Nat
  seqBelowXlim : Nat
  seqBelowWt : Nat
  seqValignHt : Nat
  seqValignWt : Nat
deriving DecidableEq

/-- Order flag `SlotCollision::COLL_ORDER_LEFT`. -/
def COLL_ORDER_LEFT : Nat := 1
/-- Order flag `SlotCollision::COLL_ORDER_RIGHT`. -/
def COLL_ORDER_RIGHT : Nat := 2
/-- Order flag `SlotCollision::COLL_ORDER_DOWN`. -/
def COLL_ORDER_DOWN : Nat := 4
/-- Order flag `SlotCollision::COLL_ORDER_UP`. -/
def COLL_ORDER_UP : Nat := 8
/-- Order flag `SlotCollision::COLL_ORDER_XOVERY`. -/
def COLL_ORDER_XOVERY : Nat := 16
/-- The macro `COLL_ORDER_X` of `mergeSlot`. -/
def COLL_ORDER_X : Nat := COLL_ORDER_LEFT ||| COLL_ORDER_RIGHT
/-- The macro `COLL_ORDER_Y` of `mergeSlot`. -/
def COLL_ORDER_Y : Nat := COLL_ORDER_DOWN ||| COLL_ORDER_UP

/-- The part of a glyph slot the shift collider reads: glyph id, origin, and the index by
which the segment finds its collision record. -/
structure Slot where
  gid : Nat
  origin : Position
  index : Nat
deriving DecidableEq

/-- Modelled from the spec: `Slot::setGlyph` (Slot.cpp is not among the sources); the phantom
exclusion slot is "built from that glyph id", so only the glyph id changes. -/
def Slot.setGlyph (s : Slot) (g : Nat) : Slot := { s with gid := g }

/-- What the collider reads through `Segment *seg`: the glyph cache (bounding boxes, slant
boxes and sub-boxes by glyph id) and the collision record of a slot. -/
structure Segment where
  getBoundingBBox : Nat → BBox
  getBoundingSlantBox : Nat → SlantBox
  numSubBounds : Nat → Nat
  getSubBoundingBBox : Nat → Nat → BBox
  getSubBoundingSlantBox : Nat → Nat → SlantBox
  collisionInfo : Slot → SlotCollision

/-! ## The cost landscape `Zones` (`inc/Intervals.h`, not among the sources) -/

/-- Template argument of the `Zones` methods: diagonal (`SD`) or upright (`XY`) axis. -/
inductive zones_t where
  | SD
  | XY
deriving DecidableEq

/-- One mutation of a landscape after its initialisation, with the arguments the collider
passed: a hard exclusion of `[x, x + len]` (`exclude`, `exclude_with_margins`) or a weighted
region (`weighted`). -/
inductive ZoneCall where
  | exclude (x len : ℚ)
  | exclude_with_margins (x len : ℚ)
  | weighted (t : zones_t) (x len weight shift oshift a m xi c : ℚ)
deriving DecidableEq

/-- Modelled from the spec: the cost-interval structure `Zones` (inc/Intervals.h and its
implementation are not among the sources). A landscape is "an initial soft boundary at the
permissible range edges" (the arguments of `initialise`) together with the "weighted regions"
and "hard-exclusion intervals" added since, kept in the order they were added. -/
structure Zones where
  t : zones_t
  pos : ℚ
  len : ℚ
  margin : ℚ
  marginWeight : ℚ
  shift : ℚ
  oshift : ℚ
  a : ℚ
  calls : List ZoneCall
deriving DecidableEq

/-- Modelled from the spec: `Zones::initialise<O>(xmin, len, margin, weight, shift, oshift, a)`
seeds a landscape over the permissible range `[xmin, xmin + len]` with no regions. -/
def Zones.initialise (t : zones_t) (xmin len margin marginWeight shift oshift a : ℚ) : Zones :=
  { t := t, pos := xmin, len := len, margin := margin, marginWeight := marginWeight,
    shift := shift, oshift := oshift, a := a, calls := [] }

/-- Modelled from the spec: `Zones::exclude(x, len)` adds a hard exclusion; "exclusions
accumulate monotonically (never removed)". -/
def Zones.exclude (z : Zones) (x len : ℚ) : Zones :=
  { z with calls := z.calls ++ [ZoneCall.exclude x len] }

/-- Modelled from the spec: `Zones::exclude_with_margins(x, len)` adds a hard exclusion of
the interval (its soft margins come from the landscape's own margin and weight). -/
def Zones.exclude_with_margins (z : Zones) (x len : ℚ) : Zones :=
  { z with calls := z.calls ++ [ZoneCall.exclude_with_margins x len] }

/-- Modelled from the spec: `Zones::weighted<O>(x, len, weight, shift, oshift, a, m, xi, c)`
adds a weighted region. -/
def Zones.weighted (z : Zones) (t : zones_t) (x len weight shift oshift a m xi c : ℚ) : Zones :=
  { z with calls := z.calls ++ [ZoneCall.weighted t x len weight shift oshift a m xi c] }

/-- Modelled from the spec: whether a region hard-excludes position `p`. A position is
excluded when it lies strictly inside the interval; at an end point the glyph only touches
its neighbor. -/
def ZoneCall.excludes : ZoneCall → ℚ → Bool
  | ZoneCall.exclude x len, p => decide (x < p ∧ p < x + len)
  | ZoneCall.exclude_with_margins x len, p => decide (x < p ∧ p < x + len)
  | ZoneCall.weighted _ _ _ _ _ _ _ _ _ _, _ => false

/-- Modelled from the spec: the end points of a hard exclusion, the nearest positions on
either side of it that it does not exclude. -/
def ZoneCall.edges : ZoneCall → List ℚ
  | ZoneCall.exclude x len => [x, x + len]
  | ZoneCall.exclude_with_margins x len => [x, x + len]
  | ZoneCall.weighted _ _ _ _ _ _ _ _ _ _ => []

/-- Modelled from the spec: position `p` is hard-excluded in landscape `z`. -/
def Zones.hardExcluded (z : Zones) (p : ℚ) : Bool := z.calls.any (fun r => r.excludes p)

/-- Modelled from the spec: a feasible position lies in the permissible range and in no
hard exclusion ("hard exclusion dominates"). -/
def Zones.feasible (z : Zones) (p : ℚ) : Bool :=
  decide (z.pos ≤ p) && decide (p ≤ z.pos + z.len) && !z.hardExcluded p

/-- Modelled from the spec: the positions `closest` examines: the target itself, the ends of
the permissible range and the ends of every hard exclusion. -/
def Zones.candidates (z : Zones) (origin : ℚ) : List ℚ :=
  origin :: z.pos :: (z.pos + z.len) :: z.calls.flatMap ZoneCall.edges

/-- Modelled from the spec: of two positions, keep the cheaper one, the one nearer to the
target at equal cost, and the earlier one when still tied. -/
def Zones.pick (cost : ℚ → NNRat) (origin : ℚ) : Option ℚ → ℚ → Option ℚ
  | none, p => some p
  | some q, p =>
    if cost p < cost q ∨ (cost p = cost q ∧ |p - origin| < |q - origin|) then some p else some q

/-- Modelled from the spec: `Zones::closest(origin, width, cost)` "answers closest feasible
position to a target, with its cost"; "a landscape with no feasible position returns a
negative sentinel cost". The exclusions arrive already expanded by the glyph's length, so
the width takes no part in feasibility. The rule that combines the weighted regions into the cost of a
position is left open by the spec and is the parameter `cost` (landscape, target, position),
with values in `[0, ∞)`. The result is the pair (position, cost). -/
def Zones.closest (cost : Zones → ℚ → ℚ → NNRat) (z : Zones) (origin _width _cost : ℚ) : ℚ × ℚ :=
  match ((z.candidates origin).filter z.feasible).foldl (Zones.pick (cost z origin) origin) none with
  | none => (0, -1)
  | some p => (p, (cost z origin p : ℚ))

/-! ## The shift collider -/

/-- The constant `ISQRT2` (`0.707106781f`, the nearest single-precision value). -/
def ISQRT2 : ℚ := 11863283 / 16777216

/-- The largest finite single-precision value, `std::numeric_limits<float>::max()`. -/
def FLT_MAX : ℚ := (2 ^ 24 - 1) * 2 ^ 104

/-- Session state of `class ShiftCollider` (`inc/Collider.h`); `_ranges` and `_len` are the
arrays indexed by axis `0 .. 3`. -/
structure ShiftCollider where
  _ranges : Nat → Zones
  _target : Slot
  _limit : Rect
  _currShift : Position
  _currOffset : Position
  _margin : ℚ
  _marginWt : ℚ
  _len : Nat → ℚ
  _seqClass : Nat
  _seqOrder : Nat
  exclSlot : Slot

/-- The rectangle `_limit` as `initSlot` sets it before its loop (lines 60-63). -/
def initLimit (limit : Rect) (currOffset : Position) : Rect :=
  if currOffset.x ≠ 0 ∨ currOffset.y ≠ 0 then ⟨limit.bl - currOffset, limit.tr - currOffset⟩
  else limit

/-- The landscape `initSlot` seeds for axis `i` (the `initialise` calls of lines 68-105). -/
def initRange (lim : Rect) (aSlot : Slot) (margin marginWeight : ℚ)
    (currShift currOffset : Position) (i : Nat) (old : Zones) : Zones :=
  match i with
  | 0 =>
    let min := lim.bl.x + aSlot.origin.x
    let max := lim.tr.x + aSlot.origin.x
    Zones.initialise zones_t.XY min (max - min) margin marginWeight currOffset.x currOffset.y
      currOffset.y
  | 1 =>
    let min := lim.bl.y + aSlot.origin.y
    let max := lim.tr.y + aSlot.origin.y
    Zones.initialise zones_t.XY min (max - min) margin marginWeight currOffset.y currOffset.x
      currOffset.x
  | 2 =>
    let min := -2 * Min.min (currShift.x - lim.bl.x) (currShift.y - lim.bl.y) + aSlot.origin.x
      + aSlot.origin.y + currShift.x + currShift.y
    let max := 2 * Min.min (lim.tr.x - currShift.x) (lim.tr.y - currShift.y) + aSlot.origin.x
      + aSlot.origin.y + currShift.x + currShift.y
    Zones.initialise zones_t.SD min (max - min) (margin / ISQRT2) marginWeight
      (currOffset.x + currOffset.y) (currOffset.x - currOffset.y) (currOffset.x - currOffset.y)
  | 3 =>
    let min := -2 * Min.min (currShift.x - lim.bl.x) (lim.tr.y - currShift.y) + aSlot.origin.x
      - aSlot.origin.y + currShift.x - currShift.y
    let max := 2 * Min.min (lim.tr.x - currShift.x) (currShift.y - lim.bl.y) + aSlot.origin.x
      - aSlot.origin.y + currShift.x - currShift.y
    Zones.initialise zones_t.SD min (max - min) (margin / ISQRT2) marginWeight
      (currOffset.x - currOffset.y) (currOffset.x + currOffset.y) (currOffset.x + currOffset.y)
  | _ => old

/-- The axis length `_len[i]` that `initSlot` stores: the extent of the target's upright box
(axes 0, 1) or slant box (axes 2, 3). -/
def initLen (bb : BBox) (sb : SlantBox) (i : Nat) (old : ℚ) : ℚ :=
  match i with
  | 0 => bb.xa - bb.xi
  | 1 => bb.ya - bb.yi
  | 2 => sb.sa - sb.si
  | 3 => sb.da - sb.di
  | _ => old

/-- Embedding of `ShiftCollider::initSlot` (lines 48-146). The four landscapes are seeded from `_limit`
as it stands before the direction flip of lines 121-126, which reads the parameter
`limit`. -/
def ShiftCollider.initSlot (c : ShiftCollider) (seg : Segment) (aSlot : Slot) (limit : Rect)
    (margin marginWeight : ℚ) (currShift currOffset : Position) (dir : Int) : ShiftCollider :=
  let bb := seg.getBoundingBBox aSlot.gid
  let sb := seg.getBoundingSlantBox aSlot.gid
  let lim := initLimit limit currOffset
  let cinfo := seg.collisionInfo aSlot
  { _ranges := fun i => initRange lim aSlot margin marginWeight currShift currOffset i (c._ranges i)
    _target := aSlot
    _limit :=
      if dir % 2 = 0 then
        ⟨⟨-1 * limit.tr.x, lim.bl.y⟩, ⟨-1 * limit.bl.x, lim.tr.y⟩⟩
      else lim
    _currShift := currShift
    _currOffset := currOffset
    _margin := margin
    _marginWt := marginWeight
    _len := fun i => initLen bb sb i (c._len i)
    _seqClass := cinfo.seqClass
    _seqOrder := cinfo.seqOrder
    exclSlot := c.exclSlot }

/-- Embedding of `ShiftCollider::addBox_slopex` (lines 150-196); `z` is the value of `_ranges[axis]`
on entry and the result its value on return. -/
def ShiftCollider.addBox_slopex (c : ShiftCollider) (box org : Rect) (weight m : ℚ)
    (minright : Bool) (axis : Nat) (z : Zones) : Zones :=
  match axis with
  | 0 =>
    if box.bl.y < org.tr.y ∧ box.tr.y > org.bl.y ∧ box.width > 0 then
      let a := org.bl.y - box.bl.y
      z.weighted zones_t.XY box.bl.x box.width weight c._currShift.x c._currShift.y a m
        (if minright then box.tr.x else box.bl.x) 0
    else z
  | 1 =>
    if box.bl.x < org.tr.x ∧ box.tr.x > org.bl.x ∧ box.height > 0 then
      let a := org.bl.x - box.bl.x
      z.weighted zones_t.XY box.bl.y box.height weight c._currShift.y c._currShift.x a 0 0
        (m * a * a)
    else z
  | 2 =>
    if box.bl.x - box.tr.y < org.tr.x - org.bl.y ∧ box.tr.x - box.bl.y > org.bl.x - org.tr.y then
      let smin := max (max (box.bl.x + box.bl.y) (2 * (box.bl.y - org.tr.y) + org.tr.x + org.tr.y))
        (2 * (box.bl.x - org.tr.x) + org.tr.x + org.tr.y)
      let smax := min (min (box.tr.x + box.tr.y) (2 * (box.tr.y - org.bl.y) + org.bl.x + org.bl.y))
        (2 * (box.tr.x - org.bl.x) + org.bl.x + org.bl.y)
      if smin > smax then z
      else
        let a := if minright then 2 * org.tr.x - smax else 2 * org.bl.x - smin
        z.weighted zones_t.SD smin (smax - smin) (weight / 2) (c._currShift.x + c._currShift.y)
          (c._currShift.x - c._currShift.y) a (m / 2) (if minright then smax else smin) 0
    else z
  | 3 =>
    if box.bl.x + box.bl.y < org.tr.x + org.tr.y ∧ box.tr.x + box.tr.y > org.bl.x + org.bl.y then
      let dmin := max (max (box.bl.x - box.tr.y) (2 * (box.bl.x - org.tr.x) + org.tr.x - org.bl.y))
        (org.tr.x - org.bl.y - 2 * (box.tr.y - org.bl.y))
      let dmax := min (min (box.tr.x - box.bl.y) (2 * (box.tr.x - org.bl.x) + org.bl.x - org.tr.y))
        (org.bl.x - org.tr.y - 2 * (box.bl.y - org.tr.y))
      if dmin > dmax then z
      else
        let a := if minright then 2 * org.tr.x - dmax else 2 * org.bl.x - dmin
        z.weighted zones_t.SD dmin (dmax - dmin) (weight / 2) (c._currShift.x - c._currShift.y)
          (c._currShift.x + c._currShift.y) a (m / 2) (if minright then dmax else dmin) 0
    else z
  | _ => z

/-- Embedding of `ShiftCollider::addBox_slopey` (lines 199-245); `z` is the value of `_ranges[axis]`
on entry and the result its value on return. -/
def ShiftCollider.addBox_slopey (c : ShiftCollider) (box org : Rect) (weight m : ℚ)
    (mintop : Bool) (axis : Nat) (z : Zones) : Zones :=
  match axis with
  | 0 =>
    if box.bl.y < org.tr.y ∧ box.tr.y > org.bl.y ∧ box.width > 0 then
      let a := org.bl.y - box.bl.y
      z.weighted zones_t.XY box.bl.x box.width weight c._currShift.x c._currShift.y a 0 0
        (m * a * a)
    else z
  | 1 =>
    if box.bl.x < org.tr.x ∧ box.tr.x > org.bl.x ∧ box.height > 0 then
      let a := org.bl.x - box.bl.x
      z.weighted zones_t.XY box.bl.y box.height weight c._currShift.y c._currShift.x a m
        (if mintop then box.tr.y else box.bl.y) 0
    else z
  | 2 =>
    if box.bl.x - box.tr.y < org.tr.x - org.bl.y ∧ box.tr.x - box.bl.y > org.bl.x - org.tr.y then
      let smin := max (max (box.bl.x + box.bl.y) (2 * (box.bl.y - org.tr.y) + org.tr.x + org.tr.y))
        (2 * (box.bl.x - org.tr.x) + org.tr.x + org.tr.y)
      let smax := min (min (box.tr.x + box.tr.y) (2 * (box.tr.y - org.bl.y) + org.bl.x + org.bl.y))
        (2 * (box.tr.x - org.bl.x) + org.bl.x + org.bl.y)
      if smin > smax then z
      else
        let a := if mintop then smax - 2 * box.tr.y else smin - 2 * box.bl.y
        z.weighted zones_t.SD smin (smax - smin) (weight / 2) (c._currShift.x + c._currShift.y)
          (c._currShift.x - c._currShift.y) a (m / 2) (if mintop then smax else smin) 0
    else z
  | 3 =>
    if box.bl.x + box.bl.y < org.tr.x + org.tr.y ∧ box.tr.x + box.tr.y > org.bl.x + org.bl.y then
      let dmin := max (max (box.bl.x - box.tr.y) (2 * (box.bl.x - org.tr.x) + org.tr.x - org.bl.y))
        (org.tr.x - org.bl.y - 2 * (box.tr.y - org.bl.y))
      let dmax := min (min (box.tr.x - box.bl.y) (2 * (box.tr.x - org.bl.x) + org.bl.x - org.tr.y))
        (org.bl.x - org.tr.y - 2 * (box.bl.y - org.tr.y))
      if dmin > dmax then z
      else
        let a := if mintop then dmin + 2 * box.tr.y else dmax + 2 * box.bl.y
        z.weighted zones_t.SD dmin (dmax - dmin) (weight / 2) (c._currShift.x - c._currShift.y)
          (c._currShift.x + c._currShift.y) a (m / 2) (if mintop then dmin else dmax) 0
    else z
  | _ => z

/-- Embedding of `ShiftCollider::removeBox` (lines 248-271); `z` is the value of `_ranges[axis]` on
entry and the result its value on return. -/
def ShiftCollider.removeBox (c : ShiftCollider) (box org : Rect) (axis : Nat) (z : Zones) : Zones :=
  match axis with
  | 0 =>
    if box.bl.y < org.tr.y ∧ box.tr.y > org.bl.y ∧ box.width > 0 then
      z.exclude box.bl.x (box.width + c._len axis)
    else z
  | 1 =>
    if box.bl.x < org.tr.x ∧ box.tr.x > org.bl.x ∧ box.height > 0 then
      z.exclude box.bl.y (box.height + c._len axis)
    else z
  | 2 =>
    if box.bl.x - box.tr.y < org.tr.x - org.bl.y ∧ box.tr.x - box.bl.y > org.bl.x - org.tr.y
        ∧ box.width > 0 ∧ box.height > 0 then
      z.exclude (box.bl.x + box.bl.y) (box.height + box.width + c._len axis)
    else z
  | 3 =>
    if box.bl.x + box.bl.y < org.tr.x + org.tr.y ∧ box.tr.x + box.tr.y > org.bl.x + org.bl.y
        ∧ box.width > 0 ∧ box.height > 0 then
      z.exclude (box.bl.x - box.bl.y) (box.height + box.width + c._len axis)
    else z
  | _ => z

/-- The candidate overlap interval `[vmin, vmax]` of an axis and the neighbor's
perpendicular extent `[omin, omax]`. -/
structure AxisBounds where
  vmin : ℚ
  vmax : ℚ
  omin : ℚ
  omax : ℚ
deriving DecidableEq

/-- The values `vmin`, `vmax`, `omin`, `omax` that `mergeSlot` computes on axis `i` from the
neighbor's boxes `bb`, `sb` at `(sx, sy)` and the target's boxes `tbb`, `tsb` at `(tx, ty)`
(lines 337-342, 357-362, 377-382, 402-407). The sub-box switch (lines 514-539) repeats the
same formulas with the sub-box `sbb`, `ssb` in place of `bb`, `sb`. -/
def axisBounds (i : Nat) (bb : BBox) (sb : SlantBox) (tbb : BBox) (tsb : SlantBox)
    (sx sy tx ty : ℚ) : AxisBounds :=
  let td := tx - ty
  let ts := tx + ty
  let sd := sx - sy
  let ss := sx + sy
  match i with
  | 0 =>
    { vmin := max (max (bb.xi + sx) (sb.di + sd + tbb.xa + tx - tsb.da - td))
        (sb.si + ss + tbb.xa + tx - tsb.sa - ts) - tbb.xi
      vmax := min (min (bb.xa + sx) (sb.da + sd + tbb.xi + tx - tsb.di - td))
        (sb.sa + ss + tbb.xi + tx - tsb.si - ts) - tbb.xi
      omin := bb.yi + sy
      omax := bb.ya + sy }
  | 1 =>
    { vmin := max (max (bb.yi + sy) (tbb.ya + ty - sb.da - sd + tsb.di + td))
        (sb.si + ss + tbb.ya + ty - tsb.sa - ts) - tbb.yi
      vmax := min (min (bb.ya + sy) (tbb.yi + ty - sb.di - sd + tsb.da + td))
        (sb.sa + ss + tbb.yi + ty - tsb.si - ts) - tbb.yi
      omin := bb.xi + sx
      omax := bb.xa + sx }
  | 2 =>
    { vmin := max (max (sb.si + ss) (2 * (bb.yi + sy - tbb.ya - ty) + tsb.sa + ts))
        (2 * (bb.xi + sx - tbb.xa - tx) + tsb.sa + ts) - tsb.si
      vmax := min (min (sb.sa + ss) (2 * (bb.ya + sy - tbb.yi - ty) + tsb.si + ts))
        (2 * (bb.xa + sx - tbb.xi - tx) + tsb.si + ts) - tsb.si
      omin := sb.di + sd
      omax := sb.da + sd }
  | 3 =>
    { vmin := max (max (sb.di + sd) (2 * (bb.xi + sx - tbb.xa - tx) + tsb.da + td))
        (tsb.da + td - 2 * (bb.ya + sy - tbb.yi - ty)) - tsb.di
      vmax := min (min (sb.da + sd) (2 * (bb.xa + sx - tbb.xi - tx) + tsb.di + td))
        (tsb.di + td - 2 * (bb.yi + sy - tbb.ya - ty)) - tsb.di
      omin := sb.si + ss
      omax := sb.sa + ss }
  | _ => { vmin := 0, vmax := 0, omin := 0, omax := 0 }

/-- The target's perpendicular extent `[otmin, otmax]` and its limits `[cmin, cmax]` on an
axis. -/
structure TargetBounds where
  otmin : ℚ
  otmax : ℚ
  cmin : ℚ
  cmax : ℚ
deriving DecidableEq

/-- The values `otmin`, `otmax`, `cmin`, `cmax` that `mergeSlot` computes on axis `i`
(lines 339-344, 359-364, 379-384, 404-409). -/
def ShiftCollider.targetBounds (c : ShiftCollider) (tbb : BBox) (tsb : SlantBox) (i : Nat) :
    TargetBounds :=
  let tx := c._target.origin.x + c._currShift.x
  let ty := c._target.origin.y + c._currShift.y
  let td := tx - ty
  let ts := tx + ty
  match i with
  | 0 =>
    { otmin := tbb.yi + ty
      otmax := tbb.ya + ty
      cmin := c._limit.bl.x + c._target.origin.x
      cmax := c._limit.tr.x + c._target.origin.x + tbb.xa - tbb.xi }
  | 1 =>
    { otmin := tbb.xi + tx
      otmax := tbb.xa + tx
      cmin := c._limit.bl.y + c._target.origin.y
      cmax := c._limit.tr.y + c._target.origin.y + tbb.ya - tbb.yi }
  | 2 =>
    { otmin := tsb.di + td
      otmax := tsb.da + td
      cmin := c._limit.bl.x + c._limit.bl.y + c._target.origin.x + c._target.origin.y
      cmax := c._limit.tr.x + c._limit.tr.y + c._target.origin.x + c._target.origin.y
        + tsb.sa - tsb.si }
  | 3 =>
    { otmin := tsb.si + ts
      otmax := tsb.sa + ts
      cmin := c._limit.bl.x - c._limit.tr.y + c._target.origin.x - c._target.origin.y
      cmax := c._limit.tr.x - c._limit.bl.y + c._target.origin.x - c._target.origin.y
        + tsb.da - tsb.di }
  | _ => { otmin := 0, otmax := 0, cmin := 0, cmax := 0 }

/-- The order flags of `mergeSlot` before the `isAfter` inversion (lines 304-308). -/
def ShiftCollider.orderFlags (c : ShiftCollider) (cslot : SlotCollision) (sameCluster : Bool) :
    Nat :=
  if sameCluster = true ∧ c._seqClass ≠ 0 ∧ c._seqClass = cslot.seqClass then c._seqOrder else 0

/-- The `isAfter` inversion of the order flags (lines 320-326). -/
def invertOrder (isAfter : Bool) (orderFlags : Nat) : Nat :=
  if isAfter then
    let f1 := if orderFlags &&& COLL_ORDER_X ≠ 0 then orderFlags ^^^ COLL_ORDER_X else orderFlags
    if f1 &&& COLL_ORDER_Y ≠ 0 then f1 ^^^ COLL_ORDER_Y else f1
  else orderFlags

/-- The value `enforceOrder` on axis `i` (lines 335-336, 355-356, 376, 401). -/
def enforceOrder (orderFlags : Nat) (i : Nat) : Int :=
  match i with
  | 0 => (if orderFlags &&& COLL_ORDER_LEFT ≠ 0 then -1 else 0)
      + (if orderFlags &&& COLL_ORDER_RIGHT ≠ 0 then 1 else 0)
  | 1 => (if orderFlags &&& COLL_ORDER_DOWN ≠ 0 then -1 else 0)
      + (if orderFlags &&& COLL_ORDER_UP ≠ 0 then 1 else 0)
  | _ => (orderFlags : Int)

/-- The five ordering regions laid on axis `i` when `enforceOrder > 0` (lines 429-456). -/
def ShiftCollider.orderRegionsPos (c : ShiftCollider) (cslot : SlotCollision) (bb tbb : BBox)
    (sx sy : ℚ) (i : Nat) (z : Zones) : Zones :=
  let tx := c._target.origin.x + c._currShift.x
  let ty := c._target.origin.y + c._currShift.y
  let xminf := c._limit.bl.x + c._target.origin.x
  let xpinf := c._limit.tr.x + c._target.origin.x
  let ypinf := c._limit.tr.y + c._target.origin.y
  let yminf := c._limit.bl.y + c._target.origin.y
  let r1Xedge := sx + bb.xa + cslot.seqAboveXoff
  let r3Xedge := sx + bb.xa + cslot.seqBelowXlim
  let r2Yedge := sy + bb.yi + (1 / 2) * cslot.seqValignHt
  let org : Rect := ⟨⟨tx + tbb.xi, ty + tbb.yi⟩, ⟨tx + tbb.xa, ty + tbb.ya⟩⟩
  let z1 := c.addBox_slopex ⟨⟨xminf, r2Yedge⟩, ⟨r1Xedge, ypinf⟩⟩ org 0 cslot.seqAboveWt true i z
  let z2 := c.removeBox ⟨⟨xminf, yminf⟩, ⟨r3Xedge, r2Yedge⟩⟩ org i z1
  let z3 := c.addBox_slopex ⟨⟨r3Xedge, yminf⟩, ⟨xpinf, r2Yedge⟩⟩ org cslot.seqBelowWt 0 true i z2
  let z4 := c.addBox_slopey ⟨⟨sx + bb.xi, sy + bb.yi⟩, ⟨xpinf, r2Yedge⟩⟩ org 0 cslot.seqValignWt
    true i z3
  c.addBox_slopey ⟨⟨sx + bb.xi, sy + bb.yi⟩, ⟨xpinf, sy + bb.yi - (1 / 2) * cslot.seqValignHt⟩⟩
    org 0 cslot.seqValignWt false i z4

/-- The five ordering regions laid on axis `i` when `enforceOrder < 0` (lines 457-484). -/
def ShiftCollider.orderRegionsNeg (c : ShiftCollider) (cslot : SlotCollision) (bb tbb : BBox)
    (sx sy : ℚ) (i : Nat) (z : Zones) : Zones :=
  let tx := c._target.origin.x + c._currShift.x
  let ty := c._target.origin.y + c._currShift.y
  let xminf := c._limit.bl.x + c._target.origin.x
  let xpinf := c._limit.tr.x + c._target.origin.x
  let ypinf := c._limit.tr.y + c._target.origin.y
  let yminf := c._limit.bl.y + c._target.origin.y
  let r1Xedge := sx + bb.xi - cslot.seqAboveXoff
  let r3Xedge := sx + bb.xi - cslot.seqBelowXlim
  let r2Yedge := sy + bb.yi + (1 / 2) * cslot.seqValignHt
  let org : Rect := ⟨⟨tx + tbb.xi, ty + tbb.yi⟩, ⟨tx + tbb.xa, ty + tbb.ya⟩⟩
  let z1 := c.addBox_slopex ⟨⟨r1Xedge, yminf⟩, ⟨xminf, r2Yedge⟩⟩ org 0 cslot.seqAboveWt false i z
  let z2 := c.removeBox ⟨⟨r3Xedge, r2Yedge⟩, ⟨xpinf, ypinf⟩⟩ org i z1
  let z3 := c.addBox_slopex ⟨⟨xminf, r2Yedge⟩, ⟨r3Xedge, ypinf⟩⟩ org cslot.seqBelowWt 0 true i z2
  let z4 := c.addBox_slopey ⟨⟨xminf, r2Yedge⟩, ⟨sx + bb.xa, sy + bb.yi⟩⟩ org 0 cslot.seqValignWt
    true i z3
  c.addBox_slopey ⟨⟨xminf, sy + bb.yi - (1 / 2) * cslot.seqValignHt⟩, ⟨sx + bb.xa, sy + bb.yi⟩⟩
    org 0 cslot.seqValignWt false i z4

/-- The ordering step of one axis iteration (lines 428-489): regions are laid only when
`enforceOrder` is non-zero. -/
def ShiftCollider.orderRegions (c : ShiftCollider) (cslot : SlotCollision) (bb tbb : BBox)
    (sx sy : ℚ) (orderFlags : Nat) (i : Nat) (z : Zones) : Zones :=
  if enforceOrder orderFlags i > 0 then c.orderRegionsPos cslot bb tbb sx sy i z
  else if enforceOrder orderFlags i < 0 then c.orderRegionsNeg cslot bb tbb sx sy i z
  else z

/-- The broad-phase prune of `mergeSlot` (lines 494 and 549): true when the axis (or
sub-box) is skipped. -/
def ShiftCollider.pruned (c : ShiftCollider) (b : AxisBounds) (t : TargetBounds) : Bool :=
  decide (b.vmax < t.cmin - c._margin ∨ b.vmin > t.cmax + c._margin
    ∨ b.omax < t.otmin - c._margin ∨ b.omin > t.otmax + c._margin)

/-- One iteration of the sub-box loop (lines 510-570) for sub-box `j` on axis `i`; the
accumulator is the pair (`_ranges[i]`, `anyhits`). -/
def ShiftCollider.subBoxStep (c : ShiftCollider) (seg : Segment) (slot : Slot)
    (currShift : Position) (i : Nat) (acc : Zones × Bool) (j : Nat) : Zones × Bool :=
  let tx := c._target.origin.x + c._currShift.x
  let ty := c._target.origin.y + c._currShift.y
  let sx := slot.origin.x + currShift.x
  let sy := slot.origin.y + currShift.y
  let tbb := seg.getBoundingBBox c._target.gid
  let tsb := seg.getBoundingSlantBox c._target.gid
  let b := axisBounds i (seg.getSubBoundingBBox slot.gid j) (seg.getSubBoundingSlantBox slot.gid j)
    tbb tsb sx sy tx ty
  if c.pruned b (c.targetBounds tbb tsb i) then acc
  else (acc.1.exclude_with_margins (b.vmin - c._len i) (b.vmax - b.vmin + c._len i), true)

/-- One iteration of the axis loop of `mergeSlot` (lines 329-587) for axis `i`. The
iteration reads the collider's fixed fields and mutates only `_ranges[i]` and `isCol`;
`z` is `_ranges[i]` on entry, the result is `_ranges[i]` afterwards together with whether
the iteration set `isCol`. -/
def ShiftCollider.mergeAxis (c : ShiftCollider) (seg : Segment) (slot : Slot)
    (currShift : Position) (orderFlags : Nat) (i : Nat) (z : Zones) : Zones × Bool :=
  let tx := c._target.origin.x + c._currShift.x
  let ty := c._target.origin.y + c._currShift.y
  let sx := slot.origin.x + currShift.x
  let sy := slot.origin.y + currShift.y
  let bb := seg.getBoundingBBox slot.gid
  let sb := seg.getBoundingSlantBox slot.gid
  let tbb := seg.getBoundingBBox c._target.gid
  let tsb := seg.getBoundingSlantBox c._target.gid
  let cslot := seg.collisionInfo slot
  let b := axisBounds i bb sb tbb tsb sx sy tx ty
  let z1 := c.orderRegions cslot bb tbb sx sy orderFlags i z
  if c.pruned b (c.targetBounds tbb tsb i) then (z1, false)
  else if seg.numSubBounds slot.gid > 0 then
    (List.range (seg.numSubBounds slot.gid)).foldl (c.subBoxStep seg slot currShift i) (z1, false)
  else (z1.exclude_with_margins (b.vmin - c._len i) (b.vmax - b.vmin + c._len i), true)

/-- The axis loop of one `mergeSlot` invocation (lines 281-587): the value of `isCol` before
the exclusion-glyph step and the new collider. Iteration `i` reads only fields the loop
never writes and `_ranges[i]`, so each of the four iterations is computed from the state
on entry. -/
def ShiftCollider.mergeBody (c : ShiftCollider) (seg : Segment) (slot : Slot)
    (currShift : Position) (isAfter sameCluster : Bool) : Bool × ShiftCollider :=
  let orderFlags := invertOrder isAfter (c.orderFlags (seg.collisionInfo slot) sameCluster)
  let r := fun i => c.mergeAxis seg slot currShift orderFlags i (c._ranges i)
  ((r 0).2 || (r 1).2 || (r 2).2 || (r 3).2,
    { c with _ranges := fun i => if i < 4 then (r i).1 else c._ranges i })

/-- Embedding of `ShiftCollider::mergeSlot` (lines 276-600). The recursion on the exclusion glyph has no
bound in the source, so the embedding carries a recursion budget: `none` means the budget
was exhausted before the call chain ended. -/
def ShiftCollider.mergeSlot : Nat → ShiftCollider → Segment → Slot → Position → Bool → Bool →
    Option (Bool × ShiftCollider)
  | 0, _, _, _, _, _, _ => none
  | fuel + 1, c, seg, slot, currShift, isAfter, sameCluster =>
    let cslot := seg.collisionInfo slot
    let r := c.mergeBody seg slot currShift isAfter sameCluster
    if cslot.exclGlyph > 0 then
      let excl : Slot :=
        { r.2.exclSlot.setGlyph cslot.exclGlyph with origin := slot.origin + cslot.exclOffset }
      match ShiftCollider.mergeSlot fuel { r.2 with exclSlot := excl } seg excl currShift isAfter
          sameCluster with
      | none => none
      | some r2 => some (r.1 || r2.1, r2.2)
    else some r

/-- Loop state of `resolve`: `totalCost`, `resultPos`, `bestAxis` and the out-parameter
`isCol`. -/
structure ResolveState where
  totalCost : ℚ
  resultPos : Position
  bestAxis : Int
  isCol : Bool
deriving DecidableEq

/-- The arguments `tbase + tval` and `tlen` of the `closest` query on axis `i`, and `tbase`
(lines 631-656). -/
def ShiftCollider.resolveQuery (c : ShiftCollider) (bb : BBox) (sb : SlantBox)
    (currOffset : Position) (i : Nat) : ℚ × ℚ × ℚ :=
  match i with
  | 0 => (c._target.origin.x + -currOffset.x, bb.xa - bb.xi, c._target.origin.x)
  | 1 => (c._target.origin.y + -currOffset.y, bb.ya - bb.yi, c._target.origin.y)
  | 2 => (c._target.origin.x + c._target.origin.y + (-currOffset.x - currOffset.y), sb.sa - sb.si,
      c._target.origin.x + c._target.origin.y)
  | 3 => (c._target.origin.x - c._target.origin.y + (currOffset.y - currOffset.x), sb.da - sb.di,
      c._target.origin.x - c._target.origin.y)
  | _ => (0, 0, 0)

/-- The 2-D candidate `testp` built from the shift `bestPos` found on axis `i`
(lines 668-673). -/
def ShiftCollider.testp (c : ShiftCollider) (i : Nat) (bestPos : ℚ) : Position :=
  match i with
  | 0 => ⟨bestPos, c._currShift.y⟩
  | 1 => ⟨c._currShift.x, bestPos⟩
  | 2 => ⟨(1 / 2) * (bestPos + c._currShift.x - c._currShift.y),
      (1 / 2) * (bestPos - c._currShift.x + c._currShift.y)⟩
  | 3 => ⟨(1 / 2) * (bestPos + c._currShift.x + c._currShift.y),
      (1 / 2) * (c._currShift.x + c._currShift.y - bestPos)⟩
  | _ => ⟨0, 0⟩

/-- The result (position, cost) of the `closest` query of axis `i` (line 658), `bestCost`
being passed in as `-1`. -/
def ShiftCollider.axisClosest (closest : Zones → ℚ → ℚ → ℚ → ℚ × ℚ) (c : ShiftCollider)
    (seg : Segment) (i : Nat) : ℚ × ℚ :=
  let q := c.resolveQuery (seg.getBoundingBBox c._target.gid)
    (seg.getBoundingSlantBox c._target.gid) (seg.collisionInfo c._target).offset i
  closest (c._ranges i) q.1 q.2.1 (-1)

/-- The 2-D candidate `testp` of axis `i`: the position found by `closest`, converted to a
shift (`bestPos = closest(..) - tbase`, line 658) and then to a displacement. -/
def ShiftCollider.axisCandidate (closest : Zones → ℚ → ℚ → ℚ → ℚ × ℚ) (c : ShiftCollider)
    (seg : Segment) (i : Nat) : Position :=
  c.testp i ((c.axisClosest closest seg i).1 - (c.resolveQuery (seg.getBoundingBBox c._target.gid)
    (seg.getBoundingSlantBox c._target.gid) (seg.collisionInfo c._target).offset i).2.2)

/-- One iteration of the loop of `resolve` (lines 626-681) for axis `i`. -/
def ShiftCollider.resolveStep (closest : Zones → ℚ → ℚ → ℚ → ℚ × ℚ) (c : ShiftCollider)
    (seg : Segment) (st : ResolveState) (i : Nat) : ResolveState :=
  let bestCost := (c.axisClosest closest seg i).2
  if bestCost ≥ 0 then
    if bestCost < st.totalCost then
      { totalCost := bestCost, resultPos := c.axisCandidate closest seg i, bestAxis := i,
        isCol := false }
    else { st with isCol := false }
  else st

/-- The loop of `ShiftCollider::resolve` over the four axes, from the initial state of
lines 611-625. `closest` stands for `Zones::closest`. -/
def ShiftCollider.resolveLoop (closest : Zones → ℚ → ℚ → ℚ → ℚ × ℚ) (c : ShiftCollider)
    (seg : Segment) : ResolveState :=
  [0, 1, 2, 3].foldl (c.resolveStep closest seg)
    { totalCost := FLT_MAX / 2, resultPos := ⟨0, 0⟩, bestAxis := -1, isCol := true }

/-- Embedding of `ShiftCollider::resolve` (lines 604-692): the returned displacement and the value left
in the out-parameter `isCol`. -/
def ShiftCollider.resolve (closest : Zones → ℚ → ℚ → ℚ → ℚ × ℚ) (c : ShiftCollider)
    (seg : Segment) : Position × Bool :=
  ((c.resolveLoop closest seg).resultPos, (c.resolveLoop closest seg).isCol)

/-! ## Auxiliary notions used to state the properties -/

/-- Landscape `z` with the regions `L` added after its own. -/
def Zones.extend (z : Zones) (L : List ZoneCall) : Zones := { z with calls := z.calls ++ L }

/-- The regions of `z2` that come after those already present in `z1`. -/
def Zones.newCalls (z1 z2 : Zones) : List ZoneCall := z2.calls.drop z1.calls.length

/-- A region added by `Zones::weighted`. -/
def ZoneCall.isWeighted : ZoneCall → Bool
  | ZoneCall.weighted _ _ _ _ _ _ _ _ _ _ => true
  | _ => false

/-- A region added by `Zones::exclude_with_margins`. -/
def ZoneCall.isMarginExclusion : ZoneCall → Bool
  | ZoneCall.exclude_with_margins _ _ => true
  | _ => false

/-- The arguments of one `mergeSlot` call of a session. -/
structure MergeArgs where
  slot : Slot
  currShift : Position
  isAfter : Bool
  sameCluster : Bool

/-- A run of `mergeSlot` calls on the same collider, in order; `none` if one of them
exhausts the recursion budget. -/
def ShiftCollider.mergeAll (fuel : Nat) (seg : Segment) : ShiftCollider → List MergeArgs →
    Option ShiftCollider
  | c, [] => some c
  | c, m :: ms =>
    match c.mergeSlot fuel seg m.slot m.currShift m.isAfter m.sameCluster with
    | none => none
    | some r => ShiftCollider.mergeAll fuel seg r.2 ms

/-- The bounds `mergeSlot` computes on axis `i` for the neighbor's whole envelope. -/
def ShiftCollider.wholeBounds (c : ShiftCollider) (seg : Segment) (slot : Slot)
    (currShift : Position) (i : Nat) : AxisBounds :=
  axisBounds i (seg.getBoundingBBox slot.gid) (seg.getBoundingSlantBox slot.gid)
    (seg.getBoundingBBox c._target.gid) (seg.getBoundingSlantBox c._target.gid)
    (slot.origin.x + currShift.x) (slot.origin.y + currShift.y)
    (c._target.origin.x + c._currShift.x) (c._target.origin.y + c._currShift.y)

/-- The bounds `mergeSlot` computes on axis `i` for sub-box `j` of the neighbor. -/
def ShiftCollider.subBounds (c : ShiftCollider) (seg : Segment) (slot : Slot)
    (currShift : Position) (i j : Nat) : AxisBounds :=
  axisBounds i (seg.getSubBoundingBBox slot.gid j) (seg.getSubBoundingSlantBox slot.gid j)
    (seg.getBoundingBBox c._target.gid) (seg.getBoundingSlantBox c._target.gid)
    (slot.origin.x + currShift.x) (slot.origin.y + currShift.y)
    (c._target.origin.x + c._currShift.x) (c._target.origin.y + c._currShift.y)

/-- The target's bounds on axis `i` as `mergeSlot` computes them. -/
def ShiftCollider.axisTarget (c : ShiftCollider) (seg : Segment) (i : Nat) : TargetBounds :=
  c.targetBounds (seg.getBoundingBBox c._target.gid) (seg.getBoundingSlantBox c._target.gid) i

/-- The hard exclusion `mergeSlot` requests for a candidate interval on axis `i`:
`exclude_with_margins(vmin - _len[i], vmax - vmin + _len[i])`. -/
def ShiftCollider.overlapCall (c : ShiftCollider) (i : Nat) (b : AxisBounds) : ZoneCall :=
  ZoneCall.exclude_with_margins (b.vmin - c._len i) (b.vmax - b.vmin + c._len i)

/-- The order flags in force during a `mergeSlot` invocation, after the `isAfter`
inversion. -/
def ShiftCollider.effectiveOrder (c : ShiftCollider) (seg : Segment) (slot : Slot)
    (isAfter sameCluster : Bool) : Nat :=
  invertOrder isAfter (c.orderFlags (seg.collisionInfo slot) sameCluster)

/-- The landscape of axis `i` after the ordering step of a `mergeSlot` invocation. -/
def ShiftCollider.afterOrder (c : ShiftCollider) (seg : Segment) (slot : Slot)
    (currShift : Position) (orderFlags : Nat) (i : Nat) (z : Zones) : Zones :=
  c.orderRegions (seg.collisionInfo slot) (seg.getBoundingBBox slot.gid)
    (seg.getBoundingBBox c._target.gid) (slot.origin.x + currShift.x)
    (slot.origin.y + currShift.y) orderFlags i z

/-- The hard exclusions one axis iteration of `mergeSlot` requests after its ordering step:
none when the axis is pruned, else one per sub-box that passes the broad phase, or the one
of the whole envelope when the neighbor has no sub-boxes. -/
def ShiftCollider.axisExclusions (c : ShiftCollider) (seg : Segment) (slot : Slot)
    (currShift : Position) (i : Nat) : List ZoneCall :=
  if c.pruned (c.wholeBounds seg slot currShift i) (c.axisTarget seg i) then []
  else if seg.numSubBounds slot.gid > 0 then
    ((List.range (seg.numSubBounds slot.gid)).filter (fun j =>
      !c.pruned (c.subBounds seg slot currShift i j) (c.axisTarget seg i))).map
      (fun j => c.overlapCall i (c.subBounds seg slot currShift i j))
  else [c.overlapCall i (c.wholeBounds seg slot currShift i)]

/-- Whether the iteration of axis `i` sets `isCol`: the whole envelope passes the broad
phase and, when there are sub-boxes, at least one of them passes it too. -/
def ShiftCollider.axisHit (c : ShiftCollider) (seg : Segment) (slot : Slot)
    (currShift : Position) (i : Nat) : Bool :=
  !c.pruned (c.wholeBounds seg slot currShift i) (c.axisTarget seg i)
    && (decide (seg.numSubBounds slot.gid = 0)
      || (List.range (seg.numSubBounds slot.gid)).any (fun j =>
        !c.pruned (c.subBounds seg slot currShift i j) (c.axisTarget seg i)))

/-- Collider `c2` differs from `c1` only in its phantom slot and by regions added to the
landscapes: nothing was re-initialised or removed. -/
def ShiftCollider.Grows (c1 c2 : ShiftCollider) : Prop :=
  c2._target = c1._target ∧ c2._limit = c1._limit ∧ c2._currShift = c1._currShift
    ∧ c2._currOffset = c1._currOffset ∧ c2._margin = c1._margin ∧ c2._marginWt = c1._marginWt
    ∧ c2._len = c1._len ∧ c2._seqClass = c1._seqClass ∧ c2._seqOrder = c1._seqOrder
    ∧ ∀ i, ∃ L, c2._ranges i = (c1._ranges i).extend L

/-- The closed intervals `[a.1, a.2]` and `[b.1, b.2]` have a point in common. -/
def intervalsMeet (a b : ℚ × ℚ) : Prop := a.1 ≤ b.2 ∧ b.1 ≤ a.2

instance (a b : ℚ × ℚ) : Decidable (intervalsMeet a b) := by
  unfold intervalsMeet; infer_instance

/-- Upright horizontal projection of a glyph with box `bb` whose origin has abscissa `x`. -/
def projX (bb : BBox) (x : ℚ) : ℚ × ℚ := (x + bb.xi, x + bb.xa)

/-- Upright vertical projection of a glyph with box `bb` whose origin has ordinate `y`. -/
def projY (bb : BBox) (y : ℚ) : ℚ × ℚ := (y + bb.yi, y + bb.ya)

/-- Slant projection on `x + y` of a glyph with slant box `sb` and origin `(x, y)`. -/
def projS (sb : SlantBox) (x y : ℚ) : ℚ × ℚ := (x + y + sb.si, x + y + sb.sa)

/-- Slant projection on `x - y` of a glyph with slant box `sb` and origin `(x, y)`. -/
def projD (sb : SlantBox) (x y : ℚ) : ℚ × ℚ := (x - y + sb.di, x - y + sb.da)

/-- The origin of the target when it stands at position `p` along axis `i`, the other
coordinate being held at its value at `(tx, ty)`: on the x axis `y = ty`, on the y axis
`x = tx`, on the sum axis `x - y = tx - ty`, on the diff axis `x + y = tx + ty`. -/
def axisPoint (i : Nat) (tx ty p : ℚ) : ℚ × ℚ :=
  match i with
  | 0 => (p, ty)
  | 1 => (tx, p)
  | 2 => ((p + (tx - ty)) / 2, (p - (tx - ty)) / 2)
  | 3 => ((tx + ty + p) / 2, (tx + ty - p) / 2)
  | _ => (tx, ty)

/-- The target (boxes `tbb`, `tsb`) standing at position `p` of axis `i` and the neighbor
(boxes `bb`, `sb`, origin `(sx, sy)`) overlap in the three projections relevant to the
axis: for x and y the upright projection on the axis and the two slant projections, for
sum and diff the slant projection on the axis and the two upright projections. -/
def overlapOnAxis (i : Nat) (bb : BBox) (sb : SlantBox) (tbb : BBox) (tsb : SlantBox)
    (sx sy tx ty p : ℚ) : Prop :=
  match i with
  | 0 => intervalsMeet (projX tbb (axisPoint 0 tx ty p).1) (projX bb sx)
      ∧ intervalsMeet (projS tsb (axisPoint 0 tx ty p).1 (axisPoint 0 tx ty p).2) (projS sb sx sy)
      ∧ intervalsMeet (projD tsb (axisPoint 0 tx ty p).1 (axisPoint 0 tx ty p).2) (projD sb sx sy)
  | 1 => intervalsMeet (projY tbb (axisPoint 1 tx ty p).2) (projY bb sy)
      ∧ intervalsMeet (projS tsb (axisPoint 1 tx ty p).1 (axisPoint 1 tx ty p).2) (projS sb sx sy)
      ∧ intervalsMeet (projD tsb (axisPoint 1 tx ty p).1 (axisPoint 1 tx ty p).2) (projD sb sx sy)
  | 2 => intervalsMeet (projS tsb (axisPoint 2 tx ty p).1 (axisPoint 2 tx ty p).2) (projS sb sx sy)
      ∧ intervalsMeet (projX tbb (axisPoint 2 tx ty p).1) (projX bb sx)
      ∧ intervalsMeet (projY tbb (axisPoint 2 tx ty p).2) (projY bb sy)
  | 3 => intervalsMeet (projD tsb (axisPoint 3 tx ty p).1 (axisPoint 3 tx ty p).2) (projD sb sx sy)
      ∧ intervalsMeet (projX tbb (axisPoint 3 tx ty p).1) (projX bb sx)
      ∧ intervalsMeet (projY tbb (axisPoint 3 tx ty p).2) (projY bb sy)
  | _ => False

instance (i : Nat) (bb : BBox) (sb : SlantBox) (tbb : BBox) (tsb : SlantBox)
    (sx sy tx ty p : ℚ) : Decidable (overlapOnAxis i bb sb tbb tsb sx sy tx ty p) := by
  unfold overlapOnAxis; split <;> infer_instance

/-- The target positions on axis `i` at which the target's and the neighbor's projections
on that axis alone meet: the box-versus-box bound of the axis, already expanded by the
target's extent on the axis. -/
def ownAxisInterval (i : Nat) (bb : BBox) (sb : SlantBox) (tbb : BBox) (tsb : SlantBox)
    (sx sy : ℚ) : ℚ × ℚ :=
  match i with
  | 0 => (sx + bb.xi - tbb.xa, sx + bb.xa - tbb.xi)
  | 1 => (sy + bb.yi - tbb.ya, sy + bb.ya - tbb.yi)
  | 2 => (sx + sy + sb.si - tsb.sa, sx + sy + sb.sa - tsb.si)
  | 3 => (sx - sy + sb.di - tsb.da, sx - sy + sb.da - tsb.di)
  | _ => (0, 0)

/-- Sub-box `j` of glyph `gid` lies inside the glyph's bounding boxes: its upright box
inside the upright bounding box and its slant box inside the bounding slant box. -/
def Segment.subBoxInside (seg : Segment) (gid j : Nat) : Prop :=
  (seg.getBoundingBBox gid).xi ≤ (seg.getSubBoundingBBox gid j).xi
    ∧ (seg.getSubBoundingBBox gid j).xa ≤ (seg.getBoundingBBox gid).xa
    ∧ (seg.getBoundingBBox gid).yi ≤ (seg.getSubBoundingBBox gid j).yi
    ∧ (seg.getSubBoundingBBox gid j).ya ≤ (seg.getBoundingBBox gid).ya
    ∧ (seg.getBoundingSlantBox gid).si ≤ (seg.getSubBoundingSlantBox gid j).si
    ∧ (seg.getSubBoundingSlantBox gid j).sa ≤ (seg.getBoundingSlantBox gid).sa
    ∧ (seg.getBoundingSlantBox gid).di ≤ (seg.getSubBoundingSlantBox gid j).di
    ∧ (seg.getSubBoundingSlantBox gid j).da ≤ (seg.getBoundingSlantBox gid).da

instance (seg : Segment) (gid j : Nat) : Decidable (seg.subBoxInside gid j) := by
  unfold Segment.subBoxInside; infer_instance

/-- The movement-limit part of the broad-phase prune: the candidate interval misses the
target's limits `[cmin - margin, cmax + margin]`. -/
def ShiftCollider.rangeRejects (c : ShiftCollider) (b : AxisBounds) (t : TargetBounds) : Bool :=
  decide (b.vmax < t.cmin - c._margin ∨ b.vmin > t.cmax + c._margin)

/-- The perpendicular part of the broad-phase prune: the neighbor's perpendicular extent
misses the target's. -/
def ShiftCollider.perpRejects (c : ShiftCollider) (b : AxisBounds) (t : TargetBounds) : Bool :=
  decide (b.omax < t.otmin - c._margin ∨ b.omin > t.otmax + c._margin)

/-! ## The kern collider and the collision record's methods -/

/-- The single-precision value of the literal `1e38`, used as a sentinel by the kern
collider. -/
def FLOAT_1E38 : ℚ := 99999996802856924650656260769173209088

/-- Conversion of a `float` to `int` in exact arithmetic, with an unbounded `int`:
truncation toward zero. The conversion to a 32-bit `int` is `int32`. -/
def truncInt (q : ℚ) : Int := if 0 ≤ q then ⌊q⌋ else ⌈q⌉

/-- The indices `lo, lo + 1, ..., hi` of a loop `for (int i = lo; i <= hi; ++i)`. -/
def intRange (lo hi : Int) : List Int :=
  (List.range (hi + 1 - lo).toNat).map (fun (n : Nat) => lo + (n : Int))

/-- The element `v[i]` of a vector: `none` when the index is out of bounds (undefined
behaviour in the source). -/
def edgeAt (v : List ℚ) (i : Int) : Option ℚ := if 0 ≤ i then v[i.toNat]? else none

/-- One iteration of the sub-box loop of `get_left` (lines 843-856) for sub-box `i`; `res`
is the running result. -/
def get_left_step (seg : Segment) (gid : Nat) (sx sy y width : ℚ) (res : ℚ) (i : Nat) : ℚ :=
  let sbb := seg.getSubBoundingBBox gid i
  let ssb := seg.getSubBoundingSlantBox gid i
  if sy + sbb.yi > y + width / 2 ∨ sy + sbb.ya < y - width / 2 then res
  else
    let x := sx + sbb.xi
    if x < res then
      let x2 := max (sx - sy + ssb.di + y) (max (sx + sy + ssb.si - y) x)
      if x2 < res then x2 else res
    else res

/-- Embedding of `get_left` (lines 832-865): the left edge of glyph `s` at height `y`. -/
def get_left (seg : Segment) (s : Slot) (shift : Position) (y width : ℚ) : ℚ :=
  let sx := s.origin.x + shift.x
  let sy := s.origin.y + shift.y
  if seg.numSubBounds s.gid > 0 then
    (List.range (seg.numSubBounds s.gid)).foldl (get_left_step seg s.gid sx sy y width) FLOAT_1E38
  else
    let bb := seg.getBoundingBBox s.gid
    let sb := seg.getBoundingSlantBox s.gid
    max (sx + bb.xi) (max (sx - sy + sb.di + y) (sx + sy + sb.si - y))

/-- One iteration of the sub-box loop of `get_right` (lines 879-892) for sub-box `i`. -/
def get_right_step (seg : Segment) (gid : Nat) (sx sy y width : ℚ) (res : ℚ) (i : Nat) : ℚ :=
  let sbb := seg.getSubBoundingBBox gid i
  let ssb := seg.getSubBoundingSlantBox gid i
  if sy + sbb.yi > y + width / 2 ∨ sy + sbb.ya < y - width / 2 then res
  else
    let x := sx + sbb.xa
    if x > res then
      let x2 := min (sx - sy + ssb.da + y) (min (sx + sy + ssb.sa - y) x)
      if x2 > res then x2 else res
    else res

/-- Embedding of `get_right` (lines 868-901): the right edge of glyph `s` at height `y`. -/
def get_right (seg : Segment) (s : Slot) (shift : Position) (y width : ℚ) : ℚ :=
  let sx := s.origin.x + shift.x
  let sy := s.origin.y + shift.y
  if seg.numSubBounds s.gid > 0 then
    (List.range (seg.numSubBounds s.gid)).foldl (get_right_step seg s.gid sx sy y width)
      (-FLOAT_1E38)
  else
    let bb := seg.getBoundingBBox s.gid
    let sb := seg.getBoundingSlantBox s.gid
    min (sx + bb.xa) (min (sx - sy + sb.da + y) (sx + sy + sb.sa - y))

/-- Session state of `class KernCollider` (`inc/Collider.h`). -/
structure KernCollider where
  _target : Slot
  _limit : Rect
  _margin : ℚ
  _offsetPrev : Position
  _currShift : Position
  _miny : ℚ
  _maxy : ℚ
  _edges : List ℚ
  _numSlices : Int
  _mingap : ℚ
  _xbound : ℚ
  _othermax : ℚ
deriving DecidableEq

/-- The first cluster scan of `KernCollider::initSlot` (lines 928-940): the pair
(`_maxy`, `_miny`) after visiting slot `s`. -/
def kernExtentStep (seg : Segment) (acc : ℚ × ℚ) (s : Slot) : ℚ × ℚ :=
  let bs := seg.getBoundingBBox s.gid
  let y := s.origin.y + (seg.collisionInfo s).shift.y
  (max acc.1 (y + bs.ya), min acc.2 (y + bs.yi))

/-- The first band index `smin` a glyph with bottom `ylo` spans (lines 963, 1008), in exact
arithmetic; `Machine.sliceMin` rounds each operation. -/
def KernCollider.sliceMin (miny maxy : ℚ) (numSlices : Int) (ylo : ℚ) : Int :=
  max 0 (truncInt ((ylo - miny + 1) / (maxy - miny + 2) * numSlices))

/-- The last band index `smax` a glyph with top `yhi` spans (lines 964, 1009), in exact
arithmetic; `Machine.sliceMax` rounds each operation. -/
def KernCollider.sliceMax (miny maxy : ℚ) (numSlices : Int) (yhi : ℚ) : Int :=
  min (numSlices - 1) (truncInt ((yhi - miny + 1) / (maxy - miny + 2) * numSlices + 1))

/-- One iteration of the band loop of `KernCollider::initSlot` (lines 965-989) for cluster
slot `s` and band `i`; the state is the pair (`_edges`, `_xbound`). -/
def kernEdgeStep (seg : Segment) (s : Slot) (currShift : Position) (dir : Int)
    (miny sliceWidth x : ℚ) (st : List ℚ × ℚ) (i : Int) : Option (List ℚ × ℚ) :=
  let y := miny - 1 + ((i : ℚ) + 1 / 2) * sliceWidth
  match edgeAt st.1 i with
  | none => none
  | some e =>
    if dir % 2 ≠ 0 ∧ x < e then
      let t := get_left seg s currShift y sliceWidth
      if t < e then some (st.1.set i.toNat t, if t < st.2 then t else st.2) else some st
    else if ¬ dir % 2 ≠ 0 ∧ x > e then
      let t := get_right seg s currShift y sliceWidth
      if t > e then some (st.1.set i.toNat t, if t > st.2 then t else st.2) else some st
    else some st

/-- The second cluster scan of `KernCollider::initSlot` (lines 956-990) for slot `s`. -/
def kernSlotStep (seg : Segment) (currShift : Position) (dir : Int) (miny maxy : ℚ)
    (numSlices : Int) (sliceWidth : ℚ) (st : List ℚ × ℚ) (s : Slot) : Option (List ℚ × ℚ) :=
  let c := seg.collisionInfo s
  let bs := seg.getBoundingBBox s.gid
  let x := s.origin.x + c.shift.x + (if dir % 2 ≠ 0 then bs.xi else bs.xa)
  let smin := KernCollider.sliceMin miny maxy numSlices (s.origin.y + c.shift.y + bs.yi)
  let smax := KernCollider.sliceMax miny maxy numSlices (s.origin.y + c.shift.y + bs.ya)
  (intRange smin smax).foldlM (kernEdgeStep seg s currShift dir miny sliceWidth x) st

/-- Embedding of `KernCollider::initSlot` (lines 905-996). `cluster` lists the slots the
loops `for (s = base; s; s = s->nextInCluster(s))` visit, in order (the attachment and
cluster links are declared outside `src/`). The result is `none` when an `_edges` access
is out of bounds. Arithmetic is exact and `int` unbounded; `Machine.initSlot` is the same
function with every operation rounded and a 32-bit `int`. -/
def KernCollider.initSlot (seg : Segment) (cluster : List Slot) (aSlot : Slot) (limit : Rect)
    (margin _marginMin : ℚ) (currShift offsetPrev : Position) (dir : Int) :
    Option KernCollider :=
  let margin := if margin < 10 then 10 else margin
  let xbound0 := if dir % 2 ≠ 0 then FLOAT_1E38 else -FLOAT_1E38
  let ext := cluster.foldl (kernExtentStep seg) (-FLOAT_1E38, FLOAT_1E38)
  let maxy := ext.1
  let miny := ext.2
  let numSlices := truncInt ((maxy - miny + 2) / margin + 1)
  let sliceWidth := (maxy - miny + 2) / numSlices
  let edges0 := List.replicate numSlices.toNat (if dir % 2 ≠ 0 then FLOAT_1E38 else -FLOAT_1E38)
  match cluster.foldlM (kernSlotStep seg currShift dir miny maxy numSlices sliceWidth)
      (edges0, xbound0) with
  | none => none
  | some st =>
    some { _target := aSlot, _limit := limit, _margin := margin, _offsetPrev := offsetPrev,
           _currShift := currShift, _miny := miny, _maxy := maxy, _edges := st.1,
           _numSlices := numSlices, _mingap := FLOAT_1E38, _xbound := st.2,
           _othermax := -xbound0 }

/-- The gap `t` of band `i` against the neighbor edge `m`, with the bands above and below
taken into account (lines 1026-1029 with `sign = 1`, lines 1059-1061 with `sign = -1`):
the least of `sign * (_edges[j] - m)` over `j = i`, `i + 1` (if any), `i - 1` (if any). -/
def KernCollider.bandGap (k : KernCollider) (sign m : ℚ) (i : Int) : Option ℚ :=
  match edgeAt k._edges i with
  | none => none
  | some e =>
    let t0 := sign * (e - m)
    match (if i < k._numSlices - 1 then (edgeAt k._edges (i + 1)).map
        (fun e1 => min t0 (sign * (e1 - m))) else some t0) with
    | none => none
    | some t1 =>
      if i > 0 then (edgeAt k._edges (i - 1)).map (fun e2 => min t1 (sign * (e2 - m)))
      else some t1

/-- One iteration of the band loop of `KernCollider::mergeSlot` for a reversed run
(`dir & 1`, lines 1018-1044); the state is the collider and `collides`. -/
def KernCollider.mergeStepOdd (seg : Segment) (slot : Slot) (currShift : Position)
    (currSpace sliceWidth x : ℚ) (st : KernCollider × Bool) (i : Int) :
    Option (KernCollider × Bool) :=
  let k := st.1
  let y := k._miny - 1 + ((i : ℚ) + 1 / 2) * sliceWidth
  match edgeAt k._edges i with
  | none => none
  | some e =>
    if x > e - k._mingap then
      let m := get_right seg slot currShift y sliceWidth + currSpace
      let k1 := if k._othermax < m then { k with _othermax := m } else k
      match k1.bandGap 1 m i with
      | none => none
      | some t => if t < k1._mingap then some ({ k1 with _mingap := t }, true) else some (k1, st.2)
    else some st

/-- One iteration of the band loop of `KernCollider::mergeSlot` for a run that is not
reversed (lines 1051-1077). -/
def KernCollider.mergeStepEven (seg : Segment) (slot : Slot) (currShift : Position)
    (currSpace sliceWidth x : ℚ) (st : KernCollider × Bool) (i : Int) :
    Option (KernCollider × Bool) :=
  let k := st.1
  let y := k._miny - 1 + ((i : ℚ) + 1 / 2) * sliceWidth
  match edgeAt k._edges i with
  | none => none
  | some e =>
    if x < e + k._mingap then
      let m := get_left seg slot currShift y sliceWidth + currSpace
      let k1 := if m > k._othermax then { k with _othermax := m } else k
      match k1.bandGap (-1) m i with
      | none => none
      | some t => if t < k1._mingap then some ({ k1 with _mingap := t }, true) else some (k1, st.2)
    else some st

/-- Embedding of `KernCollider::mergeSlot` (lines 1003-1081); `theGlyphBBoxTemporary` is
the segment's glyph box lookup of line 1005 (declared outside `src/`). The result is the
returned boolean and the new state, or `none` when an `_edges` access is out of bounds.
The loop for a run that is not reversed stops before `smax` (`i < smax`). -/
def KernCollider.mergeSlot (k : KernCollider) (seg : Segment)
    (theGlyphBBoxTemporary : Nat → Rect) (slot : Slot) (currShift : Position)
    (currSpace : ℚ) (dir : Int) : Option (Bool × KernCollider) :=
  let bb := theGlyphBBoxTemporary slot.gid
  let sx := slot.origin.x + currShift.x
  let sy := slot.origin.y + currShift.y
  let smin := KernCollider.sliceMin k._miny k._maxy k._numSlices (sy + bb.bl.y)
  let smax := KernCollider.sliceMax k._miny k._maxy k._numSlices (sy + bb.tr.y)
  let sliceWidth := (k._maxy - k._miny + 2) / k._numSlices
  if dir % 2 ≠ 0 then
    let x := sx + bb.tr.x
    if x < k._xbound - k._mingap then some (false, k)
    else
      ((intRange smin smax).foldlM
        (KernCollider.mergeStepOdd seg slot currShift currSpace sliceWidth x) (k, false)).map
        (fun st => (st.2, st.1))
  else
    let x := sx + bb.bl.x
    if x > k._xbound + k._mingap + currSpace then some (false, k)
    else
      ((intRange smin (smax - 1)).foldlM
        (KernCollider.mergeStepEven seg slot currShift currSpace sliceWidth x) (k, false)).map
        (fun st => (st.2, st.1))

/-- Embedding of `KernCollider::resolve` (lines 1086-1142): the returned displacement. -/
def KernCollider.resolve (k : KernCollider) (dir : Int) (margin : ℚ) : Position :=
  let resultNeeded := ((1 - 2 * (dir % 2) : Int) : ℚ) * (k._mingap - margin)
  let result := min (k._limit.tr.x - k._offsetPrev.x)
    (max resultNeeded (k._limit.bl.x - k._offsetPrev.x))
  ⟨result, 0⟩

/-- Flag `SlotCollision::COLL_KERN`. -/
def COLL_KERN : Nat := 16

/-- Embedding of `SlotCollision::getKern` (lines 1186-1192). -/
def SlotCollision.getKern (sc : SlotCollision) (dir : Int) : ℚ :=
  if sc.flags &&& COLL_KERN ≠ 0 then sc.shift.x * (if dir % 2 ≠ 0 then -1 else 1) else 0

/-- Conversion of a glyph attribute value to `uint16`. -/
def toUint16 (v : Int) : Nat := (v % 65536).toNat

/-- Embedding of `SlotCollision::initFromSlot` (lines 1153-1184). `glyphAttr` is the
segment's attribute lookup and `aCol` the value of `seg->silf()->aCollision()` (both
declared outside `src/`); `sc` is the record before the call, whose `shift` and `offset`
the method does not assign. -/
def SlotCollision.initFromSlot (sc : SlotCollision) (glyphAttr : Nat → Nat → Int) (aCol : Nat)
    (slot : Slot) : SlotCollision :=
  let gid := slot.gid
  { sc with
    flags := toUint16 (glyphAttr gid aCol)
    status := toUint16 (glyphAttr gid aCol)
    limit := ⟨⟨glyphAttr gid (aCol + 1), glyphAttr gid (aCol + 2)⟩,
      ⟨glyphAttr gid (aCol + 3), glyphAttr gid (aCol + 4)⟩⟩
    margin := toUint16 (glyphAttr gid (aCol + 5))
    marginWt := toUint16 (glyphAttr gid (aCol + 6))
    exclGlyph := 0
    exclOffset := ⟨0, 0⟩
    seqClass := toUint16 (glyphAttr gid (aCol + 10))
    seqOrder := toUint16 (glyphAttr gid (aCol + 11))
    seqAboveXoff := toUint16 (glyphAttr gid (aCol + 12))
    seqAboveWt := toUint16 (glyphAttr gid (aCol + 13))
    seqBelowXlim := toUint16 (glyphAttr gid (aCol + 14))
    seqBelowWt := toUint16 (glyphAttr gid (aCol + 15))
    seqValignHt := toUint16 (glyphAttr gid (aCol + 16))
    seqValignWt := toUint16 (glyphAttr gid (aCol + 17)) }


/-- The frame of `KernCollider::mergeSlot`: state `k2` differs from `k1` at most in
`_mingap` and `_othermax`, the two fields the band loop assigns. -/
def KernCollider.SameBands (k1 k2 : KernCollider) : Prop :=
  k2._target = k1._target ∧ k2._limit = k1._limit ∧ k2._margin = k1._margin
    ∧ k2._offsetPrev = k1._offsetPrev ∧ k2._currShift = k1._currShift ∧ k2._miny = k1._miny
    ∧ k2._maxy = k1._maxy ∧ k2._edges = k1._edges ∧ k2._numSlices = k1._numSlices
    ∧ k2._xbound = k1._xbound

/-! ## The glyph edges of a glyph with sub-boxes, as specified -/

/-- Whether the vertical extent of sub-box `i` of glyph `gid`, placed at height `sy`, meets
the band `[y - width / 2, y + width / 2]`. -/
def subBoxMeetsBand (seg : Segment) (gid : Nat) (sy y width : ℚ) (i : Nat) : Bool :=
  decide (sy + (seg.getSubBoundingBBox gid i).yi ≤ y + width / 2
    ∧ y - width / 2 ≤ sy + (seg.getSubBoundingBBox gid i).ya)

/-- The left edge of sub-box `i` at height `y`: the largest of its upright left edge and
its two slanted left edges. -/
def subBoxLeft (seg : Segment) (gid : Nat) (sx sy y : ℚ) (i : Nat) : ℚ :=
  max (sx + (seg.getSubBoundingBBox gid i).xi)
    (max (sx - sy + (seg.getSubBoundingSlantBox gid i).di + y)
      (sx + sy + (seg.getSubBoundingSlantBox gid i).si - y))

/-- The right edge of sub-box `i` at height `y`: the least of its upright right edge and
its two slanted right edges. -/
def subBoxRight (seg : Segment) (gid : Nat) (sx sy y : ℚ) (i : Nat) : ℚ :=
  min (sx + (seg.getSubBoundingBBox gid i).xa)
    (min (sx - sy + (seg.getSubBoundingSlantBox gid i).da + y)
      (sx + sy + (seg.getSubBoundingSlantBox gid i).sa - y))

/-- The specified left edge of a glyph with sub-boxes: the minimum of `subBoxLeft` over the
sub-boxes that meet the band, or the sentinel `1e38` when none does. -/
def get_left_spec (seg : Segment) (s : Slot) (shift : Position) (y width : ℚ) : ℚ :=
  let sx := s.origin.x + shift.x
  let sy := s.origin.y + shift.y
  ((((List.range (seg.numSubBounds s.gid)).filter (subBoxMeetsBand seg s.gid sy y width)).map
    (subBoxLeft seg s.gid sx sy y)).min?).getD FLOAT_1E38

/-- The specified right edge of a glyph with sub-boxes: the maximum of `subBoxRight` over
the sub-boxes that meet the band, or the sentinel `-1e38` when none does. -/
def get_right_spec (seg : Segment) (s : Slot) (shift : Position) (y width : ℚ) : ℚ :=
  let sx := s.origin.x + shift.x
  let sy := s.origin.y + shift.y
  ((((List.range (seg.numSubBounds s.gid)).filter (subBoxMeetsBand seg s.gid sy y width)).map
    (subBoxRight seg s.gid sx sy y)).max?).getD (-FLOAT_1E38)

/-! ## The kern collider in machine arithmetic

The embedding of the kern collider above computes in exact rational arithmetic with an
unbounded `int`. This section embeds the same functions with every operation of the source
performed in a given arithmetic `A`: each `float` operation, each `double` operation (the
literals `1.` and `.5` make their expressions `double`), each conversion between `int`,
`float` and `double`, in the order the source evaluates them. `ieeeOps` is IEEE-754
binary32/binary64 arithmetic with rounding to nearest, ties to even, and a 32-bit `int`. -/

/-- The arithmetic a build of the kern collider computes in. Values are rationals; an
operation returns the value the machine stores. -/
structure FloatOps where
  /-- The `float` sum. -/
  add : ℚ → ℚ → ℚ
  /-- The `float` difference. -/
  sub : ℚ → ℚ → ℚ
  /-- The `float` product. -/
  mul : ℚ → ℚ → ℚ
  /-- The `float` quotient. -/
  div : ℚ → ℚ → ℚ
  /-- The conversion of an `int` to `float`. -/
  ofInt : Int → ℚ
  /-- The conversion `int(x)` of a `float` or `double` to `int`. -/
  toInt : ℚ → Int
  /-- The `double` sum. -/
  dadd : ℚ → ℚ → ℚ
  /-- The `double` product. -/
  dmul : ℚ → ℚ → ℚ
  /-- The conversion of a `double` to `float`. -/
  toFloat : ℚ → ℚ

/-- Rounding to the nearest integer, ties to the even one. -/
def roundEven (q : ℚ) : Int :=
  if q - ⌊q⌋ < 1 / 2 then ⌊q⌋
  else if 1 / 2 < q - ⌊q⌋ then ⌊q⌋ + 1
  else if ⌊q⌋ % 2 = 0 then ⌊q⌋ else ⌊q⌋ + 1

/-- Rounding to the nearest binary floating-point number with `t` fraction bits and least
exponent `emin`, ties to even: a value `q` with `2^e ≤ |q| < 2^(e+1)` is rounded to a
multiple of `2^(e - t)`, a value below `2^emin` to a multiple of `2^(emin - t)`. Values
beyond the largest finite number are rounded the same way: infinities and NaN are not
represented. -/
def roundBin (t : Nat) (emin : Int) (q : ℚ) : ℚ :=
  if q = 0 then 0
  else (roundEven (q / 2 ^ (max (Int.log 2 |q|) emin - t)) : ℚ)
    * 2 ^ (max (Int.log 2 |q|) emin - t)

/-- Rounding to `float` (IEEE-754 binary32: 24 significant bits, least exponent -126). -/
def roundF32 (q : ℚ) : ℚ := roundBin 23 (-126) q

/-- Rounding to `double` (IEEE-754 binary64: 53 significant bits, least exponent -1022). -/
def roundF64 (q : ℚ) : ℚ := roundBin 52 (-1022) q

/-- The least value of a 32-bit `int`. -/
def INT_MIN : Int := -2147483648

/-- The conversion of a `float` or `double` to a 32-bit `int`: truncation toward zero when
the truncated value is an `int`; otherwise `INT_MIN`, the value the x86 conversion
instructions store (the C++ standard leaves that case undefined). -/
def int32 (q : ℚ) : Int :=
  if -2147483649 < q ∧ q < 2147483648 then truncInt q else INT_MIN

/-- IEEE-754 arithmetic: `float` operations round to binary32, `double` operations to
binary64, each operation rounded once. -/
def ieeeOps : FloatOps where
  add a b := roundF32 (a + b)
  sub a b := roundF32 (a - b)
  mul a b := roundF32 (a * b)
  div a b := roundF32 (a / b)
  ofInt n := roundF32 n
  toInt := int32
  dadd a b := roundF64 (a + b)
  dmul a b := roundF64 (a * b)
  toFloat := roundF32

/-- Exact arithmetic with an unbounded `int`: no operation rounds. In it the machine
embedding is the embedding of the kern collider given first. -/
def exactOps : FloatOps where
  add a b := a + b
  sub a b := a - b
  mul a b := a * b
  div a b := a / b
  ofInt n := n
  toInt := truncInt
  dadd a b := a + b
  dmul a b := a * b
  toFloat q := q

/-- The ways a call on the kern collider stops without returning. -/
inductive KernFault where
  /-- An access `_edges[i]` with `i` outside the vector. -/
  | outOfBounds
  /-- The call `_edges.insert(_edges.begin(), _numSlices, ...)` with a negative
  `_numSlices`: the count is taken as an unsigned size of more than `2^63` elements. -/
  | badInsert
deriving DecidableEq

/-- One iteration of the sub-box loop of `get_left` (lines 843-856) in the arithmetic `A`. -/
def Machine.get_left_step (A : FloatOps) (seg : Segment) (gid : Nat) (sx sy y width : ℚ)
    (res : ℚ) (i : Nat) : ℚ :=
  let sbb := seg.getSubBoundingBBox gid i
  let ssb := seg.getSubBoundingSlantBox gid i
  if A.add sy sbb.yi > A.add y (A.div width 2) ∨ A.add sy sbb.ya < A.sub y (A.div width 2) then res
  else
    let x := A.add sx sbb.xi
    if x < res then
      let x2 := max (A.add (A.add (A.sub sx sy) ssb.di) y)
        (max (A.sub (A.add (A.add sx sy) ssb.si) y) x)
      if x2 < res then x2 else res
    else res

/-- Embedding of `get_left` (lines 832-865) in the arithmetic `A`. -/
def Machine.get_left (A : FloatOps) (seg : Segment) (s : Slot) (shift : Position)
    (y width : ℚ) : ℚ :=
  let sx := A.add s.origin.x shift.x
  let sy := A.add s.origin.y shift.y
  if seg.numSubBounds s.gid > 0 then
    (List.range (seg.numSubBounds s.gid)).foldl (Machine.get_left_step A seg s.gid sx sy y width)
      FLOAT_1E38
  else
    let bb := seg.getBoundingBBox s.gid
    let sb := seg.getBoundingSlantBox s.gid
    max (A.add sx bb.xi)
      (max (A.add (A.add (A.sub sx sy) sb.di) y) (A.sub (A.add (A.add sx sy) sb.si) y))

/-- One iteration of the sub-box loop of `get_right` (lines 879-892) in the arithmetic `A`. -/
def Machine.get_right_step (A : FloatOps) (seg : Segment) (gid : Nat) (sx sy y width : ℚ)
    (res : ℚ) (i : Nat) : ℚ :=
  let sbb := seg.getSubBoundingBBox gid i
  let ssb := seg.getSubBoundingSlantBox gid i
  if A.add sy sbb.yi > A.add y (A.div width 2) ∨ A.add sy sbb.ya < A.sub y (A.div width 2) then res
  else
    let x := A.add sx sbb.xa
    if x > res then
      let x2 := min (A.add (A.add (A.sub sx sy) ssb.da) y)
        (min (A.sub (A.add (A.add sx sy) ssb.sa) y) x)
      if x2 > res then x2 else res
    else res

/-- Embedding of `get_right` (lines 868-901) in the arithmetic `A`. -/
def Machine.get_right (A : FloatOps) (seg : Segment) (s : Slot) (shift : Position)
    (y width : ℚ) : ℚ :=
  let sx := A.add s.origin.x shift.x
  let sy := A.add s.origin.y shift.y
  if seg.numSubBounds s.gid > 0 then
    (List.range (seg.numSubBounds s.gid)).foldl
      (Machine.get_right_step A seg s.gid sx sy y width) (-FLOAT_1E38)
  else
    let bb := seg.getBoundingBBox s.gid
    let sb := seg.getBoundingSlantBox s.gid
    min (A.add sx bb.xa)
      (min (A.add (A.add (A.sub sx sy) sb.da) y) (A.sub (A.add (A.add sx sy) sb.sa) y))

/-- The first cluster scan of `KernCollider::initSlot` (lines 928-940) in the arithmetic
`A`: the pair (`_maxy`, `_miny`) after visiting slot `s`. -/
def Machine.kernExtentStep (A : FloatOps) (seg : Segment) (acc : ℚ × ℚ) (s : Slot) : ℚ × ℚ :=
  let bs := seg.getBoundingBBox s.gid
  let y := A.add s.origin.y (seg.collisionInfo s).shift.y
  (max acc.1 (A.add y bs.ya), min acc.2 (A.add y bs.yi))

/-- The height `_maxy - _miny + 2` as lines 941, 942, 963, 964, 1008-1010 compute it. -/
def Machine.height (A : FloatOps) (miny maxy : ℚ) : ℚ := A.add (A.sub maxy miny) 2

/-- Line 941: `_numSlices = int((_maxy - _miny + 2) / margin + 1.)`; the quotient is a
`float`, the sum with the literal `1.` a `double`. -/
def Machine.numSlices (A : FloatOps) (miny maxy margin : ℚ) : Int :=
  A.toInt (A.dadd (A.div (Machine.height A miny maxy) margin) 1)

/-- The value the expression `(ybottom - _miny + 1) / (_maxy - _miny + 2) * _numSlices` of
lines 963, 964, 1008 and 1009 has, every operation a `float` operation. -/
def Machine.sliceIndex (A : FloatOps) (miny maxy : ℚ) (numSlices : Int) (y : ℚ) : ℚ :=
  A.mul (A.div (A.add (A.sub y miny) 1) (Machine.height A miny maxy)) (A.ofInt numSlices)

/-- The first band index `smin` a glyph with bottom `ylo` spans (lines 963, 1008). -/
def Machine.sliceMin (A : FloatOps) (miny maxy : ℚ) (numSlices : Int) (ylo : ℚ) : Int :=
  max 0 (A.toInt (Machine.sliceIndex A miny maxy numSlices ylo))

/-- The last band index `smax` a glyph with top `yhi` spans (lines 964, 1009). -/
def Machine.sliceMax (A : FloatOps) (miny maxy : ℚ) (numSlices : Int) (yhi : ℚ) : Int :=
  min (numSlices - 1) (A.toInt (A.add (Machine.sliceIndex A miny maxy numSlices yhi) 1))

/-- The vertical centre `_miny - 1 + (i + .5) * sliceWidth` of band `i` (lines 968, 1021,
1054): `_miny - 1` is a `float` difference, the rest is computed in `double` and converted
to `float`. -/
def Machine.bandCentre (A : FloatOps) (miny sliceWidth : ℚ) (i : Int) : ℚ :=
  A.toFloat (A.dadd (A.sub miny 1) (A.dmul (A.dadd (i : ℚ) (1 / 2)) sliceWidth))

/-- One iteration of the band loop of `KernCollider::initSlot` (lines 965-989) in the
arithmetic `A`, for cluster slot `s` and band `i`; the state is the pair (`_edges`,
`_xbound`). -/
def Machine.kernEdgeStep (A : FloatOps) (seg : Segment) (s : Slot) (currShift : Position)
    (dir : Int) (miny sliceWidth x : ℚ) (st : List ℚ × ℚ) (i : Int) : Option (List ℚ × ℚ) :=
  let y := Machine.bandCentre A miny sliceWidth i
  match edgeAt st.1 i with
  | none => none
  | some e =>
    if dir % 2 ≠ 0 ∧ x < e then
      let t := Machine.get_left A seg s currShift y sliceWidth
      if t < e then some (st.1.set i.toNat t, if t < st.2 then t else st.2) else some st
    else if ¬ dir % 2 ≠ 0 ∧ x > e then
      let t := Machine.get_right A seg s currShift y sliceWidth
      if t > e then some (st.1.set i.toNat t, if t > st.2 then t else st.2) else some st
    else some st

/-- The second cluster scan of `KernCollider::initSlot` (lines 956-990) in the arithmetic
`A`, for slot `s`. -/
def Machine.kernSlotStep (A : FloatOps) (seg : Segment) (currShift : Position) (dir : Int)
    (miny maxy : ℚ) (numSlices : Int) (sliceWidth : ℚ) (st : List ℚ × ℚ) (s : Slot) :
    Option (List ℚ × ℚ) :=
  let c := seg.collisionInfo s
  let bs := seg.getBoundingBBox s.gid
  let x := A.add (A.add s.origin.x c.shift.x) (if dir % 2 ≠ 0 then bs.xi else bs.xa)
  let smin := Machine.sliceMin A miny maxy numSlices (A.add (A.add s.origin.y c.shift.y) bs.yi)
  let smax := Machine.sliceMax A miny maxy numSlices (A.add (A.add s.origin.y c.shift.y) bs.ya)
  (intRange smin smax).foldlM (Machine.kernEdgeStep A seg s currShift dir miny sliceWidth x) st

/-- Embedding of `KernCollider::initSlot` (lines 905-996) in the arithmetic `A`. `cluster`
lists the slots the loops `for (s = base; s; s = s->nextInCluster(s))` visit, in order. The
call stops at line 944 when `_numSlices` is negative, and at an access to `_edges` out of
bounds; memory for a non-negative `_numSlices` is taken to be there. -/
def Machine.initSlot (A : FloatOps) (seg : Segment) (cluster : List Slot) (aSlot : Slot)
    (limit : Rect) (margin _marginMin : ℚ) (currShift offsetPrev : Position) (dir : Int) :
    Except KernFault KernCollider :=
  let margin := if margin < 10 then 10 else margin
  let xbound0 := if dir % 2 ≠ 0 then FLOAT_1E38 else -FLOAT_1E38
  let ext := cluster.foldl (Machine.kernExtentStep A seg) (-FLOAT_1E38, FLOAT_1E38)
  let maxy := ext.1
  let miny := ext.2
  let numSlices := Machine.numSlices A miny maxy margin
  let sliceWidth := A.div (Machine.height A miny maxy) (A.ofInt numSlices)
  if numSlices < 0 then Except.error KernFault.badInsert
  else
    let edges0 := List.replicate numSlices.toNat
      (if dir % 2 ≠ 0 then FLOAT_1E38 else -FLOAT_1E38)
    match cluster.foldlM (Machine.kernSlotStep A seg currShift dir miny maxy numSlices sliceWidth)
        (edges0, xbound0) with
    | none => Except.error KernFault.outOfBounds
    | some st =>
      Except.ok { _target := aSlot, _limit := limit, _margin := margin,
                  _offsetPrev := offsetPrev, _currShift := currShift, _miny := miny,
                  _maxy := maxy, _edges := st.1, _numSlices := numSlices,
                  _mingap := FLOAT_1E38, _xbound := st.2, _othermax := -xbound0 }

/-- The gap `t` of band `i` against the neighbor edge `m` in the arithmetic `A`, with the
bands above and below taken into account: `_edges[j] - m` in a reversed run (lines
1026-1029), `m - _edges[j]` otherwise (lines 1059-1061), over `j = i`, `i + 1` (if
`i < _numSlices - 1`), `i - 1` (if `i > 0`). -/
def Machine.bandGap (A : FloatOps) (k : KernCollider) (reversed : Bool) (m : ℚ) (i : Int) :
    Option ℚ :=
  match edgeAt k._edges i with
  | none => none
  | some e =>
    let t0 := if reversed then A.sub e m else A.sub m e
    match (if i < k._numSlices - 1 then (edgeAt k._edges (i + 1)).map
        (fun e1 => min t0 (if reversed then A.sub e1 m else A.sub m e1)) else some t0) with
    | none => none
    | some t1 =>
      if i > 0 then (edgeAt k._edges (i - 1)).map
        (fun e2 => min t1 (if reversed then A.sub e2 m else A.sub m e2))
      else some t1

/-- One iteration of the band loop of `KernCollider::mergeSlot` for a reversed run
(`dir & 1`, lines 1014-1044) in the arithmetic `A`; the state is the collider and
`collides`. -/
def Machine.mergeStepOdd (A : FloatOps) (seg : Segment) (slot : Slot) (currShift : Position)
    (currSpace sliceWidth x : ℚ) (st : KernCollider × Bool) (i : Int) :
    Option (KernCollider × Bool) :=
  let k := st.1
  let y := Machine.bandCentre A k._miny sliceWidth i
  match edgeAt k._edges i with
  | none => none
  | some e =>
    if x > A.sub e k._mingap then
      let m := A.add (Machine.get_right A seg slot currShift y sliceWidth) currSpace
      let k1 := if k._othermax < m then { k with _othermax := m } else k
      match Machine.bandGap A k1 true m i with
      | none => none
      | some t => if t < k1._mingap then some ({ k1 with _mingap := t }, true) else some (k1, st.2)
    else some st

/-- One iteration of the band loop of `KernCollider::mergeSlot` for a run that is not
reversed (lines 1051-1077) in the arithmetic `A`. -/
def Machine.mergeStepEven (A : FloatOps) (seg : Segment) (slot : Slot) (currShift : Position)
    (currSpace sliceWidth x : ℚ) (st : KernCollider × Bool) (i : Int) :
    Option (KernCollider × Bool) :=
  let k := st.1
  let y := Machine.bandCentre A k._miny sliceWidth i
  match edgeAt k._edges i with
  | none => none
  | some e =>
    if x < A.add e k._mingap then
      let m := A.add (Machine.get_left A seg slot currShift y sliceWidth) currSpace
      let k1 := if m > k._othermax then { k with _othermax := m } else k
      match Machine.bandGap A k1 false m i with
      | none => none
      | some t => if t < k1._mingap then some ({ k1 with _mingap := t }, true) else some (k1, st.2)
    else some st

/-- Embedding of `KernCollider::mergeSlot` (lines 1003-1081) in the arithmetic `A`;
`theGlyphBBoxTemporary` is the segment's glyph box lookup of line 1005. The result is the
returned boolean and the new state, or `none` when an access to `_edges` is out of
bounds. The loop for a run that is not reversed stops before `smax` (`i < smax`). -/
def Machine.mergeSlot (A : FloatOps) (k : KernCollider) (seg : Segment)
    (theGlyphBBoxTemporary : Nat → Rect) (slot : Slot) (currShift : Position)
    (currSpace : ℚ) (dir : Int) : Option (Bool × KernCollider) :=
  let bb := theGlyphBBoxTemporary slot.gid
  let sx := A.add slot.origin.x currShift.x
  let sy := A.add slot.origin.y currShift.y
  let smin := Machine.sliceMin A k._miny k._maxy k._numSlices (A.add sy bb.bl.y)
  let smax := Machine.sliceMax A k._miny k._maxy k._numSlices (A.add sy bb.tr.y)
  let sliceWidth := A.div (Machine.height A k._miny k._maxy) (A.ofInt k._numSlices)
  if dir % 2 ≠ 0 then
    let x := A.add sx bb.tr.x
    if x < A.sub k._xbound k._mingap then some (false, k)
    else
      ((intRange smin smax).foldlM
        (Machine.mergeStepOdd A seg slot currShift currSpace sliceWidth x) (k, false)).map
        (fun st => (st.2, st.1))
  else
    let x := A.add sx bb.bl.x
    if x > A.add (A.add k._xbound k._mingap) currSpace then some (false, k)
    else
      ((intRange smin (smax - 1)).foldlM
        (Machine.mergeStepEven A seg slot currShift currSpace sliceWidth x) (k, false)).map
        (fun st => (st.2, st.1))

/-- The facts about signs and the constants 1 and 2 the kern collider relies on: a
difference of ordered values is not negative, adding 2 to a value that is not negative
gives at least 2, a quotient of a value that is not negative by a positive one is not
negative, adding `1.` to such a quotient gives at least 1, the conversion to `int` of a
value that is at least 1 gives at least 1 unless it overflows to a negative `int`, and an
`int` other than zero does not convert to the `float` zero. -/
structure FloatOps.SignExact (A : FloatOps) : Prop where
  sub_nonneg : ∀ a b : ℚ, b ≤ a → 0 ≤ A.sub a b
  add_two : ∀ x : ℚ, 0 ≤ x → 2 ≤ A.add x 2
  div_nonneg : ∀ x m : ℚ, 0 ≤ x → 0 < m → 0 ≤ A.div x m
  dadd_one : ∀ q : ℚ, 0 ≤ q → 1 ≤ A.dadd q 1
  toInt_pos : ∀ v : ℚ, 1 ≤ v → 1 ≤ A.toInt v ∨ A.toInt v < 0
  ofInt_ne_zero : ∀ n : Int, n ≠ 0 → A.ofInt n ≠ 0

/-- The variables a call of `ShiftCollider::resolve` can assign (lines 604-617, 628-629,
657): the collider `*this`, the segment passed by pointer, the out-parameter `isCol` and
the locals. -/
structure ShiftResolveVars where
  self : ShiftCollider
  seg : Segment
  isCol : Bool
  tlen : ℚ
  tleft : ℚ
  tbase : ℚ
  tval : ℚ
  totalCost : ℚ
  resultPos : Position
  bestAxis : Int
  currOffset : Position
  bestCost : ℚ
  bestPos : ℚ
  testp : Position

/-- Lines 611-625 of `ShiftCollider::resolve`: the assignments before the loop. -/
def ShiftCollider.resolveEnter (v : ShiftResolveVars) : ShiftResolveVars :=
  { v with
    totalCost := FLT_MAX / 2
    resultPos := ⟨0, 0⟩
    bestAxis := -1
    currOffset := (v.seg.collisionInfo v.self._target).offset
    isCol := true }

/-- Lines 628-657 of `ShiftCollider::resolve` for axis `i`: `bestCost = -1`, the switch
that assigns `tlen`, `tleft`, `tbase` and `tval`, and the declaration of `testp`. -/
def ShiftCollider.resolveSetup (i : Nat) (v : ShiftResolveVars) : ShiftResolveVars :=
  let bb := v.seg.getBoundingBBox v.self._target.gid
  let sb := v.seg.getBoundingSlantBox v.self._target.gid
  match i with
  | 0 =>
    { v with
      bestCost := -1
      tlen := bb.xa - bb.xi
      tleft := v.self._target.origin.x + v.self._currShift.x + bb.xi
      tbase := v.self._target.origin.x
      tval := -v.currOffset.x
      testp := ⟨0, 0⟩ }
  | 1 =>
    { v with
      bestCost := -1
      tlen := bb.ya - bb.yi
      tleft := v.self._target.origin.y + v.self._currShift.y + bb.yi
      tbase := v.self._target.origin.y
      tval := -v.currOffset.y
      testp := ⟨0, 0⟩ }
  | 2 =>
    { v with
      bestCost := -1
      tlen := sb.sa - sb.si
      tleft := v.self._target.origin.x + v.self._target.origin.y + v.self._currShift.x
        + v.self._currShift.y + sb.si
      tbase := v.self._target.origin.x + v.self._target.origin.y
      tval := -v.currOffset.x - v.currOffset.y
      testp := ⟨0, 0⟩ }
  | 3 =>
    { v with
      bestCost := -1
      tlen := sb.da - sb.di
      tleft := v.self._target.origin.x - v.self._target.origin.y + v.self._currShift.x
        - v.self._currShift.y + sb.di
      tbase := v.self._target.origin.x - v.self._target.origin.y
      tval := v.currOffset.y - v.currOffset.x
      testp := ⟨0, 0⟩ }
  | _ => { v with bestCost := -1, testp := ⟨0, 0⟩ }

/-- Line 658 of `ShiftCollider::resolve`:
`bestPos = _ranges[i].closest(tbase + tval, tlen, bestCost) - tbase`. `Zones::closest` is
declared outside `src/` and is called on the member `_ranges[i]` with `bestCost` passed by
reference: `closest` returns the position, the cost left in `bestCost`, and the landscape
as the call leaves it. -/
def ShiftCollider.resolveAsk (closest : Zones → ℚ → ℚ → ℚ → (ℚ × ℚ) × Zones) (i : Nat)
    (v : ShiftResolveVars) : ShiftResolveVars :=
  let r := closest (v.self._ranges i) (v.tbase + v.tval) v.tlen v.bestCost
  { v with
    self := { v.self with _ranges := fun j => if j = i then r.2 else v.self._ranges j }
    bestCost := r.1.2
    bestPos := r.1.1 - v.tbase }

/-- Lines 665-680 of `ShiftCollider::resolve` for axis `i`: the candidate `testp` and the
update of `totalCost`, `resultPos` and `bestAxis`. -/
def ShiftCollider.resolvePick (i : Nat) (v : ShiftResolveVars) : ShiftResolveVars :=
  if v.bestCost ≥ 0 then
    if v.bestCost < v.totalCost then
      { v with
        isCol := false
        testp := v.self.testp i v.bestPos
        totalCost := v.bestCost
        resultPos := v.self.testp i v.bestPos
        bestAxis := i }
    else { v with isCol := false, testp := v.self.testp i v.bestPos }
  else v

/-- One iteration of the loop of `ShiftCollider::resolve` (lines 626-681). -/
def ShiftCollider.resolveAxis (closest : Zones → ℚ → ℚ → ℚ → (ℚ × ℚ) × Zones) (v : ShiftResolveVars)
    (i : Nat) : ShiftResolveVars :=
  ShiftCollider.resolvePick i (ShiftCollider.resolveAsk closest i (ShiftCollider.resolveSetup i v))

/-- A call of `ShiftCollider::resolve` (lines 604-692), statement by statement, on the
collider `c`, the segment `seg` and the caller's `isCol`: the returned `resultPos` and the
variables as the call leaves them. The locals start at zero; each is assigned before it is
read. The tracing blocks only print. -/
def ShiftCollider.resolveRun (closest : Zones → ℚ → ℚ → ℚ → (ℚ × ℚ) × Zones) (c : ShiftCollider)
    (seg : Segment) (isCol : Bool) : Position × ShiftResolveVars :=
  let v0 : ShiftResolveVars :=
    { self := c, seg := seg, isCol := isCol, tlen := 0, tleft := 0, tbase := 0, tval := 0,
      totalCost := 0, resultPos := ⟨0, 0⟩, bestAxis := 0, currOffset := ⟨0, 0⟩, bestCost := 0,
      bestPos := 0, testp := ⟨0, 0⟩ }
  let v := [0, 1, 2, 3].foldl (ShiftCollider.resolveAxis closest) (ShiftCollider.resolveEnter v0)
  (v.resultPos, v)

/-- The variables a call of `KernCollider::resolve` can assign (lines 1086-1090): the
collider `*this`, the segment and the slot passed by pointer, and the locals. -/
structure KernResolveVars where
  self : KernCollider
  seg : Segment
  slot : Slot
  resultNeeded : ℚ
  result : ℚ

/-- Line 1089 of `KernCollider::resolve`:
`resultNeeded = (1 - 2 * (dir & 1)) * (_mingap - margin)`. -/
def KernCollider.resolveNeeded (dir : Int) (margin : ℚ) (v : KernResolveVars) :
    KernResolveVars :=
  { v with resultNeeded := ((1 - 2 * (dir % 2) : Int) : ℚ) * (v.self._mingap - margin) }

/-- Line 1090 of `KernCollider::resolve`:
`result = min(_limit.tr.x - _offsetPrev.x, max(resultNeeded, _limit.bl.x - _offsetPrev.x))`. -/
def KernCollider.resolveClip (v : KernResolveVars) : KernResolveVars :=
  { v with
    result := min (v.self._limit.tr.x - v.self._offsetPrev.x)
      (max v.resultNeeded (v.self._limit.bl.x - v.self._offsetPrev.x)) }

/-- A call of `KernCollider::resolve` (lines 1086-1142), statement by statement: the
returned `Position(result, 0.)` and the variables as the call leaves them. The tracing
block only prints. -/
def KernCollider.resolveRun (k : KernCollider) (seg : Segment) (slot : Slot) (dir : Int)
    (margin : ℚ) : Position × KernResolveVars :=
  let v := KernCollider.resolveClip (KernCollider.resolveNeeded dir margin
    { self := k, seg := seg, slot := slot, resultNeeded := 0, result := 0 })
  (⟨v.result, 0⟩, v)
/-! ## Example data -/

/-- A glyph 100 wide and 50 high with its lower left corner at the origin. -/
def wideBBox : BBox := { xi := 0, yi := 0, xa := 100, ya := 50 }

/-- The slant box of `wideBBox`: `x + y` ranges over `[0, 150]`, `x - y` over `[-50, 100]`. -/
def wideSlantBox : SlantBox := { si := 0, di := -50, sa := 150, da := 100 }

/-- A collision record with every attribute zero. -/
def zeroCollision : SlotCollision :=
  { limit := ⟨⟨0, 0⟩, ⟨0, 0⟩⟩, shift := ⟨0, 0⟩, offset := ⟨0, 0⟩, exclOffset := ⟨0, 0⟩, margin := 0,
    marginWt := 0, flags := 0, status := 0, exclGlyph := 0, seqClass := 0, seqOrder := 0,
    seqAboveXoff := 0, seqAboveWt := 0, seqBelowXlim := 0, seqBelowWt := 0, seqValignHt := 0,
    seqValignWt := 0 }

/-- A segment whose glyphs all have the box `wideBBox`, no sub-boxes and zero collision
attributes. -/
def wideSegment : Segment :=
  { getBoundingBBox := fun _ => wideBBox
    getBoundingSlantBox := fun _ => wideSlantBox
    numSubBounds := fun _ => 0
    getSubBoundingBBox := fun _ _ => wideBBox
    getSubBoundingSlantBox := fun _ _ => wideSlantBox
    collisionInfo := fun _ => zeroCollision }

/-- A freshly constructed collider: `exclSlot = new Slot()`, everything else zero. -/
def freshCollider : ShiftCollider :=
  { _ranges := fun _ => Zones.initialise zones_t.XY 0 0 0 0 0 0 0
    _target := ⟨0, ⟨0, 0⟩, 0⟩
    _limit := ⟨⟨0, 0⟩, ⟨0, 0⟩⟩
    _currShift := ⟨0, 0⟩
    _currOffset := ⟨0, 0⟩
    _margin := 0
    _marginWt := 0
    _len := fun _ => 0
    _seqClass := 0
    _seqOrder := 0
    exclSlot := ⟨0, ⟨0, 0⟩, 0⟩ }

/-- A target slot at `(3, 1)`; its four `closest` queries get the distinct targets
`3`, `1`, `4`, `2`. -/
def slotAt31 : Slot := { gid := 1, origin := ⟨3, 1⟩, index := 0 }

/-- The collider after `initSlot` for `slotAt31` with limits `[-1000, 1000]` on both
coordinates, no margin, no shift and a reversed run direction. -/
def colliderAt31 : ShiftCollider :=
  freshCollider.initSlot wideSegment slotAt31 ⟨⟨-1000, -1000⟩, ⟨1000, 1000⟩⟩ 0 0 ⟨0, 0⟩ ⟨0, 0⟩ 1

/-- A `closest` that reports cost `FLT_MAX / 2` at position `8` on the x axis (target `3`)
and no feasible position on the other axes. -/
def closestHuge : Zones → ℚ → ℚ → ℚ → ℚ × ℚ :=
  fun _ origin _ _ => if origin = 3 then (8, FLT_MAX / 2) else (0, -1)

/-- A `closest` that reports the same cost `7` on every axis, at one unit past the
target. -/
def closestTie : Zones → ℚ → ℚ → ℚ → ℚ × ℚ := fun _ origin _ _ => (origin + 1, 7)

/-- A neighbor slot 50 units to the right of `slotAt31`, with the same glyph. -/
def slotNear : Slot := { gid := 1, origin := ⟨53, 1⟩, index := 1 }

/-- A cost rule for the modelled `closest`: the squared distance from the target. -/
def distanceCost : Zones → ℚ → ℚ → NNRat := fun _ origin p => ⟨(p - origin) ^ 2, sq_nonneg _⟩

/-- The collider `colliderAt31` after merging `slotNear`. -/
def colliderMerged : ShiftCollider :=
  (colliderAt31.mergeBody wideSegment slotNear ⟨0, 0⟩ false false).2

/-- A segment in which glyph `2` has the box `wideBBox` split into two sub-boxes, its left
and right halves; every other glyph is as in `wideSegment`. -/
def splitSegment : Segment :=
  { getBoundingBBox := fun _ => wideBBox
    getBoundingSlantBox := fun _ => wideSlantBox
    numSubBounds := fun g => if g = 2 then 2 else 0
    getSubBoundingBBox := fun _ j =>
      if j = 0 then { xi := 0, yi := 0, xa := 50, ya := 50 }
      else { xi := 50, yi := 0, xa := 100, ya := 50 }
    getSubBoundingSlantBox := fun _ j =>
      if j = 0 then { si := 0, di := -50, sa := 100, da := 50 }
      else { si := 50, di := 0, sa := 150, da := 100 }
    collisionInfo := fun _ => zeroCollision }

/-- A neighbor slot with the split glyph `2`, 50 units to the right of `slotAt31`. -/
def slotSplit : Slot := { gid := 2, origin := ⟨53, 1⟩, index := 1 }

/-- The collider after `initSlot` for `slotAt31` in `splitSegment`. -/
def colliderSplit : ShiftCollider :=
  freshCollider.initSlot splitSegment slotAt31 ⟨⟨-1000, -1000⟩, ⟨1000, 1000⟩⟩ 0 0 ⟨0, 0⟩ ⟨0, 0⟩ 1

/-- A movement limit that allows moves to the left only: `x` in `[-1000, 0]`, `y` in
`[-1000, 1000]`. -/
def limitLeft : Rect := ⟨⟨-1000, -1000⟩, ⟨0, 1000⟩⟩

/-- Glyph A: a slot at the origin. -/
def slotA : Slot := { gid := 1, origin := ⟨0, 0⟩, index := 0 }

/-- Glyph B: a slot 500 units to the left of `slotA`, on the same baseline. -/
def slotB : Slot := { gid := 1, origin := ⟨-500, 0⟩, index := 1 }

/-- The collider initialised for glyph A with `limitLeft` and no margin. -/
def colliderA : ShiftCollider :=
  freshCollider.initSlot wideSegment slotA limitLeft 0 0 ⟨0, 0⟩ ⟨0, 0⟩ 1

/-- The collider initialised for glyph B with the same limit and margin as `colliderA`. -/
def colliderB : ShiftCollider :=
  freshCollider.initSlot wideSegment slotB limitLeft 0 0 ⟨0, 0⟩ ⟨0, 0⟩ 1

/-- The collider initialised for `slotNear` with the limits of `colliderAt31`. -/
def colliderNear : ShiftCollider :=
  freshCollider.initSlot wideSegment slotNear ⟨⟨-1000, -1000⟩, ⟨1000, 1000⟩⟩ 0 0 ⟨0, 0⟩ ⟨0, 0⟩ 1

/-- A segment like `wideSegment` in which every glyph has sequence class `1` and requests
the order `COLL_ORDER_LEFT`. -/
def orderedSegment : Segment :=
  { wideSegment with
    collisionInfo := fun _ => { zeroCollision with seqClass := 1, seqOrder := COLL_ORDER_LEFT } }

/-- The collider after `initSlot` for `slotAt31` in `orderedSegment`. -/
def colliderOrdered : ShiftCollider :=
  freshCollider.initSlot orderedSegment slotAt31 ⟨⟨-1000, -1000⟩, ⟨1000, 1000⟩⟩ 0 0 ⟨0, 0⟩ ⟨0, 0⟩ 1

/-- A segment for the kern collider: every glyph has the upright box `wideBBox`; glyph `2`
has its lower right corner cut by the diagonal `x - y ≤ 58`, the other glyphs have a
slant box that cuts nothing. No sub-boxes, zero collision attributes. -/
def kernSegment : Segment :=
  { getBoundingBBox := fun _ => wideBBox
    getBoundingSlantBox := fun g =>
      if g = 2 then { si := -1000, di := -1000, sa := 1000, da := 58 }
      else { si := -1000, di := -1000, sa := 1000, da := 1000 }
    numSubBounds := fun _ => 0
    getSubBoundingBBox := fun _ _ => wideBBox
    getSubBoundingSlantBox := fun _ _ => wideSlantBox
    collisionInfo := fun _ => zeroCollision }

/-- The glyph box lookup `theGlyphBBoxTemporary` matching `wideBBox`. -/
def wideGlyphBox : Nat → Rect := fun _ => ⟨⟨0, 0⟩, ⟨100, 50⟩⟩

/-- The kern target: a slot at the origin, alone in its cluster. -/
def kernTarget : Slot := { gid := 1, origin := ⟨0, 0⟩, index := 0 }

/-- A neighbor with the cut glyph `2`, 200 units to the left of `kernTarget`. -/
def kernNeighbor : Slot := { gid := 2, origin := ⟨-200, 0⟩, index := 1 }

/-- A neighbor 500 units above `kernNeighbor`: its vertical range meets no band. -/
def kernNeighborAbove : Slot := { gid := 2, origin := ⟨-200, 500⟩, index := 1 }

/-- The limits `[-1000, 1000]` on both coordinates. -/
def limitWide : Rect := ⟨⟨-1000, -1000⟩, ⟨1000, 1000⟩⟩

/-- The state `initSlot` yields for `kernTarget`, margin 100 and a reversed run: one
band. -/
def kernOneBand : KernCollider :=
  { _target := kernTarget, _limit := limitWide, _margin := 100, _offsetPrev := ⟨0, 0⟩,
    _currShift := ⟨0, 0⟩, _miny := 0, _maxy := 50, _edges := [0], _numSlices := 1,
    _mingap := FLOAT_1E38, _xbound := 0, _othermax := -FLOAT_1E38 }

/-- The state `initSlot` yields for `kernTarget`, margin 40 and a reversed run: two
bands. -/
def kernTwoBands : KernCollider :=
  { _target := kernTarget, _limit := limitWide, _margin := 40, _offsetPrev := ⟨0, 0⟩,
    _currShift := ⟨0, 0⟩, _miny := 0, _maxy := 50, _edges := [0, 0], _numSlices := 2,
    _mingap := FLOAT_1E38, _xbound := 0, _othermax := -FLOAT_1E38 }

/-- The state `initSlot` yields for `kernTarget`, margin 40 and a run that is not
reversed: two bands with the right edge of the glyph. -/
def kernTwoBandsEven : KernCollider :=
  { _target := kernTarget, _limit := limitWide, _margin := 40, _offsetPrev := ⟨0, 0⟩,
    _currShift := ⟨0, 0⟩, _miny := 0, _maxy := 50, _edges := [100, 100], _numSlices := 2,
    _mingap := FLOAT_1E38, _xbound := 100, _othermax := FLOAT_1E38 }


/-- A segment like `wideSegment` in which the record of the slot with index `1` names the
exclusion glyph `2` at offset `(10, 0)`; every other record is zero. -/
def exclSegment : Segment :=
  { wideSegment with
    collisionInfo := fun s =>
      if s.index = 1 then { zeroCollision with exclGlyph := 2, exclOffset := ⟨10, 0⟩ }
      else zeroCollision }

/-- A collision record with the kern flag set and a stored shift of `(7, 3)`. -/
def kernRecord : SlotCollision := { zeroCollision with flags := 17, shift := ⟨7, 3⟩ }

/-- A glyph attribute table: attribute `n` of every glyph is `n + 100`, except attribute
`5`, which is `-1`. -/
def attrTable : Nat → Nat → Int := fun _ n => if n = 5 then -1 else (n : Int) + 100

/-- A neighbor just below the band of `kernOneBand`: its vertical range `[-60, -10]` ends
below the band `[-1, 51]`. -/
def kernNeighborBelow : Slot := { gid := 2, origin := ⟨-200, -60⟩, index := 1 }

/-- A square glyph of side 100 with its lower left corner at the origin. -/
def squareBBox : BBox := { xi := 0, yi := 0, xa := 100, ya := 100 }

/-- The slant box of `squareBBox`: the diagonal extents of the square, `x + y` over
`[0, 200]` and `x - y` over `[-100, 100]`. -/
def squareSlantBox : SlantBox := { si := 0, di := -100, sa := 200, da := 100 }

/-- A segment whose glyphs all have the square box `squareBBox`, no sub-boxes and zero
collision attributes. -/
def squareSegment : Segment :=
  { getBoundingBBox := fun _ => squareBBox
    getBoundingSlantBox := fun _ => squareSlantBox
    numSubBounds := fun _ => 0
    getSubBoundingBBox := fun _ _ => squareBBox
    getSubBoundingSlantBox := fun _ _ => squareSlantBox
    collisionInfo := fun _ => zeroCollision }

/-- The collider of the two-squares scenario: `initSlot` for a square target at `(tx, ty)`
with the limits `[-1000, 1000]`, margin 0 and no shift. -/
def squareCollider (tx ty : ℚ) (dir : Int) : ShiftCollider :=
  freshCollider.initSlot squareSegment ⟨1, ⟨tx, ty⟩, 0⟩ limitWide 0 0 ⟨0, 0⟩ ⟨0, 0⟩ dir

/-- The collision record of the mark-and-base scenario: sequence class 1, the order
`COLL_ORDER_UP`, every weight and offset zero. -/
def markRecord : SlotCollision := { zeroCollision with seqClass := 1, seqOrder := COLL_ORDER_UP }

/-- A segment for the mark-and-base scenario: glyph `1` is a base 300 wide and 100 high,
every other glyph a mark 20 wide and 20 high (slant boxes: the diagonal extents of the
boxes); no sub-boxes; every slot has the record `markRecord`. -/
def markSegment : Segment :=
  { getBoundingBBox := fun g =>
      if g = 1 then { xi := 0, yi := 0, xa := 300, ya := 100 }
      else { xi := 0, yi := 0, xa := 20, ya := 20 }
    getBoundingSlantBox := fun g =>
      if g = 1 then { si := 0, di := -100, sa := 400, da := 300 }
      else { si := 0, di := -20, sa := 40, da := 20 }
    numSubBounds := fun _ => 0
    getSubBoundingBBox := fun _ _ => squareBBox
    getSubBoundingSlantBox := fun _ _ => squareSlantBox
    collisionInfo := fun _ => markRecord }

/-- The base of the scenario, at the origin. -/
def baseSlot : Slot := { gid := 1, origin := ⟨0, 0⟩, index := 0 }

/-- The mark of the scenario, anchored at `(10, 110)`: 10 units above the base's top. -/
def markSlot : Slot := { gid := 2, origin := ⟨10, 110⟩, index := 1 }

/-- Limits that allow 1000 units in every direction but only 500 downwards. -/
def limitLow : Rect := ⟨⟨-1000, -500⟩, ⟨1000, 1000⟩⟩

/-- The collider `initSlot` yields for the mark, with no margin and no shift. -/
def markCollider : ShiftCollider :=
  freshCollider.initSlot markSegment markSlot limitLow 0 0 ⟨0, 0⟩ ⟨0, 0⟩ 1

/-- A segment for the empty-interval scenario: glyph `1` is a diagonal stroke, its box
`[0, 100] × [0, 100]` cut to the band `-5 ≤ x - y ≤ 5`; every other glyph is a square of
side 20. No sub-boxes, zero collision attributes. -/
def strokeSegment : Segment :=
  { getBoundingBBox := fun g =>
      if g = 1 then { xi := 0, yi := 0, xa := 100, ya := 100 }
      else { xi := 0, yi := 0, xa := 20, ya := 20 }
    getBoundingSlantBox := fun g =>
      if g = 1 then { si := 0, di := -5, sa := 200, da := 5 }
      else { si := 0, di := -20, sa := 40, da := 20 }
    numSubBounds := fun _ => 0
    getSubBoundingBBox := fun _ _ => squareBBox
    getSubBoundingSlantBox := fun _ _ => squareSlantBox
    collisionInfo := fun _ => zeroCollision }

/-- The stroke of the scenario, at the origin. -/
def strokeSlot : Slot := { gid := 1, origin := ⟨0, 0⟩, index := 1 }

/-- The target of the scenario: a small square just below the lower end of the stroke. -/
def dotSlot : Slot := { gid := 2, origin := ⟨-5, -26⟩, index := 0 }

/-- The collider `initSlot` yields for `dotSlot` with margin 10 and the limits
`[-1000, 1000]`. -/
def dotCollider : ShiftCollider :=
  freshCollider.initSlot strokeSegment dotSlot limitWide 10 0 ⟨0, 0⟩ ⟨0, 0⟩ 1

/-- A neighbor of `slotAt31` far below it: 500 units down, 50 to the right. -/
def slotFarBelow : Slot := { gid := 1, origin := ⟨53, -500⟩, index := 1 }

/-- The state `initSlot` yields for `kernTarget`, margin 100 and a run that is not
reversed: one band with the right edge of the glyph. -/
def kernOneBandEven : KernCollider :=
  { _target := kernTarget, _limit := limitWide, _margin := 100, _offsetPrev := ⟨0, 0⟩,
    _currShift := ⟨0, 0⟩, _miny := 0, _maxy := 50, _edges := [100], _numSlices := 1,
    _mingap := FLOAT_1E38, _xbound := 100, _othermax := FLOAT_1E38 }

/-- A neighbor 300 units to the right of `kernTarget`, on the same baseline. -/
def kernNeighborRight : Slot := { gid := 1, origin := ⟨300, 0⟩, index := 1 }

/-- The state of `kernOneBand` after merging `kernNeighbor` with no extra spacing: the gap
found is 117. -/
def kernOneBandMerged : KernCollider :=
  { kernOneBand with _mingap := 117, _othermax := -117 }

/-- A second neighbor, 220 units to the left of `kernTarget`: its right edge is at
`-120`. -/
def kernNeighborFar : Slot := { gid := 1, origin := ⟨-220, 0⟩, index := 2 }

/-- A segment like `wideSegment` in which the record of the slot with index `0`, the first
slot of the segment, names the exclusion glyph `2` at offset `(10, 0)`; every other record
is zero. The collider's phantom slot, constructed by `new Slot()`, has index `0` too. -/
def firstExclSegment : Segment :=
  { wideSegment with
    collisionInfo := fun s =>
      if s.index = 0 then { zeroCollision with exclGlyph := 2, exclOffset := ⟨10, 0⟩ }
      else zeroCollision }

/-- The first slot of the segment, as the neighbor. -/
def slotFirst : Slot := { gid := 1, origin := ⟨53, 1⟩, index := 0 }

/-- The second slot of the segment, as the target. -/
def slotSecond : Slot := { gid := 1, origin := ⟨3, 1⟩, index := 1 }

/-- The collider after `initSlot` for `slotSecond` in `firstExclSegment`. -/
def colliderSecond : ShiftCollider :=
  freshCollider.initSlot firstExclSegment slotSecond limitWide 0 0 ⟨0, 0⟩ ⟨0, 0⟩ 1

/-! ## Example data for the calls of `resolve` -/

/-- A `closest` that reads the landscape and leaves it as it was: position one past the
origin at cost `7` on every axis. -/
def closestQuery : Zones → ℚ → ℚ → ℚ → (ℚ × ℚ) × Zones := fun z origin _ _ => ((origin + 1, 7), z)

/-! ## Example data for the kern collider in machine arithmetic -/

/-- The upright boxes of the glyphs of `bandSegment`, all 100 wide: glyph `1` spans the
heights 0 to 62, glyph `2` the heights 0 to 63, glyph `3` the heights `31.5 - 2^-19` to 40,
glyph `4` the heights 0 to 1927.28271484375, glyph `5` the heights 0 to `2^36`, glyph `6`
the heights 0 to `2^30`, glyph `7` the heights 0 to `7 * 2^27`, glyph `8` the heights 0 to
98, every other glyph the heights 8.090909004211426 to 20. All these numbers are values of
`float`. -/
def bandBox (g : Nat) : BBox :=
  if g = 1 then { xi := 0, yi := 0, xa := 100, ya := 62 }
  else if g = 2 then { xi := 0, yi := 0, xa := 100, ya := 63 }
  else if g = 3 then { xi := 0, yi := 16515071 / 524288, xa := 100, ya := 40 }
  else if g = 4 then { xi := 0, yi := 0, xa := 100, ya := 3947075 / 2048 }
  else if g = 5 then { xi := 0, yi := 0, xa := 100, ya := 68719476736 }
  else if g = 6 then { xi := 0, yi := 0, xa := 100, ya := 1073741824 }
  else if g = 7 then { xi := 0, yi := 0, xa := 100, ya := 939524096 }
  else if g = 8 then { xi := 0, yi := 0, xa := 100, ya := 98 }
  else { xi := 0, yi := 8483933 / 1048576, xa := 100, ya := 20 }

/-- A segment with the upright boxes `bandBox`, slant boxes that cut nothing, no sub-boxes
and zero collision attributes. -/
def bandSegment : Segment :=
  { getBoundingBBox := bandBox
    getBoundingSlantBox := fun _ => { si := -1000, di := -1000, sa := 1000, da := 1000 }
    numSubBounds := fun _ => 0
    getSubBoundingBBox := fun _ _ => wideBBox
    getSubBoundingSlantBox := fun _ _ => wideSlantBox
    collisionInfo := fun _ => zeroCollision }

/-- The slot of glyph `g` at the origin. -/
def bandSlot (g : Nat) : Slot := { gid := g, origin := ⟨0, 0⟩, index := 0 }

theorem resolveStep_eq (closest : Zones → ℚ → ℚ → ℚ → ℚ × ℚ) (c : ShiftCollider)
    (seg : Segment) (st : ResolveState) (i : Nat) :
    c.resolveStep closest seg st i =
      if (c.axisClosest closest seg i).2 ≥ 0 then
        if (c.axisClosest closest seg i).2 < st.totalCost then
          { totalCost := (c.axisClosest closest seg i).2,
            resultPos := c.axisCandidate closest seg i, bestAxis := i, isCol := false }
        else { st with isCol := false }
      else st := rfl

theorem resolveStep_isCol (closest : Zones → ℚ → ℚ → ℚ → ℚ × ℚ) (c : ShiftCollider)
    (seg : Segment) (st : ResolveState) (i : Nat) :
    (c.resolveStep closest seg st i).isCol
      = (st.isCol && decide ((c.axisClosest closest seg i).2 < 0)) := by
  rw [resolveStep_eq]
  by_cases h : (c.axisClosest closest seg i).2 ≥ 0
  · have h2 : ¬ (c.axisClosest closest seg i).2 < 0 := not_lt.mpr h
    by_cases h3 : (c.axisClosest closest seg i).2 < st.totalCost <;> simp [h, h2, h3]
  · have h2 : (c.axisClosest closest seg i).2 < 0 := not_le.mp h
    simp [h, h2]

theorem resolveStep_neg (closest : Zones → ℚ → ℚ → ℚ → ℚ × ℚ) (c : ShiftCollider)
    (seg : Segment) (st : ResolveState) (i : Nat) (h : (c.axisClosest closest seg i).2 < 0) :
    c.resolveStep closest seg st i = st := by
  rw [resolveStep_eq]
  simp [not_le.mpr h]

theorem resolveStep_take (closest : Zones → ℚ → ℚ → ℚ → ℚ × ℚ) (c : ShiftCollider)
    (seg : Segment) (st : ResolveState) (i : Nat) (h0 : 0 ≤ (c.axisClosest closest seg i).2)
    (h1 : (c.axisClosest closest seg i).2 < st.totalCost) :
    c.resolveStep closest seg st i =
      { totalCost := (c.axisClosest closest seg i).2,
        resultPos := c.axisCandidate closest seg i, bestAxis := i, isCol := false } := by
  rw [resolveStep_eq]; simp [h0, h1]

theorem resolveFold_gt (closest : Zones → ℚ → ℚ → ℚ → ℚ × ℚ) (c : ShiftCollider)
    (seg : Segment) (x : ℚ) (l : List Nat) :
    ∀ st : ResolveState, x < st.totalCost →
      (∀ j ∈ l, 0 ≤ (c.axisClosest closest seg j).2 → x < (c.axisClosest closest seg j).2) →
      x < (l.foldl (c.resolveStep closest seg) st).totalCost := by
  induction l with
  | nil => intro st h _; simpa using h
  | cons j l ih =>
    intro st h hl
    simp only [List.foldl_cons]
    apply ih
    · rw [resolveStep_eq]
      split_ifs with h1 h2
      · exact hl j (List.mem_cons_self _ _) h1
      · exact h
      · exact h
    · intro k hk; exact hl k (List.mem_cons_of_mem _ hk)

theorem resolveFold_keep (closest : Zones → ℚ → ℚ → ℚ → ℚ × ℚ) (c : ShiftCollider)
    (seg : Segment) (l : List Nat) :
    ∀ st : ResolveState, st.isCol = false →
      (∀ j ∈ l, (c.axisClosest closest seg j).2 < 0
        ∨ st.totalCost ≤ (c.axisClosest closest seg j).2) →
      l.foldl (c.resolveStep closest seg) st = st := by
  induction l with
  | nil => intro st _ _; rfl
  | cons j l ih =>
    intro st hc hl
    simp only [List.foldl_cons]
    have hstep : c.resolveStep closest seg st j = st := by
      rw [resolveStep_eq]
      rcases hl j (List.mem_cons_self _ _) with h | h
      · simp [not_le.mpr h]
      · split_ifs with h1 h2
        · exact absurd h2 (not_lt.mpr h)
        · cases st; simp_all
        · rfl
    rw [hstep]
    exact ih st hc (fun k hk => hl k (List.mem_cons_of_mem _ hk))

theorem resolveFold_skip (closest : Zones → ℚ → ℚ → ℚ → ℚ × ℚ) (c : ShiftCollider)
    (seg : Segment) (l : List Nat) :
    ∀ st : ResolveState,
      (∀ j ∈ l, (c.axisClosest closest seg j).2 < 0
        ∨ st.totalCost ≤ (c.axisClosest closest seg j).2) →
      (l.foldl (c.resolveStep closest seg) st).totalCost = st.totalCost
      ∧ (l.foldl (c.resolveStep closest seg) st).resultPos = st.resultPos
      ∧ (l.foldl (c.resolveStep closest seg) st).bestAxis = st.bestAxis := by
  induction l with
  | nil => intro st _; exact ⟨rfl, rfl, rfl⟩
  | cons j l ih =>
    intro st hl
    simp only [List.foldl_cons]
    have hstep : (c.resolveStep closest seg st j).totalCost = st.totalCost
        ∧ (c.resolveStep closest seg st j).resultPos = st.resultPos
        ∧ (c.resolveStep closest seg st j).bestAxis = st.bestAxis := by
      rw [resolveStep_eq]
      rcases hl j (List.mem_cons_self _ _) with h | h
      · simp [not_le.mpr h]
      · split_ifs with h1 h2
        · exact absurd h2 (not_lt.mpr h)
        · exact ⟨rfl, rfl, rfl⟩
        · exact ⟨rfl, rfl, rfl⟩
    have := ih (c.resolveStep closest seg st j) (by
      intro k hk
      rw [hstep.1]
      exact hl k (List.mem_cons_of_mem _ hk))
    rw [this.1, this.2.1, this.2.2]
    exact hstep

theorem resolveLoop_split (closest : Zones → ℚ → ℚ → ℚ → ℚ × ℚ) (c : ShiftCollider)
    (seg : Segment) (i : Nat) (hi : i < 4) :
    c.resolveLoop closest seg =
      ((List.range' (i + 1) (3 - i)).foldl (c.resolveStep closest seg)
        (c.resolveStep closest seg ((List.range i).foldl (c.resolveStep closest seg)
          { totalCost := FLT_MAX / 2, resultPos := ⟨0, 0⟩, bestAxis := -1, isCol := true }) i)) := by
  interval_cases i <;> rfl

/-- The loop of `resolve` ends on axis `i` when that axis has a non-negative cost below the
initial `totalCost`, no axis of non-negative cost is cheaper and every earlier axis of
non-negative cost is strictly dearer. -/
theorem resolveLoop_first_lowest (closest : Zones → ℚ → ℚ → ℚ → ℚ × ℚ) (c : ShiftCollider)
    (seg : Segment) (i : Nat) (hi : i < 4) (h0 : 0 ≤ (c.axisClosest closest seg i).2)
    (hlt : (c.axisClosest closest seg i).2 < FLT_MAX / 2)
    (hmin : ∀ j, j < 4 → 0 ≤ (c.axisClosest closest seg j).2 →
      (c.axisClosest closest seg i).2 ≤ (c.axisClosest closest seg j).2)
    (hfirst : ∀ j, j < i → 0 ≤ (c.axisClosest closest seg j).2 →
      (c.axisClosest closest seg i).2 < (c.axisClosest closest seg j).2) :
    c.resolveLoop closest seg = ResolveState.mk (c.axisClosest closest seg i).2
      (c.axisCandidate closest seg i) i false := by
  have hpre := resolveFold_gt closest c seg (c.axisClosest closest seg i).2 (List.range i)
    { totalCost := FLT_MAX / 2, resultPos := ⟨0, 0⟩, bestAxis := -1, isCol := true } hlt
    (fun j hj => hfirst j (List.mem_range.mp hj))
  have htake := resolveStep_take closest c seg _ i h0 hpre
  have hpost := resolveFold_keep closest c seg (List.range' (i + 1) (3 - i))
    { totalCost := (c.axisClosest closest seg i).2,
      resultPos := c.axisCandidate closest seg i, bestAxis := i, isCol := false } rfl
    (fun j hj => by
      rw [List.mem_range'_1] at hj
      by_cases hj0 : 0 ≤ (c.axisClosest closest seg j).2
      · exact Or.inr (hmin j (by omega) hj0)
      · exact Or.inl (not_le.mp hj0))
  rw [resolveLoop_split closest c seg i hi, htake, hpost]

/-- C1: `resolve` leaves `isCol = false` exactly when at least one of the four `closest`
queries returns a non-negative cost; when all four costs are negative it returns the zero
displacement with `isCol = true`. This holds for every implementation of `closest`. -/
theorem resolve_isCol_false_iff (closest : Zones → ℚ → ℚ → ℚ → ℚ × ℚ) (c : ShiftCollider)
    (seg : Segment) :
    ((c.resolve closest seg).2 = false ↔ ∃ i, i < 4 ∧ (c.axisClosest closest seg i).2 ≥ 0)
    ∧ ((∀ i, i < 4 → (c.axisClosest closest seg i).2 < 0) →
        c.resolve closest seg = (⟨0, 0⟩, true)) := by
  constructor
  · simp only [ShiftCollider.resolve, ShiftCollider.resolveLoop, List.foldl, resolveStep_isCol]
    constructor
    · intro h
      by_contra hne
      push_neg at hne
      simp [hne 0 (by norm_num), hne 1 (by norm_num), hne 2 (by norm_num), hne 3 (by norm_num)] at h
    · rintro ⟨i, hi, hc⟩
      have hc2 : ¬ (c.axisClosest closest seg i).2 < 0 := not_lt.mpr hc
      interval_cases i <;> simp [hc2]
  · intro h
    simp [ShiftCollider.resolve, ShiftCollider.resolveLoop, List.foldl,
      resolveStep_neg _ _ _ _ _ (h 0 (by norm_num)), resolveStep_neg _ _ _ _ _ (h 1 (by norm_num)),
      resolveStep_neg _ _ _ _ _ (h 2 (by norm_num)), resolveStep_neg _ _ _ _ _ (h 3 (by norm_num))]

/-- C1 (witness): on `colliderAt31` with a `closest` that finds nothing on any axis,
`resolve` returns the zero displacement and reports a collision. -/
theorem resolve_isCol_false_iff_witness :
    colliderAt31.resolve (fun _ _ _ _ => (0, -1)) wideSegment = (⟨0, 0⟩, true) :=
  (resolve_isCol_false_iff (fun _ _ _ _ => (0, -1)) colliderAt31 wideSegment).2
    (fun _ _ => by norm_num [ShiftCollider.axisClosest])

/-- C2 (counterexample): with the x axis the only axis of non-negative cost, and that cost
equal to the initial `totalCost = FLT_MAX / 2`, `resolve` reports no collision but returns
the zero displacement, not the candidate `(5, 0)` of the x axis. -/
theorem resolve_returns_lowest_candidate_counterexample :
    0 ≤ (colliderAt31.axisClosest closestHuge wideSegment 0).2
    ∧ (∀ j, j < 4 → 0 ≤ (colliderAt31.axisClosest closestHuge wideSegment j).2 → j = 0)
    ∧ colliderAt31.axisCandidate closestHuge wideSegment 0 = ⟨5, 0⟩
    ∧ colliderAt31.resolve closestHuge wideSegment = (⟨0, 0⟩, false)
    ∧ (colliderAt31.resolve closestHuge wideSegment).1
        ≠ colliderAt31.axisCandidate closestHuge wideSegment 0 := by
  have hq : ∀ j, j < 4 → (colliderAt31.axisClosest closestHuge wideSegment j).2
      = if j = 0 then FLT_MAX / 2 else -1 := by
    intro j hj
    interval_cases j <;>
      norm_num [ShiftCollider.axisClosest, ShiftCollider.resolveQuery, closestHuge, colliderAt31,
        ShiftCollider.initSlot, slotAt31, wideSegment, zeroCollision]
  have hc : colliderAt31.axisCandidate closestHuge wideSegment 0 = ⟨5, 0⟩ := by
    norm_num [ShiftCollider.axisCandidate, ShiftCollider.testp, ShiftCollider.axisClosest,
      ShiftCollider.resolveQuery, closestHuge, colliderAt31, ShiftCollider.initSlot, slotAt31,
      wideSegment, zeroCollision]
  have hr : colliderAt31.resolve closestHuge wideSegment = (⟨0, 0⟩, false) := by
    simp only [ShiftCollider.resolve, ShiftCollider.resolveLoop, List.foldl, resolveStep_eq,
      hq 0 (by norm_num), hq 1 (by norm_num), hq 2 (by norm_num), hq 3 (by norm_num)]
    norm_num [FLT_MAX]
  refine ⟨?_, ?_, hc, hr, ?_⟩
  · rw [hq 0 (by norm_num)]; norm_num [FLT_MAX]
  · intro j hj h
    rw [hq j hj] at h
    by_contra hne
    simp [hne] at h
    linarith
  · rw [hr, hc]; simp

/-- C2 (amended): if axis `i` has a non-negative cost below the initial `totalCost`
(`FLT_MAX / 2`), no axis of non-negative cost is cheaper, and every lower-indexed axis of
non-negative cost is strictly dearer, then `resolve` returns the candidate of axis `i`
(so ties go to the lowest index); if no axis has a non-negative cost below `FLT_MAX / 2`
the displacement is zero and no axis is chosen. -/
theorem resolve_returns_first_lowest_below_bound (closest : Zones → ℚ → ℚ → ℚ → ℚ × ℚ)
    (c : ShiftCollider) (seg : Segment) :
    (∀ i, i < 4 → 0 ≤ (c.axisClosest closest seg i).2 →
      (c.axisClosest closest seg i).2 < FLT_MAX / 2 →
      (∀ j, j < 4 → 0 ≤ (c.axisClosest closest seg j).2 →
        (c.axisClosest closest seg i).2 ≤ (c.axisClosest closest seg j).2) →
      (∀ j, j < i → 0 ≤ (c.axisClosest closest seg j).2 →
        (c.axisClosest closest seg i).2 < (c.axisClosest closest seg j).2) →
      c.resolve closest seg = (c.axisCandidate closest seg i, false)
        ∧ (c.resolveLoop closest seg).bestAxis = i)
    ∧ ((∀ j, j < 4 → (c.axisClosest closest seg j).2 < 0
          ∨ FLT_MAX / 2 ≤ (c.axisClosest closest seg j).2) →
        (c.resolve closest seg).1 = ⟨0, 0⟩ ∧ (c.resolveLoop closest seg).bestAxis = -1) := by
  constructor
  · intro i hi h0 hlt hmin hfirst
    have hloop := resolveLoop_first_lowest closest c seg i hi h0 hlt hmin hfirst
    simp [ShiftCollider.resolve, hloop]
  · intro h
    have := resolveFold_skip closest c seg [0, 1, 2, 3]
      { totalCost := FLT_MAX / 2, resultPos := ⟨0, 0⟩, bestAxis := -1, isCol := true }
      (fun j hj => h j (by simp at hj; omega))
    exact ⟨this.2.1, this.2.2⟩

/-- C2 (witness): with the same cost `7` on all four axes, `resolve` returns the candidate
of the x axis. -/
theorem resolve_returns_first_lowest_below_bound_witness :
    colliderAt31.resolve closestTie wideSegment
        = (colliderAt31.axisCandidate closestTie wideSegment 0, false)
      ∧ (colliderAt31.resolveLoop closestTie wideSegment).bestAxis = (0 : Nat) :=
  (resolve_returns_first_lowest_below_bound closestTie colliderAt31 wideSegment).1 0
    (by norm_num) (by norm_num [ShiftCollider.axisClosest, closestTie])
    (by norm_num [ShiftCollider.axisClosest, closestTie, FLT_MAX])
    (fun _ _ _ => by norm_num [ShiftCollider.axisClosest, closestTie])
    (fun j hj _ => absurd hj (Nat.not_lt_zero j))

/-! ## How `mergeSlot` changes the landscapes -/

theorem Zones.extend_nil (z : Zones) : z.extend [] = z := by
  simp [Zones.extend]

theorem Zones.extend_extend (z : Zones) (L M : List ZoneCall) :
    (z.extend L).extend M = z.extend (L ++ M) := by
  simp [Zones.extend]

theorem Zones.newCalls_extend (z : Zones) (L : List ZoneCall) : z.newCalls (z.extend L) = L := by
  simp [Zones.newCalls, Zones.extend]

theorem Zones.exclude_eq (z : Zones) (x len : ℚ) :
    z.exclude x len = z.extend [ZoneCall.exclude x len] := rfl

theorem Zones.exclude_with_margins_eq (z : Zones) (x len : ℚ) :
    z.exclude_with_margins x len = z.extend [ZoneCall.exclude_with_margins x len] := rfl

theorem Zones.weighted_eq (z : Zones) (t : zones_t) (x len weight shift oshift a m xi c : ℚ) :
    z.weighted t x len weight shift oshift a m xi c
      = z.extend [ZoneCall.weighted t x len weight shift oshift a m xi c] := rfl

/-- A call of `addBox_slopex` adds at most one region, and only a weighted one. -/
theorem addBox_slopex_extend (c : ShiftCollider) (box org : Rect) (weight m : ℚ) (minright : Bool)
    (axis : Nat) (z : Zones) :
    ∃ L, c.addBox_slopex box org weight m minright axis z = z.extend L
      ∧ L.length ≤ 1 ∧ ∀ r ∈ L, r.isWeighted = true := by
  unfold ShiftCollider.addBox_slopex
  simp only [Zones.weighted_eq]
  split <;> (try split_ifs) <;>
    first
    | exact ⟨[], (Zones.extend_nil z).symm, by simp, by simp⟩
    | exact ⟨_, rfl, by simp, by simp [ZoneCall.isWeighted]⟩

/-- A call of `addBox_slopey` adds at most one region, and only a weighted one. -/
theorem addBox_slopey_extend (c : ShiftCollider) (box org : Rect) (weight m : ℚ) (mintop : Bool)
    (axis : Nat) (z : Zones) :
    ∃ L, c.addBox_slopey box org weight m mintop axis z = z.extend L
      ∧ L.length ≤ 1 ∧ ∀ r ∈ L, r.isWeighted = true := by
  unfold ShiftCollider.addBox_slopey
  simp only [Zones.weighted_eq]
  split <;> (try split_ifs) <;>
    first
    | exact ⟨[], (Zones.extend_nil z).symm, by simp, by simp⟩
    | exact ⟨_, rfl, by simp, by simp [ZoneCall.isWeighted]⟩

/-- A call of `removeBox` adds at most one region, a plain `exclude`. -/
theorem removeBox_extend (c : ShiftCollider) (box org : Rect) (axis : Nat) (z : Zones) :
    ∃ L, c.removeBox box org axis z = z.extend L
      ∧ L.length ≤ 1 ∧ ∀ r ∈ L, ∃ x len, r = ZoneCall.exclude x len := by
  unfold ShiftCollider.removeBox
  simp only [Zones.exclude_eq]
  split <;> (try split_ifs) <;>
    first
    | exact ⟨[], (Zones.extend_nil z).symm, by simp, by simp⟩
    | exact ⟨_, rfl, by simp, by simp⟩

/-- The ordering step adds at most five regions, none of them an `exclude_with_margins`. -/
theorem orderRegions_extend (c : ShiftCollider) (cslot : SlotCollision) (bb tbb : BBox)
    (sx sy : ℚ) (orderFlags i : Nat) (z : Zones) :
    ∃ L, c.orderRegions cslot bb tbb sx sy orderFlags i z = z.extend L
      ∧ L.length ≤ 5 ∧ ∀ r ∈ L, r.isMarginExclusion = false := by
  have hw : ∀ r : ZoneCall, r.isWeighted = true → r.isMarginExclusion = false := by
    intro r hr; cases r <;> simp_all [ZoneCall.isWeighted, ZoneCall.isMarginExclusion]
  have he : ∀ r : ZoneCall, (∃ x len, r = ZoneCall.exclude x len) →
      r.isMarginExclusion = false := by
    rintro r ⟨x, len, rfl⟩; rfl
  have five : ∀ (f1 f2 f3 f4 f5 : Zones → Zones),
      (∀ z, ∃ L, f1 z = z.extend L ∧ L.length ≤ 1 ∧ ∀ r ∈ L, r.isMarginExclusion = false) →
      (∀ z, ∃ L, f2 z = z.extend L ∧ L.length ≤ 1 ∧ ∀ r ∈ L, r.isMarginExclusion = false) →
      (∀ z, ∃ L, f3 z = z.extend L ∧ L.length ≤ 1 ∧ ∀ r ∈ L, r.isMarginExclusion = false) →
      (∀ z, ∃ L, f4 z = z.extend L ∧ L.length ≤ 1 ∧ ∀ r ∈ L, r.isMarginExclusion = false) →
      (∀ z, ∃ L, f5 z = z.extend L ∧ L.length ≤ 1 ∧ ∀ r ∈ L, r.isMarginExclusion = false) →
      ∃ L, f5 (f4 (f3 (f2 (f1 z)))) = z.extend L ∧ L.length ≤ 5
        ∧ ∀ r ∈ L, r.isMarginExclusion = false := by
    intro f1 f2 f3 f4 f5 h1 h2 h3 h4 h5
    obtain ⟨L1, e1, n1, p1⟩ := h1 z
    obtain ⟨L2, e2, n2, p2⟩ := h2 (f1 z)
    obtain ⟨L3, e3, n3, p3⟩ := h3 (f2 (f1 z))
    obtain ⟨L4, e4, n4, p4⟩ := h4 (f3 (f2 (f1 z)))
    obtain ⟨L5, e5, n5, p5⟩ := h5 (f4 (f3 (f2 (f1 z))))
    refine ⟨L1 ++ L2 ++ L3 ++ L4 ++ L5, ?_, ?_, ?_⟩
    · rw [e5, e4, e3, e2, e1]; simp [Zones.extend_extend]
    · simp only [List.length_append]; omega
    · intro r hr
      simp only [List.mem_append] at hr
      rcases hr with (((h | h) | h) | h) | h
      · exact p1 r h
      · exact p2 r h
      · exact p3 r h
      · exact p4 r h
      · exact p5 r h
  have hx : ∀ (box org : Rect) (w m : ℚ) (b : Bool) (z : Zones),
      ∃ L, c.addBox_slopex box org w m b i z = z.extend L ∧ L.length ≤ 1
        ∧ ∀ r ∈ L, r.isMarginExclusion = false := by
    intro box org w m b z
    obtain ⟨L, e, n, p⟩ := addBox_slopex_extend c box org w m b i z
    exact ⟨L, e, n, fun r hr => hw r (p r hr)⟩
  have hy : ∀ (box org : Rect) (w m : ℚ) (b : Bool) (z : Zones),
      ∃ L, c.addBox_slopey box org w m b i z = z.extend L ∧ L.length ≤ 1
        ∧ ∀ r ∈ L, r.isMarginExclusion = false := by
    intro box org w m b z
    obtain ⟨L, e, n, p⟩ := addBox_slopey_extend c box org w m b i z
    exact ⟨L, e, n, fun r hr => hw r (p r hr)⟩
  have hr : ∀ (box org : Rect) (z : Zones),
      ∃ L, c.removeBox box org i z = z.extend L ∧ L.length ≤ 1
        ∧ ∀ r ∈ L, r.isMarginExclusion = false := by
    intro box org z
    obtain ⟨L, e, n, p⟩ := removeBox_extend c box org i z
    exact ⟨L, e, n, fun r hr => he r (p r hr)⟩
  unfold ShiftCollider.orderRegions
  split_ifs
  · exact five _ _ _ _ _ (hx _ _ _ _ _) (hr _ _) (hx _ _ _ _ _) (hy _ _ _ _ _) (hy _ _ _ _ _)
  · exact five _ _ _ _ _ (hx _ _ _ _ _) (hr _ _) (hx _ _ _ _ _) (hy _ _ _ _ _) (hy _ _ _ _ _)
  · exact ⟨[], (Zones.extend_nil z).symm, by simp, by simp⟩

theorem subBoxStep_eq (c : ShiftCollider) (seg : Segment) (slot : Slot) (currShift : Position)
    (i : Nat) (acc : Zones × Bool) (j : Nat) :
    c.subBoxStep seg slot currShift i acc j =
      if c.pruned (c.subBounds seg slot currShift i j) (c.axisTarget seg i) then acc
      else (acc.1.extend [c.overlapCall i (c.subBounds seg slot currShift i j)], true) := rfl

theorem mergeAxis_eq (c : ShiftCollider) (seg : Segment) (slot : Slot) (currShift : Position)
    (orderFlags i : Nat) (z : Zones) :
    c.mergeAxis seg slot currShift orderFlags i z =
      if c.pruned (c.wholeBounds seg slot currShift i) (c.axisTarget seg i) then
        (c.afterOrder seg slot currShift orderFlags i z, false)
      else if seg.numSubBounds slot.gid > 0 then
        (List.range (seg.numSubBounds slot.gid)).foldl (c.subBoxStep seg slot currShift i)
          (c.afterOrder seg slot currShift orderFlags i z, false)
      else ((c.afterOrder seg slot currShift orderFlags i z).extend
        [c.overlapCall i (c.wholeBounds seg slot currShift i)], true) := rfl

/-- The sub-box loop adds one `exclude_with_margins` per sub-box that passes the broad
phase, and `anyhits` records whether there was one. -/
theorem subBoxFold (c : ShiftCollider) (seg : Segment) (slot : Slot) (currShift : Position)
    (i : Nat) (l : List Nat) :
    ∀ acc : Zones × Bool,
      (l.foldl (c.subBoxStep seg slot currShift i) acc).1 = acc.1.extend
          ((l.filter (fun j =>
            !c.pruned (c.subBounds seg slot currShift i j) (c.axisTarget seg i))).map
            (fun j => c.overlapCall i (c.subBounds seg slot currShift i j)))
      ∧ (l.foldl (c.subBoxStep seg slot currShift i) acc).2 = (acc.2 || l.any (fun j =>
            !c.pruned (c.subBounds seg slot currShift i j) (c.axisTarget seg i))) := by
  induction l with
  | nil => intro acc; simp [Zones.extend_nil]
  | cons j l ih =>
    intro acc
    simp only [List.foldl_cons]
    obtain ⟨h1, h2⟩ := ih (c.subBoxStep seg slot currShift i acc j)
    rw [h1, h2, subBoxStep_eq]
    by_cases hp : c.pruned (c.subBounds seg slot currShift i j) (c.axisTarget seg i) = true
    · simp [hp]
    · simp [hp, Zones.extend_extend]

/-- One axis iteration: the ordering step followed by the hard exclusions that pass the
broad phase. -/
theorem mergeAxis_char (c : ShiftCollider) (seg : Segment) (slot : Slot) (currShift : Position)
    (orderFlags i : Nat) (z : Zones) :
    c.mergeAxis seg slot currShift orderFlags i z =
      ((c.afterOrder seg slot currShift orderFlags i z).extend
        (c.axisExclusions seg slot currShift i), c.axisHit seg slot currShift i) := by
  rw [mergeAxis_eq]
  unfold ShiftCollider.axisExclusions ShiftCollider.axisHit
  by_cases hp : c.pruned (c.wholeBounds seg slot currShift i) (c.axisTarget seg i) = true
  · simp [hp, Zones.extend_nil]
  · by_cases hn : seg.numSubBounds slot.gid > 0
    · have hn0 : seg.numSubBounds slot.gid ≠ 0 := Nat.pos_iff_ne_zero.mp hn
      obtain ⟨h1, h2⟩ := subBoxFold c seg slot currShift i (List.range (seg.numSubBounds slot.gid))
        (c.afterOrder seg slot currShift orderFlags i z, false)
      have hp2 : c.pruned (c.wholeBounds seg slot currShift i) (c.axisTarget seg i) = false := by
        simpa using hp
      rw [hp2]
      simp only [hn, if_true, Bool.false_eq_true, if_false]
      refine Prod.ext ?_ ?_
      · simpa using h1
      · rw [h2]; simp [hn0]
    · have hn0 : seg.numSubBounds slot.gid = 0 := by omega
      simp [hp, hn0]

theorem mergeBody_fst (c : ShiftCollider) (seg : Segment) (slot : Slot) (currShift : Position)
    (isAfter sameCluster : Bool) :
    (c.mergeBody seg slot currShift isAfter sameCluster).1 =
      (c.axisHit seg slot currShift 0 || c.axisHit seg slot currShift 1
        || c.axisHit seg slot currShift 2 || c.axisHit seg slot currShift 3) := by
  simp [ShiftCollider.mergeBody, mergeAxis_char]

theorem mergeBody_ranges (c : ShiftCollider) (seg : Segment) (slot : Slot) (currShift : Position)
    (isAfter sameCluster : Bool) (i : Nat) (hi : i < 4) :
    (c.mergeBody seg slot currShift isAfter sameCluster).2._ranges i =
      (c.afterOrder seg slot currShift (c.effectiveOrder seg slot isAfter sameCluster) i
        (c._ranges i)).extend (c.axisExclusions seg slot currShift i) := by
  simp [ShiftCollider.mergeBody, mergeAxis_char, hi, ShiftCollider.effectiveOrder]

theorem Grows.refl (c : ShiftCollider) : c.Grows c :=
  ⟨rfl, rfl, rfl, rfl, rfl, rfl, rfl, rfl, rfl, fun _ => ⟨[], (Zones.extend_nil _).symm⟩⟩

theorem Grows.trans {c1 c2 c3 : ShiftCollider} (h12 : c1.Grows c2) (h23 : c2.Grows c3) :
    c1.Grows c3 := by
  obtain ⟨a1, a2, a3, a4, a5, a6, a7, a8, a9, a10⟩ := h12
  obtain ⟨b1, b2, b3, b4, b5, b6, b7, b8, b9, b10⟩ := h23
  refine ⟨b1.trans a1, b2.trans a2, b3.trans a3, b4.trans a4, b5.trans a5, b6.trans a6,
    b7.trans a7, b8.trans a8, b9.trans a9, fun i => ?_⟩
  obtain ⟨L, hL⟩ := a10 i
  obtain ⟨M, hM⟩ := b10 i
  exact ⟨L ++ M, by rw [hM, hL, Zones.extend_extend]⟩

theorem mergeBody_grows (c : ShiftCollider) (seg : Segment) (slot : Slot) (currShift : Position)
    (isAfter sameCluster : Bool) :
    c.Grows (c.mergeBody seg slot currShift isAfter sameCluster).2 := by
  refine ⟨rfl, rfl, rfl, rfl, rfl, rfl, rfl, rfl, rfl, fun i => ?_⟩
  by_cases hi : i < 4
  · rw [mergeBody_ranges c seg slot currShift isAfter sameCluster i hi]
    obtain ⟨L, hL, -, -⟩ := orderRegions_extend c (seg.collisionInfo slot)
      (seg.getBoundingBBox slot.gid) (seg.getBoundingBBox c._target.gid)
      (slot.origin.x + currShift.x) (slot.origin.y + currShift.y)
      (c.effectiveOrder seg slot isAfter sameCluster) i (c._ranges i)
    refine ⟨L ++ c.axisExclusions seg slot currShift i, ?_⟩
    unfold ShiftCollider.afterOrder
    rw [hL, Zones.extend_extend]
  · exact ⟨[], by simp [ShiftCollider.mergeBody, hi, Zones.extend_nil]⟩

/-- Every `mergeSlot` call that returns leaves the collider's fixed fields alone and only
adds regions to the landscapes. -/
theorem mergeSlot_grows (seg : Segment) (currShift : Position) (isAfter sameCluster : Bool) :
    ∀ (fuel : Nat) (c : ShiftCollider) (slot : Slot) (r : Bool × ShiftCollider),
      c.mergeSlot fuel seg slot currShift isAfter sameCluster = some r → c.Grows r.2 := by
  intro fuel
  induction fuel with
  | zero => intro c slot r h; simp [ShiftCollider.mergeSlot] at h
  | succ n ih =>
    intro c slot r h
    simp only [ShiftCollider.mergeSlot] at h
    split_ifs at h with hg
    · split at h
      · exact absurd h (by simp)
      · rename_i r2 h2
        have hr : r.2 = r2.2 := by
          have := Option.some.inj h
          rw [← this]
        rw [hr]
        refine Grows.trans (mergeBody_grows c seg slot currShift isAfter sameCluster) ?_
        refine Grows.trans ?_ (ih _ _ _ h2)
        exact ⟨rfl, rfl, rfl, rfl, rfl, rfl, rfl, rfl, rfl,
          fun _ => ⟨[], (Zones.extend_nil _).symm⟩⟩
    · have := Option.some.inj h
      rw [← this]
      exact mergeBody_grows c seg slot currShift isAfter sameCluster

theorem mergeAll_grows (fuel : Nat) (seg : Segment) (ms : List MergeArgs) :
    ∀ (c cf : ShiftCollider), ShiftCollider.mergeAll fuel seg c ms = some cf → c.Grows cf := by
  induction ms with
  | nil =>
    intro c cf h
    simp only [ShiftCollider.mergeAll] at h
    rw [← Option.some.inj h]
    exact Grows.refl c
  | cons m ms ih =>
    intro c cf h
    simp only [ShiftCollider.mergeAll] at h
    split at h
    · exact absurd h (by simp)
    · rename_i r hr
      exact Grows.trans (mergeSlot_grows seg m.currShift m.isAfter m.sameCluster fuel c m.slot r hr)
        (ih _ _ h)

/-! ## Hard exclusions accumulate and are respected by `resolve` -/

theorem hardExcluded_extend (z : Zones) (L : List ZoneCall) (p : ℚ)
    (h : z.hardExcluded p = true) : (z.extend L).hardExcluded p = true := by
  simp only [Zones.hardExcluded, Zones.extend, List.any_append, Bool.or_eq_true] at *
  exact Or.inl h

theorem feasible_not_excluded (z : Zones) (p : ℚ) (h : z.feasible p = true) :
    ∀ r ∈ z.calls, r.excludes p = false := by
  intro r hr
  simp only [Zones.feasible, Zones.hardExcluded, Bool.and_eq_true, Bool.not_eq_true',
    List.any_eq_false] at h
  simpa using h.2 r hr

theorem pick_fold_mem (cost : ℚ → NNRat) (origin : ℚ) (l : List ℚ) :
    ∀ (acc : Option ℚ) (p : ℚ), l.foldl (Zones.pick cost origin) acc = some p →
      acc = some p ∨ p ∈ l := by
  induction l with
  | nil => intro acc p h; exact Or.inl (by simpa using h)
  | cons q l ih =>
    intro acc p h
    simp only [List.foldl_cons] at h
    rcases ih _ _ h with h1 | h1
    · cases acc with
      | none =>
        simp only [Zones.pick, Option.some.injEq] at h1
        exact Or.inr (by simp [h1])
      | some a =>
        simp only [Zones.pick] at h1
        split_ifs at h1
        · exact Or.inr (by simp [← Option.some.inj h1])
        · exact Or.inl h1
    · exact Or.inr (List.mem_cons_of_mem _ h1)

theorem pick_fold_isSome (cost : ℚ → NNRat) (origin : ℚ) (l : List ℚ) :
    ∀ (acc : Option ℚ), (acc.isSome = true ∨ l ≠ []) →
      (l.foldl (Zones.pick cost origin) acc).isSome = true := by
  induction l with
  | nil => intro acc h; simpa using h
  | cons q l ih =>
    intro acc _
    simp only [List.foldl_cons]
    apply ih
    left
    cases acc with
    | none => simp [Zones.pick]
    | some a => simp only [Zones.pick]; split_ifs <;> simp

/-- In the modelled `Zones::closest`, a non-negative cost comes with a feasible position. -/
theorem closest_feasible (cost : Zones → ℚ → ℚ → NNRat) (z : Zones) (origin width c0 : ℚ)
    (h : 0 ≤ (Zones.closest cost z origin width c0).2) :
    z.feasible (Zones.closest cost z origin width c0).1 = true := by
  unfold Zones.closest at h ⊢
  split at h
  · norm_num at h
  · rename_i p hp
    rcases pick_fold_mem _ _ _ _ _ hp with h1 | h1
    · exact absurd h1 (by simp)
    · exact (List.mem_filter.mp h1).2

/-- In the modelled `Zones::closest`, the cost is the negative sentinel exactly when no
examined position is feasible. -/
theorem closest_nonneg_iff (cost : Zones → ℚ → ℚ → NNRat) (z : Zones) (origin width c0 : ℚ) :
    0 ≤ (Zones.closest cost z origin width c0).2 ↔ ∃ p ∈ z.candidates origin, z.feasible p = true := by
  constructor
  · intro h
    unfold Zones.closest at h
    split at h
    · norm_num at h
    · rename_i p hp
      rcases pick_fold_mem _ _ _ _ _ hp with h1 | h1
      · exact absurd h1 (by simp)
      · exact ⟨p, (List.mem_filter.mp h1).1, (List.mem_filter.mp h1).2⟩
  · rintro ⟨p, hp, hf⟩
    have hne : (z.candidates origin).filter z.feasible ≠ [] :=
      List.ne_nil_of_mem (List.mem_filter.mpr ⟨hp, hf⟩)
    have hs := pick_fold_isSome (cost z origin) origin _ none (Or.inr hne)
    unfold Zones.closest
    split
    · rename_i hn; rw [hn] at hs; simp at hs
    · exact NNRat.coe_nonneg _

/-- The axis `resolve` settles on has a non-negative cost, and its candidate is the
displacement returned. -/
theorem resolveFold_best (closest : Zones → ℚ → ℚ → ℚ → ℚ × ℚ) (c : ShiftCollider)
    (seg : Segment) (l : List Nat) :
    ∀ st : ResolveState,
      (st.bestAxis = -1 ∨ ∃ j : Nat, st.bestAxis = j ∧ 0 ≤ (c.axisClosest closest seg j).2
          ∧ st.resultPos = c.axisCandidate closest seg j ∧ st.isCol = false) →
      ((l.foldl (c.resolveStep closest seg) st).bestAxis = -1
        ∨ ∃ j : Nat, (l.foldl (c.resolveStep closest seg) st).bestAxis = j
          ∧ 0 ≤ (c.axisClosest closest seg j).2
          ∧ (l.foldl (c.resolveStep closest seg) st).resultPos = c.axisCandidate closest seg j
          ∧ (l.foldl (c.resolveStep closest seg) st).isCol = false) := by
  induction l with
  | nil => intro st h; simpa using h
  | cons k l ih =>
    intro st h
    simp only [List.foldl_cons]
    apply ih
    rw [resolveStep_eq]
    split_ifs with h1 h2
    · exact Or.inr ⟨k, rfl, h1, rfl, rfl⟩
    · rcases h with h | ⟨j, hj1, hj2, hj3, -⟩
      · exact Or.inl h
      · exact Or.inr ⟨j, hj1, hj2, hj3, rfl⟩
    · exact h

theorem resolveLoop_best (closest : Zones → ℚ → ℚ → ℚ → ℚ × ℚ) (c : ShiftCollider)
    (seg : Segment) (i : Nat) (h : (c.resolveLoop closest seg).bestAxis = (i : Int)) :
    0 ≤ (c.axisClosest closest seg i).2
      ∧ c.resolve closest seg = (c.axisCandidate closest seg i, false) := by
  have := resolveFold_best closest c seg [0, 1, 2, 3]
    { totalCost := FLT_MAX / 2, resultPos := ⟨0, 0⟩, bestAxis := -1, isCol := true } (Or.inl rfl)
  rcases this with h1 | ⟨j, hj1, hj2, hj3, hj4⟩
  · unfold ShiftCollider.resolveLoop at h
    rw [h] at h1
    omega
  · unfold ShiftCollider.resolveLoop at h
    rw [h] at hj1
    have hij : i = j := by exact_mod_cast hj1
    subst hij
    refine ⟨hj2, ?_⟩
    simp only [ShiftCollider.resolve, ShiftCollider.resolveLoop]
    rw [hj3, hj4]

/-- C4: a `mergeSlot` call that returns changes each landscape `_ranges[i]` only by adding
regions after the existing ones (the `initialise` arguments and the earlier regions are
kept), so every position that was hard-excluded before the call is hard-excluded after
it. -/
theorem mergeSlot_exclusions_accumulate (fuel : Nat) (c : ShiftCollider) (seg : Segment)
    (slot : Slot) (currShift : Position) (isAfter sameCluster : Bool)
    (r : Bool × ShiftCollider)
    (h : c.mergeSlot fuel seg slot currShift isAfter sameCluster = some r) (i : Nat) :
    (∃ L, r.2._ranges i = (c._ranges i).extend L)
      ∧ ∀ p, (c._ranges i).hardExcluded p = true → (r.2._ranges i).hardExcluded p = true := by
  obtain ⟨L, hL⟩ := (mergeSlot_grows seg currShift isAfter sameCluster fuel c slot r h).2.2.2.2.2.2.2.2.2 i
  refine ⟨⟨L, hL⟩, fun p hp => ?_⟩
  rw [hL]
  exact hardExcluded_extend _ _ _ hp

/-- C3: in a session `initSlot`, `mergeSlot` ..., `resolve` (with the modelled
`Zones::closest`, for any cost rule), if `resolve` settles on axis `i` then it reports no
collision, returns the candidate of axis `i`, and the position chosen on that axis lies
strictly inside no interval that any `mergeSlot` of the session hard-excluded on axis `i`
(by `exclude` or `exclude_with_margins`). -/
theorem resolve_avoids_hard_exclusions (cost : Zones → ℚ → ℚ → NNRat) (fuel : Nat)
    (seg : Segment) (c0 : ShiftCollider) (aSlot : Slot) (limit : Rect)
    (margin marginWeight : ℚ) (currShift currOffset : Position) (dir : Int)
    (ms1 ms2 : List MergeArgs) (m : MergeArgs) (c1 cf : ShiftCollider)
    (r : Bool × ShiftCollider) (i : Nat)
    (h1 : ShiftCollider.mergeAll fuel seg
      (c0.initSlot seg aSlot limit margin marginWeight currShift currOffset dir) ms1 = some c1)
    (h2 : c1.mergeSlot fuel seg m.slot m.currShift m.isAfter m.sameCluster = some r)
    (h3 : ShiftCollider.mergeAll fuel seg r.2 ms2 = some cf)
    (hb : (cf.resolveLoop (Zones.closest cost) seg).bestAxis = (i : Int)) :
    cf.resolve (Zones.closest cost) seg = (cf.axisCandidate (Zones.closest cost) seg i, false)
      ∧ ∀ x len, (ZoneCall.exclude x len ∈ (c1._ranges i).newCalls (r.2._ranges i)
          ∨ ZoneCall.exclude_with_margins x len ∈ (c1._ranges i).newCalls (r.2._ranges i)) →
        ¬ (x < (cf.axisClosest (Zones.closest cost) seg i).1
          ∧ (cf.axisClosest (Zones.closest cost) seg i).1 < x + len) := by
  obtain ⟨hcost, hres⟩ := resolveLoop_best (Zones.closest cost) cf seg i hb
  refine ⟨hres, ?_⟩
  have _hsession := h1
  have hfeas : (cf._ranges i).feasible (cf.axisClosest (Zones.closest cost) seg i).1 = true := by
    unfold ShiftCollider.axisClosest at hcost ⊢
    exact closest_feasible cost _ _ _ _ hcost
  obtain ⟨L, hL⟩ := (mergeSlot_grows seg m.currShift m.isAfter m.sameCluster fuel c1 m.slot r
    h2).2.2.2.2.2.2.2.2.2 i
  obtain ⟨M, hM⟩ := (mergeAll_grows fuel seg ms2 r.2 cf h3).2.2.2.2.2.2.2.2.2 i
  have hnew : (c1._ranges i).newCalls (r.2._ranges i) = L := by
    rw [hL]; exact Zones.newCalls_extend _ _
  have hmem : ∀ call ∈ (c1._ranges i).newCalls (r.2._ranges i), call ∈ (cf._ranges i).calls := by
    intro call hc
    rw [hnew] at hc
    rw [hM, hL]
    simp [Zones.extend, hc]
  intro x len hx
  rcases hx with hx | hx
  · have := feasible_not_excluded _ _ hfeas _ (hmem _ hx)
    simpa [ZoneCall.excludes] using this
  · have := feasible_not_excluded _ _ hfeas _ (hmem _ hx)
    simpa [ZoneCall.excludes] using this

theorem colliderMerged_ranges :
    colliderMerged._ranges 0
        = (colliderAt31._ranges 0).extend [ZoneCall.exclude_with_margins (-47) 200]
    ∧ colliderMerged._ranges 1
        = (colliderAt31._ranges 1).extend [ZoneCall.exclude_with_margins (-49) 100]
    ∧ colliderMerged._ranges 2
        = (colliderAt31._ranges 2).extend [ZoneCall.exclude_with_margins (-96) 200]
    ∧ colliderMerged._ranges 3
        = (colliderAt31._ranges 3).extend [ZoneCall.exclude_with_margins (-98) 200] := by
  simp only [colliderMerged]
  rw [mergeBody_ranges _ _ _ _ _ _ 0 (by norm_num), mergeBody_ranges _ _ _ _ _ _ 1 (by norm_num),
    mergeBody_ranges _ _ _ _ _ _ 2 (by norm_num), mergeBody_ranges _ _ _ _ _ _ 3 (by norm_num)]
  norm_num [ShiftCollider.afterOrder, ShiftCollider.orderRegions, ShiftCollider.effectiveOrder,
    invertOrder, ShiftCollider.orderFlags, enforceOrder, ShiftCollider.axisExclusions,
    ShiftCollider.pruned, ShiftCollider.wholeBounds, ShiftCollider.axisTarget, axisBounds,
    ShiftCollider.targetBounds, ShiftCollider.overlapCall, colliderAt31, ShiftCollider.initSlot,
    initLimit, initLen, initRange, wideSegment, wideBBox, wideSlantBox, slotAt31, slotNear,
    zeroCollision, Zones.extend_nil]

/-- With the squared distance as cost, the modelled `closest` finds on the four axes of
`colliderMerged` the nearer end of the one exclusion. -/
theorem colliderMerged_closest :
    colliderMerged.axisClosest (Zones.closest distanceCost) wideSegment 0 = (-47, 2500)
    ∧ colliderMerged.axisClosest (Zones.closest distanceCost) wideSegment 1 = (-49, 2500)
    ∧ colliderMerged.axisClosest (Zones.closest distanceCost) wideSegment 2 = (-96, 10000)
    ∧ colliderMerged.axisClosest (Zones.closest distanceCost) wideSegment 3 = (-98, 10000) := by
  obtain ⟨h0, h1, h2, h3⟩ := colliderMerged_ranges
  simp only [ShiftCollider.axisClosest, h0, h1, h2, h3]
  norm_num [Zones.closest, Zones.candidates, Zones.feasible, Zones.hardExcluded,
    ZoneCall.excludes, ZoneCall.edges, Zones.pick, distanceCost, Zones.extend, colliderAt31,
    colliderMerged, ShiftCollider.mergeBody, ShiftCollider.resolveQuery, ShiftCollider.initSlot,
    initLimit, initRange, Zones.initialise, slotAt31, List.filter, List.flatMap,
    ← NNRat.coe_lt_coe, ← NNRat.coe_inj, wideSegment, wideBBox, wideSlantBox, zeroCollision]

theorem colliderMerged_bestAxis :
    (colliderMerged.resolveLoop (Zones.closest distanceCost) wideSegment).bestAxis = (0 : Nat) := by
  obtain ⟨h0, h1, h2, h3⟩ := colliderMerged_closest
  rw [resolveLoop_first_lowest (Zones.closest distanceCost) colliderMerged wideSegment 0
    (by norm_num) (by rw [h0]; norm_num) (by rw [h0]; norm_num [FLT_MAX])
    (fun j hj _ => by interval_cases j <;> norm_num [h0, h1, h2, h3])
    (fun j hj _ => absurd hj (Nat.not_lt_zero j))]

/-- C4 (witness): merging `slotNear` into `colliderAt31` only adds regions to the x
landscape. -/
theorem mergeSlot_exclusions_accumulate_witness :
    (∃ L, colliderMerged._ranges 0 = (colliderAt31._ranges 0).extend L)
      ∧ ∀ p, (colliderAt31._ranges 0).hardExcluded p = true →
        (colliderMerged._ranges 0).hardExcluded p = true :=
  mergeSlot_exclusions_accumulate 1 colliderAt31 wideSegment slotNear ⟨0, 0⟩ false false
    (colliderAt31.mergeBody wideSegment slotNear ⟨0, 0⟩ false false) rfl 0

/-- C3 (witness): the session `initSlot` for `slotAt31`, `mergeSlot` of `slotNear`, `resolve`
with the squared distance as cost settles on the x axis, and the position chosen there
is inside no interval the merge excluded. -/
theorem resolve_avoids_hard_exclusions_witness :
    colliderMerged.resolve (Zones.closest distanceCost) wideSegment
        = (colliderMerged.axisCandidate (Zones.closest distanceCost) wideSegment 0, false)
      ∧ ∀ x len,
        (ZoneCall.exclude x len ∈ (colliderAt31._ranges 0).newCalls (colliderMerged._ranges 0)
          ∨ ZoneCall.exclude_with_margins x len
            ∈ (colliderAt31._ranges 0).newCalls (colliderMerged._ranges 0)) →
        ¬ (x < (colliderMerged.axisClosest (Zones.closest distanceCost) wideSegment 0).1
          ∧ (colliderMerged.axisClosest (Zones.closest distanceCost) wideSegment 0).1 < x + len) :=
  resolve_avoids_hard_exclusions distanceCost 1 wideSegment freshCollider slotAt31
    ⟨⟨-1000, -1000⟩, ⟨1000, 1000⟩⟩ 0 0 ⟨0, 0⟩ ⟨0, 0⟩ 1 [] [] ⟨slotNear, ⟨0, 0⟩, false, false⟩
    colliderAt31 colliderMerged (colliderAt31.mergeBody wideSegment slotNear ⟨0, 0⟩ false false) 0
    rfl rfl rfl colliderMerged_bestAxis

/-! ## The overlap interval of `mergeSlot` -/

/-- The interval `[vmin - len, vmax]` computed by `axisBounds`, `len` being the target's
extent on the axis, is the set of positions of the target on the axis at which the three
relevant projections meet. -/
theorem axisBounds_overlap (i : Nat) (hi : i < 4) (bb : BBox) (sb : SlantBox) (tbb : BBox)
    (tsb : SlantBox) (sx sy tx ty p : ℚ) :
    ((axisBounds i bb sb tbb tsb sx sy tx ty).vmin - initLen tbb tsb i 0 ≤ p
      ∧ p ≤ (axisBounds i bb sb tbb tsb sx sy tx ty).vmax)
      ↔ overlapOnAxis i bb sb tbb tsb sx sy tx ty p := by
  interval_cases i
  · simp only [axisBounds, initLen, overlapOnAxis, intervalsMeet, projX, projS, projD, axisPoint,
      sub_le_iff_le_add, max_le_iff, le_sub_iff_add_le, le_min_iff]
    constructor
    · rintro ⟨⟨⟨h1, h2⟩, h3⟩, ⟨h4, h5⟩, h6⟩
      refine ⟨⟨?_, ?_⟩, ⟨?_, ?_⟩, ⟨?_, ?_⟩⟩ <;> linarith
    · rintro ⟨⟨h1, h2⟩, ⟨h3, h4⟩, ⟨h5, h6⟩⟩
      refine ⟨⟨⟨?_, ?_⟩, ?_⟩, ⟨?_, ?_⟩, ?_⟩ <;> linarith
  · simp only [axisBounds, initLen, overlapOnAxis, intervalsMeet, projY, projS, projD, axisPoint,
      sub_le_iff_le_add, max_le_iff, le_sub_iff_add_le, le_min_iff]
    constructor
    · rintro ⟨⟨⟨h1, h2⟩, h3⟩, ⟨h4, h5⟩, h6⟩
      refine ⟨⟨?_, ?_⟩, ⟨?_, ?_⟩, ⟨?_, ?_⟩⟩ <;> linarith
    · rintro ⟨⟨h1, h2⟩, ⟨h3, h4⟩, ⟨h5, h6⟩⟩
      refine ⟨⟨⟨?_, ?_⟩, ?_⟩, ⟨?_, ?_⟩, ?_⟩ <;> linarith
  · simp only [axisBounds, initLen, overlapOnAxis, intervalsMeet, projX, projY, projS, axisPoint,
      sub_le_iff_le_add, max_le_iff, le_sub_iff_add_le, le_min_iff]
    constructor
    · rintro ⟨⟨⟨h1, h2⟩, h3⟩, ⟨h4, h5⟩, h6⟩
      refine ⟨⟨?_, ?_⟩, ⟨?_, ?_⟩, ⟨?_, ?_⟩⟩ <;> linarith
    · rintro ⟨⟨h1, h2⟩, ⟨h3, h4⟩, ⟨h5, h6⟩⟩
      refine ⟨⟨⟨?_, ?_⟩, ?_⟩, ⟨?_, ?_⟩, ?_⟩ <;> linarith
  · simp only [axisBounds, initLen, overlapOnAxis, intervalsMeet, projX, projY, projD, axisPoint,
      sub_le_iff_le_add, max_le_iff, le_sub_iff_add_le, le_min_iff]
    constructor
    · rintro ⟨⟨⟨h1, h2⟩, h3⟩, ⟨h4, h5⟩, h6⟩
      refine ⟨⟨?_, ?_⟩, ⟨?_, ?_⟩, ⟨?_, ?_⟩⟩ <;> linarith
    · rintro ⟨⟨h1, h2⟩, ⟨h3, h4⟩, ⟨h5, h6⟩⟩
      refine ⟨⟨⟨?_, ?_⟩, ?_⟩, ⟨?_, ?_⟩, ?_⟩ <;> linarith

/-- The interval of `axisBounds` lies inside the box-versus-box interval of the axis. -/
theorem axisBounds_within_own (i : Nat) (hi : i < 4) (bb : BBox) (sb : SlantBox) (tbb : BBox)
    (tsb : SlantBox) (sx sy tx ty : ℚ) :
    (ownAxisInterval i bb sb tbb tsb sx sy).1
        ≤ (axisBounds i bb sb tbb tsb sx sy tx ty).vmin - initLen tbb tsb i 0
      ∧ (axisBounds i bb sb tbb tsb sx sy tx ty).vmax
        ≤ (ownAxisInterval i bb sb tbb tsb sx sy).2 := by
  interval_cases i <;> simp only [axisBounds, initLen, ownAxisInterval] <;> constructor
  all_goals first
    | (rw [le_sub_iff_add_le, le_sub_iff_add_le, le_max_iff, le_max_iff]; left; left; linarith)
    | (rw [sub_le_iff_le_add, min_le_iff, min_le_iff]; left; left; linarith)

/-- In a session the collider keeps the target of `initSlot` and the axis lengths derived
from the target's boxes. -/
theorem session_len (fuel : Nat) (seg : Segment) (c0 : ShiftCollider) (aSlot : Slot)
    (limit : Rect) (margin marginWeight : ℚ) (currShift currOffset : Position) (dir : Int)
    (ms : List MergeArgs) (c : ShiftCollider)
    (hs : ShiftCollider.mergeAll fuel seg
      (c0.initSlot seg aSlot limit margin marginWeight currShift currOffset dir) ms = some c) :
    c._target = aSlot ∧ ∀ i, i < 4 → c._len i
      = initLen (seg.getBoundingBBox c._target.gid) (seg.getBoundingSlantBox c._target.gid) i 0 := by
  obtain ⟨ht, -, -, -, -, -, hl, -⟩ := mergeAll_grows fuel seg ms _ c hs
  have ht2 : c._target = aSlot := by rw [ht]; rfl
  refine ⟨ht2, fun i hi => ?_⟩
  rw [hl, ht2]
  interval_cases i <;> rfl

/-- The `exclude_with_margins` regions one `mergeSlot` invocation adds on axis `i` are
those of `axisExclusions`: the ordering step adds none. -/
theorem mergeBody_marginExclusions (c : ShiftCollider) (seg : Segment) (slot : Slot)
    (currShift : Position) (isAfter sameCluster : Bool) (i : Nat) (hi : i < 4) (x len : ℚ) :
    ZoneCall.exclude_with_margins x len ∈ (c._ranges i).newCalls
        ((c.mergeBody seg slot currShift isAfter sameCluster).2._ranges i)
      ↔ ZoneCall.exclude_with_margins x len ∈ c.axisExclusions seg slot currShift i := by
  rw [mergeBody_ranges c seg slot currShift isAfter sameCluster i hi]
  obtain ⟨L, hL, -, hm⟩ := orderRegions_extend c (seg.collisionInfo slot)
    (seg.getBoundingBBox slot.gid) (seg.getBoundingBBox c._target.gid)
    (slot.origin.x + currShift.x) (slot.origin.y + currShift.y)
    (c.effectiveOrder seg slot isAfter sameCluster) i (c._ranges i)
  unfold ShiftCollider.afterOrder
  rw [hL, Zones.extend_extend, Zones.newCalls_extend, List.mem_append]
  constructor
  · rintro (h | h)
    · have := hm _ h
      simp [ZoneCall.isMarginExclusion] at this
    · exact h
  · exact Or.inr

/-- C5: in a session, for a neighbor without sub-boxes and an axis `i` that passes the
broad phase, the one interval `mergeSlot` passes to `exclude_with_margins` on axis `i` is
`[vmin - _len[i], vmax]`; it is exactly the set of target positions along the axis (other
coordinate held at its current shifted value) at which target and neighbor meet in the
three projections relevant to the axis; and it lies inside the axis's own box-versus-box
interval expanded by the target's length. -/
theorem mergeSlot_overlap_interval (fuel : Nat) (seg : Segment) (c0 : ShiftCollider)
    (aSlot : Slot) (limit : Rect) (margin marginWeight : ℚ) (cs co : Position) (dir : Int)
    (ms : List MergeArgs) (c : ShiftCollider) (slot : Slot) (currShift : Position)
    (isAfter sameCluster : Bool) (i : Nat)
    (hs : ShiftCollider.mergeAll fuel seg
      (c0.initSlot seg aSlot limit margin marginWeight cs co dir) ms = some c)
    (hi : i < 4) (hsub : seg.numSubBounds slot.gid = 0)
    (hpass : c.pruned (c.wholeBounds seg slot currShift i) (c.axisTarget seg i) = false) :
    (∀ x len, ZoneCall.exclude_with_margins x len ∈ (c._ranges i).newCalls
        ((c.mergeBody seg slot currShift isAfter sameCluster).2._ranges i)
      ↔ (x = (c.wholeBounds seg slot currShift i).vmin - c._len i
        ∧ x + len = (c.wholeBounds seg slot currShift i).vmax))
    ∧ (∀ p, ((c.wholeBounds seg slot currShift i).vmin - c._len i ≤ p
        ∧ p ≤ (c.wholeBounds seg slot currShift i).vmax)
      ↔ overlapOnAxis i (seg.getBoundingBBox slot.gid) (seg.getBoundingSlantBox slot.gid)
          (seg.getBoundingBBox c._target.gid) (seg.getBoundingSlantBox c._target.gid)
          (slot.origin.x + currShift.x) (slot.origin.y + currShift.y)
          (c._target.origin.x + c._currShift.x) (c._target.origin.y + c._currShift.y) p)
    ∧ (ownAxisInterval i (seg.getBoundingBBox slot.gid) (seg.getBoundingSlantBox slot.gid)
          (seg.getBoundingBBox c._target.gid) (seg.getBoundingSlantBox c._target.gid)
          (slot.origin.x + currShift.x) (slot.origin.y + currShift.y)).1
        ≤ (c.wholeBounds seg slot currShift i).vmin - c._len i
    ∧ (c.wholeBounds seg slot currShift i).vmax
        ≤ (ownAxisInterval i (seg.getBoundingBBox slot.gid) (seg.getBoundingSlantBox slot.gid)
          (seg.getBoundingBBox c._target.gid) (seg.getBoundingSlantBox c._target.gid)
          (slot.origin.x + currShift.x) (slot.origin.y + currShift.y)).2 := by
  have hlen := (session_len fuel seg c0 aSlot limit margin marginWeight cs co dir ms c hs).2 i hi
  refine ⟨fun x len => ?_, fun p => ?_, ?_⟩
  · rw [mergeBody_marginExclusions c seg slot currShift isAfter sameCluster i hi]
    simp only [ShiftCollider.axisExclusions, hpass, hsub, Bool.false_eq_true, if_false,
      gt_iff_lt, lt_self_iff_false, List.mem_singleton, ShiftCollider.overlapCall,
      ZoneCall.exclude_with_margins.injEq]
    constructor
    · rintro ⟨h1, h2⟩
      exact ⟨h1, by rw [h1, h2]; ring⟩
    · rintro ⟨h1, h2⟩
      exact ⟨h1, by rw [← h2, h1]; ring⟩
  · rw [hlen]
    exact axisBounds_overlap i hi _ _ _ _ _ _ _ _ p
  · rw [hlen]
    exact axisBounds_within_own i hi _ _ _ _ _ _ _ _

/-- C5 (witness): for `slotNear` merged into `colliderAt31`, the region
`exclude_with_margins(-47, 200)` is among those added on the x axis exactly when `-47` and
`153` are the ends `vmin - _len[0]` and `vmax` of the overlap interval. -/
theorem mergeSlot_overlap_interval_witness :
    ZoneCall.exclude_with_margins (-47) 200 ∈ (colliderAt31._ranges 0).newCalls
        ((colliderAt31.mergeBody wideSegment slotNear ⟨0, 0⟩ false false).2._ranges 0)
      ↔ ((-47 : ℚ) = (colliderAt31.wholeBounds wideSegment slotNear ⟨0, 0⟩ 0).vmin
          - colliderAt31._len 0
        ∧ (-47 : ℚ) + 200 = (colliderAt31.wholeBounds wideSegment slotNear ⟨0, 0⟩ 0).vmax) :=
  (mergeSlot_overlap_interval 1 wideSegment freshCollider slotAt31
    ⟨⟨-1000, -1000⟩, ⟨1000, 1000⟩⟩ 0 0 ⟨0, 0⟩ ⟨0, 0⟩ 1 [] colliderAt31 slotNear ⟨0, 0⟩ false false
    0 rfl (by norm_num) rfl (by
      norm_num [ShiftCollider.pruned, ShiftCollider.wholeBounds, ShiftCollider.axisTarget,
        axisBounds, ShiftCollider.targetBounds, colliderAt31, ShiftCollider.initSlot, initLimit,
        wideSegment, wideBBox, wideSlantBox, slotAt31, slotNear])).1 (-47) 200

/-! ## The collision flag of `mergeSlot` and sub-box exclusions -/

theorem mergeSlot_no_exclGlyph (fuel : Nat) (c : ShiftCollider) (seg : Segment) (slot : Slot)
    (currShift : Position) (isAfter sameCluster : Bool)
    (hex : (seg.collisionInfo slot).exclGlyph = 0) :
    c.mergeSlot (fuel + 1) seg slot currShift isAfter sameCluster
      = some (c.mergeBody seg slot currShift isAfter sameCluster) := by
  simp [ShiftCollider.mergeSlot, hex]

theorem axisHit_iff (c : ShiftCollider) (seg : Segment) (slot : Slot) (currShift : Position)
    (i : Nat) :
    c.axisHit seg slot currShift i = true ↔
      (c.pruned (c.wholeBounds seg slot currShift i) (c.axisTarget seg i) = false
        ∧ (seg.numSubBounds slot.gid > 0 → ∃ j, j < seg.numSubBounds slot.gid
          ∧ c.pruned (c.subBounds seg slot currShift i j) (c.axisTarget seg i) = false)) := by
  unfold ShiftCollider.axisHit
  by_cases hn : seg.numSubBounds slot.gid = 0
  · simp [hn]
  · have hpos : seg.numSubBounds slot.gid > 0 := Nat.pos_of_ne_zero hn
    simp [hn, hpos, List.any_eq_true]

/-- C6: for a neighbor whose record names no exclusion glyph, `mergeSlot` returns, and it
returns true exactly when some axis passes the whole-envelope broad-phase test and, if
the neighbor has sub-boxes, some sub-box passes the same test on that axis; with
sub-boxes of which none passes on any axis it returns false. -/
theorem mergeSlot_true_iff (fuel : Nat) (c : ShiftCollider) (seg : Segment) (slot : Slot)
    (currShift : Position) (isAfter sameCluster : Bool)
    (hex : (seg.collisionInfo slot).exclGlyph = 0) :
    ∃ r, c.mergeSlot (fuel + 1) seg slot currShift isAfter sameCluster = some r
      ∧ (r.1 = true ↔ ∃ i, i < 4
          ∧ c.pruned (c.wholeBounds seg slot currShift i) (c.axisTarget seg i) = false
          ∧ (seg.numSubBounds slot.gid > 0 → ∃ j, j < seg.numSubBounds slot.gid
            ∧ c.pruned (c.subBounds seg slot currShift i j) (c.axisTarget seg i) = false))
      ∧ (seg.numSubBounds slot.gid > 0 →
          (∀ i, i < 4 → ∀ j, j < seg.numSubBounds slot.gid →
            c.pruned (c.subBounds seg slot currShift i j) (c.axisTarget seg i) = true) →
          r.1 = false) := by
  refine ⟨_, mergeSlot_no_exclGlyph fuel c seg slot currShift isAfter sameCluster hex, ?_, ?_⟩
  · rw [mergeBody_fst]
    simp only [Bool.or_eq_true, axisHit_iff]
    constructor
    · rintro (((h | h) | h) | h)
      · exact ⟨0, by norm_num, h⟩
      · exact ⟨1, by norm_num, h⟩
      · exact ⟨2, by norm_num, h⟩
      · exact ⟨3, by norm_num, h⟩
    · rintro ⟨i, hi, h⟩
      interval_cases i
      · exact Or.inl (Or.inl (Or.inl h))
      · exact Or.inl (Or.inl (Or.inr h))
      · exact Or.inl (Or.inr h)
      · exact Or.inr h
  · intro hn hall
    rw [mergeBody_fst]
    have hno : ∀ i, i < 4 → c.axisHit seg slot currShift i = false := by
      intro i hi
      rw [← Bool.not_eq_true, axisHit_iff]
      rintro ⟨-, h⟩
      obtain ⟨j, hj, hp⟩ := h hn
      rw [hall i hi j hj] at hp
      exact absurd hp (by simp)
    simp [hno 0 (by norm_num), hno 1 (by norm_num), hno 2 (by norm_num), hno 3 (by norm_num)]

/-- C6 (witness): merging `slotNear` into `colliderAt31` returns. -/
theorem mergeSlot_true_iff_witness :
    ∃ r, colliderAt31.mergeSlot 1 wideSegment slotNear ⟨0, 0⟩ false false = some r
      ∧ (r.1 = true ↔ ∃ i, i < 4
          ∧ colliderAt31.pruned (colliderAt31.wholeBounds wideSegment slotNear ⟨0, 0⟩ i)
            (colliderAt31.axisTarget wideSegment i) = false
          ∧ (wideSegment.numSubBounds slotNear.gid > 0 → ∃ j,
            j < wideSegment.numSubBounds slotNear.gid
            ∧ colliderAt31.pruned (colliderAt31.subBounds wideSegment slotNear ⟨0, 0⟩ i j)
              (colliderAt31.axisTarget wideSegment i) = false))
      ∧ (wideSegment.numSubBounds slotNear.gid > 0 →
          (∀ i, i < 4 → ∀ j, j < wideSegment.numSubBounds slotNear.gid →
            colliderAt31.pruned (colliderAt31.subBounds wideSegment slotNear ⟨0, 0⟩ i j)
              (colliderAt31.axisTarget wideSegment i) = true) →
          r.1 = false) :=
  mergeSlot_true_iff 0 colliderAt31 wideSegment slotNear ⟨0, 0⟩ false false rfl

/-- Shrinking the neighbor's boxes shrinks the candidate interval of every axis. -/
theorem axisBounds_mono (i : Nat) (hi : i < 4) (bb sbb : BBox) (sb ssb : SlantBox) (tbb : BBox)
    (tsb : SlantBox) (sx sy tx ty : ℚ)
    (h : bb.xi ≤ sbb.xi ∧ sbb.xa ≤ bb.xa ∧ bb.yi ≤ sbb.yi ∧ sbb.ya ≤ bb.ya
      ∧ sb.si ≤ ssb.si ∧ ssb.sa ≤ sb.sa ∧ sb.di ≤ ssb.di ∧ ssb.da ≤ sb.da) :
    (axisBounds i bb sb tbb tsb sx sy tx ty).vmin ≤ (axisBounds i sbb ssb tbb tsb sx sy tx ty).vmin
      ∧ (axisBounds i sbb ssb tbb tsb sx sy tx ty).vmax
        ≤ (axisBounds i bb sb tbb tsb sx sy tx ty).vmax := by
  obtain ⟨h1, h2, h3, h4, h5, h6, h7, h8⟩ := h
  interval_cases i <;> simp only [axisBounds] <;> constructor
  all_goals first
    | (apply sub_le_sub_right
       apply max_le_max (max_le_max ?_ ?_) ?_ <;> linarith)
    | (apply sub_le_sub_right
       apply min_le_min (min_le_min ?_ ?_) ?_ <;> linarith)

/-- C7: for a neighbor with sub-boxes, each lying inside the glyph's bounding boxes, every
interval `[vmin_j - _len[i], vmax_j]` that `mergeSlot` excludes for a sub-box on axis `i`
lies inside the interval `[vmin - _len[i], vmax]` of the whole envelope, so their union
does too. -/
theorem mergeSlot_subbox_exclusions_within_whole (c : ShiftCollider) (seg : Segment) (slot : Slot)
    (currShift : Position) (isAfter sameCluster : Bool) (i : Nat) (hi : i < 4)
    (hn : seg.numSubBounds slot.gid > 0)
    (hin : ∀ j, j < seg.numSubBounds slot.gid → seg.subBoxInside slot.gid j)
    (x len : ℚ)
    (hx : ZoneCall.exclude_with_margins x len ∈ (c._ranges i).newCalls
        ((c.mergeBody seg slot currShift isAfter sameCluster).2._ranges i)) :
    (∃ j, j < seg.numSubBounds slot.gid
        ∧ x = (c.subBounds seg slot currShift i j).vmin - c._len i
        ∧ x + len = (c.subBounds seg slot currShift i j).vmax)
      ∧ ∀ p, x ≤ p → p ≤ x + len →
        (c.wholeBounds seg slot currShift i).vmin - c._len i ≤ p
          ∧ p ≤ (c.wholeBounds seg slot currShift i).vmax := by
  rw [mergeBody_marginExclusions c seg slot currShift isAfter sameCluster i hi] at hx
  unfold ShiftCollider.axisExclusions at hx
  split_ifs at hx with hp
  · simp at hx
  · simp only [List.mem_map, List.mem_filter, List.mem_range, ShiftCollider.overlapCall,
      ZoneCall.exclude_with_margins.injEq] at hx
    obtain ⟨j, ⟨hj, -⟩, hxj, hlj⟩ := hx
    have hmono := axisBounds_mono i hi _ _ _ _ (seg.getBoundingBBox c._target.gid)
      (seg.getBoundingSlantBox c._target.gid) (slot.origin.x + currShift.x)
      (slot.origin.y + currShift.y) (c._target.origin.x + c._currShift.x)
      (c._target.origin.y + c._currShift.y) (hin j hj)
    have hsum : x + len = (c.subBounds seg slot currShift i j).vmax := by
      rw [← hxj, ← hlj]; ring
    refine ⟨⟨j, hj, hxj.symm, hsum⟩, fun p hp1 hp2 => ?_⟩
    unfold ShiftCollider.wholeBounds
    unfold ShiftCollider.subBounds at hxj hsum
    constructor
    · linarith [hmono.1]
    · linarith [hmono.2]

/-- C7 (witness): the split glyph of `slotSplit` merged into `colliderSplit`: on the x axis
the exclusion `[-47, 103]` of its left half lies inside `[-47, 153]`. -/
theorem mergeSlot_subbox_exclusions_within_whole_witness :
    (∃ j, j < splitSegment.numSubBounds slotSplit.gid
        ∧ (-47 : ℚ) = (colliderSplit.subBounds splitSegment slotSplit ⟨0, 0⟩ 0 j).vmin
          - colliderSplit._len 0
        ∧ (-47 : ℚ) + 150 = (colliderSplit.subBounds splitSegment slotSplit ⟨0, 0⟩ 0 j).vmax)
      ∧ ∀ p, (-47 : ℚ) ≤ p → p ≤ -47 + 150 →
        (colliderSplit.wholeBounds splitSegment slotSplit ⟨0, 0⟩ 0).vmin - colliderSplit._len 0 ≤ p
          ∧ p ≤ (colliderSplit.wholeBounds splitSegment slotSplit ⟨0, 0⟩ 0).vmax :=
  mergeSlot_subbox_exclusions_within_whole colliderSplit splitSegment slotSplit ⟨0, 0⟩ false false
    0 (by norm_num) (by norm_num [splitSegment, slotSplit])
    (fun j hj => by
      have hj2 : j < 2 := by simpa [splitSegment, slotSplit] using hj
      interval_cases j <;>
        norm_num [Segment.subBoxInside, splitSegment, slotSplit, wideBBox, wideSlantBox])
    (-47) 150
    (by
      rw [mergeBody_marginExclusions _ _ _ _ _ _ 0 (by norm_num)]
      norm_num [ShiftCollider.axisExclusions, ShiftCollider.pruned, ShiftCollider.wholeBounds,
        ShiftCollider.subBounds, ShiftCollider.axisTarget, axisBounds, ShiftCollider.targetBounds,
        ShiftCollider.overlapCall, colliderSplit, ShiftCollider.initSlot, initLimit, initLen,
        splitSegment, wideBBox, wideSlantBox, slotAt31, slotSplit, List.range, List.range.loop,
        List.filter])

/-! ## Symmetry of the collision flag -/

theorem pruned_eq (c : ShiftCollider) (b : AxisBounds) (t : TargetBounds) :
    c.pruned b t = (c.rangeRejects b t || c.perpRejects b t) := by
  simp only [ShiftCollider.pruned, ShiftCollider.rangeRejects, ShiftCollider.perpRejects,
    ← Bool.decide_or, or_assoc]

/-- The perpendicular part of the broad phase is the same in both directions when the two
colliders use the same margin. -/
theorem perpRejects_symm (seg : Segment) (c0A c0B : ShiftCollider) (A B : Slot)
    (limitA limitB : Rect) (margin wtA wtB : ℚ) (shiftA shiftB offA offB : Position)
    (dirA dirB : Int) (i : Nat) (hi : i < 4) :
    (c0A.initSlot seg A limitA margin wtA shiftA offA dirA).perpRejects
        ((c0A.initSlot seg A limitA margin wtA shiftA offA dirA).wholeBounds seg B shiftB i)
        ((c0A.initSlot seg A limitA margin wtA shiftA offA dirA).axisTarget seg i)
      = (c0B.initSlot seg B limitB margin wtB shiftB offB dirB).perpRejects
        ((c0B.initSlot seg B limitB margin wtB shiftB offB dirB).wholeBounds seg A shiftA i)
        ((c0B.initSlot seg B limitB margin wtB shiftB offB dirB).axisTarget seg i) := by
  interval_cases i <;>
    simp only [ShiftCollider.perpRejects, ShiftCollider.wholeBounds, ShiftCollider.axisTarget,
      axisBounds, ShiftCollider.targetBounds, ShiftCollider.initSlot, decide_eq_decide] <;>
    constructor <;> rintro (h | h) <;> first | (left; linarith) | (right; linarith)

/-- C8 (counterexample): glyphs A and B with the same box, no sub-boxes, no exclusion
glyph and no ordering, colliders with the same limit (moves to the left only) and margin:
merging B into A's collider reports a possible collision, merging A into B's does not. -/
theorem mergeSlot_symmetry_counterexample :
    (colliderA.mergeSlot 1 wideSegment slotB ⟨0, 0⟩ false false).map Prod.fst = some true
      ∧ (colliderB.mergeSlot 1 wideSegment slotA ⟨0, 0⟩ false false).map Prod.fst = some false := by
  rw [mergeSlot_no_exclGlyph 0 _ _ _ _ _ _ rfl, mergeSlot_no_exclGlyph 0 _ _ _ _ _ _ rfl]
  simp only [Option.map_some', mergeBody_fst]
  norm_num [ShiftCollider.axisHit, ShiftCollider.pruned, ShiftCollider.wholeBounds,
    ShiftCollider.axisTarget, axisBounds, ShiftCollider.targetBounds, colliderA, colliderB,
    ShiftCollider.initSlot, initLimit, limitLeft, wideSegment, wideBBox, wideSlantBox, slotA,
    slotB]

/-- C8 (amended): for glyphs A and B without sub-boxes and without exclusion glyphs, and
colliders initialised with the same margin, if on every axis neither merge is rejected by
the movement-limit part of the broad phase (`vmax < cmin - margin` or
`vmin > cmax + margin`, which depends on the target's own limit), then merging B into A's
collider and merging A into B's collider both return, with the same boolean. -/
theorem mergeSlot_symmetric_within_limits (fuel : Nat) (seg : Segment)
    (c0A c0B cA cB : ShiftCollider) (A B : Slot) (limitA limitB : Rect) (margin wtA wtB : ℚ)
    (shiftA shiftB offA offB : Position) (dirA dirB : Int)
    (isAfterA sameA isAfterB sameB : Bool)
    (hA : cA = c0A.initSlot seg A limitA margin wtA shiftA offA dirA)
    (hB : cB = c0B.initSlot seg B limitB margin wtB shiftB offB dirB)
    (hsubA : seg.numSubBounds A.gid = 0) (hsubB : seg.numSubBounds B.gid = 0)
    (hexA : (seg.collisionInfo A).exclGlyph = 0) (hexB : (seg.collisionInfo B).exclGlyph = 0)
    (hrA : ∀ i, i < 4 → cA.rangeRejects (cA.wholeBounds seg B shiftB i) (cA.axisTarget seg i)
      = false)
    (hrB : ∀ i, i < 4 → cB.rangeRejects (cB.wholeBounds seg A shiftA i) (cB.axisTarget seg i)
      = false) :
    ∃ rA rB, cA.mergeSlot (fuel + 1) seg B shiftB isAfterA sameA = some rA
      ∧ cB.mergeSlot (fuel + 1) seg A shiftA isAfterB sameB = some rB ∧ rA.1 = rB.1 := by
  refine ⟨_, _, mergeSlot_no_exclGlyph fuel cA seg B shiftB isAfterA sameA hexB,
    mergeSlot_no_exclGlyph fuel cB seg A shiftA isAfterB sameB hexA, ?_⟩
  have hit : ∀ i, i < 4 → cA.axisHit seg B shiftB i = cB.axisHit seg A shiftA i := by
    intro i hi
    have hs := perpRejects_symm seg c0A c0B A B limitA limitB margin wtA wtB shiftA shiftB
      offA offB dirA dirB i hi
    rw [← hA, ← hB] at hs
    simp only [ShiftCollider.axisHit, pruned_eq, hrA i hi, hrB i hi, hsubA, hsubB, hs]
    simp
  rw [mergeBody_fst, mergeBody_fst, hit 0 (by norm_num), hit 1 (by norm_num),
    hit 2 (by norm_num), hit 3 (by norm_num)]

/-- C8 (witness): with limits `[-1000, 1000]` on both sides, merging `slotNear` into the
collider of `slotAt31` and `slotAt31` into the collider of `slotNear` agree. -/
theorem mergeSlot_symmetric_within_limits_witness :
    ∃ rA rB, colliderAt31.mergeSlot 1 wideSegment slotNear ⟨0, 0⟩ false false = some rA
      ∧ colliderNear.mergeSlot 1 wideSegment slotAt31 ⟨0, 0⟩ false false = some rB
      ∧ rA.1 = rB.1 :=
  mergeSlot_symmetric_within_limits 0 wideSegment freshCollider freshCollider colliderAt31
    colliderNear slotAt31 slotNear ⟨⟨-1000, -1000⟩, ⟨1000, 1000⟩⟩ ⟨⟨-1000, -1000⟩, ⟨1000, 1000⟩⟩
    0 0 0 ⟨0, 0⟩ ⟨0, 0⟩ ⟨0, 0⟩ ⟨0, 0⟩ 1 1 false false false false rfl rfl rfl rfl rfl rfl
    (fun i hi => by
      interval_cases i <;>
        norm_num [ShiftCollider.rangeRejects, ShiftCollider.wholeBounds, ShiftCollider.axisTarget,
          axisBounds, ShiftCollider.targetBounds, colliderAt31, ShiftCollider.initSlot, initLimit,
          wideSegment, wideBBox, wideSlantBox, slotAt31, slotNear])
    (fun i hi => by
      interval_cases i <;>
        norm_num [ShiftCollider.rangeRejects, ShiftCollider.wholeBounds, ShiftCollider.axisTarget,
          axisBounds, ShiftCollider.targetBounds, colliderNear, ShiftCollider.initSlot, initLimit,
          wideSegment, wideBBox, wideSlantBox, slotAt31, slotNear])

/-! ## Ordering regions and the hard exclusion of the overlap -/

theorem invertOrder_zero (isAfter : Bool) : invertOrder isAfter 0 = 0 := by
  cases isAfter <;> simp [invertOrder]

theorem enforceOrder_zero (i : Nat) : enforceOrder 0 i = 0 := by
  unfold enforceOrder
  split <;> simp

theorem effectiveOrder_zero (c : ShiftCollider) (seg : Segment) (slot : Slot)
    (isAfter sameCluster : Bool)
    (h : sameCluster = false ∨ c._seqClass = 0 ∨ c._seqClass ≠ (seg.collisionInfo slot).seqClass) :
    c.effectiveOrder seg slot isAfter sameCluster = 0 := by
  have h0 : c.orderFlags (seg.collisionInfo slot) sameCluster = 0 := by
    unfold ShiftCollider.orderFlags
    rw [if_neg]
    rintro ⟨h1, h2, h3⟩
    rcases h with h | h | h
    · rw [h] at h1; exact absurd h1 (by simp)
    · exact h2 h
    · exact h h3
  rw [ShiftCollider.effectiveOrder, h0, invertOrder_zero]

theorem afterOrder_zero (c : ShiftCollider) (seg : Segment) (slot : Slot) (currShift : Position)
    (i : Nat) (z : Zones) : c.afterOrder seg slot currShift 0 i z = z := by
  simp [ShiftCollider.afterOrder, ShiftCollider.orderRegions, enforceOrder_zero]

theorem axisExclusions_margin (c : ShiftCollider) (seg : Segment) (slot : Slot)
    (currShift : Position) (i : Nat) :
    ∀ r ∈ c.axisExclusions seg slot currShift i,
      r = c.overlapCall i (c.wholeBounds seg slot currShift i)
        ∨ ∃ j, j < seg.numSubBounds slot.gid
          ∧ r = c.overlapCall i (c.subBounds seg slot currShift i j) := by
  intro r hr
  unfold ShiftCollider.axisExclusions at hr
  split_ifs at hr
  · simp at hr
  · simp only [List.mem_map, List.mem_filter, List.mem_range] at hr
    obtain ⟨j, ⟨hj, -⟩, rfl⟩ := hr
    exact Or.inr ⟨j, hj, rfl⟩
  · exact Or.inl (by simpa using hr)

/-- A whole `mergeSlot` call adds only `exclude_with_margins` regions when no invocation
of its chain enforces an order. -/
theorem mergeSlot_unordered_chain (seg : Segment) (currShift : Position)
    (isAfter sameCluster : Bool) :
    ∀ (fuel : Nat) (c : ShiftCollider) (slot : Slot) (r : Bool × ShiftCollider),
      c.mergeSlot fuel seg slot currShift isAfter sameCluster = some r →
      (sameCluster = false ∨ c._seqClass = 0
        ∨ (c._seqClass ≠ (seg.collisionInfo slot).seqClass
          ∧ (seg.collisionInfo slot).exclGlyph = 0)) →
      ∀ i, ∃ L, r.2._ranges i = (c._ranges i).extend L
        ∧ ∀ call ∈ L, call.isMarginExclusion = true := by
  intro fuel
  induction fuel with
  | zero => intro c slot r h; simp [ShiftCollider.mergeSlot] at h
  | succ n ih =>
    intro c slot r h hcond i
    have hzero : c.effectiveOrder seg slot isAfter sameCluster = 0 := by
      apply effectiveOrder_zero
      rcases hcond with h1 | h1 | h1
      · exact Or.inl h1
      · exact Or.inr (Or.inl h1)
      · exact Or.inr (Or.inr h1.1)
    have hbody : ∃ L, (c.mergeBody seg slot currShift isAfter sameCluster).2._ranges i
        = (c._ranges i).extend L ∧ ∀ call ∈ L, call.isMarginExclusion = true := by
      by_cases hi : i < 4
      · refine ⟨c.axisExclusions seg slot currShift i, ?_, ?_⟩
        · rw [mergeBody_ranges c seg slot currShift isAfter sameCluster i hi, hzero,
            afterOrder_zero]
        · intro call hc
          rcases axisExclusions_margin c seg slot currShift i call hc with h1 | ⟨j, -, h1⟩ <;>
            rw [h1] <;> rfl
      · exact ⟨[], by simp [ShiftCollider.mergeBody, hi, Zones.extend_nil], by simp⟩
    simp only [ShiftCollider.mergeSlot] at h
    split_ifs at h with hg
    · split at h
      · exact absurd h (by simp)
      · rename_i r2 h2
        have hr : r.2 = r2.2 := by
          have := Option.some.inj h
          rw [← this]
        have hcond2 : sameCluster = false ∨ c._seqClass = 0 := by
          rcases hcond with h1 | h1 | h1
          · exact Or.inl h1
          · exact Or.inr h1
          · omega
        obtain ⟨L, hL, hLm⟩ := hbody
        obtain ⟨M, hM, hMm⟩ := ih _ _ _ h2 (by
          rcases hcond2 with h1 | h1
          · exact Or.inl h1
          · exact Or.inr (Or.inl h1)) i
        refine ⟨L ++ M, ?_, ?_⟩
        · rw [hr, hM]
          show ((c.mergeBody seg slot currShift isAfter sameCluster).2._ranges i).extend M = _
          rw [hL, Zones.extend_extend]
        · intro call hc
          rcases List.mem_append.mp hc with h1 | h1
          · exact hLm call h1
          · exact hMm call h1
    · have := Option.some.inj h
      rw [← this]
      exact hbody

/-- C9: if `sameCluster` is false, or the target's sequence class is 0, or it differs from
the neighbor's, then the invocation's order flags are 0, `enforceOrder` is 0 on every axis
(neither ordering branch, hence no `addBox_slopex`, `addBox_slopey` or `removeBox`, is
run), and every region the invocation adds to a landscape is the `exclude_with_margins` of
the overlap interval of the whole envelope or of a sub-box. The same holds for the whole
call, nested phantom merges included, when `sameCluster` is false or the target's class
is 0 or the neighbor has no exclusion glyph. -/
theorem mergeSlot_without_ordering (c : ShiftCollider) (seg : Segment) (slot : Slot)
    (currShift : Position) (isAfter sameCluster : Bool)
    (h : sameCluster = false ∨ c._seqClass = 0
      ∨ c._seqClass ≠ (seg.collisionInfo slot).seqClass) :
    c.effectiveOrder seg slot isAfter sameCluster = 0
      ∧ (∀ i, enforceOrder (c.effectiveOrder seg slot isAfter sameCluster) i = 0)
      ∧ (∀ i z, c.orderRegions (seg.collisionInfo slot) (seg.getBoundingBBox slot.gid)
          (seg.getBoundingBBox c._target.gid) (slot.origin.x + currShift.x)
          (slot.origin.y + currShift.y) (c.effectiveOrder seg slot isAfter sameCluster) i z = z)
      ∧ (∀ i, i < 4 → ∀ call ∈ (c._ranges i).newCalls
          ((c.mergeBody seg slot currShift isAfter sameCluster).2._ranges i),
          call = c.overlapCall i (c.wholeBounds seg slot currShift i)
            ∨ ∃ j, j < seg.numSubBounds slot.gid
              ∧ call = c.overlapCall i (c.subBounds seg slot currShift i j))
      ∧ (∀ fuel r, c.mergeSlot fuel seg slot currShift isAfter sameCluster = some r →
          (sameCluster = false ∨ c._seqClass = 0 ∨ (seg.collisionInfo slot).exclGlyph = 0) →
          ∀ i, ∀ call ∈ (c._ranges i).newCalls (r.2._ranges i),
            call.isMarginExclusion = true) := by
  have hzero := effectiveOrder_zero c seg slot isAfter sameCluster h
  refine ⟨hzero, fun i => by rw [hzero, enforceOrder_zero], fun i z => ?_, fun i hi call hc => ?_,
    fun fuel r hr hcond i call hc => ?_⟩
  · rw [hzero]; exact afterOrder_zero c seg slot currShift i z
  · rw [mergeBody_ranges c seg slot currShift isAfter sameCluster i hi, hzero, afterOrder_zero,
      Zones.newCalls_extend] at hc
    exact axisExclusions_margin c seg slot currShift i call hc
  · have hcond2 : sameCluster = false ∨ c._seqClass = 0
        ∨ (c._seqClass ≠ (seg.collisionInfo slot).seqClass
          ∧ (seg.collisionInfo slot).exclGlyph = 0) := by
      rcases hcond with h1 | h1 | h1
      · exact Or.inl h1
      · exact Or.inr (Or.inl h1)
      · rcases h with h2 | h2 | h2
        · exact Or.inl h2
        · exact Or.inr (Or.inl h2)
        · exact Or.inr (Or.inr ⟨h2, h1⟩)
    obtain ⟨L, hL, hLm⟩ := mergeSlot_unordered_chain seg currShift isAfter sameCluster fuel c slot
      r hr hcond2 i
    rw [hL, Zones.newCalls_extend] at hc
    exact hLm call hc

/-- C9 (witness): merging `slotNear` into `colliderAt31` with `sameCluster = false`. -/
theorem mergeSlot_without_ordering_witness :
    colliderAt31.effectiveOrder wideSegment slotNear true false = 0 :=
  (mergeSlot_without_ordering colliderAt31 wideSegment slotNear ⟨0, 0⟩ true false
    (Or.inl rfl)).1

/-- C10 (counterexample): target and neighbor share sequence class 1 in the same cluster
and the order `LEFT` is requested, so ordering is enforced on the x axis; yet the merge
passes the whole overlap interval `[vmin - _len[0], vmax] = [-47, 153]` of the x axis to
`exclude_with_margins`, and position `3` of the target is hard-excluded afterwards. -/
theorem mergeSlot_ordered_overlap_counterexample :
    colliderOrdered._seqClass = (orderedSegment.collisionInfo slotNear).seqClass
      ∧ colliderOrdered._seqClass ≠ 0
      ∧ enforceOrder (colliderOrdered.effectiveOrder orderedSegment slotNear false true) 0 = -1
      ∧ colliderOrdered.overlapCall 0 (colliderOrdered.wholeBounds orderedSegment slotNear ⟨0, 0⟩ 0)
          = ZoneCall.exclude_with_margins (-47) 200
      ∧ ZoneCall.exclude_with_margins (-47) 200 ∈ (colliderOrdered._ranges 0).newCalls
          ((colliderOrdered.mergeBody orderedSegment slotNear ⟨0, 0⟩ false true).2._ranges 0)
      ∧ ((colliderOrdered.mergeBody orderedSegment slotNear ⟨0, 0⟩ false true).2._ranges
          0).hardExcluded 3 = true := by
  have hmem : ZoneCall.exclude_with_margins (-47) 200 ∈ (colliderOrdered._ranges 0).newCalls
      ((colliderOrdered.mergeBody orderedSegment slotNear ⟨0, 0⟩ false true).2._ranges 0) := by
    rw [mergeBody_marginExclusions _ _ _ _ _ _ 0 (by norm_num)]
    norm_num [ShiftCollider.axisExclusions, ShiftCollider.pruned, ShiftCollider.wholeBounds,
      ShiftCollider.axisTarget, axisBounds, ShiftCollider.targetBounds, ShiftCollider.overlapCall,
      colliderOrdered, ShiftCollider.initSlot, initLimit, initLen, orderedSegment, wideSegment,
      wideBBox, wideSlantBox, slotAt31, slotNear]
  refine ⟨rfl, by decide, ?_, ?_, hmem, ?_⟩
  · simp [enforceOrder, ShiftCollider.effectiveOrder, invertOrder, ShiftCollider.orderFlags,
      colliderOrdered, ShiftCollider.initSlot, orderedSegment, zeroCollision, COLL_ORDER_LEFT,
      COLL_ORDER_RIGHT]
  · norm_num [ShiftCollider.overlapCall, ShiftCollider.wholeBounds, axisBounds, colliderOrdered,
      ShiftCollider.initSlot, initLen, orderedSegment, wideSegment, wideBBox, wideSlantBox,
      slotAt31, slotNear]
  · have hsub : ZoneCall.exclude_with_margins (-47) 200
        ∈ ((colliderOrdered.mergeBody orderedSegment slotNear ⟨0, 0⟩ false true).2._ranges
          0).calls := List.mem_of_mem_drop hmem
    simp only [Zones.hardExcluded, List.any_eq_true]
    exact ⟨_, hsub, by norm_num [ZoneCall.excludes]⟩

/-- C10 (amended): the hard exclusions of an axis do not depend on the order flags. On
every axis the invocation first lays the ordering regions (at most five, weighted or
plain `exclude`, and only when `enforceOrder` is non-zero) and then adds the same
`exclude_with_margins` regions as without ordering; in particular on an axis where
ordering is enforced, which passes the broad phase, for a neighbor without sub-boxes, the
whole overlap interval `[vmin - _len[i], vmax]` is hard-excluded as well. -/
theorem mergeSlot_ordered_axis_also_excluded (c : ShiftCollider) (seg : Segment) (slot : Slot)
    (currShift : Position) (isAfter sameCluster : Bool) (i : Nat) (hi : i < 4)
    (hord : enforceOrder (c.effectiveOrder seg slot isAfter sameCluster) i ≠ 0) :
    (c.mergeBody seg slot currShift isAfter sameCluster).2._ranges i
        = ((if enforceOrder (c.effectiveOrder seg slot isAfter sameCluster) i > 0 then
              c.orderRegionsPos (seg.collisionInfo slot) (seg.getBoundingBBox slot.gid)
                (seg.getBoundingBBox c._target.gid) (slot.origin.x + currShift.x)
                (slot.origin.y + currShift.y) i (c._ranges i)
            else
              c.orderRegionsNeg (seg.collisionInfo slot) (seg.getBoundingBBox slot.gid)
                (seg.getBoundingBBox c._target.gid) (slot.origin.x + currShift.x)
                (slot.origin.y + currShift.y) i (c._ranges i)).extend
            (c.axisExclusions seg slot currShift i))
      ∧ (∃ L, c.afterOrder seg slot currShift (c.effectiveOrder seg slot isAfter sameCluster) i
            (c._ranges i) = (c._ranges i).extend L
          ∧ L.length ≤ 5 ∧ ∀ r ∈ L, r.isMarginExclusion = false)
      ∧ (seg.numSubBounds slot.gid = 0 →
          c.pruned (c.wholeBounds seg slot currShift i) (c.axisTarget seg i) = false →
          ZoneCall.exclude_with_margins ((c.wholeBounds seg slot currShift i).vmin - c._len i)
              ((c.wholeBounds seg slot currShift i).vmax - (c.wholeBounds seg slot currShift i).vmin
                + c._len i)
            ∈ (c._ranges i).newCalls
              ((c.mergeBody seg slot currShift isAfter sameCluster).2._ranges i)) := by
  refine ⟨?_, ?_, fun hsub hpass => ?_⟩
  · rw [mergeBody_ranges c seg slot currShift isAfter sameCluster i hi]
    unfold ShiftCollider.afterOrder ShiftCollider.orderRegions
    by_cases hpos : enforceOrder (c.effectiveOrder seg slot isAfter sameCluster) i > 0
    · simp [hpos]
    · have hneg : enforceOrder (c.effectiveOrder seg slot isAfter sameCluster) i < 0 := by omega
      simp [hpos, hneg]
  · exact orderRegions_extend c _ _ _ _ _ _ i (c._ranges i)
  · rw [mergeBody_marginExclusions c seg slot currShift isAfter sameCluster i hi]
    simp [ShiftCollider.axisExclusions, hpass, hsub, ShiftCollider.overlapCall]

/-- C10 (witness): on the x axis of `colliderOrdered`, where the order `LEFT` is enforced,
the merge of `slotNear` lays the mirrored ordering regions and then the exclusions of the
axis. -/
theorem mergeSlot_ordered_axis_also_excluded_witness :
    ZoneCall.exclude_with_margins
        ((colliderOrdered.wholeBounds orderedSegment slotNear ⟨0, 0⟩ 0).vmin - colliderOrdered._len 0)
        ((colliderOrdered.wholeBounds orderedSegment slotNear ⟨0, 0⟩ 0).vmax
          - (colliderOrdered.wholeBounds orderedSegment slotNear ⟨0, 0⟩ 0).vmin
          + colliderOrdered._len 0)
      ∈ (colliderOrdered._ranges 0).newCalls
        ((colliderOrdered.mergeBody orderedSegment slotNear ⟨0, 0⟩ false true).2._ranges 0) :=
  (mergeSlot_ordered_axis_also_excluded colliderOrdered orderedSegment slotNear ⟨0, 0⟩ false true
    0 (by norm_num)
    (by
      simp [enforceOrder, ShiftCollider.effectiveOrder, invertOrder, ShiftCollider.orderFlags,
        colliderOrdered, ShiftCollider.initSlot, orderedSegment, zeroCollision, COLL_ORDER_LEFT,
        COLL_ORDER_RIGHT])).2.2 rfl
    (by
      norm_num [ShiftCollider.pruned, ShiftCollider.wholeBounds, ShiftCollider.axisTarget,
        axisBounds, ShiftCollider.targetBounds, colliderOrdered, ShiftCollider.initSlot, initLimit,
        orderedSegment, wideSegment, wideBBox, wideSlantBox, slotAt31, slotNear])

/-! ## The kern collider -/

theorem truncInt_eq (q : ℚ) (z : Int) (h0 : 0 ≤ q) (h1 : (z : ℚ) ≤ q) (h2 : q < z + 1) :
    truncInt q = z := by
  unfold truncInt
  rw [if_pos h0, Int.floor_eq_iff]
  exact ⟨h1, h2⟩

/-- Evaluation of `initSlot` in stages: the vertical extent, the number of bands, then the
band edges. -/
theorem KernCollider.initSlot_of (seg : Segment) (cluster : List Slot) (aSlot : Slot)
    (limit : Rect) (margin marginMin : ℚ) (currShift offsetPrev : Position) (dir : Int)
    (maxy miny : ℚ) (N : Int) (st : List ℚ × ℚ)
    (hext : cluster.foldl (kernExtentStep seg) (-FLOAT_1E38, FLOAT_1E38) = (maxy, miny))
    (hN : truncInt ((maxy - miny + 2) / (if margin < 10 then 10 else margin) + 1) = N)
    (hfold : cluster.foldlM (kernSlotStep seg currShift dir miny maxy N ((maxy - miny + 2) / N))
      (List.replicate N.toNat (if dir % 2 ≠ 0 then FLOAT_1E38 else -FLOAT_1E38),
        if dir % 2 ≠ 0 then FLOAT_1E38 else -FLOAT_1E38) = some st) :
    KernCollider.initSlot seg cluster aSlot limit margin marginMin currShift offsetPrev dir
      = some { _target := aSlot, _limit := limit,
               _margin := if margin < 10 then 10 else margin, _offsetPrev := offsetPrev,
               _currShift := currShift, _miny := miny, _maxy := maxy, _edges := st.1,
               _numSlices := N, _mingap := FLOAT_1E38, _xbound := st.2,
               _othermax := -(if dir % 2 ≠ 0 then FLOAT_1E38 else -FLOAT_1E38) } := by
  simp only [KernCollider.initSlot, hext, hN, hfold]

/-- Evaluation of one cluster slot of `initSlot` once its band range is known. -/
theorem kernSlotStep_of (seg : Segment) (currShift : Position) (dir : Int) (miny maxy : ℚ)
    (N : Int) (sliceWidth : ℚ) (st : List ℚ × ℚ) (s : Slot) (smin smax : Int)
    (hmin : KernCollider.sliceMin miny maxy N
      (s.origin.y + (seg.collisionInfo s).shift.y + (seg.getBoundingBBox s.gid).yi) = smin)
    (hmax : KernCollider.sliceMax miny maxy N
      (s.origin.y + (seg.collisionInfo s).shift.y + (seg.getBoundingBBox s.gid).ya) = smax) :
    kernSlotStep seg currShift dir miny maxy N sliceWidth st s
      = (intRange smin smax).foldlM (kernEdgeStep seg s currShift dir miny sliceWidth
          (s.origin.x + (seg.collisionInfo s).shift.x
            + (if dir % 2 ≠ 0 then (seg.getBoundingBBox s.gid).xi
              else (seg.getBoundingBBox s.gid).xa))) st := by
  simp only [kernSlotStep, hmin, hmax]

theorem kernOneBand_init :
    KernCollider.initSlot kernSegment [kernTarget] kernTarget limitWide 100 0 ⟨0, 0⟩ ⟨0, 0⟩ 1
      = some kernOneBand := by
  have h := KernCollider.initSlot_of kernSegment [kernTarget] kernTarget limitWide 100 0 ⟨0, 0⟩
    ⟨0, 0⟩ 1 50 0 1 ([0], 0)
    (by norm_num [kernExtentStep, kernSegment, kernTarget, wideBBox, zeroCollision, FLOAT_1E38])
    (truncInt_eq _ 1 (by norm_num) (by norm_num) (by norm_num))
    (by
      simp only [List.foldlM, bind, Option.bind]
      rw [kernSlotStep_of _ _ _ _ _ _ _ _ _ 0 0
        (by
          unfold KernCollider.sliceMin
          rw [truncInt_eq _ 0 (by norm_num [kernSegment, kernTarget, wideBBox, zeroCollision])
            (by norm_num [kernSegment, kernTarget, wideBBox, zeroCollision])
            (by norm_num [kernSegment, kernTarget, wideBBox, zeroCollision])]
          rfl)
        (by
          unfold KernCollider.sliceMax
          rw [truncInt_eq _ 1 (by norm_num [kernSegment, kernTarget, wideBBox, zeroCollision])
            (by norm_num [kernSegment, kernTarget, wideBBox, zeroCollision])
            (by norm_num [kernSegment, kernTarget, wideBBox, zeroCollision])]
          rfl)]
      rw [show intRange 0 0 = [0] by decide]
      norm_num [List.foldlM, kernEdgeStep, edgeAt, get_left, kernSegment, kernTarget, wideBBox,
        zeroCollision, FLOAT_1E38])
  rw [h]
  norm_num [kernOneBand, FLOAT_1E38]

/-- One invocation's four-axis loop leaves the phantom slot of the collider untouched. -/
theorem mergeBody_exclSlot (c : ShiftCollider) (seg : Segment) (slot : Slot)
    (currShift : Position) (isAfter sameCluster : Bool) :
    (c.mergeBody seg slot currShift isAfter sameCluster).2.exclSlot = c.exclSlot := rfl

/-- C11: `ShiftCollider::mergeSlot` on a neighbor whose record has `exclGlyph = 0` returns
the result of the neighbor's own envelope (the four-axis loop) and merges no phantom. When
`exclGlyph > 0` it merges, into the collider left by the loop, the phantom slot with glyph
id `exclGlyph` placed at `slot.origin + exclOffset`, with the same `currShift`, `isAfter`
and `sameCluster`, and returns the logical OR of the two results together with the state
left by the phantom merge; when the phantom's own record has no exclusion glyph, two levels
of recursion suffice for the call to return. -/
theorem mergeSlot_exclGlyph_phantom (fuel : Nat) (c : ShiftCollider) (seg : Segment) (slot : Slot)
    (currShift : Position) (isAfter sameCluster : Bool) :
    let body := c.mergeBody seg slot currShift isAfter sameCluster
    let cslot := seg.collisionInfo slot
    let phantom : Slot :=
      { gid := cslot.exclGlyph, origin := slot.origin + cslot.exclOffset,
        index := c.exclSlot.index }
    (cslot.exclGlyph = 0 →
      c.mergeSlot (fuel + 1) seg slot currShift isAfter sameCluster = some body)
    ∧ (cslot.exclGlyph > 0 →
      c.mergeSlot (fuel + 1) seg slot currShift isAfter sameCluster
        = (ShiftCollider.mergeSlot fuel { body.2 with exclSlot := phantom } seg phantom currShift
            isAfter sameCluster).map (fun r2 => (body.1 || r2.1, r2.2)))
    ∧ (cslot.exclGlyph > 0 → (seg.collisionInfo phantom).exclGlyph = 0 →
      c.mergeSlot (fuel + 2) seg slot currShift isAfter sameCluster
        = some (body.1 || (ShiftCollider.mergeBody { body.2 with exclSlot := phantom } seg phantom
            currShift isAfter sameCluster).1,
          (ShiftCollider.mergeBody { body.2 with exclSlot := phantom } seg phantom
            currShift isAfter sameCluster).2)) := by
  intro body cslot phantom
  have hstep : ∀ n, cslot.exclGlyph > 0 →
      c.mergeSlot (n + 1) seg slot currShift isAfter sameCluster
        = (ShiftCollider.mergeSlot n { body.2 with exclSlot := phantom } seg phantom currShift
            isAfter sameCluster).map (fun r2 => (body.1 || r2.1, r2.2)) := by
    intro n h
    have h2 : (seg.collisionInfo slot).exclGlyph > 0 := h
    rw [ShiftCollider.mergeSlot]
    simp only [h2, if_true]
    show (match ShiftCollider.mergeSlot n { body.2 with exclSlot := phantom } seg phantom currShift
        isAfter sameCluster with
      | none => none
      | some r2 => some (body.1 || r2.1, r2.2)) = _
    cases ShiftCollider.mergeSlot n { body.2 with exclSlot := phantom } seg phantom currShift
      isAfter sameCluster <;> rfl
  refine ⟨?_, hstep fuel, ?_⟩
  · intro h
    have h2 : ¬ (seg.collisionInfo slot).exclGlyph > 0 := by
      have : (seg.collisionInfo slot).exclGlyph = 0 := h
      omega
    rw [ShiftCollider.mergeSlot]
    simp only [h2, if_false]
  · intro h hp
    have h2 : ¬ (seg.collisionInfo phantom).exclGlyph > 0 := by omega
    rw [hstep (fuel + 1) h, ShiftCollider.mergeSlot]
    simp only [h2, if_false]
    rfl

/-- C11 (witness): in `exclSegment` the record of `slotNear` names the exclusion glyph `2`
at offset `(10, 0)`; the phantom's own record names none, and the call returns the OR of
the two envelope results. -/
theorem mergeSlot_exclGlyph_phantom_witness :
    (exclSegment.collisionInfo slotNear).exclGlyph > 0
    ∧ colliderAt31.mergeSlot 2 exclSegment slotNear ⟨0, 0⟩ false false
      = some ((colliderAt31.mergeBody exclSegment slotNear ⟨0, 0⟩ false false).1
          || (ShiftCollider.mergeBody
            { (colliderAt31.mergeBody exclSegment slotNear ⟨0, 0⟩ false false).2 with
              exclSlot := { gid := 2, origin := slotNear.origin + ⟨10, 0⟩, index := 0 } }
            exclSegment { gid := 2, origin := slotNear.origin + ⟨10, 0⟩, index := 0 } ⟨0, 0⟩
            false false).1,
        (ShiftCollider.mergeBody
          { (colliderAt31.mergeBody exclSegment slotNear ⟨0, 0⟩ false false).2 with
            exclSlot := { gid := 2, origin := slotNear.origin + ⟨10, 0⟩, index := 0 } }
          exclSegment { gid := 2, origin := slotNear.origin + ⟨10, 0⟩, index := 0 } ⟨0, 0⟩
          false false).2) :=
  ⟨by decide,
    (mergeSlot_exclGlyph_phantom 0 colliderAt31 exclSegment slotNear ⟨0, 0⟩ false false).2.2
      (by decide) rfl⟩

/-- C12: `KernCollider::resolve` returns a displacement with `y = 0` whose `x` is
`needed = (1 - 2 * (dir & 1)) * (_mingap - margin)` clipped to the range
`[_limit.bl.x - _offsetPrev.x, _limit.tr.x - _offsetPrev.x]`: it is `needed` when `needed`
lies in the range, and whenever `_limit.bl.x ≤ _limit.tr.x` it lies within the range. -/
theorem kern_resolve_clipped (k : KernCollider) (dir : Int) (margin : ℚ) :
    (k.resolve dir margin).y = 0
    ∧ (k._limit.bl.x - k._offsetPrev.x ≤ ((1 - 2 * (dir % 2) : Int) : ℚ) * (k._mingap - margin) →
        ((1 - 2 * (dir % 2) : Int) : ℚ) * (k._mingap - margin) ≤ k._limit.tr.x - k._offsetPrev.x →
        (k.resolve dir margin).x = ((1 - 2 * (dir % 2) : Int) : ℚ) * (k._mingap - margin))
    ∧ (k._limit.bl.x ≤ k._limit.tr.x →
        k._limit.bl.x - k._offsetPrev.x ≤ (k.resolve dir margin).x
        ∧ (k.resolve dir margin).x ≤ k._limit.tr.x - k._offsetPrev.x) := by
  refine ⟨rfl, ?_, ?_⟩
  · intro h1 h2
    simp only [KernCollider.resolve]
    rw [max_eq_left h1, min_eq_right h2]
  · intro h
    simp only [KernCollider.resolve]
    refine ⟨le_min (by linarith) (le_max_right _ _), min_le_left _ _⟩

/-- C12 (witness): with `_mingap = 117`, margin `10` and a reversed run the needed kern
`-107` lies within the limits and is returned; the result lies in `[-1000, 1000]`. -/
theorem kern_resolve_clipped_witness :
    ({ kernOneBand with _mingap := 117 }.resolve 1 10).x = -107
    ∧ (-1000 : ℚ) ≤ ({ kernOneBand with _mingap := 117 }.resolve 1 10).x
    ∧ ({ kernOneBand with _mingap := 117 }.resolve 1 10).x ≤ 1000 := by
  have h := kern_resolve_clipped { kernOneBand with _mingap := 117 } 1 10
  have hx := h.2.1 (by norm_num [kernOneBand, limitWide]) (by norm_num [kernOneBand, limitWide])
  have hr := h.2.2 (by norm_num [kernOneBand, limitWide])
  refine ⟨?_, ?_, ?_⟩
  · rw [hx]; norm_num
  · have := hr.1; norm_num [kernOneBand, limitWide] at this ⊢; exact this
  · have := hr.2; norm_num [kernOneBand, limitWide] at this ⊢; exact this

/-- A value in the range of `uint16` is unchanged by the conversion. -/
theorem toUint16_of_range (v : Int) (h0 : 0 ≤ v) (h1 : v < 65536) : (toUint16 v : Int) = v := by
  unfold toUint16
  rw [Int.emod_eq_of_lt h0 h1, Int.toNat_of_nonneg h0]

/-- C18: `SlotCollision::getKern(dir)` returns 0 when the flag `COLL_KERN` (16) is not set
in the record's flags; when it is set it returns the stored shift's x component, negated
if `dir` is odd and unchanged if `dir` is even. The result depends on `dir` only through
its lowest bit. -/
theorem getKern_spec (sc : SlotCollision) (dir : Int) :
    (sc.flags &&& 16 = 0 → sc.getKern dir = 0)
    ∧ (sc.flags &&& 16 ≠ 0 → dir % 2 = 1 → sc.getKern dir = -sc.shift.x)
    ∧ (sc.flags &&& 16 ≠ 0 → dir % 2 = 0 → sc.getKern dir = sc.shift.x)
    ∧ sc.getKern dir = sc.getKern (dir % 2) := by
  refine ⟨?_, ?_, ?_, ?_⟩
  · intro h
    simp [SlotCollision.getKern, COLL_KERN, h]
  · intro h hd
    simp [SlotCollision.getKern, COLL_KERN, h, hd]
  · intro h hd
    simp [SlotCollision.getKern, COLL_KERN, h, hd]
  · simp only [SlotCollision.getKern, Int.emod_emod_of_dvd dir (dvd_refl 2)]

/-- C18 (witness): the record `kernRecord` (flags 17, shift x = 7) gives `-7` for the
reversed direction 3 and `7` for the direction 2; the zero record gives 0. -/
theorem getKern_spec_witness :
    zeroCollision.getKern 3 = 0 ∧ kernRecord.getKern 3 = -7 ∧ kernRecord.getKern 2 = 7 :=
  ⟨(getKern_spec zeroCollision 3).1 (by decide),
    (getKern_spec kernRecord 3).2.1 (by decide) (by decide),
    (getKern_spec kernRecord 2).2.2.1 (by decide) (by decide)⟩

/-- C19: after `SlotCollision::initFromSlot` for a glyph whose collision attributes start
at index `a`, `flags` and `status` both hold attribute `a`; `limit` is the rectangle with
bottom-left `(a+1, a+2)` and top-right `(a+3, a+4)`; `margin` holds `a+5`, `marginWt` `a+6`,
`seqClass` `a+10`, `seqOrder` `a+11`, and `seqAboveXoff`, `seqAboveWt`, `seqBelowXlim`,
`seqBelowWt`, `seqValignHt`, `seqValignWt` hold `a+12 .. a+17` in that order (each stored
as `uint16`, which leaves a value in `[0, 65535]` as it is); `exclGlyph` is 0 and
`exclOffset` is `(0, 0)` whatever the attributes `a+7 .. a+9` are; `shift` and `offset`
are not assigned. -/
theorem initFromSlot_fields (sc : SlotCollision) (glyphAttr : Nat → Nat → Int) (a : Nat)
    (slot : Slot) :
    let r := sc.initFromSlot glyphAttr a slot
    let attr := fun (n : Nat) => toUint16 (glyphAttr slot.gid (a + n))
    r.flags = attr 0 ∧ r.status = attr 0
    ∧ r.limit = ⟨⟨glyphAttr slot.gid (a + 1), glyphAttr slot.gid (a + 2)⟩,
        ⟨glyphAttr slot.gid (a + 3), glyphAttr slot.gid (a + 4)⟩⟩
    ∧ r.margin = attr 5 ∧ r.marginWt = attr 6
    ∧ r.seqClass = attr 10 ∧ r.seqOrder = attr 11
    ∧ r.seqAboveXoff = attr 12 ∧ r.seqAboveWt = attr 13 ∧ r.seqBelowXlim = attr 14
    ∧ r.seqBelowWt = attr 15 ∧ r.seqValignHt = attr 16 ∧ r.seqValignWt = attr 17
    ∧ r.exclGlyph = 0 ∧ r.exclOffset = ⟨0, 0⟩
    ∧ r.shift = sc.shift ∧ r.offset = sc.offset
    ∧ (∀ n, 0 ≤ glyphAttr slot.gid (a + n) → glyphAttr slot.gid (a + n) < 65536 →
        ((attr n : Nat) : Int) = glyphAttr slot.gid (a + n))
    ∧ (∀ glyphAttr2 : Nat → Nat → Int,
        (∀ n, n ≠ a + 7 → n ≠ a + 8 → n ≠ a + 9 → glyphAttr2 slot.gid n = glyphAttr slot.gid n) →
        sc.initFromSlot glyphAttr2 a slot = r) := by
  intro r attr
  refine ⟨rfl, rfl, rfl, rfl, rfl, rfl, rfl, rfl, rfl, rfl, rfl, rfl, rfl, rfl, rfl, rfl, rfl,
    fun n h0 h1 => toUint16_of_range _ h0 h1, ?_⟩
  intro g2 h
  have e : ∀ n, n ≠ 7 → n ≠ 8 → n ≠ 9 → g2 slot.gid (a + n) = glyphAttr slot.gid (a + n) :=
    fun n h7 h8 h9 => h (a + n) (by omega) (by omega) (by omega)
  have e0 : g2 slot.gid a = glyphAttr slot.gid a := h a (by omega) (by omega) (by omega)
  simp only [r, SlotCollision.initFromSlot, e0, e 1 (by decide) (by decide) (by decide),
    e 2 (by decide) (by decide) (by decide), e 3 (by decide) (by decide) (by decide),
    e 4 (by decide) (by decide) (by decide), e 5 (by decide) (by decide) (by decide),
    e 6 (by decide) (by decide) (by decide), e 10 (by decide) (by decide) (by decide),
    e 11 (by decide) (by decide) (by decide), e 12 (by decide) (by decide) (by decide),
    e 13 (by decide) (by decide) (by decide), e 14 (by decide) (by decide) (by decide),
    e 15 (by decide) (by decide) (by decide), e 16 (by decide) (by decide) (by decide),
    e 17 (by decide) (by decide) (by decide)]

/-- C19 (witness): with the attribute table `attrTable` and `a = 0`, glyph 1 gets flags
100, seqClass 110, margin 65535 (attribute 5 is -1), no exclusion glyph and a zero
exclusion offset although the attributes 7 to 9 are 107, 108 and 109. -/
theorem initFromSlot_fields_witness :
    (zeroCollision.initFromSlot attrTable 0 kernTarget).flags = 100
    ∧ (zeroCollision.initFromSlot attrTable 0 kernTarget).seqClass = 110
    ∧ (zeroCollision.initFromSlot attrTable 0 kernTarget).margin = 65535
    ∧ (zeroCollision.initFromSlot attrTable 0 kernTarget).exclGlyph = 0
    ∧ (zeroCollision.initFromSlot attrTable 0 kernTarget).exclOffset = ⟨0, 0⟩
    ∧ attrTable kernTarget.gid 7 = 107 :=
  have h := initFromSlot_fields zeroCollision attrTable 0 kernTarget
  ⟨h.1.trans (by decide), h.2.2.2.2.2.1.trans (by decide), h.2.2.2.1.trans (by decide),
    h.2.2.2.2.2.2.2.2.2.2.2.2.2.1, h.2.2.2.2.2.2.2.2.2.2.2.2.2.2.1, by decide⟩

/-! ## The frame of `resolve` -/

theorem resolveSetup_frame (i : Nat) (v : ShiftResolveVars) :
    (ShiftCollider.resolveSetup i v).self = v.self ∧ (ShiftCollider.resolveSetup i v).seg = v.seg
    ∧ (ShiftCollider.resolveSetup i v).currOffset = v.currOffset
    ∧ (ShiftCollider.resolveSetup i v).bestCost = -1
    ∧ (ShiftCollider.resolveSetup i v).totalCost = v.totalCost
    ∧ (ShiftCollider.resolveSetup i v).resultPos = v.resultPos
    ∧ (ShiftCollider.resolveSetup i v).bestAxis = v.bestAxis
    ∧ (ShiftCollider.resolveSetup i v).isCol = v.isCol := by
  unfold ShiftCollider.resolveSetup
  split <;> exact ⟨rfl, rfl, rfl, rfl, rfl, rfl, rfl, rfl⟩

/-- The arguments line 658 passes to `closest` are those of `resolveQuery`. -/
theorem resolveSetup_query (i : Nat) (hi : i < 4) (v : ShiftResolveVars) :
    ((ShiftCollider.resolveSetup i v).tbase + (ShiftCollider.resolveSetup i v).tval,
      (ShiftCollider.resolveSetup i v).tlen, (ShiftCollider.resolveSetup i v).tbase)
      = v.self.resolveQuery (v.seg.getBoundingBBox v.self._target.gid)
          (v.seg.getBoundingSlantBox v.self._target.gid) v.currOffset i := by
  interval_cases i <;> rfl

theorem resolvePick_frame (i : Nat) (v : ShiftResolveVars) :
    (ShiftCollider.resolvePick i v).self = v.self ∧ (ShiftCollider.resolvePick i v).seg = v.seg
    ∧ (ShiftCollider.resolvePick i v).currOffset = v.currOffset := by
  unfold ShiftCollider.resolvePick
  split_ifs <;> exact ⟨rfl, rfl, rfl⟩

/-- One iteration of the loop of `ShiftCollider::resolve` assigns, of the collider, only
`_ranges[i]`, which becomes the landscape the call of `closest` leaves; the segment is not
assigned. -/
theorem resolveAxis_frame (closest : Zones → ℚ → ℚ → ℚ → (ℚ × ℚ) × Zones)
    (v : ShiftResolveVars) (i : Nat) :
    (ShiftCollider.resolveAxis closest v i).self
        = { v.self with
            _ranges := fun j =>
              if j = i then
                (closest (v.self._ranges i)
                  ((ShiftCollider.resolveSetup i v).tbase + (ShiftCollider.resolveSetup i v).tval)
                  (ShiftCollider.resolveSetup i v).tlen (-1)).2
              else v.self._ranges j }
    ∧ (ShiftCollider.resolveAxis closest v i).seg = v.seg
    ∧ (ShiftCollider.resolveAxis closest v i).currOffset = v.currOffset := by
  obtain ⟨s1, s2, s3, s4, -⟩ := resolveSetup_frame i v
  unfold ShiftCollider.resolveAxis
  obtain ⟨p1, p2, p3⟩ := resolvePick_frame i
    (ShiftCollider.resolveAsk closest i (ShiftCollider.resolveSetup i v))
  rw [p1, p2, p3]
  refine ⟨?_, s2, s3⟩
  simp only [ShiftCollider.resolveAsk, s1, s4]

theorem collider_ranges_self (c : ShiftCollider) (z : Nat → Zones) (h : ∀ j, z j = c._ranges j) :
    { c with _ranges := z } = c := by
  have : z = c._ranges := funext h
  subst this
  rfl

/-- One iteration of the loop of `ShiftCollider::resolve` when `closest` leaves the
landscape as it was: the collider is not changed, and the loop variables are updated as in
`resolveStep`. -/
theorem resolveAxis_query (closest : Zones → ℚ → ℚ → ℚ → (ℚ × ℚ) × Zones)
    (hq : ∀ z a b cost, (closest z a b cost).2 = z) (v : ShiftResolveVars) (i : Nat) (hi : i < 4)
    (hoff : v.currOffset = (v.seg.collisionInfo v.self._target).offset) :
    (ShiftCollider.resolveAxis closest v i).self = v.self
    ∧ (ShiftCollider.resolveAxis closest v i).seg = v.seg
    ∧ (ShiftCollider.resolveAxis closest v i).currOffset = v.currOffset
    ∧ ({ totalCost := (ShiftCollider.resolveAxis closest v i).totalCost
         resultPos := (ShiftCollider.resolveAxis closest v i).resultPos
         bestAxis := (ShiftCollider.resolveAxis closest v i).bestAxis
         isCol := (ShiftCollider.resolveAxis closest v i).isCol } : ResolveState)
      = v.self.resolveStep (fun z a b cost => (closest z a b cost).1) v.seg
          { totalCost := v.totalCost, resultPos := v.resultPos, bestAxis := v.bestAxis,
            isCol := v.isCol } i := by
  obtain ⟨f1, f2, f3⟩ := resolveAxis_frame closest v i
  obtain ⟨s1, s2, s3, s4, s5, s6, s7, s8⟩ := resolveSetup_frame i v
  have hself : (ShiftCollider.resolveAxis closest v i).self = v.self := by
    rw [f1]
    exact collider_ranges_self _ _ (fun j => by
      by_cases hj : j = i
      · simp only [hj, if_true, hq]
      · simp only [hj, if_false])
  refine ⟨hself, f2, f3, ?_⟩
  have hquery := resolveSetup_query i hi v
  rw [hoff] at hquery
  have h1 : (ShiftCollider.resolveSetup i v).tbase + (ShiftCollider.resolveSetup i v).tval
      = (v.self.resolveQuery (v.seg.getBoundingBBox v.self._target.gid)
          (v.seg.getBoundingSlantBox v.self._target.gid)
          (v.seg.collisionInfo v.self._target).offset i).1 := congrArg Prod.fst hquery
  have h2 : (ShiftCollider.resolveSetup i v).tlen
      = (v.self.resolveQuery (v.seg.getBoundingBBox v.self._target.gid)
          (v.seg.getBoundingSlantBox v.self._target.gid)
          (v.seg.collisionInfo v.self._target).offset i).2.1 :=
    congrArg (fun p => p.2.1) hquery
  have h3 : (ShiftCollider.resolveSetup i v).tbase
      = (v.self.resolveQuery (v.seg.getBoundingBBox v.self._target.gid)
          (v.seg.getBoundingSlantBox v.self._target.gid)
          (v.seg.collisionInfo v.self._target).offset i).2.2 :=
    congrArg (fun p => p.2.2) hquery
  have w1 : (ShiftCollider.resolveAsk closest i (ShiftCollider.resolveSetup i v)).bestCost
      = (v.self.axisClosest (fun z a b cost => (closest z a b cost).1) v.seg i).2 := by
    simp only [ShiftCollider.resolveAsk, ShiftCollider.axisClosest, s1, s4, h1, h2]
  have w2 : (ShiftCollider.resolveAsk closest i (ShiftCollider.resolveSetup i v)).bestPos
      = (v.self.axisClosest (fun z a b cost => (closest z a b cost).1) v.seg i).1
        - (v.self.resolveQuery (v.seg.getBoundingBBox v.self._target.gid)
          (v.seg.getBoundingSlantBox v.self._target.gid)
          (v.seg.collisionInfo v.self._target).offset i).2.2 := by
    simp only [ShiftCollider.resolveAsk, ShiftCollider.axisClosest, s1, s4]
    rw [h1, h2, h3]
  have w3 : (ShiftCollider.resolveAsk closest i (ShiftCollider.resolveSetup i v)).totalCost
      = v.totalCost := s5
  have w4 : (ShiftCollider.resolveAsk closest i (ShiftCollider.resolveSetup i v)).resultPos
      = v.resultPos := s6
  have w5 : (ShiftCollider.resolveAsk closest i (ShiftCollider.resolveSetup i v)).bestAxis
      = v.bestAxis := s7
  have w6 : (ShiftCollider.resolveAsk closest i (ShiftCollider.resolveSetup i v)).isCol
      = v.isCol := s8
  have w7 : ∀ p : ℚ,
      (ShiftCollider.resolveAsk closest i (ShiftCollider.resolveSetup i v)).self.testp i p
        = v.self.testp i p := by
    intro p
    have : (ShiftCollider.resolveAsk closest i (ShiftCollider.resolveSetup i v)).self._currShift
        = v.self._currShift := by
      simp only [ShiftCollider.resolveAsk, s1]
    unfold ShiftCollider.testp
    rw [this]
  unfold ShiftCollider.resolveAxis ShiftCollider.resolvePick ShiftCollider.resolveStep
  simp only [w1, w2, w3, w4, w5, w6, w7, ShiftCollider.axisCandidate]
  generalize (v.self.axisClosest (fun z a b cost => (closest z a b cost).1) v.seg i).2 = bc
  split_ifs <;> first | rfl | simp only [w2, w3, w4, w5, w6, w7]

theorem resolveQuery_target (c d : ShiftCollider) (h : c._target = d._target) (bb : BBox)
    (sb : SlantBox) (o : Position) (i : Nat) :
    c.resolveQuery bb sb o i = d.resolveQuery bb sb o i := by
  unfold ShiftCollider.resolveQuery
  rw [h]

/-- The loop of `ShiftCollider::resolve` over a list of axes assigns, of the collider,
only the landscapes of those axes. -/
theorem resolveFold_frame (closest : Zones → ℚ → ℚ → ℚ → (ℚ × ℚ) × Zones) (l : List Nat)
    (v : ShiftResolveVars) :
    { (l.foldl (ShiftCollider.resolveAxis closest) v).self with _ranges := v.self._ranges } = v.self
    ∧ (l.foldl (ShiftCollider.resolveAxis closest) v).seg = v.seg
    ∧ (l.foldl (ShiftCollider.resolveAxis closest) v).currOffset = v.currOffset := by
  induction l generalizing v with
  | nil => exact ⟨rfl, rfl, rfl⟩
  | cons i t ih =>
    obtain ⟨f1, f2, f3⟩ := resolveAxis_frame closest v i
    obtain ⟨g1, g2, g3⟩ := ih (ShiftCollider.resolveAxis closest v i)
    rw [List.foldl_cons, g2, g3, f2, f3]
    refine ⟨?_, rfl, rfl⟩
    have e : ∀ a b : ShiftCollider, { a with _ranges := b._ranges } = b →
        ∀ r, { a with _ranges := r } = { b with _ranges := r } := by
      intro a b hab r
      rw [← hab]
    have h1 := e _ _ g1 v.self._ranges
    rw [h1, f1]

/-- The landscapes the loop of `ShiftCollider::resolve` leaves: that of each axis of the
list is what the one call of `closest` on it leaves, the others are not assigned. -/
theorem resolveFold_ranges (closest : Zones → ℚ → ℚ → ℚ → (ℚ × ℚ) × Zones) (c : ShiftCollider)
    (seg : Segment) (l : List Nat) (hl : ∀ i ∈ l, i < 4) (hnd : l.Nodup) (v : ShiftResolveVars)
    (ht : v.self._target = c._target) (hs : v.seg = seg)
    (ho : v.currOffset = (seg.collisionInfo c._target).offset) (j : Nat) :
    (l.foldl (ShiftCollider.resolveAxis closest) v).self._ranges j
      = if j ∈ l then
          (closest (v.self._ranges j)
            (c.resolveQuery (seg.getBoundingBBox c._target.gid)
              (seg.getBoundingSlantBox c._target.gid) (seg.collisionInfo c._target).offset j).1
            (c.resolveQuery (seg.getBoundingBBox c._target.gid)
              (seg.getBoundingSlantBox c._target.gid) (seg.collisionInfo c._target).offset j).2.1
            (-1)).2
        else v.self._ranges j := by
  induction l generalizing v with
  | nil => simp
  | cons i t ih =>
    obtain ⟨f1, f2, f3⟩ := resolveAxis_frame closest v i
    have hi : i < 4 := hl i (List.mem_cons_self _ _)
    have hit : i ∉ t := (List.nodup_cons.mp hnd).1
    have hq := resolveSetup_query i hi v
    rw [ht, hs, ho, resolveQuery_target v.self c ht] at hq
    have h1 := congrArg Prod.fst hq
    have h2 := congrArg (fun p => p.2.1) hq
    simp only at h1 h2
    have ht2 : (ShiftCollider.resolveAxis closest v i).self._target = c._target := by
      rw [f1]; exact ht
    have hr : ∀ m, (ShiftCollider.resolveAxis closest v i).self._ranges m
        = if m = i then
            (closest (v.self._ranges i)
              (c.resolveQuery (seg.getBoundingBBox c._target.gid)
                (seg.getBoundingSlantBox c._target.gid) (seg.collisionInfo c._target).offset i).1
              (c.resolveQuery (seg.getBoundingBBox c._target.gid)
                (seg.getBoundingSlantBox c._target.gid)
                (seg.collisionInfo c._target).offset i).2.1 (-1)).2
          else v.self._ranges m := by
      intro m
      rw [f1, h1, h2]
    rw [List.foldl_cons, ih (fun m hm => hl m (List.mem_cons_of_mem _ hm)) (List.nodup_cons.mp hnd).2
      _ ht2 (f2.trans hs) (f3.trans ho), hr j]
    by_cases hji : j = i
    · subst hji
      simp [hit]
    · simp [hji]

/-- The loop of `ShiftCollider::resolve` when `closest` leaves the landscape as it was:
the collider is not changed and the loop variables are those of `resolveStep`. -/
theorem resolveFold_query (closest : Zones → ℚ → ℚ → ℚ → (ℚ × ℚ) × Zones)
    (hq : ∀ z a b cost, (closest z a b cost).2 = z) (l : List Nat) (hl : ∀ i ∈ l, i < 4)
    (v : ShiftResolveVars) (hoff : v.currOffset = (v.seg.collisionInfo v.self._target).offset) :
    (l.foldl (ShiftCollider.resolveAxis closest) v).self = v.self
    ∧ (l.foldl (ShiftCollider.resolveAxis closest) v).seg = v.seg
    ∧ ({ totalCost := (l.foldl (ShiftCollider.resolveAxis closest) v).totalCost
         resultPos := (l.foldl (ShiftCollider.resolveAxis closest) v).resultPos
         bestAxis := (l.foldl (ShiftCollider.resolveAxis closest) v).bestAxis
         isCol := (l.foldl (ShiftCollider.resolveAxis closest) v).isCol } : ResolveState)
      = l.foldl (v.self.resolveStep (fun z a b cost => (closest z a b cost).1) v.seg)
          { totalCost := v.totalCost, resultPos := v.resultPos, bestAxis := v.bestAxis,
            isCol := v.isCol } := by
  induction l generalizing v with
  | nil => exact ⟨rfl, rfl, rfl⟩
  | cons i t ih =>
    obtain ⟨a1, a2, a3, a4⟩ := resolveAxis_query closest hq v i (hl i (List.mem_cons_self _ _)) hoff
    have hoff2 : (ShiftCollider.resolveAxis closest v i).currOffset
        = ((ShiftCollider.resolveAxis closest v i).seg.collisionInfo
            (ShiftCollider.resolveAxis closest v i).self._target).offset := by
      rw [a1, a2, a3]; exact hoff
    obtain ⟨b1, b2, b3⟩ := ih (fun m hm => hl m (List.mem_cons_of_mem _ hm)) _ hoff2
    rw [List.foldl_cons, List.foldl_cons, b1, b2, b3, a1, a2, a4]
    exact ⟨rfl, rfl, rfl⟩

/-- A call of `ShiftCollider::resolve` with a `closest` that leaves the landscape as it
was: the collider and the segment are not changed, and the result and `isCol` are those of
`ShiftCollider.resolve`, whatever `isCol` held before the call. -/
theorem resolveRun_query (closest : Zones → ℚ → ℚ → ℚ → (ℚ × ℚ) × Zones)
    (hq : ∀ z a b cost, (closest z a b cost).2 = z) (c : ShiftCollider) (seg : Segment)
    (isCol : Bool) :
    (ShiftCollider.resolveRun closest c seg isCol).2.self = c
    ∧ (ShiftCollider.resolveRun closest c seg isCol).2.seg = seg
    ∧ ((ShiftCollider.resolveRun closest c seg isCol).1,
        (ShiftCollider.resolveRun closest c seg isCol).2.isCol)
      = c.resolve (fun z a b cost => (closest z a b cost).1) seg := by
  obtain ⟨b1, b2, b3⟩ := resolveFold_query closest hq [0, 1, 2, 3] (by decide)
    (ShiftCollider.resolveEnter
      { self := c, seg := seg, isCol := isCol, tlen := 0, tleft := 0, tbase := 0, tval := 0,
        totalCost := 0, resultPos := ⟨0, 0⟩, bestAxis := 0, currOffset := ⟨0, 0⟩, bestCost := 0,
        bestPos := 0, testp := ⟨0, 0⟩ }) rfl
  refine ⟨b1, b2, ?_⟩
  have e1 := congrArg ResolveState.resultPos b3
  have e2 := congrArg ResolveState.isCol b3
  exact Prod.ext e1 e2

/-- C20: a call of `ShiftCollider::resolve` (lines 604-692, statement by statement) writes
no field of the collider other than through the four calls `_ranges[i].closest(...)`, and
does not write the segment: with the landscapes put back the collider is the one before the
call, and landscape `i` is what the call of `closest` on it leaves. When `closest` leaves
the landscape it is called on as it was, the collider after the call is the collider
before, the displacement and `isCol` are those of `ShiftCollider.resolve`, and a second
call on the state the first leaves, with any incoming `isCol`, returns the same
displacement and the same `isCol` and again changes nothing. A call of
`KernCollider::resolve` (lines 1086-1142) leaves the collider (edges, minimum gap, limits),
the segment and the slot as they were and returns `KernCollider.resolve`; a second call
returns the same displacement. -/
theorem resolve_frame (closest : Zones → ℚ → ℚ → ℚ → (ℚ × ℚ) × Zones) (c : ShiftCollider)
    (seg : Segment) (isCol : Bool) (k : KernCollider) (slot : Slot) (dir : Int) (margin : ℚ) :
    ((ShiftCollider.resolveRun closest c seg isCol).2.seg = seg
      ∧ { (ShiftCollider.resolveRun closest c seg isCol).2.self with _ranges := c._ranges } = c
      ∧ ∀ j, (ShiftCollider.resolveRun closest c seg isCol).2.self._ranges j
          = if j < 4 then
              (closest (c._ranges j)
                (c.resolveQuery (seg.getBoundingBBox c._target.gid)
                  (seg.getBoundingSlantBox c._target.gid) (seg.collisionInfo c._target).offset j).1
                (c.resolveQuery (seg.getBoundingBBox c._target.gid)
                  (seg.getBoundingSlantBox c._target.gid)
                  (seg.collisionInfo c._target).offset j).2.1 (-1)).2
            else c._ranges j)
    ∧ ((∀ z a b cost, (closest z a b cost).2 = z) →
        (ShiftCollider.resolveRun closest c seg isCol).2.self = c
        ∧ ((ShiftCollider.resolveRun closest c seg isCol).1,
            (ShiftCollider.resolveRun closest c seg isCol).2.isCol)
          = c.resolve (fun z a b cost => (closest z a b cost).1) seg
        ∧ ∀ isCol2 : Bool,
            ((ShiftCollider.resolveRun closest (ShiftCollider.resolveRun closest c seg isCol).2.self
                (ShiftCollider.resolveRun closest c seg isCol).2.seg isCol2).1,
              (ShiftCollider.resolveRun closest (ShiftCollider.resolveRun closest c seg isCol).2.self
                (ShiftCollider.resolveRun closest c seg isCol).2.seg isCol2).2.isCol)
              = ((ShiftCollider.resolveRun closest c seg isCol).1,
                  (ShiftCollider.resolveRun closest c seg isCol).2.isCol)
            ∧ (ShiftCollider.resolveRun closest (ShiftCollider.resolveRun closest c seg isCol).2.self
                (ShiftCollider.resolveRun closest c seg isCol).2.seg isCol2).2.self = c
            ∧ (ShiftCollider.resolveRun closest (ShiftCollider.resolveRun closest c seg isCol).2.self
                (ShiftCollider.resolveRun closest c seg isCol).2.seg isCol2).2.seg = seg)
    ∧ (KernCollider.resolveRun k seg slot dir margin).2.self = k
    ∧ (KernCollider.resolveRun k seg slot dir margin).2.seg = seg
    ∧ (KernCollider.resolveRun k seg slot dir margin).2.slot = slot
    ∧ (KernCollider.resolveRun k seg slot dir margin).1 = k.resolve dir margin
    ∧ (KernCollider.resolveRun (KernCollider.resolveRun k seg slot dir margin).2.self
        (KernCollider.resolveRun k seg slot dir margin).2.seg
        (KernCollider.resolveRun k seg slot dir margin).2.slot dir margin).1
      = (KernCollider.resolveRun k seg slot dir margin).1 := by
  have hf := resolveFold_frame closest [0, 1, 2, 3]
    (ShiftCollider.resolveEnter
      { self := c, seg := seg, isCol := isCol, tlen := 0, tleft := 0, tbase := 0, tval := 0,
        totalCost := 0, resultPos := ⟨0, 0⟩, bestAxis := 0, currOffset := ⟨0, 0⟩,
        bestCost := 0, bestPos := 0, testp := ⟨0, 0⟩ })
  refine ⟨⟨?_, ?_, ?_⟩, ?_, rfl, rfl, rfl, rfl, rfl⟩
  · exact hf.2.1
  · exact hf.1
  · intro j
    have h := resolveFold_ranges closest c seg [0, 1, 2, 3] (by decide) (by decide)
      (ShiftCollider.resolveEnter
        { self := c, seg := seg, isCol := isCol, tlen := 0, tleft := 0, tbase := 0, tval := 0,
          totalCost := 0, resultPos := ⟨0, 0⟩, bestAxis := 0, currOffset := ⟨0, 0⟩,
          bestCost := 0, bestPos := 0, testp := ⟨0, 0⟩ }) rfl rfl rfl j
    have hm : j ∈ [0, 1, 2, 3] ↔ j < 4 := by
      simp only [List.mem_cons, List.mem_singleton, List.not_mem_nil, or_false]
      omega
    have hc : (if j ∈ [0, 1, 2, 3] then
          (closest (c._ranges j)
            (c.resolveQuery (seg.getBoundingBBox c._target.gid)
              (seg.getBoundingSlantBox c._target.gid) (seg.collisionInfo c._target).offset j).1
            (c.resolveQuery (seg.getBoundingBBox c._target.gid)
              (seg.getBoundingSlantBox c._target.gid)
              (seg.collisionInfo c._target).offset j).2.1 (-1)).2
        else c._ranges j)
        = if j < 4 then
          (closest (c._ranges j)
            (c.resolveQuery (seg.getBoundingBBox c._target.gid)
              (seg.getBoundingSlantBox c._target.gid) (seg.collisionInfo c._target).offset j).1
            (c.resolveQuery (seg.getBoundingBBox c._target.gid)
              (seg.getBoundingSlantBox c._target.gid)
              (seg.collisionInfo c._target).offset j).2.1 (-1)).2
        else c._ranges j := if_congr hm rfl rfl
    exact h.trans hc
  · intro hq
    obtain ⟨r1, r2, r3⟩ := resolveRun_query closest hq c seg isCol
    refine ⟨r1, r3, ?_⟩
    intro isCol2
    rw [r1, r2]
    obtain ⟨t1, t2, t3⟩ := resolveRun_query closest hq c seg isCol2
    exact ⟨t3.trans r3.symm, t1, t2⟩

/-- C20 (witness): with `closestQuery`, which leaves the landscape as it was, a call of
`resolve` on `colliderAt31` leaves the collider unchanged and returns what
`ShiftCollider.resolve` returns, and a second call returns the same. -/
theorem resolve_frame_witness :
    (∀ z a b cost, (closestQuery z a b cost).2 = z)
    ∧ (ShiftCollider.resolveRun closestQuery colliderAt31 wideSegment true).2.self = colliderAt31
    ∧ ((ShiftCollider.resolveRun closestQuery colliderAt31 wideSegment true).1,
        (ShiftCollider.resolveRun closestQuery colliderAt31 wideSegment true).2.isCol)
      = colliderAt31.resolve (fun z a b cost => (closestQuery z a b cost).1) wideSegment
    ∧ ((ShiftCollider.resolveRun closestQuery
          (ShiftCollider.resolveRun closestQuery colliderAt31 wideSegment true).2.self
          (ShiftCollider.resolveRun closestQuery colliderAt31 wideSegment true).2.seg false).1,
        (ShiftCollider.resolveRun closestQuery
          (ShiftCollider.resolveRun closestQuery colliderAt31 wideSegment true).2.self
          (ShiftCollider.resolveRun closestQuery colliderAt31 wideSegment true).2.seg false).2.isCol)
      = ((ShiftCollider.resolveRun closestQuery colliderAt31 wideSegment true).1,
          (ShiftCollider.resolveRun closestQuery colliderAt31 wideSegment true).2.isCol) :=
  ⟨fun _ _ _ _ => rfl,
    ((resolve_frame closestQuery colliderAt31 wideSegment true kernOneBand kernTarget 1 0).2.1
      (fun _ _ _ _ => rfl)).1,
    ((resolve_frame closestQuery colliderAt31 wideSegment true kernOneBand kernTarget 1 0).2.1
      (fun _ _ _ _ => rfl)).2.1,
    (((resolve_frame closestQuery colliderAt31 wideSegment true kernOneBand kernTarget 1 0).2.1
      (fun _ _ _ _ => rfl)).2.2 false).1⟩

theorem mem_intRange (lo hi i : Int) (h : i ∈ intRange lo hi) : lo ≤ i ∧ i ≤ hi := by
  unfold intRange at h
  rw [List.mem_map] at h
  obtain ⟨n, hn, rfl⟩ := h
  rw [List.mem_range] at hn
  omega

theorem intRange_empty (lo hi : Int) (h : hi < lo) : intRange lo hi = [] := by
  unfold intRange
  have h0 : (hi + 1 - lo).toNat = 0 := by omega
  rw [h0]
  rfl

theorem intRange_single (lo : Int) : intRange lo lo = [lo] := by
  unfold intRange
  have h0 : (lo + 1 - lo).toNat = 1 := by omega
  rw [h0]
  simp [List.range_succ]

theorem edgeAt_isSome (v : List ℚ) (i : Int) (h0 : 0 ≤ i) (h1 : i < v.length) :
    ∃ e, edgeAt v i = some e := by
  unfold edgeAt
  rw [if_pos h0]
  have h2 : i.toNat < v.length := by omega
  exact ⟨v[i.toNat], List.getElem?_eq_getElem h2⟩

/-- The gap of a band is defined for every band index of a collider whose `_edges` holds
at least `_numSlices` values. -/
theorem bandGap_isSome (k : KernCollider) (sign m : ℚ) (i : Int)
    (hinv : k._numSlices ≤ k._edges.length) (h0 : 0 ≤ i) (h1 : i ≤ k._numSlices - 1) :
    ∃ t, k.bandGap sign m i = some t := by
  obtain ⟨e, he⟩ := edgeAt_isSome k._edges i h0 (by omega)
  unfold KernCollider.bandGap
  rw [he]
  by_cases hu : i < k._numSlices - 1
  · obtain ⟨e1, he1⟩ := edgeAt_isSome k._edges (i + 1) (by omega) (by omega)
    by_cases hd : i > 0
    · obtain ⟨e2, he2⟩ := edgeAt_isSome k._edges (i - 1) (by omega) (by omega)
      simp [hu, hd, he1, he2]
    · simp [hu, hd, he1]
  · by_cases hd : i > 0
    · obtain ⟨e2, he2⟩ := edgeAt_isSome k._edges (i - 1) (by omega) (by omega)
      simp [hu, hd, he2]
    · simp [hu, hd]

/-- The gap of a band reads only `_edges` and `_numSlices`. -/
theorem bandGap_congr (k1 k2 : KernCollider) (sign m : ℚ) (i : Int)
    (he : k2._edges = k1._edges) (hn : k2._numSlices = k1._numSlices) :
    k2.bandGap sign m i = k1.bandGap sign m i := by
  unfold KernCollider.bandGap
  rw [he, hn]

/-- A loop in the `Option` monad whose every step keeps an invariant returns, with the
invariant. -/
theorem foldlM_option_inv {α β : Type} (f : α → β → Option α) (P : α → Prop) (Q : β → Prop)
    (hstep : ∀ a b, P a → Q b → ∃ a', f a b = some a' ∧ P a') :
    ∀ (l : List β) (a : α), P a → (∀ b ∈ l, Q b) → ∃ a', l.foldlM f a = some a' ∧ P a' := by
  intro l
  induction l with
  | nil => intro a ha _; exact ⟨a, rfl, ha⟩
  | cons b l ih =>
    intro a ha hl
    obtain ⟨a1, h1, hp1⟩ := hstep a b ha (hl b (List.mem_cons_self _ _))
    obtain ⟨a2, h2, hp2⟩ := ih a1 hp1 (fun b' hb' => hl b' (List.mem_cons_of_mem _ hb'))
    exact ⟨a2, by simp [List.foldlM, h1, h2], hp2⟩

theorem sameBands_self (k : KernCollider) : k.SameBands k :=
  ⟨rfl, rfl, rfl, rfl, rfl, rfl, rfl, rfl, rfl, rfl⟩

/-- The invariant of the band loop of `mergeSlot` for a reversed run: only `_mingap` and
`_othermax` have changed, `_mingap` has not grown, and `collides` records whether it was
lowered. -/
theorem mergeStepOdd_inv (k0 : KernCollider) (seg : Segment) (slot : Slot) (currShift : Position)
    (currSpace sliceWidth x : ℚ) (hinv : k0._numSlices ≤ k0._edges.length)
    (st : KernCollider × Bool) (i : Int)
    (hst : k0.SameBands st.1 ∧ st.1._mingap ≤ k0._mingap
      ∧ (st.2 = true ↔ st.1._mingap < k0._mingap))
    (hi : 0 ≤ i ∧ i ≤ k0._numSlices - 1) :
    ∃ st', KernCollider.mergeStepOdd seg slot currShift currSpace sliceWidth x st i = some st'
      ∧ (k0.SameBands st'.1 ∧ st'.1._mingap ≤ k0._mingap
        ∧ (st'.2 = true ↔ st'.1._mingap < k0._mingap)) := by
  obtain ⟨⟨s1, s2, s3, s4, s5, s6, s7, s8, s9, s10⟩, hle, hiff⟩ := hst
  obtain ⟨e, he⟩ := edgeAt_isSome k0._edges i hi.1 (by omega)
  rw [← s8] at he
  have key : ∀ (k1 : KernCollider) (m : ℚ), k1._edges = k0._edges →
      k1._numSlices = k0._numSlices → ∃ t, k1.bandGap 1 m i = some t := by
    intro k1 m h1 h2
    rw [bandGap_congr k0 k1 1 m i h1 h2]
    exact bandGap_isSome k0 1 m i hinv hi.1 hi.2
  simp only [KernCollider.mergeStepOdd, he]
  split_ifs with hx ho
  · split
    · rename_i hnone
      obtain ⟨t, ht⟩ := key _ _ s8 s9
      exact absurd (hnone.symm.trans ht) (by simp)
    · rename_i t ht
      split_ifs with hlt
      · refine ⟨_, rfl, ⟨s1, s2, s3, s4, s5, s6, s7, s8, s9, s10⟩, ?_, ?_⟩
        · exact le_of_lt (lt_of_lt_of_le hlt hle)
        · simp only [true_iff]
          exact lt_of_lt_of_le hlt hle
      · exact ⟨_, rfl, ⟨s1, s2, s3, s4, s5, s6, s7, s8, s9, s10⟩, hle, hiff⟩
  · split
    · rename_i hnone
      obtain ⟨t, ht⟩ := key _ _ s8 s9
      exact absurd (hnone.symm.trans ht) (by simp)
    · rename_i t ht
      split_ifs with hlt
      · refine ⟨_, rfl, ⟨s1, s2, s3, s4, s5, s6, s7, s8, s9, s10⟩, ?_, ?_⟩
        · exact le_of_lt (lt_of_lt_of_le hlt hle)
        · simp only [true_iff]
          exact lt_of_lt_of_le hlt hle
      · exact ⟨_, rfl, ⟨s1, s2, s3, s4, s5, s6, s7, s8, s9, s10⟩, hle, hiff⟩
  · exact ⟨_, rfl, ⟨s1, s2, s3, s4, s5, s6, s7, s8, s9, s10⟩, hle, hiff⟩

/-- The invariant of the band loop of `mergeSlot` for a run that is not reversed: only `_mingap` and
`_othermax` have changed, `_mingap` has not grown, and `collides` records whether it was
lowered. -/
theorem mergeStepEven_inv (k0 : KernCollider) (seg : Segment) (slot : Slot) (currShift : Position)
    (currSpace sliceWidth x : ℚ) (hinv : k0._numSlices ≤ k0._edges.length)
    (st : KernCollider × Bool) (i : Int)
    (hst : k0.SameBands st.1 ∧ st.1._mingap ≤ k0._mingap
      ∧ (st.2 = true ↔ st.1._mingap < k0._mingap))
    (hi : 0 ≤ i ∧ i ≤ k0._numSlices - 1) :
    ∃ st', KernCollider.mergeStepEven seg slot currShift currSpace sliceWidth x st i = some st'
      ∧ (k0.SameBands st'.1 ∧ st'.1._mingap ≤ k0._mingap
        ∧ (st'.2 = true ↔ st'.1._mingap < k0._mingap)) := by
  obtain ⟨⟨s1, s2, s3, s4, s5, s6, s7, s8, s9, s10⟩, hle, hiff⟩ := hst
  obtain ⟨e, he⟩ := edgeAt_isSome k0._edges i hi.1 (by omega)
  rw [← s8] at he
  have key : ∀ (k1 : KernCollider) (m : ℚ), k1._edges = k0._edges →
      k1._numSlices = k0._numSlices → ∃ t, k1.bandGap (-1) m i = some t := by
    intro k1 m h1 h2
    rw [bandGap_congr k0 k1 (-1) m i h1 h2]
    exact bandGap_isSome k0 (-1) m i hinv hi.1 hi.2
  simp only [KernCollider.mergeStepEven, he]
  split_ifs with hx ho
  · split
    · rename_i hnone
      obtain ⟨t, ht⟩ := key _ _ s8 s9
      exact absurd (hnone.symm.trans ht) (by simp)
    · rename_i t ht
      split_ifs with hlt
      · refine ⟨_, rfl, ⟨s1, s2, s3, s4, s5, s6, s7, s8, s9, s10⟩, ?_, ?_⟩
        · exact le_of_lt (lt_of_lt_of_le hlt hle)
        · simp only [true_iff]
          exact lt_of_lt_of_le hlt hle
      · exact ⟨_, rfl, ⟨s1, s2, s3, s4, s5, s6, s7, s8, s9, s10⟩, hle, hiff⟩
  · split
    · rename_i hnone
      obtain ⟨t, ht⟩ := key _ _ s8 s9
      exact absurd (hnone.symm.trans ht) (by simp)
    · rename_i t ht
      split_ifs with hlt
      · refine ⟨_, rfl, ⟨s1, s2, s3, s4, s5, s6, s7, s8, s9, s10⟩, ?_, ?_⟩
        · exact le_of_lt (lt_of_lt_of_le hlt hle)
        · simp only [true_iff]
          exact lt_of_lt_of_le hlt hle
      · exact ⟨_, rfl, ⟨s1, s2, s3, s4, s5, s6, s7, s8, s9, s10⟩, hle, hiff⟩
  · exact ⟨_, rfl, ⟨s1, s2, s3, s4, s5, s6, s7, s8, s9, s10⟩, hle, hiff⟩

/-- Whatever the run direction, `mergeSlot` returns for a collider whose `_edges` holds at
least `_numSlices` values; it changes only `_mingap` and `_othermax`, never raises
`_mingap`, and returns whether it lowered it. -/
theorem kern_mergeSlot_inv (k : KernCollider) (seg : Segment) (bbox : Nat → Rect) (slot : Slot)
    (currShift : Position) (currSpace : ℚ) (dir : Int)
    (hinv : k._numSlices ≤ k._edges.length) :
    ∃ r, k.mergeSlot seg bbox slot currShift currSpace dir = some r
      ∧ k.SameBands r.2 ∧ r.2._mingap ≤ k._mingap ∧ (r.1 = true ↔ r.2._mingap < k._mingap) := by
  have hbase : k.SameBands k ∧ k._mingap ≤ k._mingap ∧ (false = true ↔ k._mingap < k._mingap) :=
    ⟨sameBands_self k, le_refl _, by simp⟩
  unfold KernCollider.mergeSlot
  simp only
  split_ifs with hd hr hr
  · exact ⟨_, rfl, hbase⟩
  · obtain ⟨st, h1, h2⟩ := foldlM_option_inv
      (KernCollider.mergeStepOdd seg slot currShift currSpace
        ((k._maxy - k._miny + 2) / k._numSlices) (slot.origin.x + currShift.x + (bbox slot.gid).tr.x))
      (fun st => k.SameBands st.1 ∧ st.1._mingap ≤ k._mingap
        ∧ (st.2 = true ↔ st.1._mingap < k._mingap))
      (fun i => 0 ≤ i ∧ i ≤ k._numSlices - 1)
      (fun st i hst hi => mergeStepOdd_inv k seg slot currShift currSpace _ _ hinv st i hst hi)
      (intRange (KernCollider.sliceMin k._miny k._maxy k._numSlices
          (slot.origin.y + currShift.y + (bbox slot.gid).bl.y))
        (KernCollider.sliceMax k._miny k._maxy k._numSlices
          (slot.origin.y + currShift.y + (bbox slot.gid).tr.y)))
      (k, false) hbase
      (fun i hi => by
        have := mem_intRange _ _ _ hi
        unfold KernCollider.sliceMin KernCollider.sliceMax at this
        exact ⟨le_trans (le_max_left _ _) this.1, le_trans this.2 (min_le_left _ _)⟩)
    rw [h1]
    exact ⟨_, rfl, h2⟩
  · exact ⟨_, rfl, hbase⟩
  · obtain ⟨st, h1, h2⟩ := foldlM_option_inv
      (KernCollider.mergeStepEven seg slot currShift currSpace
        ((k._maxy - k._miny + 2) / k._numSlices) (slot.origin.x + currShift.x + (bbox slot.gid).bl.x))
      (fun st => k.SameBands st.1 ∧ st.1._mingap ≤ k._mingap
        ∧ (st.2 = true ↔ st.1._mingap < k._mingap))
      (fun i => 0 ≤ i ∧ i ≤ k._numSlices - 1)
      (fun st i hst hi => mergeStepEven_inv k seg slot currShift currSpace _ _ hinv st i hst hi)
      (intRange (KernCollider.sliceMin k._miny k._maxy k._numSlices
          (slot.origin.y + currShift.y + (bbox slot.gid).bl.y))
        (KernCollider.sliceMax k._miny k._maxy k._numSlices
          (slot.origin.y + currShift.y + (bbox slot.gid).tr.y) - 1))
      (k, false) hbase
      (fun i hi => by
        have := mem_intRange _ _ _ hi
        unfold KernCollider.sliceMin KernCollider.sliceMax at this
        have h3 := min_le_left (k._numSlices - 1) (truncInt
          ((slot.origin.y + currShift.y + (bbox slot.gid).tr.y - k._miny + 1)
            / (k._maxy - k._miny + 2) * k._numSlices + 1))
        exact ⟨le_trans (le_max_left _ _) this.1, by omega⟩)
    rw [h1]
    exact ⟨_, rfl, h2⟩

/-- A loop in the `Option` monad keeps every property its steps keep. -/
theorem foldlM_option_preserves {α β : Type} (f : α → β → Option α) (P : α → Prop)
    (hstep : ∀ a b a', P a → f a b = some a' → P a') :
    ∀ (l : List β) (a a' : α), P a → l.foldlM f a = some a' → P a' := by
  intro l
  induction l with
  | nil =>
    intro a a' ha h
    simp only [List.foldlM, pure, Option.some.injEq] at h
    exact h ▸ ha
  | cons b l ih =>
    intro a a' ha h
    simp only [List.foldlM, bind, Option.bind] at h
    split at h
    · exact absurd h (by simp)
    · rename_i a1 h1
      exact ih a1 a' (hstep a b a1 ha h1) h

theorem kernEdgeStep_length (seg : Segment) (s : Slot) (currShift : Position) (dir : Int)
    (miny sliceWidth x : ℚ) (st st' : List ℚ × ℚ) (i : Int)
    (h : kernEdgeStep seg s currShift dir miny sliceWidth x st i = some st') :
    st'.1.length = st.1.length := by
  unfold kernEdgeStep at h
  split at h
  · exact absurd h (by simp)
  · simp only at h
    split_ifs at h <;> simp only [Option.some.injEq] at h <;> rw [← h] <;> simp

/-- The state `initSlot` produces: `_edges` holds `_numSlices` values or more, `_mingap` is
the sentinel, and the limit and the previous offset are the arguments. -/
theorem kern_initSlot_inv (seg : Segment) (cluster : List Slot) (aSlot : Slot) (limit : Rect)
    (margin marginMin : ℚ) (currShift offsetPrev : Position) (dir : Int) (k : KernCollider)
    (h : KernCollider.initSlot seg cluster aSlot limit margin marginMin currShift offsetPrev dir
      = some k) :
    k._numSlices ≤ k._edges.length ∧ k._mingap = FLOAT_1E38 ∧ k._limit = limit
      ∧ k._offsetPrev = offsetPrev := by
  unfold KernCollider.initSlot at h
  simp only at h
  split at h
  · exact absurd h (by simp)
  · rename_i st hst
    simp only [Option.some.injEq] at h
    subst h
    refine ⟨?_, rfl, rfl, rfl⟩
    have hlen := foldlM_option_preserves _ (fun (a : List ℚ × ℚ) => a.1.length =
        (truncInt (((cluster.foldl (kernExtentStep seg) (-FLOAT_1E38, FLOAT_1E38)).1
          - (cluster.foldl (kernExtentStep seg) (-FLOAT_1E38, FLOAT_1E38)).2 + 2)
          / (if margin < 10 then 10 else margin) + 1)).toNat)
      (fun a s a' ha hs => by
        unfold kernSlotStep at hs
        exact foldlM_option_preserves _ (fun (b : List ℚ × ℚ) => b.1.length = _)
          (fun b i b' hb hi => (kernEdgeStep_length _ _ _ _ _ _ _ _ _ _ hi).trans hb)
          _ _ _ ha hs)
      cluster _ st (by simp) hst
    simp only at hlen ⊢
    rw [hlen]
    omega

/-- C13: `KernCollider::mergeSlot` (on a collider as `initSlot` leaves it: `_edges` holds
a value for each of the `_numSlices` bands) returns, and it returns true if and only if
the call strictly lowered the running minimum gap `_mingap`; in every case `_mingap` after
the call is at most `_mingap` before it. -/
theorem kern_mergeSlot_true_iff_lowered (k : KernCollider) (seg : Segment) (bbox : Nat → Rect)
    (slot : Slot) (currShift : Position) (currSpace : ℚ) (dir : Int)
    (hinv : k._numSlices ≤ k._edges.length) :
    ∃ r, k.mergeSlot seg bbox slot currShift currSpace dir = some r
      ∧ (r.1 = true ↔ r.2._mingap < k._mingap) ∧ r.2._mingap ≤ k._mingap := by
  obtain ⟨r, h1, -, h3, h4⟩ := kern_mergeSlot_inv k seg bbox slot currShift currSpace dir hinv
  exact ⟨r, h1, h4, h3⟩

theorem truncInt_neg_eq (q : ℚ) (z : Int) (h0 : q < 0) (h1 : (z : ℚ) - 1 < q) (h2 : q ≤ z) :
    truncInt q = z := by
  unfold truncInt
  rw [if_neg (not_le.mpr h0), Int.ceil_eq_iff]
  exact ⟨h1, h2⟩

/-- Evaluation of `mergeSlot` for a reversed run once the band range, the band height and
the neighbor's right edge are known and the neighbor is not rejected by the bound test. -/
theorem kern_mergeSlot_odd_of (k : KernCollider) (seg : Segment) (bbox : Nat → Rect) (slot : Slot)
    (currShift : Position) (currSpace : ℚ) (dir : Int) (smin smax : Int) (sw x : ℚ)
    (hd : dir % 2 ≠ 0)
    (hx : slot.origin.x + currShift.x + (bbox slot.gid).tr.x = x)
    (hsw : (k._maxy - k._miny + 2) / k._numSlices = sw)
    (hrej : ¬ x < k._xbound - k._mingap)
    (hmin : KernCollider.sliceMin k._miny k._maxy k._numSlices
      (slot.origin.y + currShift.y + (bbox slot.gid).bl.y) = smin)
    (hmax : KernCollider.sliceMax k._miny k._maxy k._numSlices
      (slot.origin.y + currShift.y + (bbox slot.gid).tr.y) = smax) :
    k.mergeSlot seg bbox slot currShift currSpace dir
      = ((intRange smin smax).foldlM
          (KernCollider.mergeStepOdd seg slot currShift currSpace sw x) (k, false)).map
          (fun st => (st.2, st.1)) := by
  simp only [KernCollider.mergeSlot, hd, hx, hsw, hrej, hmin, hmax, if_true, if_false, ne_eq,
    not_false_eq_true]

theorem kernOneBand_slices :
    KernCollider.sliceMin 0 50 1 0 = 0 ∧ KernCollider.sliceMax 0 50 1 50 = 0 := by
  constructor
  · unfold KernCollider.sliceMin
    rw [truncInt_eq _ 0 (by norm_num) (by norm_num) (by norm_num)]
    rfl
  · unfold KernCollider.sliceMax
    rw [truncInt_eq _ 1 (by norm_num) (by norm_num) (by norm_num)]
    rfl

theorem kernTwoBands_slices :
    KernCollider.sliceMin 0 50 2 0 = 0 ∧ KernCollider.sliceMax 0 50 2 50 = 1 := by
  constructor
  · unfold KernCollider.sliceMin
    rw [truncInt_eq _ 0 (by norm_num) (by norm_num) (by norm_num)]
    rfl
  · unfold KernCollider.sliceMax
    rw [truncInt_eq _ 2 (by norm_num) (by norm_num) (by norm_num)]
    rfl

theorem kernTwoBands_init :
    KernCollider.initSlot kernSegment [kernTarget] kernTarget limitWide 40 0 ⟨0, 0⟩ ⟨0, 0⟩ 1
      = some kernTwoBands := by
  have h := KernCollider.initSlot_of kernSegment [kernTarget] kernTarget limitWide 40 0 ⟨0, 0⟩
    ⟨0, 0⟩ 1 50 0 2 ([0, 0], 0)
    (by norm_num [kernExtentStep, kernSegment, kernTarget, wideBBox, zeroCollision, FLOAT_1E38])
    (truncInt_eq _ 2 (by norm_num) (by norm_num) (by norm_num))
    (by
      simp only [List.foldlM, bind, Option.bind]
      rw [kernSlotStep_of _ _ _ _ _ _ _ _ _ 0 1
        (by
          have := kernTwoBands_slices.1
          norm_num [kernSegment, kernTarget, wideBBox, zeroCollision] at this ⊢
          exact this)
        (by
          have := kernTwoBands_slices.2
          norm_num [kernSegment, kernTarget, wideBBox, zeroCollision] at this ⊢
          exact this)]
      rw [show intRange 0 1 = [0, 1] by decide, show Int.toNat 2 = 2 by decide]
      norm_num [List.foldlM, kernEdgeStep, edgeAt, get_left, kernSegment, kernTarget, wideBBox,
        zeroCollision, FLOAT_1E38, List.replicate])
  rw [h]
  norm_num [kernTwoBands, FLOAT_1E38]

/-- The session of `kernOneBand` with the neighbor `kernNeighbor` and extra spacing 0: the
gap found is 117. -/
theorem kernOneBand_merge_0 :
    kernOneBand.mergeSlot kernSegment wideGlyphBox kernNeighbor ⟨0, 0⟩ 0 1
      = some (true, { kernOneBand with _mingap := 117, _othermax := -117 }) := by
  rw [kern_mergeSlot_odd_of kernOneBand kernSegment wideGlyphBox kernNeighbor ⟨0, 0⟩ 0 1 0 0
    52 (-100) (by decide) (by norm_num [kernNeighbor, wideGlyphBox])
    (by norm_num [kernOneBand])
    (by norm_num [kernOneBand, FLOAT_1E38])
    (by
      have := kernOneBand_slices.1
      norm_num [kernOneBand, kernNeighbor, wideGlyphBox] at this ⊢
      exact this)
    (by
      have := kernOneBand_slices.2
      norm_num [kernOneBand, kernNeighbor, wideGlyphBox] at this ⊢
      exact this)]
  rw [intRange_single]
  norm_num [List.foldlM, KernCollider.mergeStepOdd, KernCollider.bandGap, edgeAt, get_right,
    kernSegment, kernNeighbor, kernOneBand, wideBBox, FLOAT_1E38]

/-- The session of `kernOneBand` with the neighbor `kernNeighbor` and extra spacing 50: the
gap found is 67. -/
theorem kernOneBand_merge_50 :
    kernOneBand.mergeSlot kernSegment wideGlyphBox kernNeighbor ⟨0, 0⟩ 50 1
      = some (true, { kernOneBand with _mingap := 67, _othermax := -67 }) := by
  rw [kern_mergeSlot_odd_of kernOneBand kernSegment wideGlyphBox kernNeighbor ⟨0, 0⟩ 50 1 0 0
    52 (-100) (by decide) (by norm_num [kernNeighbor, wideGlyphBox])
    (by norm_num [kernOneBand])
    (by norm_num [kernOneBand, FLOAT_1E38])
    (by
      have := kernOneBand_slices.1
      norm_num [kernOneBand, kernNeighbor, wideGlyphBox] at this ⊢
      exact this)
    (by
      have := kernOneBand_slices.2
      norm_num [kernOneBand, kernNeighbor, wideGlyphBox] at this ⊢
      exact this)]
  rw [intRange_single]
  norm_num [List.foldlM, KernCollider.mergeStepOdd, KernCollider.bandGap, edgeAt, get_right,
    kernSegment, kernNeighbor, kernOneBand, wideBBox, FLOAT_1E38]

/-- The session of `kernTwoBands` with the neighbor `kernNeighbor` and extra spacing 29:
the lower band leaves a gap of 101, the upper band is examined and lowers it to 75. -/
theorem kernTwoBands_merge_29 :
    kernTwoBands.mergeSlot kernSegment wideGlyphBox kernNeighbor ⟨0, 0⟩ 29 1
      = some (true, { kernTwoBands with _mingap := 75, _othermax := -75 }) := by
  rw [kern_mergeSlot_odd_of kernTwoBands kernSegment wideGlyphBox kernNeighbor ⟨0, 0⟩ 29 1 0 1
    26 (-100) (by decide) (by norm_num [kernNeighbor, wideGlyphBox])
    (by norm_num [kernTwoBands])
    (by norm_num [kernTwoBands, FLOAT_1E38])
    (by
      have := kernTwoBands_slices.1
      norm_num [kernTwoBands, kernNeighbor, wideGlyphBox] at this ⊢
      exact this)
    (by
      have := kernTwoBands_slices.2
      norm_num [kernTwoBands, kernNeighbor, wideGlyphBox] at this ⊢
      exact this)]
  have h0 : KernCollider.mergeStepOdd kernSegment kernNeighbor ⟨0, 0⟩ 29 26 (-100)
      (kernTwoBands, false) 0
      = some ({ kernTwoBands with _mingap := 101, _othermax := -101 }, true) := by
    norm_num [KernCollider.mergeStepOdd, KernCollider.bandGap, edgeAt, get_right,
      kernSegment, kernNeighbor, kernTwoBands, wideBBox, FLOAT_1E38]
  have h1 : KernCollider.mergeStepOdd kernSegment kernNeighbor ⟨0, 0⟩ 29 26 (-100)
      ({ kernTwoBands with _mingap := 101, _othermax := -101 }, true) 1
      = some ({ kernTwoBands with _mingap := 75, _othermax := -75 }, true) := by
    norm_num [KernCollider.mergeStepOdd, KernCollider.bandGap, edgeAt, get_right,
      kernSegment, kernNeighbor, kernTwoBands, wideBBox, FLOAT_1E38]
  rw [show intRange 0 1 = [0, 1] by decide]
  simp only [List.foldlM, bind, Option.bind, h0, h1, pure, Option.map]

/-- The session of `kernTwoBands` with the neighbor `kernNeighbor` and extra spacing 30:
the lower band leaves a gap of 100 and the upper band is skipped. -/
theorem kernTwoBands_merge_30 :
    kernTwoBands.mergeSlot kernSegment wideGlyphBox kernNeighbor ⟨0, 0⟩ 30 1
      = some (true, { kernTwoBands with _mingap := 100, _othermax := -100 }) := by
  rw [kern_mergeSlot_odd_of kernTwoBands kernSegment wideGlyphBox kernNeighbor ⟨0, 0⟩ 30 1 0 1
    26 (-100) (by decide) (by norm_num [kernNeighbor, wideGlyphBox])
    (by norm_num [kernTwoBands])
    (by norm_num [kernTwoBands, FLOAT_1E38])
    (by
      have := kernTwoBands_slices.1
      norm_num [kernTwoBands, kernNeighbor, wideGlyphBox] at this ⊢
      exact this)
    (by
      have := kernTwoBands_slices.2
      norm_num [kernTwoBands, kernNeighbor, wideGlyphBox] at this ⊢
      exact this)]
  have h0 : KernCollider.mergeStepOdd kernSegment kernNeighbor ⟨0, 0⟩ 30 26 (-100)
      (kernTwoBands, false) 0
      = some ({ kernTwoBands with _mingap := 100, _othermax := -100 }, true) := by
    norm_num [KernCollider.mergeStepOdd, KernCollider.bandGap, edgeAt, get_right,
      kernSegment, kernNeighbor, kernTwoBands, wideBBox, FLOAT_1E38]
  have h1 : KernCollider.mergeStepOdd kernSegment kernNeighbor ⟨0, 0⟩ 30 26 (-100)
      ({ kernTwoBands with _mingap := 100, _othermax := -100 }, true) 1
      = some ({ kernTwoBands with _mingap := 100, _othermax := -100 }, true) := by
    norm_num [KernCollider.mergeStepOdd, KernCollider.bandGap, edgeAt, get_right,
      kernSegment, kernNeighbor, kernTwoBands, wideBBox, FLOAT_1E38]
  rw [show intRange 0 1 = [0, 1] by decide]
  simp only [List.foldlM, bind, Option.bind, h0, h1, pure, Option.map]

theorem kernOneBand_slices_below :
    KernCollider.sliceMin 0 50 1 (-60) = 0 ∧ KernCollider.sliceMax 0 50 1 (-10) = 0 := by
  constructor
  · unfold KernCollider.sliceMin
    rw [truncInt_neg_eq _ (-1) (by norm_num) (by norm_num) (by norm_num)]
    rfl
  · unfold KernCollider.sliceMax
    rw [truncInt_eq _ 0 (by norm_num) (by norm_num) (by norm_num)]
    rfl

/-- The session of `kernOneBand` with the neighbor `kernNeighborBelow`, which lies below
the band: the band is examined all the same and a gap of 100 is recorded. -/
theorem kernOneBand_merge_below :
    kernOneBand.mergeSlot kernSegment wideGlyphBox kernNeighborBelow ⟨0, 0⟩ 0 1
      = some (true, { kernOneBand with _mingap := 100, _othermax := -100 }) := by
  rw [kern_mergeSlot_odd_of kernOneBand kernSegment wideGlyphBox kernNeighborBelow ⟨0, 0⟩ 0 1 0 0
    52 (-100) (by decide) (by norm_num [kernNeighborBelow, wideGlyphBox])
    (by norm_num [kernOneBand])
    (by norm_num [kernOneBand, FLOAT_1E38])
    (by
      have := kernOneBand_slices_below.1
      norm_num [kernOneBand, kernNeighborBelow, wideGlyphBox] at this ⊢
      exact this)
    (by
      have := kernOneBand_slices_below.2
      norm_num [kernOneBand, kernNeighborBelow, wideGlyphBox] at this ⊢
      exact this)]
  rw [intRange_single]
  norm_num [List.foldlM, KernCollider.mergeStepOdd, KernCollider.bandGap, edgeAt, get_right,
    kernSegment, kernNeighborBelow, kernOneBand, wideBBox, FLOAT_1E38]

/-- Moving the neighbor's edge by `d` moves the gap of a band by `sign * d`. -/
theorem bandGap_shift (k : KernCollider) (sign m d : ℚ) (i : Int) :
    k.bandGap sign (m + d) i = (k.bandGap sign m i).map (fun t => t - sign * d) := by
  have hr : ∀ e' : ℚ, sign * (e' - (m + d)) = sign * (e' - m) - sign * d := fun e' => by ring
  unfold KernCollider.bandGap
  cases edgeAt k._edges i with
  | none => rfl
  | some e =>
    simp only [hr]
    by_cases hu : i < k._numSlices - 1
    · cases edgeAt k._edges (i + 1) with
      | none => simp [hu]
      | some e1 =>
        by_cases hd : i > 0
        · cases edgeAt k._edges (i - 1) with
          | none => simp [hu, hd]
          | some e2 => simp [hu, hd, min_sub_sub_right]
        · simp [hu, hd, min_sub_sub_right]
    · by_cases hd : i > 0
      · cases edgeAt k._edges (i - 1) with
        | none => simp [hu, hd]
        | some e2 => simp [hu, hd, min_sub_sub_right]
      · simp [hu, hd]

/-- One band of a reversed run, from the state on entry: the new `_mingap` is the old one
or its minimum with `T - currSpace`, where neither `T` nor the choice depends on
`currSpace`. -/
theorem mergeStepOdd_gap (k : KernCollider) (seg : Segment) (slot : Slot) (currShift : Position)
    (sliceWidth x : ℚ) (i : Int) (hinv : k._numSlices ≤ k._edges.length)
    (hi : 0 ≤ i ∧ i ≤ k._numSlices - 1) :
    ∃ g : Option ℚ, ∀ e : ℚ, ∃ st',
      KernCollider.mergeStepOdd seg slot currShift e sliceWidth x (k, false) i = some st'
      ∧ k.SameBands st'.1
      ∧ st'.1._mingap = (match g with
          | none => k._mingap
          | some T => min k._mingap (T - e)) := by
  obtain ⟨ed, hed⟩ := edgeAt_isSome k._edges i hi.1 (by omega)
  by_cases hx : x > ed - k._mingap
  · obtain ⟨T, hT⟩ := bandGap_isSome k 1
      (get_right seg slot currShift (k._miny - 1 + ((i : ℚ) + 1 / 2) * sliceWidth) sliceWidth)
      i hinv hi.1 hi.2
    refine ⟨some T, fun e => ?_⟩
    have hg : ∀ k1 : KernCollider, k1._edges = k._edges → k1._numSlices = k._numSlices →
        k1.bandGap 1 (get_right seg slot currShift
          (k._miny - 1 + ((i : ℚ) + 1 / 2) * sliceWidth) sliceWidth + e) i = some (T - e) := by
      intro k1 h1 h2
      rw [bandGap_congr k k1 _ _ _ h1 h2, bandGap_shift, hT]
      simp
    simp only [KernCollider.mergeStepOdd, hed, hx, if_true]
    split_ifs with ho
    · split
      · rename_i hnone
        exact absurd (hnone.symm.trans (hg _ (by rfl) (by rfl))) (by simp)
      · rename_i t ht
        have htT : t = T - e := Option.some.inj (ht.symm.trans (hg _ (by rfl) (by rfl)))
        subst htT
        split_ifs with hlt
        · exact ⟨_, rfl, sameBands_self k, (min_eq_right (le_of_lt hlt)).symm⟩
        · exact ⟨_, rfl, sameBands_self k, (min_eq_left (not_lt.mp hlt)).symm⟩
    · split
      · rename_i hnone
        exact absurd (hnone.symm.trans (hg _ (by rfl) (by rfl))) (by simp)
      · rename_i t ht
        have htT : t = T - e := Option.some.inj (ht.symm.trans (hg _ (by rfl) (by rfl)))
        subst htT
        split_ifs with hlt
        · exact ⟨_, rfl, sameBands_self k, (min_eq_right (le_of_lt hlt)).symm⟩
        · exact ⟨_, rfl, sameBands_self k, (min_eq_left (not_lt.mp hlt)).symm⟩
  · refine ⟨none, fun e => ?_⟩
    simp only [KernCollider.mergeStepOdd, hed, hx, if_false]
    exact ⟨_, rfl, sameBands_self k, rfl⟩

/-- One band of a run that is not reversed, from the state on entry: the new `_mingap` is
the old one or its minimum with `T + currSpace`. -/
theorem mergeStepEven_gap (k : KernCollider) (seg : Segment) (slot : Slot) (currShift : Position)
    (sliceWidth x : ℚ) (i : Int) (hinv : k._numSlices ≤ k._edges.length)
    (hi : 0 ≤ i ∧ i ≤ k._numSlices - 1) :
    ∃ g : Option ℚ, ∀ e : ℚ, ∃ st',
      KernCollider.mergeStepEven seg slot currShift e sliceWidth x (k, false) i = some st'
      ∧ k.SameBands st'.1
      ∧ st'.1._mingap = (match g with
          | none => k._mingap
          | some T => min k._mingap (T + e)) := by
  obtain ⟨ed, hed⟩ := edgeAt_isSome k._edges i hi.1 (by omega)
  by_cases hx : x < ed + k._mingap
  · obtain ⟨T, hT⟩ := bandGap_isSome k (-1)
      (get_left seg slot currShift (k._miny - 1 + ((i : ℚ) + 1 / 2) * sliceWidth) sliceWidth)
      i hinv hi.1 hi.2
    refine ⟨some T, fun e => ?_⟩
    have hg : ∀ k1 : KernCollider, k1._edges = k._edges → k1._numSlices = k._numSlices →
        k1.bandGap (-1) (get_left seg slot currShift
          (k._miny - 1 + ((i : ℚ) + 1 / 2) * sliceWidth) sliceWidth + e) i = some (T + e) := by
      intro k1 h1 h2
      rw [bandGap_congr k k1 _ _ _ h1 h2, bandGap_shift, hT]
      simp
    simp only [KernCollider.mergeStepEven, hed, hx, if_true]
    split_ifs with ho
    · split
      · rename_i hnone
        exact absurd (hnone.symm.trans (hg _ (by rfl) (by rfl))) (by simp)
      · rename_i t ht
        have htT : t = T + e := Option.some.inj (ht.symm.trans (hg _ (by rfl) (by rfl)))
        subst htT
        split_ifs with hlt
        · exact ⟨_, rfl, sameBands_self k, (min_eq_right (le_of_lt hlt)).symm⟩
        · exact ⟨_, rfl, sameBands_self k, (min_eq_left (not_lt.mp hlt)).symm⟩
    · split
      · rename_i hnone
        exact absurd (hnone.symm.trans (hg _ (by rfl) (by rfl))) (by simp)
      · rename_i t ht
        have htT : t = T + e := Option.some.inj (ht.symm.trans (hg _ (by rfl) (by rfl)))
        subst htT
        split_ifs with hlt
        · exact ⟨_, rfl, sameBands_self k, (min_eq_right (le_of_lt hlt)).symm⟩
        · exact ⟨_, rfl, sameBands_self k, (min_eq_left (not_lt.mp hlt)).symm⟩
  · refine ⟨none, fun e => ?_⟩
    simp only [KernCollider.mergeStepEven, hed, hx, if_false]
    exact ⟨_, rfl, sameBands_self k, rfl⟩

/-- When the band loop has nothing to examine, `mergeSlot` returns false and leaves the
collider as it was. -/
theorem kern_mergeSlot_no_band (k : KernCollider) (seg : Segment) (bbox : Nat → Rect)
    (slot : Slot) (currShift : Position) (currSpace : ℚ) (dir : Int)
    (h1 : dir % 2 ≠ 0 →
      KernCollider.sliceMax k._miny k._maxy k._numSlices
          (slot.origin.y + currShift.y + (bbox slot.gid).tr.y)
        < KernCollider.sliceMin k._miny k._maxy k._numSlices
          (slot.origin.y + currShift.y + (bbox slot.gid).bl.y))
    (h2 : dir % 2 = 0 →
      KernCollider.sliceMax k._miny k._maxy k._numSlices
          (slot.origin.y + currShift.y + (bbox slot.gid).tr.y)
        ≤ KernCollider.sliceMin k._miny k._maxy k._numSlices
          (slot.origin.y + currShift.y + (bbox slot.gid).bl.y)) :
    k.mergeSlot seg bbox slot currShift currSpace dir = some (false, k) := by
  unfold KernCollider.mergeSlot
  simp only
  split_ifs with hd hr hr
  · rfl
  · rw [intRange_empty _ _ (h1 hd)]; rfl
  · rfl
  · rw [intRange_empty _ _ (by have := h2 (not_not.mp hd); omega)]; rfl

/-- For a reversed run and a neighbor spanning at most one band, the `_mingap` left by
`mergeSlot` is the old one or its minimum with `T - currSpace`. -/
theorem kern_mergeSlot_odd_gap (k : KernCollider) (seg : Segment) (bbox : Nat → Rect)
    (slot : Slot) (currShift : Position) (dir : Int) (hinv : k._numSlices ≤ k._edges.length)
    (hd : dir % 2 ≠ 0)
    (hband : KernCollider.sliceMax k._miny k._maxy k._numSlices
          (slot.origin.y + currShift.y + (bbox slot.gid).tr.y)
        ≤ KernCollider.sliceMin k._miny k._maxy k._numSlices
          (slot.origin.y + currShift.y + (bbox slot.gid).bl.y)) :
    ∃ g : Option ℚ, ∀ e : ℚ, ∃ r, k.mergeSlot seg bbox slot currShift e dir = some r
      ∧ k.SameBands r.2
      ∧ r.2._mingap = (match g with
          | none => k._mingap
          | some T => min k._mingap (T - e)) := by
  by_cases hlt : KernCollider.sliceMax k._miny k._maxy k._numSlices
        (slot.origin.y + currShift.y + (bbox slot.gid).tr.y)
      < KernCollider.sliceMin k._miny k._maxy k._numSlices
        (slot.origin.y + currShift.y + (bbox slot.gid).bl.y)
  · refine ⟨none, fun e => ⟨_, kern_mergeSlot_no_band k seg bbox slot currShift e dir
      (fun _ => hlt) (fun h => absurd h hd), sameBands_self k, rfl⟩⟩
  · have heq : KernCollider.sliceMax k._miny k._maxy k._numSlices
        (slot.origin.y + currShift.y + (bbox slot.gid).tr.y)
        = KernCollider.sliceMin k._miny k._maxy k._numSlices
          (slot.origin.y + currShift.y + (bbox slot.gid).bl.y) := by omega
    by_cases hr : slot.origin.x + currShift.x + (bbox slot.gid).tr.x < k._xbound - k._mingap
    · refine ⟨none, fun e => ⟨(false, k), ?_, sameBands_self k, rfl⟩⟩
      simp only [KernCollider.mergeSlot, hd, hr, if_true, ne_eq, not_false_eq_true]
    · have hi : 0 ≤ KernCollider.sliceMin k._miny k._maxy k._numSlices
            (slot.origin.y + currShift.y + (bbox slot.gid).bl.y)
          ∧ KernCollider.sliceMin k._miny k._maxy k._numSlices
            (slot.origin.y + currShift.y + (bbox slot.gid).bl.y) ≤ k._numSlices - 1 := by
        refine ⟨le_max_left _ _, ?_⟩
        rw [← heq]
        exact min_le_left _ _
      obtain ⟨g, hg⟩ := mergeStepOdd_gap k seg slot currShift
        ((k._maxy - k._miny + 2) / k._numSlices)
        (slot.origin.x + currShift.x + (bbox slot.gid).tr.x) _ hinv hi
      refine ⟨g, fun e => ?_⟩
      obtain ⟨st', h1, h2, h3⟩ := hg e
      refine ⟨(st'.2, st'.1), ?_, h2, h3⟩
      simp only [KernCollider.mergeSlot, hd, hr, if_true, if_false, ne_eq, not_false_eq_true,
        heq, intRange_single, List.foldlM, bind, Option.bind, h1, pure, Option.map]

/-- For a run that is not reversed and a neighbor whose band loop examines at most one
band, the `_mingap` left by `mergeSlot` is the old one when the neighbor is rejected by
the bound test, and else the old one or its minimum with `T + currSpace`. -/
theorem kern_mergeSlot_even_gap (k : KernCollider) (seg : Segment) (bbox : Nat → Rect)
    (slot : Slot) (currShift : Position) (dir : Int) (hinv : k._numSlices ≤ k._edges.length)
    (hd : dir % 2 = 0)
    (hband : KernCollider.sliceMax k._miny k._maxy k._numSlices
          (slot.origin.y + currShift.y + (bbox slot.gid).tr.y)
        ≤ KernCollider.sliceMin k._miny k._maxy k._numSlices
          (slot.origin.y + currShift.y + (bbox slot.gid).bl.y) + 1) :
    ∃ g : Option ℚ, ∀ e : ℚ, ∃ r, k.mergeSlot seg bbox slot currShift e dir = some r
      ∧ k.SameBands r.2
      ∧ r.2._mingap =
        (if slot.origin.x + currShift.x + (bbox slot.gid).bl.x > k._xbound + k._mingap + e then
          k._mingap
        else match g with
          | none => k._mingap
          | some T => min k._mingap (T + e)) := by
  have hd2 : ¬ dir % 2 ≠ 0 := not_not.mpr hd
  by_cases hlt : KernCollider.sliceMax k._miny k._maxy k._numSlices
        (slot.origin.y + currShift.y + (bbox slot.gid).tr.y)
      ≤ KernCollider.sliceMin k._miny k._maxy k._numSlices
        (slot.origin.y + currShift.y + (bbox slot.gid).bl.y)
  · refine ⟨none, fun e => ⟨_, kern_mergeSlot_no_band k seg bbox slot currShift e dir
      (fun h => absurd hd h) (fun _ => hlt), sameBands_self k, by simp⟩⟩
  · have heq : KernCollider.sliceMax k._miny k._maxy k._numSlices
        (slot.origin.y + currShift.y + (bbox slot.gid).tr.y) - 1
        = KernCollider.sliceMin k._miny k._maxy k._numSlices
          (slot.origin.y + currShift.y + (bbox slot.gid).bl.y) := by omega
    have hi : 0 ≤ KernCollider.sliceMin k._miny k._maxy k._numSlices
          (slot.origin.y + currShift.y + (bbox slot.gid).bl.y)
        ∧ KernCollider.sliceMin k._miny k._maxy k._numSlices
          (slot.origin.y + currShift.y + (bbox slot.gid).bl.y) ≤ k._numSlices - 1 := by
      refine ⟨le_max_left _ _, ?_⟩
      have h3 : KernCollider.sliceMax k._miny k._maxy k._numSlices
          (slot.origin.y + currShift.y + (bbox slot.gid).tr.y) ≤ k._numSlices - 1 :=
        min_le_left _ _
      omega
    obtain ⟨g, hg⟩ := mergeStepEven_gap k seg slot currShift
      ((k._maxy - k._miny + 2) / k._numSlices)
      (slot.origin.x + currShift.x + (bbox slot.gid).bl.x) _ hinv hi
    refine ⟨g, fun e => ?_⟩
    by_cases hr : slot.origin.x + currShift.x + (bbox slot.gid).bl.x > k._xbound + k._mingap + e
    · refine ⟨(false, k), ?_, sameBands_self k, by simp [hr]⟩
      simp only [KernCollider.mergeSlot, hd2, hr, if_true, if_false]
    · obtain ⟨st', h1, h2, h3⟩ := hg e
      refine ⟨(st'.2, st'.1), ?_, h2, by simp only [hr, if_false]; exact h3⟩
      simp only [KernCollider.mergeSlot, hd2, hr, if_false,
        heq, intRange_single, List.foldlM, bind, Option.bind, h1, pure, Option.map]

/-- In a reversed run the kern returned by `resolve` does not decrease when `_mingap`
decreases; otherwise it does not decrease when `_mingap` increases. -/
theorem kern_resolve_mono (k1 k2 : KernCollider) (dir : Int) (margin : ℚ)
    (hl : k2._limit = k1._limit) (ho : k2._offsetPrev = k1._offsetPrev)
    (h : if dir % 2 ≠ 0 then k2._mingap ≤ k1._mingap else k1._mingap ≤ k2._mingap) :
    (k1.resolve dir margin).x ≤ (k2.resolve dir margin).x := by
  simp only [KernCollider.resolve, hl, ho]
  apply min_le_min_left
  apply max_le_max_right
  rcases Int.emod_two_eq dir with hd | hd
  · simp only [hd, ne_eq, not_true_eq_false, if_false] at h
    simp only [hd]
    norm_num
    linarith
  · simp only [hd, ne_eq, one_ne_zero, not_false_eq_true, if_true] at h
    simp only [hd]
    norm_num
    linarith

theorem truncInt_le_zero (q : ℚ) (h : q < 1) : truncInt q ≤ 0 := by
  unfold truncInt
  split_ifs with h0
  · have : ⌊q⌋ < 1 := Int.floor_lt.mpr (by exact_mod_cast h)
    omega
  · exact Int.ceil_le.mpr (by exact_mod_cast le_of_lt (not_le.mp h0))

theorem truncInt_le_neg_one (q : ℚ) (h : q ≤ -1) : truncInt q ≤ -1 := by
  unfold truncInt
  rw [if_neg (by linarith)]
  exact Int.ceil_le.mpr (by exact_mod_cast h)

/-- A neighbor whose bottom is at or above the top of the bands starts beyond the last
band. -/
theorem sliceMin_above (miny maxy : ℚ) (N : Int) (ylo : ℚ) (hH : 0 < maxy - miny + 2)
    (hN : 0 ≤ N) (h : maxy + 1 ≤ ylo) : N ≤ KernCollider.sliceMin miny maxy N ylo := by
  unfold KernCollider.sliceMin
  apply le_max_of_le_right
  have hN' : (0 : ℚ) ≤ N := by exact_mod_cast hN
  have h1 : 1 ≤ (ylo - miny + 1) / (maxy - miny + 2) := (one_le_div hH).mpr (by linarith)
  have h2 : (N : ℚ) ≤ (ylo - miny + 1) / (maxy - miny + 2) * N :=
    le_mul_of_one_le_left hN' h1
  unfold truncInt
  rw [if_pos (le_trans hN' h2)]
  exact Int.le_floor.mpr h2

/-- The three ways the band loop of `mergeSlot` has nothing to examine for a neighbor whose
vertical range `[ylo, yhi]` meets no band: the neighbor is above the bands; it is below
them and the run is not reversed; it is at least two band heights below them. -/
theorem kern_no_band_of_disjoint (k : KernCollider) (ylo yhi : ℚ) (dir : Int)
    (hH : 0 < k._maxy - k._miny + 2)
    (hno : k._maxy + 1 ≤ ylo
      ∨ (dir % 2 = 0 ∧ yhi < k._miny - 1)
      ∨ (0 < k._numSlices
        ∧ yhi ≤ k._miny - 1 - 2 * ((k._maxy - k._miny + 2) / k._numSlices))) :
    (dir % 2 ≠ 0 → KernCollider.sliceMax k._miny k._maxy k._numSlices yhi
        < KernCollider.sliceMin k._miny k._maxy k._numSlices ylo)
    ∧ (dir % 2 = 0 → KernCollider.sliceMax k._miny k._maxy k._numSlices yhi
        ≤ KernCollider.sliceMin k._miny k._maxy k._numSlices ylo) := by
  have hmin0 : 0 ≤ KernCollider.sliceMin k._miny k._maxy k._numSlices ylo := le_max_left _ _
  have hmaxN : KernCollider.sliceMax k._miny k._maxy k._numSlices yhi ≤ k._numSlices - 1 :=
    min_le_left _ _
  have hlt : k._maxy + 1 ≤ ylo → KernCollider.sliceMax k._miny k._maxy k._numSlices yhi
      < KernCollider.sliceMin k._miny k._maxy k._numSlices ylo := by
    intro h
    by_cases hN : 0 ≤ k._numSlices
    · have := sliceMin_above k._miny k._maxy k._numSlices ylo hH hN h
      omega
    · omega
  rcases hno with h | ⟨hd, h⟩ | ⟨hN, h⟩
  · exact ⟨fun _ => hlt h, fun _ => le_of_lt (hlt h)⟩
  · refine ⟨fun hd2 => absurd hd hd2, fun _ => ?_⟩
    by_cases hN : 0 < k._numSlices
    · have hN' : (0 : ℚ) < k._numSlices := by exact_mod_cast hN
      have h1 : (yhi - k._miny + 1) / (k._maxy - k._miny + 2) < 0 :=
        div_neg_of_neg_of_pos (by linarith) hH
      have h2 : (yhi - k._miny + 1) / (k._maxy - k._miny + 2) * k._numSlices + 1 < 1 := by
        have := mul_neg_of_neg_of_pos h1 hN'
        linarith
      have h3 : KernCollider.sliceMax k._miny k._maxy k._numSlices yhi ≤ 0 :=
        le_trans (min_le_right _ _) (truncInt_le_zero _ h2)
      omega
    · omega
  · have hN' : (0 : ℚ) < k._numSlices := by exact_mod_cast hN
    have h1 : (yhi - k._miny + 1) / (k._maxy - k._miny + 2) * k._numSlices ≤ -2 := by
      have h4 : yhi - k._miny + 1 ≤ -(2 * ((k._maxy - k._miny + 2) / k._numSlices)) := by linarith
      have h5 : (yhi - k._miny + 1) * k._numSlices
          ≤ -(2 * ((k._maxy - k._miny + 2) / k._numSlices)) * k._numSlices :=
        mul_le_mul_of_nonneg_right h4 (le_of_lt hN')
      have h6 : -(2 * ((k._maxy - k._miny + 2) / k._numSlices)) * (k._numSlices : ℚ)
          = -2 * (k._maxy - k._miny + 2) := by
        field_simp
      rw [h6] at h5
      rw [div_mul_eq_mul_div, div_le_iff₀ hH]
      linarith
    have h3 : KernCollider.sliceMax k._miny k._maxy k._numSlices yhi ≤ -1 :=
      le_trans (min_le_right _ _) (truncInt_le_neg_one _ (by linarith))
    exact ⟨fun _ => by omega, fun _ => by omega⟩

/-- With `_mingap` at its initial sentinel and limits smaller than the sentinel, `resolve`
returns the bound of the limit range on the side the kern points to. -/
theorem kern_resolve_sentinel (k : KernCollider) (dir : Int) (margin : ℚ)
    (hm : k._mingap = FLOAT_1E38) (hl : k._limit.bl.x ≤ k._limit.tr.x)
    (h1 : margin - FLOAT_1E38 ≤ k._limit.bl.x - k._offsetPrev.x)
    (h2 : k._limit.tr.x - k._offsetPrev.x ≤ FLOAT_1E38 - margin) :
    (k.resolve dir margin).x
      = if dir % 2 ≠ 0 then k._limit.bl.x - k._offsetPrev.x
        else k._limit.tr.x - k._offsetPrev.x := by
  have hc0 : (((1 - 2 * 0 : Int) : Int) : ℚ) = 1 := by norm_num
  have hc1 : (((1 - 2 * 1 : Int) : Int) : ℚ) = -1 := by norm_num
  simp only [KernCollider.resolve, hm]
  rcases Int.emod_two_eq dir with hd | hd
  · simp only [hd, ne_eq, not_true_eq_false, if_false]
    rw [hc0, one_mul, max_eq_left (by linarith), min_eq_left h2]
  · simp only [hd, ne_eq, one_ne_zero, not_false_eq_true, if_true]
    rw [hc1, max_eq_right (by linarith), min_eq_right (by linarith)]

/-- C13 (witness): `kernOneBand` holds one edge for its one band; merging `kernNeighbor`
returns, and returns true exactly when `_mingap` was lowered. -/
theorem kern_mergeSlot_true_iff_lowered_witness :
    kernOneBand._numSlices ≤ kernOneBand._edges.length
    ∧ ∃ r, kernOneBand.mergeSlot kernSegment wideGlyphBox kernNeighbor ⟨0, 0⟩ 0 1 = some r
      ∧ (r.1 = true ↔ r.2._mingap < kernOneBand._mingap)
      ∧ r.2._mingap ≤ kernOneBand._mingap :=
  ⟨by decide, kern_mergeSlot_true_iff_lowered kernOneBand kernSegment wideGlyphBox kernNeighbor
    ⟨0, 0⟩ 0 1 (by decide)⟩

/-- C14 (counterexample): two sessions `initSlot`, `mergeSlot` of `kernNeighbor`, `resolve`
(margin 10, reversed run). With one band, raising the extra spacing from 0 to 50 changes
the returned kern from `-107` to `-57`: its magnitude drops from 107 to 57. With two
bands, raising it from 29 to 30 changes the kern from `-65` to `-90`: with spacing 30 the
upper band, which holds the nearest point of the neighbor, is skipped. -/
theorem kern_spacing_magnitude_counterexample :
    KernCollider.initSlot kernSegment [kernTarget] kernTarget limitWide 100 0 ⟨0, 0⟩ ⟨0, 0⟩ 1
        = some kernOneBand
    ∧ (∃ r1 r2, kernOneBand.mergeSlot kernSegment wideGlyphBox kernNeighbor ⟨0, 0⟩ 0 1 = some r1
        ∧ kernOneBand.mergeSlot kernSegment wideGlyphBox kernNeighbor ⟨0, 0⟩ 50 1 = some r2
        ∧ (r1.2.resolve 1 10).x = -107 ∧ (r2.2.resolve 1 10).x = -57
        ∧ |(r2.2.resolve 1 10).x| < |(r1.2.resolve 1 10).x|)
    ∧ KernCollider.initSlot kernSegment [kernTarget] kernTarget limitWide 40 0 ⟨0, 0⟩ ⟨0, 0⟩ 1
        = some kernTwoBands
    ∧ (∃ r1 r2, kernTwoBands.mergeSlot kernSegment wideGlyphBox kernNeighbor ⟨0, 0⟩ 29 1 = some r1
        ∧ kernTwoBands.mergeSlot kernSegment wideGlyphBox kernNeighbor ⟨0, 0⟩ 30 1 = some r2
        ∧ (r1.2.resolve 1 10).x = -65 ∧ (r2.2.resolve 1 10).x = -90
        ∧ (r2.2.resolve 1 10).x < (r1.2.resolve 1 10).x) := by
  have a1 : ({ kernOneBand with _mingap := 117, _othermax := -117 }.resolve 1 10).x = -107 := by
    norm_num [KernCollider.resolve, kernOneBand, limitWide]
  have a2 : ({ kernOneBand with _mingap := 67, _othermax := -67 }.resolve 1 10).x = -57 := by
    norm_num [KernCollider.resolve, kernOneBand, limitWide]
  have b1 : ({ kernTwoBands with _mingap := 75, _othermax := -75 }.resolve 1 10).x = -65 := by
    norm_num [KernCollider.resolve, kernTwoBands, limitWide]
  have b2 : ({ kernTwoBands with _mingap := 100, _othermax := -100 }.resolve 1 10).x = -90 := by
    norm_num [KernCollider.resolve, kernTwoBands, limitWide]
  refine ⟨kernOneBand_init, ⟨_, _, kernOneBand_merge_0, kernOneBand_merge_50, a1, a2, ?_⟩,
    kernTwoBands_init, ⟨_, _, kernTwoBands_merge_29, kernTwoBands_merge_30, b1, b2, ?_⟩⟩
  · rw [a1, a2]; norm_num [abs_of_neg]
  · rw [b1, b2]; norm_num

/-- C14 (amended): for a session `initSlot`, one `mergeSlot` of a fixed neighbor, `resolve`,
in which the band loop of `mergeSlot` has at most one band to examine (`smax ≤ smin` in a
reversed run, `smax ≤ smin + 1` otherwise) and, in a run that is not reversed, the
neighbor is not rejected by the bound test with the spacing `e1`: for `e1 ≤ e2` both
sessions return, and the signed x displacement returned by `resolve` with `e2` is greater
than or equal to the one returned with `e1`. -/
theorem kern_spacing_monotone_one_band (seg : Segment) (cluster : List Slot) (aSlot : Slot)
    (limit : Rect) (margin0 marginMin : ℚ) (currShift0 offsetPrev : Position) (dir : Int)
    (k : KernCollider) (bbox : Nat → Rect) (slot : Slot) (currShift : Position)
    (e1 e2 margin : ℚ)
    (hk : KernCollider.initSlot seg cluster aSlot limit margin0 marginMin currShift0 offsetPrev
      dir = some k)
    (he : e1 ≤ e2)
    (hband : KernCollider.sliceMax k._miny k._maxy k._numSlices
          (slot.origin.y + currShift.y + (bbox slot.gid).tr.y)
        ≤ KernCollider.sliceMin k._miny k._maxy k._numSlices
          (slot.origin.y + currShift.y + (bbox slot.gid).bl.y)
          + (if dir % 2 ≠ 0 then 0 else 1))
    (hrej : dir % 2 = 0 →
      slot.origin.x + currShift.x + (bbox slot.gid).bl.x ≤ k._xbound + k._mingap + e1) :
    ∃ r1 r2, k.mergeSlot seg bbox slot currShift e1 dir = some r1
      ∧ k.mergeSlot seg bbox slot currShift e2 dir = some r2
      ∧ (r1.2.resolve dir margin).x ≤ (r2.2.resolve dir margin).x := by
  have hinv := (kern_initSlot_inv seg cluster aSlot limit margin0 marginMin currShift0
    offsetPrev dir k hk).1
  by_cases hd : dir % 2 ≠ 0
  · rw [if_pos hd, add_zero] at hband
    obtain ⟨g, hg⟩ := kern_mergeSlot_odd_gap k seg bbox slot currShift dir hinv hd hband
    obtain ⟨r1, h1, s1, m1⟩ := hg e1
    obtain ⟨r2, h2, s2, m2⟩ := hg e2
    refine ⟨r1, r2, h1, h2, kern_resolve_mono r1.2 r2.2 dir margin ?_ ?_ ?_⟩
    · rw [s2.2.1, s1.2.1]
    · rw [s2.2.2.2.1, s1.2.2.2.1]
    · rw [if_pos hd, m1, m2]
      cases g with
      | none => exact le_refl _
      | some T => exact min_le_min_left _ (by linarith)
  · have hd0 : dir % 2 = 0 := not_not.mp hd
    rw [if_neg hd] at hband
    obtain ⟨g, hg⟩ := kern_mergeSlot_even_gap k seg bbox slot currShift dir hinv hd0 hband
    obtain ⟨r1, h1, s1, m1⟩ := hg e1
    obtain ⟨r2, h2, s2, m2⟩ := hg e2
    have hr1 : ¬ slot.origin.x + currShift.x + (bbox slot.gid).bl.x
        > k._xbound + k._mingap + e1 := not_lt.mpr (hrej hd0)
    have hr2 : ¬ slot.origin.x + currShift.x + (bbox slot.gid).bl.x
        > k._xbound + k._mingap + e2 := not_lt.mpr (le_trans (hrej hd0) (by linarith))
    rw [if_neg hr1] at m1
    rw [if_neg hr2] at m2
    refine ⟨r1, r2, h1, h2, kern_resolve_mono r1.2 r2.2 dir margin ?_ ?_ ?_⟩
    · rw [s2.2.1, s1.2.1]
    · rw [s2.2.2.2.1, s1.2.2.2.1]
    · rw [if_neg hd, m1, m2]
      cases g with
      | none => exact le_refl _
      | some T => exact min_le_min_left _ (by linarith)

/-- C14 (witness): the one-band session of `kernOneBand` with `kernNeighbor` and the
spacings 0 and 50. -/
theorem kern_spacing_monotone_one_band_witness :
    ∃ r1 r2, kernOneBand.mergeSlot kernSegment wideGlyphBox kernNeighbor ⟨0, 0⟩ 0 1 = some r1
      ∧ kernOneBand.mergeSlot kernSegment wideGlyphBox kernNeighbor ⟨0, 0⟩ 50 1 = some r2
      ∧ (r1.2.resolve 1 10).x ≤ (r2.2.resolve 1 10).x :=
  kern_spacing_monotone_one_band kernSegment [kernTarget] kernTarget limitWide 100 0 ⟨0, 0⟩
    ⟨0, 0⟩ 1 kernOneBand wideGlyphBox kernNeighbor ⟨0, 0⟩ 0 50 10 kernOneBand_init
    (by norm_num)
    (by
      have h1 := kernOneBand_slices.1
      have h2 := kernOneBand_slices.2
      norm_num [kernOneBand, kernNeighbor, wideGlyphBox] at h1 h2 ⊢
      rw [h1, h2])
    (fun h => absurd h (by decide))

/-- C15 (counterexample): `kernOneBand` is the collider `initSlot` yields for `kernTarget`;
its one band spans `[-1, 51]`. The neighbor `kernNeighborAbove` spans `[500, 550]`:
`mergeSlot` returns false and leaves the collider as it was, yet `resolve` (margin 10,
limits `[-1000, 1000]`) returns the kern `-1000`, not 0. The neighbor `kernNeighborBelow`
spans `[-60, -10]`, below the band: in the reversed run `mergeSlot` examines the band all
the same and returns true. -/
theorem kern_no_overlap_counterexample :
    KernCollider.initSlot kernSegment [kernTarget] kernTarget limitWide 100 0 ⟨0, 0⟩ ⟨0, 0⟩ 1
        = some kernOneBand
    ∧ kernOneBand._maxy + 1
        < kernNeighborAbove.origin.y + (wideGlyphBox kernNeighborAbove.gid).bl.y
    ∧ kernOneBand.mergeSlot kernSegment wideGlyphBox kernNeighborAbove ⟨0, 0⟩ 0 1
        = some (false, kernOneBand)
    ∧ kernOneBand.resolve 1 10 = ⟨-1000, 0⟩
    ∧ kernNeighborBelow.origin.y + (wideGlyphBox kernNeighborBelow.gid).tr.y
        < kernOneBand._miny - 1
    ∧ (kernOneBand.mergeSlot kernSegment wideGlyphBox kernNeighborBelow ⟨0, 0⟩ 0 1).map Prod.fst
        = some true := by
  refine ⟨kernOneBand_init, by norm_num [kernOneBand, kernNeighborAbove, wideGlyphBox], ?_,
    by norm_num [KernCollider.resolve, kernOneBand, limitWide, FLOAT_1E38],
    by norm_num [kernOneBand, kernNeighborBelow, wideGlyphBox], ?_⟩
  · have h := kern_no_band_of_disjoint kernOneBand
      (kernNeighborAbove.origin.y + (0 : ℚ) + (wideGlyphBox kernNeighborAbove.gid).bl.y)
      (kernNeighborAbove.origin.y + (0 : ℚ) + (wideGlyphBox kernNeighborAbove.gid).tr.y) 1
      (by norm_num [kernOneBand])
      (Or.inl (by norm_num [kernOneBand, kernNeighborAbove, wideGlyphBox]))
    exact kern_mergeSlot_no_band kernOneBand kernSegment wideGlyphBox kernNeighborAbove ⟨0, 0⟩ 0 1
      h.1 h.2
  · rw [kernOneBand_merge_below]
    rfl

/-- C15 (amended): let the neighbor's vertical range `[ylo, yhi]` meet no band of the
collider because it lies above the bands (`_maxy + 1 ≤ ylo`) or at least two band heights
below them (`yhi ≤ _miny - 1 - 2 * sliceWidth`). Then `mergeSlot` returns false and leaves
the collider as it was, and the subsequent `resolve` returns `y = 0` and, `_mingap` being
still its initial sentinel `1e38` and the limits smaller than the sentinel, the bound of
the limit range (`_limit.bl.x - _offsetPrev.x` in a reversed run, `_limit.tr.x -
_offsetPrev.x` otherwise): zero only when that bound is zero. -/
theorem kern_no_overlap_false_and_limit (k : KernCollider) (seg : Segment) (bbox : Nat → Rect)
    (slot : Slot) (currShift : Position) (currSpace : ℚ) (dir : Int) (margin : ℚ)
    (hH : 0 < k._maxy - k._miny + 2)
    (hno : k._maxy + 1 ≤ slot.origin.y + currShift.y + (bbox slot.gid).bl.y
      ∨ (0 < k._numSlices
        ∧ slot.origin.y + currShift.y + (bbox slot.gid).tr.y
          ≤ k._miny - 1 - 2 * ((k._maxy - k._miny + 2) / k._numSlices)))
    (hm : k._mingap = FLOAT_1E38) (hl : k._limit.bl.x ≤ k._limit.tr.x)
    (h1 : margin - FLOAT_1E38 ≤ k._limit.bl.x - k._offsetPrev.x)
    (h2 : k._limit.tr.x - k._offsetPrev.x ≤ FLOAT_1E38 - margin) :
    k.mergeSlot seg bbox slot currShift currSpace dir = some (false, k)
    ∧ (k.resolve dir margin).y = 0
    ∧ (k.resolve dir margin).x
      = (if dir % 2 ≠ 0 then k._limit.bl.x - k._offsetPrev.x
        else k._limit.tr.x - k._offsetPrev.x) := by
  have h := kern_no_band_of_disjoint k _ _ dir hH
    (hno.elim Or.inl (fun h => Or.inr (Or.inr h)))
  exact ⟨kern_mergeSlot_no_band k seg bbox slot currShift currSpace dir h.1 h.2, rfl,
    kern_resolve_sentinel k dir margin hm hl h1 h2⟩

/-- C15 (witness): the session of `kernOneBand` with `kernNeighborAbove`. -/
theorem kern_no_overlap_false_and_limit_witness :
    kernOneBand.mergeSlot kernSegment wideGlyphBox kernNeighborAbove ⟨0, 0⟩ 0 1
        = some (false, kernOneBand)
    ∧ (kernOneBand.resolve 1 10).y = 0
    ∧ (kernOneBand.resolve 1 10).x
      = (if (1 : Int) % 2 ≠ 0 then kernOneBand._limit.bl.x - kernOneBand._offsetPrev.x
        else kernOneBand._limit.tr.x - kernOneBand._offsetPrev.x) :=
  kern_no_overlap_false_and_limit kernOneBand kernSegment wideGlyphBox kernNeighborAbove ⟨0, 0⟩ 0
    1 10 (by norm_num [kernOneBand])
    (Or.inl (by norm_num [kernOneBand, kernNeighborAbove, wideGlyphBox]))
    rfl (by norm_num [kernOneBand, limitWide])
    (by norm_num [kernOneBand, limitWide, FLOAT_1E38])
    (by norm_num [kernOneBand, limitWide, FLOAT_1E38])

/-! ## Scenarios of the shift collider -/

/-- The x-axis bounds `mergeSlot` computes in the two-squares scenario. -/
theorem squareCollider_bounds (tx ty d : ℚ) (dir : Int) :
    (squareCollider tx ty dir).wholeBounds squareSegment ⟨1, ⟨tx + d, ty⟩, 1⟩ ⟨0, 0⟩ 0
      = { vmin := tx + d, vmax := tx + d + 100, omin := ty, omax := ty + 100 } := by
  simp only [ShiftCollider.wholeBounds, axisBounds, squareCollider, ShiftCollider.initSlot,
    squareSegment, squareBBox, squareSlantBox]
  have h1 : max (max (0 + (tx + d + 0)) (-100 + (tx + d + 0 - (ty + 0)) + 100 + (tx + 0) - 100
      - (tx + 0 - (ty + 0)))) (0 + (tx + d + 0 + (ty + 0)) + 100 + (tx + 0) - 200
      - (tx + 0 + (ty + 0))) - 0 = tx + d := by
    simp only [max_def]
    split_ifs <;> linarith
  have h2 : min (min (100 + (tx + d + 0)) (100 + (tx + d + 0 - (ty + 0)) + 0 + (tx + 0) - -100
      - (tx + 0 - (ty + 0)))) (200 + (tx + d + 0 + (ty + 0)) + 0 + (tx + 0) - 0
      - (tx + 0 + (ty + 0))) - 0 = tx + d + 100 := by
    simp only [min_def]
    split_ifs <;> linarith
  rw [h1, h2]
  norm_num
  ring

theorem squareCollider_limit (tx ty : ℚ) (dir : Int) :
    (squareCollider tx ty dir)._limit.bl.x = -1000
      ∧ (squareCollider tx ty dir)._limit.tr.x = 1000 := by
  simp only [squareCollider, ShiftCollider.initSlot, initLimit, limitWide]
  split_ifs with h1 h2 h2
  · norm_num
  · norm_num
  · exact absurd h2 (by simp)
  · norm_num

theorem squareCollider_pruned (tx ty d : ℚ) (dir : Int) (hd : d = 50 ∨ d = -50) :
    (squareCollider tx ty dir).pruned
      ((squareCollider tx ty dir).wholeBounds squareSegment ⟨1, ⟨tx + d, ty⟩, 1⟩ ⟨0, 0⟩ 0)
      ((squareCollider tx ty dir).axisTarget squareSegment 0) = false := by
  rw [squareCollider_bounds]
  obtain ⟨hl1, hl2⟩ := squareCollider_limit tx ty dir
  simp only [ShiftCollider.pruned, ShiftCollider.axisTarget, ShiftCollider.targetBounds, hl1, hl2,
    decide_eq_false_iff_not]
  simp only [squareCollider, ShiftCollider.initSlot, squareSegment, squareBBox]
  rcases hd with rfl | rfl <;> norm_num <;> constructor <;> linarith

/-- The x-axis landscape of the two-squares scenario after the merge: the permissible range
`[tx - 1000, tx + 1000]` with the one exclusion `[tx + d - 100, tx + d + 100]`. -/
theorem squareCollider_ranges (tx ty d : ℚ) (dir : Int) (isAfter sameCluster : Bool)
    (hd : d = 50 ∨ d = -50) :
    ((squareCollider tx ty dir).mergeBody squareSegment ⟨1, ⟨tx + d, ty⟩, 1⟩ ⟨0, 0⟩ isAfter
        sameCluster).2._ranges 0
      = { t := zones_t.XY, pos := tx - 1000, len := 2000, margin := 0, marginWeight := 0,
          shift := 0, oshift := 0, a := 0,
          calls := [ZoneCall.exclude_with_margins (tx + d - 100) 200] } := by
  rw [mergeBody_ranges _ _ _ _ _ _ 0 (by norm_num),
    effectiveOrder_zero _ _ _ _ _ (Or.inr (Or.inl rfl)), afterOrder_zero]
  unfold ShiftCollider.axisExclusions
  rw [squareCollider_pruned tx ty d dir hd]
  simp only [Bool.false_eq_true, if_false, ShiftCollider.overlapCall, squareCollider_bounds]
  simp only [squareCollider, ShiftCollider.initSlot, initRange, initLimit, initLen, limitWide,
    squareSegment, squareBBox, Zones.initialise, Zones.extend]
  norm_num
  ring

/-- C16: target and neighbor are the same square of side 100 (its slant box the diagonal
extents of the square), the target at `(tx, ty)` and the neighbor 50 units to its right or
left on the same baseline, margin 0, limits `[-1000, 1000]`. Then `mergeSlot` returns true;
the `closest` query of the x axis finds a position (non-negative cost) and the candidate
displacement of the x axis has an x component of magnitude at least 50; when `resolve`
settles on the x axis it reports no unresolved collision and returns that displacement.
This holds for every cost rule of the modelled `closest`. -/
theorem squares_overlap_displacement (cost : Zones → ℚ → ℚ → NNRat) (tx ty d : ℚ) (dir : Int)
    (isAfter sameCluster : Bool) (hd : d = 50 ∨ d = -50) :
    ∃ c', (squareCollider tx ty dir).mergeSlot 1 squareSegment ⟨1, ⟨tx + d, ty⟩, 1⟩ ⟨0, 0⟩
          isAfter sameCluster = some (true, c')
      ∧ 0 ≤ (c'.axisClosest (Zones.closest cost) squareSegment 0).2
      ∧ 50 ≤ |(c'.axisCandidate (Zones.closest cost) squareSegment 0).x|
      ∧ ((c'.resolveLoop (Zones.closest cost) squareSegment).bestAxis = (0 : Nat) →
          (c'.resolve (Zones.closest cost) squareSegment).2 = false
          ∧ 50 ≤ |(c'.resolve (Zones.closest cost) squareSegment).1.x|) := by
  have hz := squareCollider_ranges tx ty d dir isAfter sameCluster hd
  have hb1 : ((squareCollider tx ty dir).mergeBody squareSegment ⟨1, ⟨tx + d, ty⟩, 1⟩ ⟨0, 0⟩
      isAfter sameCluster).1 = true := by
    rw [mergeBody_fst]
    have h0 : (squareCollider tx ty dir).axisHit squareSegment ⟨1, ⟨tx + d, ty⟩, 1⟩ ⟨0, 0⟩ 0
        = true :=
      (axisHit_iff _ _ _ _ _).mpr ⟨squareCollider_pruned tx ty d dir hd,
        fun h => absurd h (by simp [squareSegment])⟩
    simp [h0]
  have hq : ∀ w c0, 0 ≤ (Zones.closest cost
      (((squareCollider tx ty dir).mergeBody squareSegment ⟨1, ⟨tx + d, ty⟩, 1⟩ ⟨0, 0⟩ isAfter
        sameCluster).2._ranges 0) tx w c0).2
      ∧ 50 ≤ |(Zones.closest cost
      (((squareCollider tx ty dir).mergeBody squareSegment ⟨1, ⟨tx + d, ty⟩, 1⟩ ⟨0, 0⟩ isAfter
        sameCluster).2._ranges 0) tx w c0).1 - tx| := by
    intro w c0
    have hnn : 0 ≤ (Zones.closest cost
        (((squareCollider tx ty dir).mergeBody squareSegment ⟨1, ⟨tx + d, ty⟩, 1⟩ ⟨0, 0⟩ isAfter
          sameCluster).2._ranges 0) tx w c0).2 := by
      rw [closest_nonneg_iff]
      refine ⟨tx + d - 100, ?_, ?_⟩
      · rw [hz]
        simp [Zones.candidates, ZoneCall.edges]
      · rw [hz]
        simp only [Zones.feasible, Zones.hardExcluded, List.any_cons, List.any_nil,
          ZoneCall.excludes, lt_self_iff_false, false_and, decide_False, Bool.or_false,
          Bool.not_false, Bool.and_true, Bool.and_eq_true, decide_eq_true_eq]
        rcases hd with rfl | rfl <;> constructor <;> linarith
    refine ⟨hnn, ?_⟩
    have hf := closest_feasible cost _ tx w c0 hnn
    rw [hz] at hf ⊢
    simp only [Zones.feasible, Zones.hardExcluded, List.any_cons, List.any_nil,
      ZoneCall.excludes, Bool.or_false, Bool.and_eq_true, decide_eq_true_eq,
      Bool.not_eq_true', decide_eq_false_iff_not, not_and, not_lt] at hf
    obtain ⟨-, hex⟩ := hf
    by_cases hp : tx + d - 100 < (Zones.closest cost
        { t := zones_t.XY, pos := tx - 1000, len := 2000, margin := 0, marginWeight := 0,
          shift := 0, oshift := 0, a := 0,
          calls := [ZoneCall.exclude_with_margins (tx + d - 100) 200] } tx w c0).1
    · have := hex hp
      exact le_abs.mpr (Or.inl (by rcases hd with rfl | rfl <;> linarith))
    · exact le_abs.mpr (Or.inr (by rcases hd with rfl | rfl <;> linarith))
  have hcl : (((squareCollider tx ty dir).mergeBody squareSegment ⟨1, ⟨tx + d, ty⟩, 1⟩ ⟨0, 0⟩
      isAfter sameCluster).2.axisClosest (Zones.closest cost) squareSegment 0)
      = Zones.closest cost
      (((squareCollider tx ty dir).mergeBody squareSegment ⟨1, ⟨tx + d, ty⟩, 1⟩ ⟨0, 0⟩ isAfter
        sameCluster).2._ranges 0) tx 100 (-1) := by
    simp only [ShiftCollider.axisClosest, ShiftCollider.resolveQuery, ShiftCollider.mergeBody,
      squareCollider, ShiftCollider.initSlot, squareSegment, squareBBox, zeroCollision]
    norm_num
  have hcand : (((squareCollider tx ty dir).mergeBody squareSegment ⟨1, ⟨tx + d, ty⟩, 1⟩ ⟨0, 0⟩
      isAfter sameCluster).2.axisCandidate (Zones.closest cost) squareSegment 0).x
      = (Zones.closest cost
      (((squareCollider tx ty dir).mergeBody squareSegment ⟨1, ⟨tx + d, ty⟩, 1⟩ ⟨0, 0⟩ isAfter
        sameCluster).2._ranges 0) tx 100 (-1)).1 - tx := by
    simp only [ShiftCollider.axisCandidate, hcl, ShiftCollider.testp, ShiftCollider.resolveQuery]
    rfl
  refine ⟨((squareCollider tx ty dir).mergeBody squareSegment ⟨1, ⟨tx + d, ty⟩, 1⟩ ⟨0, 0⟩
    isAfter sameCluster).2, ?_, ?_, ?_, ?_⟩
  · rw [mergeSlot_no_exclGlyph 0 _ _ _ _ _ _ rfl]
    exact congrArg some (Prod.ext hb1 rfl)
  · rw [hcl]
    exact (hq 100 (-1)).1
  · rw [hcand]
    exact (hq 100 (-1)).2
  · intro hbest
    have hr := (resolveLoop_best _ _ _ 0 hbest).2
    rw [hr]
    refine ⟨rfl, ?_⟩
    rw [hcand]
    exact (hq 100 (-1)).2

/-- C16 (witness): the target at the origin, the neighbor 50 units to its right, and the
squared distance as cost: the merge returns true and the x-axis candidate moves the target
by at least 50. -/
theorem squares_overlap_displacement_witness :
    ∃ c', (squareCollider 0 0 1).mergeSlot 1 squareSegment ⟨1, ⟨0 + 50, 0⟩, 1⟩ ⟨0, 0⟩
          false false = some (true, c')
      ∧ 0 ≤ (c'.axisClosest (Zones.closest distanceCost) squareSegment 0).2
      ∧ 50 ≤ |(c'.axisCandidate (Zones.closest distanceCost) squareSegment 0).x|
      ∧ ((c'.resolveLoop (Zones.closest distanceCost) squareSegment).bestAxis = (0 : Nat) →
          (c'.resolve (Zones.closest distanceCost) squareSegment).2 = false
          ∧ 50 ≤ |(c'.resolve (Zones.closest distanceCost) squareSegment).1.x|) :=
  squares_overlap_displacement distanceCost 0 0 50 1 false false (Or.inl rfl)

/-- The landscapes of the mark after merging its base, the mark being before the base in
the slot sequence (`isAfter = false`): the ordering step excludes `(-1380, 340)` on the
sum axis and `(-600, 1120)` on the difference axis. -/
theorem markCollider_ranges :
    ZoneCall.exclude (-1380) 1720
        ∈ ((markCollider.mergeBody markSegment baseSlot ⟨0, 0⟩ false true).2._ranges 2).calls
    ∧ ZoneCall.exclude (-600) 1720
        ∈ ((markCollider.mergeBody markSegment baseSlot ⟨0, 0⟩ false true).2._ranges 3).calls
    ∧ ZoneCall.exclude 0 1130
        ∈ ((markCollider.mergeBody markSegment baseSlot ⟨0, 0⟩ true true).2._ranges 1).calls := by
  rw [mergeBody_ranges _ _ _ _ _ _ 2 (by norm_num), mergeBody_ranges _ _ _ _ _ _ 3 (by norm_num),
    mergeBody_ranges _ _ _ _ _ _ 1 (by norm_num)]
  have ho1 : markCollider.effectiveOrder markSegment baseSlot false true = 8 := by decide
  have ho2 : markCollider.effectiveOrder markSegment baseSlot true true = 4 := by decide
  rw [ho1, ho2]
  have e1 : enforceOrder 4 1 = -1 := by decide
  have e2 : enforceOrder 8 2 = 8 := by decide
  have e3 : enforceOrder 8 3 = 8 := by decide
  refine ⟨?_, ?_, ?_⟩ <;>
  norm_num [Zones.extend, ShiftCollider.afterOrder, ShiftCollider.orderRegions, e1, e2, e3,
    ShiftCollider.orderRegionsPos, ShiftCollider.orderRegionsNeg, ShiftCollider.addBox_slopex,
    ShiftCollider.addBox_slopey, ShiftCollider.removeBox, Rect.width, Rect.height, Zones.exclude,
    Zones.weighted, markCollider, ShiftCollider.initSlot, initLimit, initLen, initRange,
    Zones.initialise, limitLow, markSegment, markRecord, zeroCollision, markSlot, baseSlot,
    COLL_ORDER_UP]

theorem pick_fold_origin (cost : ℚ → NNRat) (origin : ℚ) (h : cost origin = 0) (l : List ℚ) :
    l.foldl (Zones.pick cost origin) (some origin) = some origin := by
  induction l with
  | nil => rfl
  | cons p l ih =>
    simp only [List.foldl_cons, Zones.pick, h, sub_self, abs_zero]
    rw [if_neg]
    · exact ih
    · rintro (h1 | ⟨-, h2⟩)
      · exact absurd h1 (not_lt.mpr (zero_le _))
      · exact absurd h2 (not_lt.mpr (abs_nonneg _))

/-- In the modelled `Zones::closest`, a target that is feasible and costs nothing is
returned, with cost zero. -/
theorem closest_at_target (cost : Zones → ℚ → ℚ → NNRat) (z : Zones) (origin width c0 : ℚ)
    (hf : z.feasible origin = true) (hc : cost z origin origin = 0) :
    Zones.closest cost z origin width c0 = (origin, 0) := by
  unfold Zones.closest
  simp only [Zones.candidates, List.filter_cons, hf, if_true, List.foldl_cons, Zones.pick]
  rw [pick_fold_origin _ _ hc]
  simp [hc]

/-- An order flag `COLL_ORDER_UP`, inverted or not, enforces no order on the x axis. -/
theorem enforceOrder_up_x (isAfter : Bool) : enforceOrder (invertOrder isAfter COLL_ORDER_UP) 0 = 0 := by
  cases isAfter <;> decide

/-- C17 (counterexample): the mark `markSlot` sits 10 units above its base `baseSlot`,
both have sequence class 1 in the same cluster, the mark's order is `COLL_ORDER_UP`, the
base's `seqAboveWt` is 0 and no position is hard-excluded before the merge. After merging
the base, the mark's anchor `(10, 110)` is hard-excluded on the sum axis (position 120)
and on the difference axis (position -100); when the mark comes after the base in the
slot sequence (`isAfter`), it is hard-excluded on the y axis (position 110) as well. -/
theorem mark_above_base_counterexample :
    markCollider._seqClass = (markSegment.collisionInfo baseSlot).seqClass
    ∧ markCollider._seqClass ≠ 0
    ∧ markCollider._seqOrder = COLL_ORDER_UP
    ∧ (markSegment.collisionInfo baseSlot).seqAboveWt = 0
    ∧ baseSlot.origin.y + (markSegment.getBoundingBBox baseSlot.gid).ya
        < markSlot.origin.y + (markSegment.getBoundingBBox markSlot.gid).yi
    ∧ (∀ i p, (markCollider._ranges i).hardExcluded p = false)
    ∧ markCollider.mergeSlot 1 markSegment baseSlot ⟨0, 0⟩ false true
        = some (markCollider.mergeBody markSegment baseSlot ⟨0, 0⟩ false true)
    ∧ ((markCollider.mergeBody markSegment baseSlot ⟨0, 0⟩ false true).2._ranges 2).hardExcluded
        (markSlot.origin.x + markSlot.origin.y) = true
    ∧ ((markCollider.mergeBody markSegment baseSlot ⟨0, 0⟩ false true).2._ranges 3).hardExcluded
        (markSlot.origin.x - markSlot.origin.y) = true
    ∧ ((markCollider.mergeBody markSegment baseSlot ⟨0, 0⟩ true true).2._ranges 1).hardExcluded
        markSlot.origin.y = true := by
  obtain ⟨h2, h3, h1⟩ := markCollider_ranges
  refine ⟨rfl, by decide, rfl, rfl, by norm_num [baseSlot, markSlot, markSegment], ?_,
    mergeSlot_no_exclGlyph 0 _ _ _ _ _ _ rfl, ?_, ?_, ?_⟩
  · intro i p
    simp only [markCollider, ShiftCollider.initSlot, initRange, Zones.hardExcluded]
    split <;> simp [Zones.initialise, freshCollider]
  · simp only [Zones.hardExcluded, List.any_eq_true]
    exact ⟨_, h2, by norm_num [ZoneCall.excludes, markSlot]⟩
  · simp only [Zones.hardExcluded, List.any_eq_true]
    exact ⟨_, h3, by norm_num [ZoneCall.excludes, markSlot]⟩
  · simp only [Zones.hardExcluded, List.any_eq_true]
    exact ⟨_, h1, by norm_num [ZoneCall.excludes, markSlot]⟩

/-- C17 (amended): the target is a mark in the same cluster as its base, both with the same
non-zero sequence class, the mark's order is `COLL_ORDER_UP`, and the mark's box lies more
than the margin above the base's box. Then merging the base (whatever the base's
`seqAboveWt`) leaves the x-axis landscape as it was: the mark's anchor, feasible on the x
axis before the merge, is not hard-excluded on the x axis after it, and when the cost rule
of the modelled `closest` gives the anchor zero cost on the x axis, `resolve` settles on the
x axis with cost 0 and returns the displacement that puts the mark at its anchor
(`-offset.x`, keeping the current y shift), with `isCol = false`. -/
theorem mark_above_base_x_free (cost : Zones → ℚ → ℚ → NNRat) (fuel : Nat) (c : ShiftCollider)
    (seg : Segment) (slot : Slot) (currShift : Position) (isAfter : Bool)
    (hclass : c._seqClass ≠ 0 ∧ c._seqClass = (seg.collisionInfo slot).seqClass)
    (horder : c._seqOrder = COLL_ORDER_UP)
    (hex : (seg.collisionInfo slot).exclGlyph = 0)
    (habove : (seg.getBoundingBBox slot.gid).ya + (slot.origin.y + currShift.y)
      < (seg.getBoundingBBox c._target.gid).yi + (c._target.origin.y + c._currShift.y)
        - c._margin)
    (hfeas : (c._ranges 0).feasible
      (c._target.origin.x + -(seg.collisionInfo c._target).offset.x) = true)
    (hcost : cost (c._ranges 0) (c._target.origin.x + -(seg.collisionInfo c._target).offset.x)
      (c._target.origin.x + -(seg.collisionInfo c._target).offset.x) = 0) :
    ∃ r, c.mergeSlot (fuel + 1) seg slot currShift isAfter true = some r
      ∧ r.2._ranges 0 = c._ranges 0
      ∧ (r.2._ranges 0).hardExcluded
          (c._target.origin.x + -(seg.collisionInfo c._target).offset.x) = false
      ∧ r.2.axisClosest (Zones.closest cost) seg 0
          = (c._target.origin.x + -(seg.collisionInfo c._target).offset.x, 0)
      ∧ r.2.resolve (Zones.closest cost) seg
          = (⟨-(seg.collisionInfo c._target).offset.x, c._currShift.y⟩, false) := by
  have hr0 : (c.mergeBody seg slot currShift isAfter true).2._ranges 0 = c._ranges 0 := by
    rw [mergeBody_ranges _ _ _ _ _ _ 0 (by norm_num)]
    have hord : c.effectiveOrder seg slot isAfter true = invertOrder isAfter COLL_ORDER_UP := by
      simp [ShiftCollider.effectiveOrder, ShiftCollider.orderFlags, hclass.1, hclass.2.symm,
        horder]
    have hpr : c.pruned (c.wholeBounds seg slot currShift 0) (c.axisTarget seg 0) = true := by
      simp only [ShiftCollider.pruned, ShiftCollider.wholeBounds, ShiftCollider.axisTarget,
        axisBounds, ShiftCollider.targetBounds, decide_eq_true_eq]
      exact Or.inr (Or.inr (Or.inl habove))
    simp [ShiftCollider.afterOrder, ShiftCollider.orderRegions, hord, enforceOrder_up_x,
      ShiftCollider.axisExclusions, hpr, Zones.extend_nil]
  have hcl : (c.mergeBody seg slot currShift isAfter true).2.axisClosest (Zones.closest cost) seg 0
      = (c._target.origin.x + -(seg.collisionInfo c._target).offset.x, 0) := by
    simp only [ShiftCollider.axisClosest, hr0]
    exact closest_at_target cost _ _ _ _ hfeas hcost
  refine ⟨_, mergeSlot_no_exclGlyph fuel c seg slot currShift isAfter true hex, hr0, ?_, hcl, ?_⟩
  · rw [hr0]
    simp only [Zones.feasible, Bool.and_eq_true, Bool.not_eq_true'] at hfeas
    exact hfeas.2
  · have hloop := resolveLoop_first_lowest (Zones.closest cost)
      (c.mergeBody seg slot currShift isAfter true).2 seg 0 (by norm_num)
      (by rw [hcl]) (by rw [hcl]; norm_num [FLT_MAX])
      (fun j _ hj => by rw [hcl]; exact hj)
      (fun j hj _ => absurd hj (Nat.not_lt_zero j))
    simp only [ShiftCollider.resolve, hloop]
    simp only [ShiftCollider.axisCandidate, hcl, ShiftCollider.testp, ShiftCollider.resolveQuery]
    simp [ShiftCollider.mergeBody]

/-- C17 (witness): the mark `markSlot` above its base `baseSlot`, with the squared distance
as cost: the x-axis landscape is unchanged and `resolve` returns the zero displacement. -/
theorem mark_above_base_x_free_witness :
    ∃ r, markCollider.mergeSlot 1 markSegment baseSlot ⟨0, 0⟩ false true = some r
      ∧ r.2._ranges 0 = markCollider._ranges 0
      ∧ (r.2._ranges 0).hardExcluded
          (markCollider._target.origin.x
            + -(markSegment.collisionInfo markCollider._target).offset.x) = false
      ∧ r.2.axisClosest (Zones.closest distanceCost) markSegment 0
          = (markCollider._target.origin.x
            + -(markSegment.collisionInfo markCollider._target).offset.x, 0)
      ∧ r.2.resolve (Zones.closest distanceCost) markSegment
          = (⟨-(markSegment.collisionInfo markCollider._target).offset.x,
              markCollider._currShift.y⟩, false) :=
  mark_above_base_x_free distanceCost 0 markCollider markSegment baseSlot ⟨0, 0⟩ false
    ⟨by decide, rfl⟩ rfl rfl
    (by norm_num [markCollider, ShiftCollider.initSlot, markSegment, markSlot, baseSlot])
    (by norm_num [Zones.feasible, Zones.hardExcluded, markCollider, ShiftCollider.initSlot,
      initRange, initLimit, Zones.initialise, limitLow, markSegment, markRecord, zeroCollision,
      markSlot])
    (by simp [distanceCost]; rfl)

/-! ## The candidate displacement and the movement limits -/

theorem initLimit_eq (limit : Rect) (currOffset : Position) :
    (initLimit limit currOffset).bl.x = limit.bl.x - currOffset.x
    ∧ (initLimit limit currOffset).bl.y = limit.bl.y - currOffset.y
    ∧ (initLimit limit currOffset).tr.x = limit.tr.x - currOffset.x
    ∧ (initLimit limit currOffset).tr.y = limit.tr.y - currOffset.y := by
  unfold initLimit
  split_ifs with h
  · exact ⟨rfl, rfl, rfl, rfl⟩
  · have hx : currOffset.x = 0 := by
      by_contra hne
      exact h (Or.inl hne)
    have hy : currOffset.y = 0 := by
      by_contra hne
      exact h (Or.inr hne)
    simp [hx, hy]

/-- C23: the 2-D candidate `resolve` builds from an axis position `p` relative to the
anchor is `(p, currShift.y)` on the x axis and `(currShift.x, p)` on the y axis; on the
sum axis its `x + y` is `p` and its `x - y` is `currShift.x - currShift.y`; on the diff
axis its `x - y` is `p` and its `x + y` is `currShift.x + currShift.y`. The candidate of
axis `i` in `resolve` is this conversion of `closest(..) - tbase`. -/
theorem testp_complementary_axis (c : ShiftCollider) (p : ℚ)
    (closest : Zones → ℚ → ℚ → ℚ → ℚ × ℚ) (seg : Segment) (i : Nat) :
    c.testp 0 p = ⟨p, c._currShift.y⟩
    ∧ c.testp 1 p = ⟨c._currShift.x, p⟩
    ∧ (c.testp 2 p).x + (c.testp 2 p).y = p
    ∧ (c.testp 2 p).x - (c.testp 2 p).y = c._currShift.x - c._currShift.y
    ∧ (c.testp 3 p).x - (c.testp 3 p).y = p
    ∧ (c.testp 3 p).x + (c.testp 3 p).y = c._currShift.x + c._currShift.y
    ∧ c.axisCandidate closest seg i
      = c.testp i ((c.axisClosest closest seg i).1
        - (c.resolveQuery (seg.getBoundingBBox c._target.gid)
            (seg.getBoundingSlantBox c._target.gid) (seg.collisionInfo c._target).offset i).2.2) := by
  refine ⟨rfl, rfl, ?_, ?_, ?_, ?_, rfl⟩ <;> simp only [ShiftCollider.testp] <;> ring

/-- C24: let `L` be the rectangle `limit - currOffset`. For each axis and every absolute
position `s` within the range `[min, max]` that `initSlot` seeds for that axis, the
displacement `resolve` derives from `s` (`s` minus the anchor's axis coordinate, then the
conversion of the axis with the stored `currShift`) has its x inside `[L.bl.x, L.tr.x]` on
the x axis, its y inside `[L.bl.y, L.tr.y]` on the y axis, and both components inside `L`
on the sum and diff axes. -/
theorem initSlot_range_within_limit (c0 : ShiftCollider) (seg : Segment) (aSlot : Slot)
    (limit : Rect) (margin marginWeight : ℚ) (currShift currOffset : Position) (dir : Int)
    (i : Nat) (s : ℚ)
    (hs : ((c0.initSlot seg aSlot limit margin marginWeight currShift currOffset dir)._ranges i).pos
        ≤ s
      ∧ s ≤ ((c0.initSlot seg aSlot limit margin marginWeight currShift currOffset dir)._ranges i).pos
        + ((c0.initSlot seg aSlot limit margin marginWeight currShift currOffset dir)._ranges i).len) :
    let c := c0.initSlot seg aSlot limit margin marginWeight currShift currOffset dir
    let d := c.testp i (s - (c.resolveQuery (seg.getBoundingBBox c._target.gid)
      (seg.getBoundingSlantBox c._target.gid) (seg.collisionInfo c._target).offset i).2.2)
    (i = 0 → limit.bl.x - currOffset.x ≤ d.x ∧ d.x ≤ limit.tr.x - currOffset.x)
    ∧ (i = 1 → limit.bl.y - currOffset.y ≤ d.y ∧ d.y ≤ limit.tr.y - currOffset.y)
    ∧ (i = 2 ∨ i = 3 →
        limit.bl.x - currOffset.x ≤ d.x ∧ d.x ≤ limit.tr.x - currOffset.x
        ∧ limit.bl.y - currOffset.y ≤ d.y ∧ d.y ≤ limit.tr.y - currOffset.y) := by
  obtain ⟨l1, l2, l3, l4⟩ := initLimit_eq limit currOffset
  intro c d
  refine ⟨?_, ?_, ?_⟩
  · rintro rfl
    simp only [d, c, ShiftCollider.initSlot, initRange, Zones.initialise, ShiftCollider.testp,
      ShiftCollider.resolveQuery, l1, l3] at hs ⊢
    constructor <;> linarith [hs.1, hs.2]
  · rintro rfl
    simp only [d, c, ShiftCollider.initSlot, initRange, Zones.initialise, ShiftCollider.testp,
      ShiftCollider.resolveQuery, l2, l4] at hs ⊢
    constructor <;> linarith [hs.1, hs.2]
  · rintro (rfl | rfl)
    · simp only [d, c, ShiftCollider.initSlot, initRange, Zones.initialise, ShiftCollider.testp,
        ShiftCollider.resolveQuery, l1, l2, l3, l4] at hs ⊢
      obtain ⟨h1, h2⟩ := hs
      have a1 := min_le_left (currShift.x - (limit.bl.x - currOffset.x))
        (currShift.y - (limit.bl.y - currOffset.y))
      have a2 := min_le_right (currShift.x - (limit.bl.x - currOffset.x))
        (currShift.y - (limit.bl.y - currOffset.y))
      have b1 := min_le_left (limit.tr.x - currOffset.x - currShift.x)
        (limit.tr.y - currOffset.y - currShift.y)
      have b2 := min_le_right (limit.tr.x - currOffset.x - currShift.x)
        (limit.tr.y - currOffset.y - currShift.y)
      refine ⟨?_, ?_, ?_, ?_⟩ <;> linarith
    · simp only [d, c, ShiftCollider.initSlot, initRange, Zones.initialise, ShiftCollider.testp,
        ShiftCollider.resolveQuery, l1, l2, l3, l4] at hs ⊢
      obtain ⟨h1, h2⟩ := hs
      have a1 := min_le_left (currShift.x - (limit.bl.x - currOffset.x))
        (limit.tr.y - currOffset.y - currShift.y)
      have a2 := min_le_right (currShift.x - (limit.bl.x - currOffset.x))
        (limit.tr.y - currOffset.y - currShift.y)
      have b1 := min_le_left (limit.tr.x - currOffset.x - currShift.x)
        (currShift.y - (limit.bl.y - currOffset.y))
      have b2 := min_le_right (limit.tr.x - currOffset.x - currShift.x)
        (currShift.y - (limit.bl.y - currOffset.y))
      refine ⟨?_, ?_, ?_, ?_⟩ <;> linarith

/-- C24 (witness): for `colliderAt31` (limits `[-1000, 1000]`, anchor `(3, 1)`) the position
`504` lies in the range seeded for the sum axis, and the displacement derived from it lies
within the limits. -/
theorem initSlot_range_within_limit_witness :
    (⟨⟨-1000, -1000⟩, ⟨1000, 1000⟩⟩ : Rect).bl.x - (⟨0, 0⟩ : Position).x
        ≤ (colliderAt31.testp 2 (504 - (colliderAt31.resolveQuery
          (wideSegment.getBoundingBBox colliderAt31._target.gid)
          (wideSegment.getBoundingSlantBox colliderAt31._target.gid)
          (wideSegment.collisionInfo colliderAt31._target).offset 2).2.2)).x
    ∧ (colliderAt31.testp 2 (504 - (colliderAt31.resolveQuery
          (wideSegment.getBoundingBBox colliderAt31._target.gid)
          (wideSegment.getBoundingSlantBox colliderAt31._target.gid)
          (wideSegment.collisionInfo colliderAt31._target).offset 2).2.2)).x
        ≤ (⟨⟨-1000, -1000⟩, ⟨1000, 1000⟩⟩ : Rect).tr.x - (⟨0, 0⟩ : Position).x
    ∧ (⟨⟨-1000, -1000⟩, ⟨1000, 1000⟩⟩ : Rect).bl.y - (⟨0, 0⟩ : Position).y
        ≤ (colliderAt31.testp 2 (504 - (colliderAt31.resolveQuery
          (wideSegment.getBoundingBBox colliderAt31._target.gid)
          (wideSegment.getBoundingSlantBox colliderAt31._target.gid)
          (wideSegment.collisionInfo colliderAt31._target).offset 2).2.2)).y
    ∧ (colliderAt31.testp 2 (504 - (colliderAt31.resolveQuery
          (wideSegment.getBoundingBBox colliderAt31._target.gid)
          (wideSegment.getBoundingSlantBox colliderAt31._target.gid)
          (wideSegment.collisionInfo colliderAt31._target).offset 2).2.2)).y
        ≤ (⟨⟨-1000, -1000⟩, ⟨1000, 1000⟩⟩ : Rect).tr.y - (⟨0, 0⟩ : Position).y :=
  (initSlot_range_within_limit freshCollider wideSegment slotAt31 ⟨⟨-1000, -1000⟩, ⟨1000, 1000⟩⟩
    0 0 ⟨0, 0⟩ ⟨0, 0⟩ 1 2 504
    (by norm_num [ShiftCollider.initSlot, initRange, initLimit, Zones.initialise,
      slotAt31])).2.2 (Or.inl rfl)

/-- C25 (counterexample): with the limit `limitLeft` (x in `[-1000, 0]`) and a reversed run
(`dir = 1`) `initSlot` stores the x limits as given, `[-1000, 0]`, not negated and swapped;
with a run that is not reversed (`dir = 0`) it stores `[0, 1000]`, negated and swapped. -/
theorem initSlot_flip_counterexample :
    (freshCollider.initSlot wideSegment slotA limitLeft 0 0 ⟨0, 0⟩ ⟨0, 0⟩ 1)._limit = limitLeft
    ∧ (freshCollider.initSlot wideSegment slotA limitLeft 0 0 ⟨0, 0⟩ ⟨0, 0⟩ 1)._limit.bl.x
        ≠ -limitLeft.tr.x
    ∧ (freshCollider.initSlot wideSegment slotA limitLeft 0 0 ⟨0, 0⟩ ⟨0, 0⟩ 0)._limit
        = ⟨⟨0, -1000⟩, ⟨1000, 1000⟩⟩
    ∧ (freshCollider.initSlot wideSegment slotA limitLeft 0 0 ⟨0, 0⟩ ⟨0, 0⟩ 0)._limit.bl.x
        ≠ limitLeft.bl.x := by
  refine ⟨?_, ?_, ?_, ?_⟩ <;>
    norm_num [ShiftCollider.initSlot, initLimit, limitLeft]

/-- C25 (amended): `initSlot` negates and swaps the horizontal limits (stored
`bl.x = -limit.tr.x`, stored `tr.x = -limit.bl.x`, from the limit as passed) exactly when
the run is not reversed (`dir` even, "For LTR" in the source); for a reversed run (`dir`
odd) it stores the x range of `limit - currOffset` un-flipped. The y limits are those of
`limit - currOffset` in both cases. -/
theorem initSlot_flips_x_for_even_dir (c0 : ShiftCollider) (seg : Segment) (aSlot : Slot)
    (limit : Rect) (margin marginWeight : ℚ) (currShift currOffset : Position) (dir : Int) :
    let c := c0.initSlot seg aSlot limit margin marginWeight currShift currOffset dir
    (dir % 2 = 0 → c._limit.bl.x = -limit.tr.x ∧ c._limit.tr.x = -limit.bl.x)
    ∧ (dir % 2 = 1 → c._limit.bl.x = limit.bl.x - currOffset.x
        ∧ c._limit.tr.x = limit.tr.x - currOffset.x)
    ∧ c._limit.bl.y = limit.bl.y - currOffset.y
    ∧ c._limit.tr.y = limit.tr.y - currOffset.y := by
  obtain ⟨l1, l2, l3, l4⟩ := initLimit_eq limit currOffset
  intro c
  refine ⟨?_, ?_, ?_, ?_⟩
  · intro h
    simp [c, ShiftCollider.initSlot, h]
  · intro h
    simp [c, ShiftCollider.initSlot, h, l1, l3]
  · simp only [c, ShiftCollider.initSlot]
    split_ifs <;> exact l2
  · simp only [c, ShiftCollider.initSlot]
    split_ifs <;> exact l4

/-- C25 (witness): a run that is not reversed (`dir = 2`) with the limit `limitLeft`. -/
theorem initSlot_flips_x_for_even_dir_witness :
    (freshCollider.initSlot wideSegment slotA limitLeft 0 0 ⟨0, 0⟩ ⟨0, 0⟩ 2)._limit.bl.x
        = -limitLeft.tr.x
    ∧ (freshCollider.initSlot wideSegment slotA limitLeft 0 0 ⟨0, 0⟩ ⟨0, 0⟩ 2)._limit.tr.x
        = -limitLeft.bl.x :=
  (initSlot_flips_x_for_even_dir freshCollider wideSegment slotA limitLeft 0 0 ⟨0, 0⟩ ⟨0, 0⟩
    2).1 (by decide)

/-! ## Degenerate boxes and empty overlap intervals -/

/-- C21 (counterexample): on the x axis a box of height zero (and positive width) is not
skipped by `removeBox`, `addBox_slopex` and `addBox_slopey`; on the sum axis a box of width
and height zero is not skipped by `addBox_slopex` and `addBox_slopey`: each call adds a
region to the landscape. -/
theorem degenerate_box_counterexample :
    (⟨⟨0, 5⟩, ⟨10, 5⟩⟩ : Rect).height = 0
    ∧ (freshCollider.removeBox ⟨⟨0, 5⟩, ⟨10, 5⟩⟩ ⟨⟨0, 0⟩, ⟨10, 10⟩⟩ 0
        (freshCollider._ranges 0)).calls = [ZoneCall.exclude 0 10]
    ∧ (freshCollider.addBox_slopex ⟨⟨0, 5⟩, ⟨10, 5⟩⟩ ⟨⟨0, 0⟩, ⟨10, 10⟩⟩ 1 1 true 0
        (freshCollider._ranges 0)).calls = [ZoneCall.weighted zones_t.XY 0 10 1 0 0 (-5) 1 10 0]
    ∧ (freshCollider.addBox_slopey ⟨⟨0, 5⟩, ⟨10, 5⟩⟩ ⟨⟨0, 0⟩, ⟨10, 10⟩⟩ 1 1 true 0
        (freshCollider._ranges 0)).calls = [ZoneCall.weighted zones_t.XY 0 10 1 0 0 (-5) 0 0 25]
    ∧ (⟨⟨5, 5⟩, ⟨5, 5⟩⟩ : Rect).width = 0 ∧ (⟨⟨5, 5⟩, ⟨5, 5⟩⟩ : Rect).height = 0
    ∧ (freshCollider.addBox_slopex ⟨⟨5, 5⟩, ⟨5, 5⟩⟩ ⟨⟨0, 0⟩, ⟨10, 10⟩⟩ 1 1 true 2
        (freshCollider._ranges 2)).calls
        = [ZoneCall.weighted zones_t.SD 10 0 (1 / 2) 0 0 10 (1 / 2) 10 0]
    ∧ (freshCollider.addBox_slopey ⟨⟨5, 5⟩, ⟨5, 5⟩⟩ ⟨⟨0, 0⟩, ⟨10, 10⟩⟩ 1 1 true 2
        (freshCollider._ranges 2)).calls
        = [ZoneCall.weighted zones_t.SD 10 0 (1 / 2) 0 0 0 (1 / 2) 10 0] := by
  refine ⟨?_, ?_, ?_, ?_, ?_, ?_, ?_, ?_⟩ <;>
    norm_num [ShiftCollider.removeBox, ShiftCollider.addBox_slopex, ShiftCollider.addBox_slopey,
      Rect.width, Rect.height, Zones.exclude, Zones.weighted, freshCollider, Zones.initialise]

/-- C21 (amended): on the x axis a box of zero or negative width, and on the y axis a box
of zero or negative height, passed to `removeBox`, `addBox_slopex` or `addBox_slopey` is
skipped: the landscape of the axis is returned as it was. On the sum and diff axes
`removeBox` skips a box of zero or negative width or height. -/
theorem degenerate_box_skipped (c : ShiftCollider) (box org : Rect) (weight m : ℚ) (b : Bool)
    (z : Zones) :
    (box.width ≤ 0 →
      c.removeBox box org 0 z = z ∧ c.addBox_slopex box org weight m b 0 z = z
      ∧ c.addBox_slopey box org weight m b 0 z = z)
    ∧ (box.height ≤ 0 →
      c.removeBox box org 1 z = z ∧ c.addBox_slopex box org weight m b 1 z = z
      ∧ c.addBox_slopey box org weight m b 1 z = z)
    ∧ (box.width ≤ 0 ∨ box.height ≤ 0 →
      c.removeBox box org 2 z = z ∧ c.removeBox box org 3 z = z) := by
  refine ⟨?_, ?_, ?_⟩
  · intro h
    have hn : ¬ box.width > 0 := not_lt.mpr h
    simp [ShiftCollider.removeBox, ShiftCollider.addBox_slopex, ShiftCollider.addBox_slopey, hn]
  · intro h
    have hn : ¬ box.height > 0 := not_lt.mpr h
    simp [ShiftCollider.removeBox, ShiftCollider.addBox_slopex, ShiftCollider.addBox_slopey, hn]
  · intro h
    have hn : ¬ (box.width > 0 ∧ box.height > 0) := by
      rintro ⟨h1, h2⟩
      rcases h with h | h <;> linarith
    constructor <;> simp only [ShiftCollider.removeBox] <;> rw [if_neg] <;>
      exact fun hc => hn ⟨hc.2.2.1, hc.2.2.2⟩

/-- C21 (witness): a box of width zero on the x axis. -/
theorem degenerate_box_skipped_witness :
    freshCollider.removeBox ⟨⟨5, 0⟩, ⟨5, 10⟩⟩ ⟨⟨0, 0⟩, ⟨10, 10⟩⟩ 0 (freshCollider._ranges 0)
        = freshCollider._ranges 0
    ∧ freshCollider.addBox_slopex ⟨⟨5, 0⟩, ⟨5, 10⟩⟩ ⟨⟨0, 0⟩, ⟨10, 10⟩⟩ 1 1 true 0
        (freshCollider._ranges 0) = freshCollider._ranges 0
    ∧ freshCollider.addBox_slopey ⟨⟨5, 0⟩, ⟨5, 10⟩⟩ ⟨⟨0, 0⟩, ⟨10, 10⟩⟩ 1 1 true 0
        (freshCollider._ranges 0) = freshCollider._ranges 0 :=
  (degenerate_box_skipped freshCollider ⟨⟨5, 0⟩, ⟨5, 10⟩⟩ ⟨⟨0, 0⟩, ⟨10, 10⟩⟩ 1 1 true
    (freshCollider._ranges 0)).1 (by norm_num [Rect.width])

/-- C22 (counterexample): for the small square `dotSlot` and the diagonal stroke
`strokeSlot`, the interval computed on the x axis is empty (`vmin = 6 > vmax = -1`), the
axis passes the broad phase, and the merge passes `(vmin - _len, vmax - vmin + _len) =
(-14, 13)` to `exclude_with_margins`: the position `-5` of the target is hard-excluded
afterwards, the axis sets `isCol` and `mergeSlot` returns true. -/
theorem mergeSlot_empty_interval_counterexample :
    (dotCollider.wholeBounds strokeSegment strokeSlot ⟨0, 0⟩ 0).vmin = 6
    ∧ (dotCollider.wholeBounds strokeSegment strokeSlot ⟨0, 0⟩ 0).vmax = -1
    ∧ dotCollider.pruned (dotCollider.wholeBounds strokeSegment strokeSlot ⟨0, 0⟩ 0)
        (dotCollider.axisTarget strokeSegment 0) = false
    ∧ dotCollider.axisHit strokeSegment strokeSlot ⟨0, 0⟩ 0 = true
    ∧ (dotCollider.mergeSlot 1 strokeSegment strokeSlot ⟨0, 0⟩ false false).map Prod.fst
        = some true
    ∧ ZoneCall.exclude_with_margins (-14) 13 ∈ (dotCollider._ranges 0).newCalls
        ((dotCollider.mergeBody strokeSegment strokeSlot ⟨0, 0⟩ false false).2._ranges 0)
    ∧ (dotCollider._ranges 0).hardExcluded dotSlot.origin.x = false
    ∧ ((dotCollider.mergeBody strokeSegment strokeSlot ⟨0, 0⟩ false false).2._ranges
        0).hardExcluded dotSlot.origin.x = true := by
  have hb : dotCollider.wholeBounds strokeSegment strokeSlot ⟨0, 0⟩ 0
      = { vmin := 6, vmax := -1, omin := 0, omax := 100 } := by
    norm_num [ShiftCollider.wholeBounds, axisBounds, dotCollider, ShiftCollider.initSlot,
      strokeSegment, strokeSlot, dotSlot]
  have hp : dotCollider.pruned (dotCollider.wholeBounds strokeSegment strokeSlot ⟨0, 0⟩ 0)
      (dotCollider.axisTarget strokeSegment 0) = false := by
    rw [hb]
    norm_num [ShiftCollider.pruned, ShiftCollider.axisTarget, ShiftCollider.targetBounds,
      dotCollider, ShiftCollider.initSlot, initLimit, limitWide, strokeSegment, dotSlot]
  have hh : dotCollider.axisHit strokeSegment strokeSlot ⟨0, 0⟩ 0 = true :=
    (axisHit_iff _ _ _ _ _).mpr ⟨hp, fun h => absurd h (by simp [strokeSegment])⟩
  have hmem : ZoneCall.exclude_with_margins (-14) 13 ∈ (dotCollider._ranges 0).newCalls
      ((dotCollider.mergeBody strokeSegment strokeSlot ⟨0, 0⟩ false false).2._ranges 0) := by
    rw [mergeBody_marginExclusions _ _ _ _ _ _ 0 (by norm_num)]
    unfold ShiftCollider.axisExclusions
    rw [hp]
    simp only [Bool.false_eq_true, if_false, ShiftCollider.overlapCall, hb]
    norm_num [strokeSegment, dotCollider, ShiftCollider.initSlot, initLen, dotSlot]
  refine ⟨by rw [hb], by rw [hb], hp, hh, ?_, hmem, ?_, ?_⟩
  · rw [mergeSlot_no_exclGlyph 0 _ _ _ _ _ _ rfl]
    simp [mergeBody_fst, hh]
  · simp [Zones.hardExcluded, dotCollider, ShiftCollider.initSlot, initRange, Zones.initialise]
  · simp only [Zones.hardExcluded, List.any_eq_true]
    exact ⟨_, List.mem_of_mem_drop hmem, by norm_num [ZoneCall.excludes, dotSlot]⟩

/-- C22 (amended): `mergeSlot` does not test whether the interval `[vmin, vmax]` is empty.
For a neighbor without sub-boxes, an axis that the broad-phase prune rejects adds no
`exclude_with_margins` region and does not set `isCol`; an axis `i` that passes the prune,
also when `vmin > vmax`, passes `(vmin - _len[i], vmax - vmin + _len[i])` to
`exclude_with_margins` and makes `mergeSlot` return true; in the modelled landscape that region
excludes some position exactly when `vmin - vmax < _len[i]`. -/
theorem mergeSlot_empty_interval_not_skipped (c : ShiftCollider) (seg : Segment) (slot : Slot)
    (currShift : Position) (isAfter sameCluster : Bool) (i : Nat) (hi : i < 4)
    (hsub : seg.numSubBounds slot.gid = 0) (hex : (seg.collisionInfo slot).exclGlyph = 0) :
    (c.pruned (c.wholeBounds seg slot currShift i) (c.axisTarget seg i) = true →
      c.axisHit seg slot currShift i = false
      ∧ ∀ x len, ZoneCall.exclude_with_margins x len ∉ (c._ranges i).newCalls
          ((c.mergeBody seg slot currShift isAfter sameCluster).2._ranges i))
    ∧ (c.pruned (c.wholeBounds seg slot currShift i) (c.axisTarget seg i) = false →
      c.overlapCall i (c.wholeBounds seg slot currShift i) ∈ (c._ranges i).newCalls
          ((c.mergeBody seg slot currShift isAfter sameCluster).2._ranges i)
      ∧ c.axisHit seg slot currShift i = true
      ∧ (c.mergeSlot 1 seg slot currShift isAfter sameCluster).map Prod.fst = some true
      ∧ ((∃ p, (c.overlapCall i (c.wholeBounds seg slot currShift i)).excludes p = true)
          ↔ (c.wholeBounds seg slot currShift i).vmin - (c.wholeBounds seg slot currShift i).vmax
            < c._len i)) := by
  constructor
  · intro hp
    refine ⟨?_, fun x len hmem => ?_⟩
    · simp [ShiftCollider.axisHit, hp]
    · rw [mergeBody_marginExclusions _ _ _ _ _ _ i hi] at hmem
      simp [ShiftCollider.axisExclusions, hp] at hmem
  · intro hp
    have hh : c.axisHit seg slot currShift i = true :=
      (axisHit_iff _ _ _ _ _).mpr ⟨hp, fun h => absurd h (by omega)⟩
    refine ⟨?_, hh, ?_, ?_⟩
    · unfold ShiftCollider.overlapCall
      rw [mergeBody_marginExclusions _ _ _ _ _ _ i hi]
      simp [ShiftCollider.axisExclusions, hp, hsub, ShiftCollider.overlapCall]
    · rw [mergeSlot_no_exclGlyph 0 _ _ _ _ _ _ hex]
      simp only [Option.map_some', mergeBody_fst, Option.some.injEq, Bool.or_eq_true]
      interval_cases i
      · exact Or.inl (Or.inl (Or.inl hh))
      · exact Or.inl (Or.inl (Or.inr hh))
      · exact Or.inl (Or.inr hh)
      · exact Or.inr hh
    · simp only [ShiftCollider.overlapCall, ZoneCall.excludes, decide_eq_true_eq]
      constructor
      · rintro ⟨p, h1, h2⟩
        linarith
      · intro h
        refine ⟨(c.wholeBounds seg slot currShift i).vmin - c._len i
          + ((c.wholeBounds seg slot currShift i).vmax
            - (c.wholeBounds seg slot currShift i).vmin + c._len i) / 2, ?_, ?_⟩ <;> linarith

/-- C22 (witness): the x axis of the scenario of `dotSlot` and `strokeSlot`, where
`vmin > vmax`. -/
theorem mergeSlot_empty_interval_not_skipped_witness :
    dotCollider.overlapCall 0 (dotCollider.wholeBounds strokeSegment strokeSlot ⟨0, 0⟩ 0)
        ∈ (dotCollider._ranges 0).newCalls
          ((dotCollider.mergeBody strokeSegment strokeSlot ⟨0, 0⟩ false false).2._ranges 0)
    ∧ dotCollider.axisHit strokeSegment strokeSlot ⟨0, 0⟩ 0 = true
    ∧ (dotCollider.mergeSlot 1 strokeSegment strokeSlot ⟨0, 0⟩ false false).map Prod.fst
        = some true
    ∧ ((∃ p, (dotCollider.overlapCall 0
          (dotCollider.wholeBounds strokeSegment strokeSlot ⟨0, 0⟩ 0)).excludes p = true)
        ↔ (dotCollider.wholeBounds strokeSegment strokeSlot ⟨0, 0⟩ 0).vmin
            - (dotCollider.wholeBounds strokeSegment strokeSlot ⟨0, 0⟩ 0).vmax
          < dotCollider._len 0) :=
  (mergeSlot_empty_interval_not_skipped dotCollider strokeSegment strokeSlot ⟨0, 0⟩ false false
    0 (by norm_num) rfl rfl).2
    (by
      norm_num [ShiftCollider.pruned, ShiftCollider.wholeBounds, axisBounds,
        ShiftCollider.axisTarget, ShiftCollider.targetBounds, dotCollider,
        ShiftCollider.initSlot, initLimit, limitWide, strokeSegment, strokeSlot, dotSlot])

/-! ## The ordering step, the prune and the layouts -/

/-- C26 (counterexample): target and neighbor share sequence class 1 in the same cluster
with the order `LEFT`; the neighbor `slotFarBelow` lies 500 units below the target, so the
broad-phase prune rejects the x axis. The ordering step has already run: the x-axis
landscape gains a hard exclusion and a weighted region, and position `60`, free before
the merge, is hard-excluded after it. -/
theorem mergeSlot_pruned_axis_counterexample :
    colliderOrdered.pruned (colliderOrdered.wholeBounds orderedSegment slotFarBelow ⟨0, 0⟩ 0)
        (colliderOrdered.axisTarget orderedSegment 0) = true
    ∧ (colliderOrdered._ranges 0).newCalls
        ((colliderOrdered.mergeBody orderedSegment slotFarBelow ⟨0, 0⟩ false true).2._ranges 0)
        = [ZoneCall.exclude 53 1050, ZoneCall.weighted zones_t.XY (-997) 1050 0 0 0 501 0 53 0]
    ∧ (colliderOrdered._ranges 0).hardExcluded 60 = false
    ∧ ((colliderOrdered.mergeBody orderedSegment slotFarBelow ⟨0, 0⟩ false true).2._ranges
        0).hardExcluded 60 = true := by
  have hp : colliderOrdered.pruned
      (colliderOrdered.wholeBounds orderedSegment slotFarBelow ⟨0, 0⟩ 0)
      (colliderOrdered.axisTarget orderedSegment 0) = true := by
    norm_num [ShiftCollider.pruned, ShiftCollider.wholeBounds, axisBounds,
      ShiftCollider.axisTarget, ShiftCollider.targetBounds, colliderOrdered,
      ShiftCollider.initSlot, initLimit, orderedSegment, wideSegment, wideBBox, wideSlantBox,
      slotAt31, slotFarBelow]
  have ho : colliderOrdered.effectiveOrder orderedSegment slotFarBelow false true = 1 := by
    decide
  have he : enforceOrder 1 0 = -1 := by decide
  have hr : (colliderOrdered.mergeBody orderedSegment slotFarBelow ⟨0, 0⟩ false true).2._ranges 0
      = (colliderOrdered._ranges 0).extend
        [ZoneCall.exclude 53 1050, ZoneCall.weighted zones_t.XY (-997) 1050 0 0 0 501 0 53 0] := by
    rw [mergeBody_ranges _ _ _ _ _ _ 0 (by norm_num), ho]
    unfold ShiftCollider.axisExclusions
    rw [hp]
    norm_num [Zones.extend, ShiftCollider.afterOrder, ShiftCollider.orderRegions, he,
      ShiftCollider.orderRegionsNeg, ShiftCollider.addBox_slopex, ShiftCollider.addBox_slopey,
      ShiftCollider.removeBox, Rect.width, Rect.height, Zones.exclude, Zones.weighted,
      colliderOrdered, ShiftCollider.initSlot, initLimit, initLen, initRange, Zones.initialise,
      orderedSegment, wideSegment, wideBBox, zeroCollision, slotAt31, slotFarBelow]
  refine ⟨hp, ?_, ?_, ?_⟩
  · rw [hr, Zones.newCalls_extend]
  · simp [Zones.hardExcluded, colliderOrdered, ShiftCollider.initSlot, initRange,
      Zones.initialise]
  · rw [hr]
    simp only [Zones.hardExcluded, Zones.extend, List.any_append, List.any_cons, Bool.or_eq_true]
    right
    left
    norm_num [ZoneCall.excludes]

/-- C26 (amended): for every axis that the broad-phase prune rejects, the merge adds no
`exclude_with_margins` region: the landscape of the axis after the call is the one the
ordering step, which runs before the prune, has produced. When no order is enforced on
the axis the landscape is exactly as it was before the call. -/
theorem mergeSlot_pruned_axis_keeps_order_regions (c : ShiftCollider) (seg : Segment)
    (slot : Slot) (currShift : Position) (isAfter sameCluster : Bool) (i : Nat) (hi : i < 4)
    (hp : c.pruned (c.wholeBounds seg slot currShift i) (c.axisTarget seg i) = true) :
    (c.mergeBody seg slot currShift isAfter sameCluster).2._ranges i
        = c.afterOrder seg slot currShift (c.effectiveOrder seg slot isAfter sameCluster) i
          (c._ranges i)
    ∧ (∀ x len, ZoneCall.exclude_with_margins x len ∉ (c._ranges i).newCalls
        ((c.mergeBody seg slot currShift isAfter sameCluster).2._ranges i))
    ∧ (enforceOrder (c.effectiveOrder seg slot isAfter sameCluster) i = 0 →
        (c.mergeBody seg slot currShift isAfter sameCluster).2._ranges i = c._ranges i) := by
  have h1 : (c.mergeBody seg slot currShift isAfter sameCluster).2._ranges i
      = c.afterOrder seg slot currShift (c.effectiveOrder seg slot isAfter sameCluster) i
        (c._ranges i) := by
    rw [mergeBody_ranges _ _ _ _ _ _ i hi]
    simp [ShiftCollider.axisExclusions, hp, Zones.extend_nil]
  refine ⟨h1, fun x len hmem => ?_, fun h0 => ?_⟩
  · rw [mergeBody_marginExclusions _ _ _ _ _ _ i hi] at hmem
    simp [ShiftCollider.axisExclusions, hp] at hmem
  · rw [h1]
    simp [ShiftCollider.afterOrder, ShiftCollider.orderRegions, h0]

/-- C26 (witness): the neighbor `slotFarBelow` merged into `colliderAt31`, where no order
is enforced: the pruned x axis keeps its landscape. -/
theorem mergeSlot_pruned_axis_keeps_order_regions_witness :
    (colliderAt31.mergeBody wideSegment slotFarBelow ⟨0, 0⟩ false false).2._ranges 0
      = colliderAt31._ranges 0 :=
  (mergeSlot_pruned_axis_keeps_order_regions colliderAt31 wideSegment slotFarBelow ⟨0, 0⟩ false
    false 0 (by norm_num)
    (by
      norm_num [ShiftCollider.pruned, ShiftCollider.wholeBounds, axisBounds,
        ShiftCollider.axisTarget, ShiftCollider.targetBounds, colliderAt31,
        ShiftCollider.initSlot, initLimit, wideSegment, wideBBox, wideSlantBox, slotAt31,
        slotFarBelow])).2.2
    (by decide)

/-- On the sum and diff axes `enforceOrder` is the order flags themselves, never negative:
whenever regions are laid there, the layout is the unmirrored one. -/
theorem orderRegions_diagonal (c : ShiftCollider) (cslot : SlotCollision) (bb tbb : BBox)
    (sx sy : ℚ) (flags i : Nat) (z : Zones) (hi : i = 2 ∨ i = 3) (hf : flags ≠ 0) :
    0 < enforceOrder flags i
    ∧ c.orderRegions cslot bb tbb sx sy flags i z = c.orderRegionsPos cslot bb tbb sx sy i z := by
  have he : enforceOrder flags i = (flags : Int) := by
    rcases hi with rfl | rfl <;> rfl
  have hpos : 0 < enforceOrder flags i := by
    rw [he]
    exact_mod_cast Nat.pos_of_ne_zero hf
  exact ⟨hpos, by simp [ShiftCollider.orderRegions, hpos]⟩

/-- C27: the code at the failing input. Target `slotAt31` and neighbor `slotNear` share
sequence class 1 in the same cluster and the effective order is `LEFT`. On the x axis
`enforceOrder` is `-1` and the mirrored layout is laid. On the sum axis `enforceOrder` is
the flag value `1`, so the unmirrored layout is laid: the landscape gains
`exclude(-1996, 2300)`, which covers the target's own position `4`, where the mirrored
layout would have added `exclude(54, 2100)`. For every non-zero order the sum and diff
axes get the unmirrored layout. -/
theorem diagonal_axes_never_mirrored :
    colliderOrdered.effectiveOrder orderedSegment slotNear false true = COLL_ORDER_LEFT
    ∧ enforceOrder COLL_ORDER_LEFT 0 = -1
    ∧ (∀ z, colliderOrdered.afterOrder orderedSegment slotNear ⟨0, 0⟩ COLL_ORDER_LEFT 0 z
        = colliderOrdered.orderRegionsNeg (orderedSegment.collisionInfo slotNear)
          (orderedSegment.getBoundingBBox slotNear.gid)
          (orderedSegment.getBoundingBBox colliderOrdered._target.gid) 53 1 0 z)
    ∧ enforceOrder COLL_ORDER_LEFT 2 = 1
    ∧ (∀ z, colliderOrdered.afterOrder orderedSegment slotNear ⟨0, 0⟩ COLL_ORDER_LEFT 2 z
        = colliderOrdered.orderRegionsPos (orderedSegment.collisionInfo slotNear)
          (orderedSegment.getBoundingBBox slotNear.gid)
          (orderedSegment.getBoundingBBox colliderOrdered._target.gid) 53 1 2 z)
    ∧ (colliderOrdered.orderRegionsPos (orderedSegment.collisionInfo slotNear)
          (orderedSegment.getBoundingBBox slotNear.gid)
          (orderedSegment.getBoundingBBox colliderOrdered._target.gid) 53 1 2
          (colliderOrdered._ranges 2)).calls
        = [ZoneCall.weighted zones_t.SD 54 250 0 0 0 (-98) 0 304 0,
           ZoneCall.exclude (-1996) 2300]
    ∧ (colliderOrdered.orderRegionsNeg (orderedSegment.collisionInfo slotNear)
          (orderedSegment.getBoundingBBox slotNear.gid)
          (orderedSegment.getBoundingBBox colliderOrdered._target.gid) 53 1 2
          (colliderOrdered._ranges 2)).calls
        = [ZoneCall.exclude 54 2100, ZoneCall.weighted zones_t.SD 54 50 0 0 0 102 0 104 0]
    ∧ ((colliderOrdered.mergeBody orderedSegment slotNear ⟨0, 0⟩ false true).2._ranges
        2).hardExcluded (slotAt31.origin.x + slotAt31.origin.y) = true
    ∧ (∀ (c : ShiftCollider) (cslot : SlotCollision) (bb tbb : BBox) (sx sy : ℚ)
        (flags i : Nat) (z : Zones), (i = 2 ∨ i = 3) → flags ≠ 0 →
        c.orderRegions cslot bb tbb sx sy flags i z
          = c.orderRegionsPos cslot bb tbb sx sy i z) := by
  have hpos : (colliderOrdered.orderRegionsPos (orderedSegment.collisionInfo slotNear)
      (orderedSegment.getBoundingBBox slotNear.gid)
      (orderedSegment.getBoundingBBox colliderOrdered._target.gid) 53 1 2
      (colliderOrdered._ranges 2)).calls
      = [ZoneCall.weighted zones_t.SD 54 250 0 0 0 (-98) 0 304 0,
         ZoneCall.exclude (-1996) 2300] := by
    norm_num [ShiftCollider.orderRegionsPos, ShiftCollider.addBox_slopex,
      ShiftCollider.addBox_slopey, ShiftCollider.removeBox, Rect.width, Rect.height,
      Zones.exclude, Zones.weighted, colliderOrdered, ShiftCollider.initSlot, initLimit, initLen,
      initRange, Zones.initialise, orderedSegment, wideSegment, wideBBox, wideSlantBox,
      zeroCollision, slotAt31, slotNear]
  have hafter2 : ∀ z, colliderOrdered.afterOrder orderedSegment slotNear ⟨0, 0⟩ COLL_ORDER_LEFT 2 z
      = colliderOrdered.orderRegionsPos (orderedSegment.collisionInfo slotNear)
        (orderedSegment.getBoundingBBox slotNear.gid)
        (orderedSegment.getBoundingBBox colliderOrdered._target.gid) 53 1 2 z := by
    intro z
    have e : enforceOrder COLL_ORDER_LEFT 2 = 1 := by decide
    simp only [ShiftCollider.afterOrder, ShiftCollider.orderRegions, e]
    norm_num [slotNear]
  refine ⟨by decide, by decide, ?_, by decide, hafter2, hpos, ?_, ?_, ?_⟩
  · intro z
    have e : enforceOrder COLL_ORDER_LEFT 0 = -1 := by decide
    simp only [ShiftCollider.afterOrder, ShiftCollider.orderRegions, e]
    norm_num [slotNear]
  · norm_num [ShiftCollider.orderRegionsNeg, ShiftCollider.addBox_slopex,
      ShiftCollider.addBox_slopey, ShiftCollider.removeBox, Rect.width, Rect.height,
      Zones.exclude, Zones.weighted, colliderOrdered, ShiftCollider.initSlot, initLimit, initLen,
      initRange, Zones.initialise, orderedSegment, wideSegment, wideBBox, wideSlantBox,
      zeroCollision, slotAt31, slotNear]
  · rw [mergeBody_ranges _ _ _ _ _ _ 2 (by norm_num),
      show colliderOrdered.effectiveOrder orderedSegment slotNear false true = COLL_ORDER_LEFT
        by decide, hafter2]
    apply hardExcluded_extend
    simp only [Zones.hardExcluded, hpos, List.any_cons, List.any_nil, Bool.or_eq_true]
    right
    left
    norm_num [ZoneCall.excludes, slotAt31]
  · intro c cslot bb tbb sx sy flags i z hi hf
    exact (orderRegions_diagonal c cslot bb tbb sx sy flags i z hi hf).2

/-! ## The bands of the kern collider -/

theorem kernEdgeStep_total (seg : Segment) (s : Slot) (currShift : Position) (dir : Int)
    (miny sliceWidth x : ℚ) (st : List ℚ × ℚ) (i : Int) (h0 : 0 ≤ i) (h1 : i < st.1.length) :
    ∃ st', kernEdgeStep seg s currShift dir miny sliceWidth x st i = some st'
      ∧ st'.1.length = st.1.length := by
  obtain ⟨e, he⟩ := edgeAt_isSome st.1 i h0 h1
  simp only [kernEdgeStep, he]
  split_ifs <;> exact ⟨_, rfl, by simp⟩

/-- The second cluster scan of `initSlot` never reads `_edges` out of bounds. -/
theorem kernSlotStep_total (seg : Segment) (currShift : Position) (dir : Int) (miny maxy : ℚ)
    (numSlices : Int) (sliceWidth : ℚ) (st : List ℚ × ℚ) (s : Slot)
    (h : st.1.length = numSlices.toNat) :
    ∃ st', kernSlotStep seg currShift dir miny maxy numSlices sliceWidth st s = some st'
      ∧ st'.1.length = numSlices.toNat := by
  unfold kernSlotStep
  exact foldlM_option_inv _ (fun (a : List ℚ × ℚ) => a.1.length = numSlices.toNat)
    (fun i => 0 ≤ i ∧ i ≤ numSlices - 1)
    (fun a i ha hi => by
      obtain ⟨a', h1, h2⟩ := kernEdgeStep_total seg s currShift dir miny sliceWidth _ a i hi.1
        (by rw [ha]; omega)
      exact ⟨a', h1, h2.trans ha⟩)
    _ st h
    (fun i hi => by
      have := mem_intRange _ _ _ hi
      unfold KernCollider.sliceMin KernCollider.sliceMax at this
      exact ⟨le_trans (le_max_left _ _) this.1, le_trans this.2 (min_le_left _ _)⟩)

/-- The first cluster scan of `initSlot`: the extent found contains the vertical range of
every slot of the cluster. -/
theorem kernExtent_bounds (seg : Segment) (l : List Slot) :
    ∀ acc : ℚ × ℚ,
      (acc.1 ≤ (l.foldl (kernExtentStep seg) acc).1 ∧ (l.foldl (kernExtentStep seg) acc).2 ≤ acc.2)
      ∧ ∀ s ∈ l,
        s.origin.y + (seg.collisionInfo s).shift.y + (seg.getBoundingBBox s.gid).ya
            ≤ (l.foldl (kernExtentStep seg) acc).1
        ∧ (l.foldl (kernExtentStep seg) acc).2
            ≤ s.origin.y + (seg.collisionInfo s).shift.y + (seg.getBoundingBBox s.gid).yi := by
  induction l with
  | nil => intro acc; exact ⟨⟨le_refl _, le_refl _⟩, fun s hs => absurd hs (by simp)⟩
  | cons t l ih =>
    intro acc
    simp only [List.foldl_cons]
    obtain ⟨⟨m1, m2⟩, hall⟩ := ih (kernExtentStep seg acc t)
    have e1 : acc.1 ≤ (kernExtentStep seg acc t).1 := le_max_left _ _
    have e2 : (kernExtentStep seg acc t).2 ≤ acc.2 := min_le_left _ _
    have e3 : t.origin.y + (seg.collisionInfo t).shift.y + (seg.getBoundingBBox t.gid).ya
        ≤ (kernExtentStep seg acc t).1 := le_max_right _ _
    have e4 : (kernExtentStep seg acc t).2
        ≤ t.origin.y + (seg.collisionInfo t).shift.y + (seg.getBoundingBBox t.gid).yi :=
      min_le_right _ _
    refine ⟨⟨le_trans e1 m1, le_trans m2 e2⟩, fun s hs => ?_⟩
    rcases List.mem_cons.mp hs with rfl | hs
    · exact ⟨le_trans e3 m1, le_trans m2 e4⟩
    · exact hall s hs

/-! ## The band loop and the bound test of the kern collider -/

theorem kernOneBandEven_init :
    KernCollider.initSlot kernSegment [kernTarget] kernTarget limitWide 100 0 ⟨0, 0⟩ ⟨0, 0⟩ 0
      = some kernOneBandEven := by
  have h := KernCollider.initSlot_of kernSegment [kernTarget] kernTarget limitWide 100 0 ⟨0, 0⟩
    ⟨0, 0⟩ 0 50 0 1 ([100], 100)
    (by norm_num [kernExtentStep, kernSegment, kernTarget, wideBBox, zeroCollision, FLOAT_1E38])
    (truncInt_eq _ 1 (by norm_num) (by norm_num) (by norm_num))
    (by
      simp only [List.foldlM, bind, Option.bind]
      rw [kernSlotStep_of _ _ _ _ _ _ _ _ _ 0 0
        (by
          have := kernOneBand_slices.1
          norm_num [kernSegment, kernTarget, wideBBox, zeroCollision] at this ⊢
          exact this)
        (by
          have := kernOneBand_slices.2
          norm_num [kernSegment, kernTarget, wideBBox, zeroCollision] at this ⊢
          exact this)]
      rw [intRange_single]
      norm_num [List.foldlM, kernEdgeStep, edgeAt, get_right, kernSegment, kernTarget, wideBBox,
        zeroCollision, FLOAT_1E38])
  rw [h]
  norm_num [kernOneBandEven, FLOAT_1E38]

/-- In a run that is not reversed, a neighbor that is not rejected by the bound test has
the bands `smin .. smax - 1` examined: the loop stops before `smax`. -/
theorem kern_mergeSlot_even_loop (k : KernCollider) (seg : Segment) (bbox : Nat → Rect)
    (slot : Slot) (currShift : Position) (currSpace : ℚ) (dir : Int) (hd : dir % 2 = 0)
    (hrej : ¬ slot.origin.x + currShift.x + (bbox slot.gid).bl.x
      > k._xbound + k._mingap + currSpace) :
    k.mergeSlot seg bbox slot currShift currSpace dir
      = ((intRange
          (KernCollider.sliceMin k._miny k._maxy k._numSlices
            (slot.origin.y + currShift.y + (bbox slot.gid).bl.y))
          (KernCollider.sliceMax k._miny k._maxy k._numSlices
            (slot.origin.y + currShift.y + (bbox slot.gid).tr.y) - 1)).foldlM
          (KernCollider.mergeStepEven seg slot currShift currSpace
            ((k._maxy - k._miny + 2) / k._numSlices)
            (slot.origin.x + currShift.x + (bbox slot.gid).bl.x)) (k, false)).map
          (fun st => (st.2, st.1)) := by
  simp only [KernCollider.mergeSlot, hd, hrej, if_false, ne_eq, not_true_eq_false]

/-- C28: the code at the failing input. `kernOneBandEven` is the collider `initSlot` yields
for `kernTarget` in a run that is not reversed; the neighbor `kernNeighborRight` spans its
one band (`smin = smax = 0`) and is not rejected by the bound test. `mergeSlot` returns
false with the collider unchanged: band 0 is not examined, although examining it lowers
`_mingap` to 200. In the reversed run the mirrored session examines band 0 and returns
true. In every run that is not reversed the loop covers `smin .. smax - 1` only. -/
theorem kern_even_loop_skips_last_band :
    KernCollider.initSlot kernSegment [kernTarget] kernTarget limitWide 100 0 ⟨0, 0⟩ ⟨0, 0⟩ 0
        = some kernOneBandEven
    ∧ KernCollider.sliceMin kernOneBandEven._miny kernOneBandEven._maxy
        kernOneBandEven._numSlices
        (kernNeighborRight.origin.y + 0 + (wideGlyphBox kernNeighborRight.gid).bl.y) = 0
    ∧ KernCollider.sliceMax kernOneBandEven._miny kernOneBandEven._maxy
        kernOneBandEven._numSlices
        (kernNeighborRight.origin.y + 0 + (wideGlyphBox kernNeighborRight.gid).tr.y) = 0
    ∧ ¬ kernNeighborRight.origin.x + 0 + (wideGlyphBox kernNeighborRight.gid).bl.x
        > kernOneBandEven._xbound + kernOneBandEven._mingap + 0
    ∧ kernOneBandEven.mergeSlot kernSegment wideGlyphBox kernNeighborRight ⟨0, 0⟩ 0 0
        = some (false, kernOneBandEven)
    ∧ KernCollider.mergeStepEven kernSegment kernNeighborRight ⟨0, 0⟩ 0 52 300
        (kernOneBandEven, false) 0
        = some ({ kernOneBandEven with _mingap := 200 }, true)
    ∧ kernOneBand.mergeSlot kernSegment wideGlyphBox kernNeighbor ⟨0, 0⟩ 0 1
        = some (true, { kernOneBand with _mingap := 117, _othermax := -117 })
    ∧ (∀ (k : KernCollider) (seg : Segment) (bbox : Nat → Rect) (slot : Slot)
        (currShift : Position) (currSpace : ℚ) (dir : Int), dir % 2 = 0 →
        ¬ slot.origin.x + currShift.x + (bbox slot.gid).bl.x
          > k._xbound + k._mingap + currSpace →
        k.mergeSlot seg bbox slot currShift currSpace dir
          = ((intRange
              (KernCollider.sliceMin k._miny k._maxy k._numSlices
                (slot.origin.y + currShift.y + (bbox slot.gid).bl.y))
              (KernCollider.sliceMax k._miny k._maxy k._numSlices
                (slot.origin.y + currShift.y + (bbox slot.gid).tr.y) - 1)).foldlM
              (KernCollider.mergeStepEven seg slot currShift currSpace
                ((k._maxy - k._miny + 2) / k._numSlices)
                (slot.origin.x + currShift.x + (bbox slot.gid).bl.x)) (k, false)).map
              (fun st => (st.2, st.1))) := by
  have hmin : KernCollider.sliceMin kernOneBandEven._miny kernOneBandEven._maxy
      kernOneBandEven._numSlices
      (kernNeighborRight.origin.y + 0 + (wideGlyphBox kernNeighborRight.gid).bl.y) = 0 := by
    have := kernOneBand_slices.1
    norm_num [kernOneBandEven, kernNeighborRight, wideGlyphBox] at this ⊢
    exact this
  have hmax : KernCollider.sliceMax kernOneBandEven._miny kernOneBandEven._maxy
      kernOneBandEven._numSlices
      (kernNeighborRight.origin.y + 0 + (wideGlyphBox kernNeighborRight.gid).tr.y) = 0 := by
    have := kernOneBand_slices.2
    norm_num [kernOneBandEven, kernNeighborRight, wideGlyphBox] at this ⊢
    exact this
  refine ⟨kernOneBandEven_init, hmin, hmax,
    by norm_num [kernOneBandEven, kernNeighborRight, wideGlyphBox, FLOAT_1E38], ?_, ?_,
    kernOneBand_merge_0, ?_⟩
  · exact kern_mergeSlot_no_band kernOneBandEven kernSegment wideGlyphBox kernNeighborRight
      ⟨0, 0⟩ 0 0 (fun h => absurd rfl h) (fun _ => by rw [hmin, hmax])
  · norm_num [KernCollider.mergeStepEven, KernCollider.bandGap, edgeAt, get_left, kernSegment,
      kernNeighborRight, kernOneBandEven, wideBBox, FLOAT_1E38]
  · intro k seg bbox slot currShift currSpace dir hd hrej
    exact kern_mergeSlot_even_loop k seg bbox slot currShift currSpace dir hd hrej

/-- C29: the code at the failing input. `kernOneBandMerged` is the collider after
`initSlot` for `kernTarget` and the merge of `kernNeighbor` in a reversed run: `_xbound = 0`
and `_mingap = 117`. The neighbor `kernNeighborFar` has its right edge at `x = -120`, so
the bound test `x < _xbound - _mingap` fires and `mergeSlot` returns false with the
collider unchanged, for the extra spacing 50 too. Yet with that spacing the gap between
the neighbor's right edge plus the spacing and the target's edge in band 0 is 70, below
`_mingap`. -/
theorem kern_bound_test_ignores_spacing :
    KernCollider.initSlot kernSegment [kernTarget] kernTarget limitWide 100 0 ⟨0, 0⟩ ⟨0, 0⟩ 1
        = some kernOneBand
    ∧ kernOneBand.mergeSlot kernSegment wideGlyphBox kernNeighbor ⟨0, 0⟩ 0 1
        = some (true, kernOneBandMerged)
    ∧ kernNeighborFar.origin.x + 0 + (wideGlyphBox kernNeighborFar.gid).tr.x
        < kernOneBandMerged._xbound - kernOneBandMerged._mingap
    ∧ kernOneBandMerged.mergeSlot kernSegment wideGlyphBox kernNeighborFar ⟨0, 0⟩ 50 1
        = some (false, kernOneBandMerged)
    ∧ KernCollider.sliceMin kernOneBandMerged._miny kernOneBandMerged._maxy
        kernOneBandMerged._numSlices
        (kernNeighborFar.origin.y + 0 + (wideGlyphBox kernNeighborFar.gid).bl.y) = 0
    ∧ KernCollider.sliceMax kernOneBandMerged._miny kernOneBandMerged._maxy
        kernOneBandMerged._numSlices
        (kernNeighborFar.origin.y + 0 + (wideGlyphBox kernNeighborFar.gid).tr.y) = 0
    ∧ get_right kernSegment kernNeighborFar ⟨0, 0⟩ 25 52 = -120
    ∧ kernOneBandMerged.bandGap 1 (get_right kernSegment kernNeighborFar ⟨0, 0⟩ 25 52 + 50) 0
        = some 70
    ∧ (70 : ℚ) < kernOneBandMerged._mingap := by
  have hgr : get_right kernSegment kernNeighborFar ⟨0, 0⟩ 25 52 = -120 := by
    norm_num [get_right, kernSegment, kernNeighborFar, wideBBox]
  refine ⟨kernOneBand_init, kernOneBand_merge_0,
    by norm_num [kernOneBandMerged, kernOneBand, kernNeighborFar, wideGlyphBox], ?_, ?_, ?_, hgr,
    ?_, by norm_num [kernOneBandMerged]⟩
  · simp only [KernCollider.mergeSlot]
    norm_num [kernOneBandMerged, kernOneBand, kernNeighborFar, wideGlyphBox]
  · have := kernOneBand_slices.1
    norm_num [kernOneBandMerged, kernOneBand, kernNeighborFar, wideGlyphBox] at this ⊢
    exact this
  · have := kernOneBand_slices.2
    norm_num [kernOneBandMerged, kernOneBand, kernNeighborFar, wideGlyphBox] at this ⊢
    exact this
  · rw [hgr]
    norm_num [KernCollider.bandGap, edgeAt, kernOneBandMerged, kernOneBand]

theorem edgeAt_mem (v : List ℚ) (i : Int) (e : ℚ) (h : edgeAt v i = some e) : e ∈ v := by
  unfold edgeAt at h
  split_ifs at h
  exact List.getElem?_mem h

/-- The gap of a band is `sign * (e - m)` for one of the edges `e` of the collider. -/
theorem bandGap_mem (k : KernCollider) (sign m : ℚ) (i : Int) (t : ℚ)
    (h : k.bandGap sign m i = some t) : ∃ e ∈ k._edges, t = sign * (e - m) := by
  have hmin : ∀ (a : ℚ) (e : ℚ), e ∈ k._edges → (∃ e0 ∈ k._edges, a = sign * (e0 - m)) →
      ∃ e0 ∈ k._edges, min a (sign * (e - m)) = sign * (e0 - m) := by
    intro a e he ha
    rcases le_total a (sign * (e - m)) with hle | hle
    · rw [min_eq_left hle]
      exact ha
    · rw [min_eq_right hle]
      exact ⟨e, he, rfl⟩
  unfold KernCollider.bandGap at h
  cases he : edgeAt k._edges i with
  | none => rw [he] at h; cases h
  | some e =>
    rw [he] at h
    simp only at h
    have h0 : ∃ e0 ∈ k._edges, sign * (e - m) = sign * (e0 - m) :=
      ⟨e, edgeAt_mem _ _ _ he, rfl⟩
    have h1 : ∀ t1, (if i < k._numSlices - 1 then (edgeAt k._edges (i + 1)).map
        (fun e1 => min (sign * (e - m)) (sign * (e1 - m))) else some (sign * (e - m))) = some t1 →
        ∃ e0 ∈ k._edges, t1 = sign * (e0 - m) := by
      intro t1 ht1
      split_ifs at ht1
      · cases he1 : edgeAt k._edges (i + 1) with
        | none => rw [he1] at ht1; cases ht1
        | some e1 =>
          rw [he1] at ht1
          simp only [Option.map_some', Option.some.injEq] at ht1
          rw [← ht1]
          exact hmin _ e1 (edgeAt_mem _ _ _ he1) h0
      · simp only [Option.some.injEq] at ht1
        rw [← ht1]
        exact h0
    split at h
    · cases h
    · rename_i t1 ht1
      have h1t := h1 t1 ht1
      split_ifs at h
      · cases he2 : edgeAt k._edges (i - 1) with
        | none => rw [he2] at h; cases h
        | some e2 =>
          rw [he2] at h
          simp only [Option.map_some', Option.some.injEq] at h
          rw [← h]
          exact hmin _ e2 (edgeAt_mem _ _ _ he2) h1t
      · simp only [Option.some.injEq] at h
        rw [← h]
        exact h1t

/-- In a run that is not reversed the bound test is sound: when it fires for a neighbor
without sub-boxes and a spacing that is not negative, every band gap against the
neighbor's left edge plus the spacing exceeds `_mingap`. Here `_xbound` bounds the edges
of the collider and the box of the bound test lies within the glyph's bounding box. -/
theorem kern_bound_test_sound_even (k : KernCollider) (seg : Segment) (bbox : Nat → Rect)
    (slot : Slot) (currShift : Position) (currSpace y w : ℚ) (i : Int) (t : ℚ)
    (hx : ∀ e ∈ k._edges, e ≤ k._xbound)
    (hsub : ¬ seg.numSubBounds slot.gid > 0)
    (hbb : (bbox slot.gid).bl.x ≤ (seg.getBoundingBBox slot.gid).xi)
    (hcs : 0 ≤ currSpace)
    (hrej : slot.origin.x + currShift.x + (bbox slot.gid).bl.x
      > k._xbound + k._mingap + currSpace)
    (ht : k.bandGap (-1) (get_left seg slot currShift y w + currSpace) i = some t) :
    k._mingap < t := by
  obtain ⟨e, he, rfl⟩ := bandGap_mem k _ _ i t ht
  have hle := hx e he
  have hgl : slot.origin.x + currShift.x + (seg.getBoundingBBox slot.gid).xi
      ≤ get_left seg slot currShift y w := by
    unfold get_left
    rw [if_neg hsub]
    exact le_max_left _ _
  linarith

/-- In a reversed run the bound test is sound when there is no extra spacing: when it
fires for a neighbor without sub-boxes, every band gap against the neighbor's right edge
exceeds `_mingap`. -/
theorem kern_bound_test_sound_odd (k : KernCollider) (seg : Segment) (bbox : Nat → Rect)
    (slot : Slot) (currShift : Position) (y w : ℚ) (i : Int) (t : ℚ)
    (hx : ∀ e ∈ k._edges, k._xbound ≤ e)
    (hsub : ¬ seg.numSubBounds slot.gid > 0)
    (hbb : (seg.getBoundingBBox slot.gid).xa ≤ (bbox slot.gid).tr.x)
    (hrej : slot.origin.x + currShift.x + (bbox slot.gid).tr.x < k._xbound - k._mingap)
    (ht : k.bandGap 1 (get_right seg slot currShift y w + 0) i = some t) :
    k._mingap < t := by
  obtain ⟨e, he, rfl⟩ := bandGap_mem k _ _ i t ht
  have hle := hx e he
  have hgl : get_right seg slot currShift y w
      ≤ slot.origin.x + currShift.x + (seg.getBoundingBBox slot.gid).xa := by
    unfold get_right
    rw [if_neg hsub]
    exact min_le_left _ _
  linarith

/-! ## The inversion of the order flags -/

theorem testBit_three (j : Nat) : Nat.testBit 3 j = decide (j < 2) := by
  have h := Nat.testBit_two_pow_sub_one 2 j
  simpa using h

theorem testBit_twelve (j : Nat) : Nat.testBit 12 j = (decide (2 ≤ j) && decide (j < 4)) := by
  have h : (12 : Nat) = 3 <<< 2 := by decide
  rw [h, Nat.testBit_shiftLeft, testBit_three]
  by_cases h2 : 2 ≤ j
  · have : decide (j - 2 < 2) = decide (j < 4) := by
      by_cases h4 : j < 4
      · simp [h4]; omega
      · simp [h4]; omega
    simp [h2, this]
  · simp [h2]

theorem and_three_ne_zero (f : Nat) :
    f &&& 3 ≠ 0 ↔ (f.testBit 0 = true ∨ f.testBit 1 = true) := by
  constructor
  · intro h
    by_contra hc
    push_neg at hc
    apply h
    apply Nat.eq_of_testBit_eq
    intro j
    rw [Nat.testBit_and, testBit_three, Nat.zero_testBit]
    by_cases hj : j < 2
    · interval_cases j <;> simp [hc.1, hc.2]
    · simp [hj]
  · rintro (h | h) hz
    · have h1 := Nat.testBit_and f 3 0
      rw [hz, Nat.zero_testBit, h] at h1
      revert h1
      decide
    · have h1 := Nat.testBit_and f 3 1
      rw [hz, Nat.zero_testBit, h] at h1
      revert h1
      decide

theorem and_twelve_ne_zero (f : Nat) :
    f &&& 12 ≠ 0 ↔ (f.testBit 2 = true ∨ f.testBit 3 = true) := by
  constructor
  · intro h
    by_contra hc
    push_neg at hc
    apply h
    apply Nat.eq_of_testBit_eq
    intro j
    rw [Nat.testBit_and, testBit_twelve, Nat.zero_testBit]
    by_cases hj : 2 ≤ j ∧ j < 4
    · obtain ⟨h2, h4⟩ := hj
      interval_cases j <;> simp [hc.1, hc.2]
    · have : (decide (2 ≤ j) && decide (j < 4)) = false := by
        simp only [Bool.and_eq_false_imp, decide_eq_true_eq, decide_eq_false_iff_not]
        intro h2 h4
        exact hj ⟨h2, h4⟩
      rw [this]
      simp
  · rintro (h | h) hz
    · have h1 := Nat.testBit_and f 12 2
      rw [hz, Nat.zero_testBit, h] at h1
      revert h1
      decide
    · have h1 := Nat.testBit_and f 12 3
      rw [hz, Nat.zero_testBit, h] at h1
      revert h1
      decide

/-- The bits of the inverted order flags: within a pair of which a bit is set both bits
are flipped, every other bit is kept. -/
theorem invertOrder_testBit (f j : Nat) :
    (invertOrder true f).testBit j
      = if j < 2 then (if f.testBit 0 = true ∨ f.testBit 1 = true then !f.testBit j
          else f.testBit j)
        else if j < 4 then (if f.testBit 2 = true ∨ f.testBit 3 = true then !f.testBit j
          else f.testBit j)
        else f.testBit j := by
  have hX : COLL_ORDER_X = 3 := by decide
  have hY : COLL_ORDER_Y = 12 := by decide
  have hf1 : ∀ i, (if f &&& 3 ≠ 0 then f ^^^ 3 else f).testBit i
      = if i < 2 then (if f.testBit 0 = true ∨ f.testBit 1 = true then !f.testBit i
          else f.testBit i) else f.testBit i := by
    intro i
    by_cases h3 : f &&& 3 ≠ 0
    · rw [if_pos h3, Nat.testBit_xor, testBit_three, if_pos ((and_three_ne_zero f).mp h3)]
      by_cases hi : i < 2 <;> simp [hi]
    · rw [if_neg h3, if_neg (fun h => h3 ((and_three_ne_zero f).mpr h))]
      simp
  simp only [invertOrder, if_true, hX, hY]
  generalize hg : (if f &&& 3 ≠ 0 then f ^^^ 3 else f) = g at hf1
  have h2 : g.testBit 2 = f.testBit 2 := by rw [hf1 2]; simp
  have h3 : g.testBit 3 = f.testBit 3 := by rw [hf1 3]; simp
  by_cases h12 : g &&& 12 ≠ 0
  · have hb := (and_twelve_ne_zero g).mp h12
    rw [h2, h3] at hb
    rw [if_pos h12, Nat.testBit_xor, testBit_twelve, hf1 j]
    by_cases hj2 : j < 2
    · have : ¬ 2 ≤ j := by omega
      simp [hj2, this]
    · by_cases hj4 : j < 4
      · have : 2 ≤ j := by omega
        simp [hj2, hj4, this, hb]
      · simp [hj2, hj4]
  · have hb : ¬ (f.testBit 2 = true ∨ f.testBit 3 = true) := by
      rw [← h2, ← h3]
      exact fun h => h12 ((and_twelve_ne_zero g).mpr h)
    rw [if_neg h12, hf1 j]
    by_cases hj2 : j < 2
    · simp [hj2]
    · simp [hj2, hb]

theorem and_two_pow_ne_zero (f k : Nat) : f &&& 2 ^ k ≠ 0 ↔ f.testBit k = true := by
  constructor
  · intro h
    by_contra hc
    apply h
    apply Nat.eq_of_testBit_eq
    intro j
    rw [Nat.testBit_and, Nat.testBit_two_pow, Nat.zero_testBit]
    by_cases hj : k = j
    · subst hj
      simp [hc]
    · simp [hj]
  · intro h hz
    have h1 := Nat.testBit_and f (2 ^ k) k
    rw [hz, Nat.zero_testBit, h, Nat.testBit_two_pow] at h1
    simp at h1

theorem invertOrder_low_bits (f : Nat) :
    (invertOrder true f).testBit 0
        = (if f.testBit 0 = true ∨ f.testBit 1 = true then !f.testBit 0 else f.testBit 0)
    ∧ (invertOrder true f).testBit 1
        = (if f.testBit 0 = true ∨ f.testBit 1 = true then !f.testBit 1 else f.testBit 1)
    ∧ (invertOrder true f).testBit 2
        = (if f.testBit 2 = true ∨ f.testBit 3 = true then !f.testBit 2 else f.testBit 2)
    ∧ (invertOrder true f).testBit 3
        = (if f.testBit 2 = true ∨ f.testBit 3 = true then !f.testBit 3 else f.testBit 3)
    ∧ ∀ j, 4 ≤ j → (invertOrder true f).testBit j = f.testBit j := by
  refine ⟨?_, ?_, ?_, ?_, ?_⟩
  · rw [invertOrder_testBit, if_pos (by decide)]
  · rw [invertOrder_testBit, if_pos (by decide)]
  · rw [invertOrder_testBit, if_neg (by decide), if_pos (by decide)]
  · rw [invertOrder_testBit, if_neg (by decide), if_pos (by decide)]
  · intro j hj
    rw [invertOrder_testBit, if_neg (by omega), if_neg (by omega)]

/-- The inversion applied twice to flags with at most one bit of each pair set. -/
theorem invertOrder_twice (f : Nat)
    (hx : ¬ (f.testBit 0 = true ∧ f.testBit 1 = true))
    (hy : ¬ (f.testBit 2 = true ∧ f.testBit 3 = true)) :
    invertOrder true (invertOrder true f) = f := by
  obtain ⟨g0, g1, g2, g3, gj⟩ := invertOrder_low_bits f
  obtain ⟨k0, k1, k2, k3, kj⟩ := invertOrder_low_bits (invertOrder true f)
  apply Nat.eq_of_testBit_eq
  intro j
  by_cases h4 : 4 ≤ j
  · rw [kj j h4, gj j h4]
  · have hj : j = 0 ∨ j = 1 ∨ j = 2 ∨ j = 3 := by omega
    rcases hj with rfl | rfl | rfl | rfl
    · rw [k0, g0, g1]
      cases h0 : f.testBit 0 <;> cases h1 : f.testBit 1 <;> simp_all
    · rw [k1, g0, g1]
      cases h0 : f.testBit 0 <;> cases h1 : f.testBit 1 <;> simp_all
    · rw [k2, g2, g3]
      cases h0 : f.testBit 2 <;> cases h1 : f.testBit 3 <;> simp_all
    · rw [k3, g2, g3]
      cases h0 : f.testBit 2 <;> cases h1 : f.testBit 3 <;> simp_all

/-- C36: the `isAfter` inversion of the order flags in `ShiftCollider::mergeSlot`. Without
`isAfter` the flags are kept. With `isAfter`, `LEFT` becomes `RIGHT`, `RIGHT` becomes
`LEFT`, `DOWN` becomes `UP` and `UP` becomes `DOWN`; for every flag value the `XOVERY` bit
and every higher bit are unchanged; and for every flag value with at most one of
`LEFT`/`RIGHT` and at most one of `DOWN`/`UP` set, the result has `LEFT` exactly when the
flags have `RIGHT`, `RIGHT` exactly when they have `LEFT`, `DOWN` exactly when they have
`UP`, `UP` exactly when they have `DOWN`, and applying the inversion twice yields the
original flags. -/
theorem invertOrder_exchanges (f : Nat) :
    invertOrder false f = f
    ∧ invertOrder true COLL_ORDER_LEFT = COLL_ORDER_RIGHT
    ∧ invertOrder true COLL_ORDER_RIGHT = COLL_ORDER_LEFT
    ∧ invertOrder true COLL_ORDER_DOWN = COLL_ORDER_UP
    ∧ invertOrder true COLL_ORDER_UP = COLL_ORDER_DOWN
    ∧ invertOrder true f &&& COLL_ORDER_XOVERY = f &&& COLL_ORDER_XOVERY
    ∧ (∀ j, 4 ≤ j → (invertOrder true f).testBit j = f.testBit j)
    ∧ (¬ (f &&& COLL_ORDER_LEFT ≠ 0 ∧ f &&& COLL_ORDER_RIGHT ≠ 0) →
        ¬ (f &&& COLL_ORDER_DOWN ≠ 0 ∧ f &&& COLL_ORDER_UP ≠ 0) →
        (invertOrder true f &&& COLL_ORDER_LEFT ≠ 0 ↔ f &&& COLL_ORDER_RIGHT ≠ 0)
        ∧ (invertOrder true f &&& COLL_ORDER_RIGHT ≠ 0 ↔ f &&& COLL_ORDER_LEFT ≠ 0)
        ∧ (invertOrder true f &&& COLL_ORDER_DOWN ≠ 0 ↔ f &&& COLL_ORDER_UP ≠ 0)
        ∧ (invertOrder true f &&& COLL_ORDER_UP ≠ 0 ↔ f &&& COLL_ORDER_DOWN ≠ 0)
        ∧ invertOrder true (invertOrder true f) = f) := by
  have e0 : ∀ n : Nat, n &&& COLL_ORDER_LEFT ≠ 0 ↔ n.testBit 0 = true :=
    fun n => and_two_pow_ne_zero n 0
  have e1 : ∀ n : Nat, n &&& COLL_ORDER_RIGHT ≠ 0 ↔ n.testBit 1 = true :=
    fun n => and_two_pow_ne_zero n 1
  have e2 : ∀ n : Nat, n &&& COLL_ORDER_DOWN ≠ 0 ↔ n.testBit 2 = true :=
    fun n => and_two_pow_ne_zero n 2
  have e3 : ∀ n : Nat, n &&& COLL_ORDER_UP ≠ 0 ↔ n.testBit 3 = true :=
    fun n => and_two_pow_ne_zero n 3
  obtain ⟨g0, g1, g2, g3, gj⟩ := invertOrder_low_bits f
  refine ⟨rfl, by decide, by decide, by decide, by decide, ?_, gj, ?_⟩
  · apply Nat.eq_of_testBit_eq
    intro j
    rw [Nat.testBit_and, Nat.testBit_and]
    have h16 : COLL_ORDER_XOVERY = 2 ^ 4 := by decide
    rw [h16, Nat.testBit_two_pow]
    by_cases hj : 4 = j
    · rw [gj j (by omega)]
    · simp [hj]
  · intro hx hy
    rw [e0, e1] at hx
    rw [e2, e3] at hy
    refine ⟨?_, ?_, ?_, ?_, invertOrder_twice f hx hy⟩
    · rw [e0, e1, g0]
      cases h0 : f.testBit 0 <;> cases h1 : f.testBit 1 <;> simp_all
    · rw [e1, e0, g1]
      cases h0 : f.testBit 0 <;> cases h1 : f.testBit 1 <;> simp_all
    · rw [e2, e3, g2]
      cases h0 : f.testBit 2 <;> cases h1 : f.testBit 3 <;> simp_all
    · rw [e3, e2, g3]
      cases h0 : f.testBit 2 <;> cases h1 : f.testBit 3 <;> simp_all

/-- C36 (witness): the flags `LEFT | UP | XOVERY` (25) become `RIGHT | DOWN | XOVERY` (22),
and the inversion applied twice gives 25 again. -/
theorem invertOrder_exchanges_witness :
    invertOrder true 25 = 22
    ∧ (invertOrder true 25 &&& COLL_ORDER_LEFT ≠ 0 ↔ 25 &&& COLL_ORDER_RIGHT ≠ 0)
    ∧ invertOrder true (invertOrder true 25) = 25 :=
  ⟨by decide,
    ((invertOrder_exchanges 25).2.2.2.2.2.2.2 (by decide) (by decide)).1,
    ((invertOrder_exchanges 25).2.2.2.2.2.2.2 (by decide) (by decide)).2.2.2.2⟩

/-! ## The direction argument of the shift collider -/

/-- C37: the four landscapes `ShiftCollider::initSlot` seeds and the four axis lengths do
not depend on `dir`: two calls that differ only in `dir` agree on every field but `_limit`,
and calls whose `dir` have the same parity agree on `_limit` too. For even `dir` the
stored x range is `[-limit.tr.x, -limit.bl.x]`, computed from the limit as passed in; for
odd `dir` it is the x range of `limit - currOffset`; the stored y range is
`[limit.bl.y - currOffset.y, limit.tr.y - currOffset.y]` for every `dir`. -/
theorem initSlot_dir_only_limit (c0 : ShiftCollider) (seg : Segment) (aSlot : Slot)
    (limit : Rect) (margin marginWeight : ℚ) (currShift currOffset : Position)
    (dir dir2 : Int) :
    let c := c0.initSlot seg aSlot limit margin marginWeight currShift currOffset dir
    let c2 := c0.initSlot seg aSlot limit margin marginWeight currShift currOffset dir2
    c._ranges = c2._ranges ∧ c._len = c2._len
    ∧ (∀ i, c._ranges i = initRange (initLimit limit currOffset) aSlot margin marginWeight
        currShift currOffset i (c0._ranges i))
    ∧ (∀ i, c._len i = initLen (seg.getBoundingBBox aSlot.gid)
        (seg.getBoundingSlantBox aSlot.gid) i (c0._len i))
    ∧ c._target = c2._target ∧ c._currShift = c2._currShift ∧ c._currOffset = c2._currOffset
    ∧ c._margin = c2._margin ∧ c._marginWt = c2._marginWt ∧ c._seqClass = c2._seqClass
    ∧ c._seqOrder = c2._seqOrder ∧ c.exclSlot = c2.exclSlot
    ∧ (dir % 2 = dir2 % 2 → c._limit = c2._limit)
    ∧ (dir % 2 = 0 → c._limit.bl.x = -limit.tr.x ∧ c._limit.tr.x = -limit.bl.x)
    ∧ (dir % 2 ≠ 0 → c._limit.bl.x = limit.bl.x - currOffset.x
        ∧ c._limit.tr.x = limit.tr.x - currOffset.x)
    ∧ c._limit.bl.y = limit.bl.y - currOffset.y
    ∧ c._limit.tr.y = limit.tr.y - currOffset.y := by
  obtain ⟨l1, l2, l3, l4⟩ := initLimit_eq limit currOffset
  intro c c2
  refine ⟨rfl, rfl, fun _ => rfl, fun _ => rfl, rfl, rfl, rfl, rfl, rfl, rfl, rfl, rfl, ?_, ?_,
    ?_, ?_, ?_⟩
  · intro h
    simp only [c, c2, ShiftCollider.initSlot, h]
  · intro h
    simp only [c, ShiftCollider.initSlot, h, if_true]
    constructor <;> ring
  · intro h
    simp only [c, ShiftCollider.initSlot, h, if_false]
    exact ⟨l1, l3⟩
  · simp only [c, ShiftCollider.initSlot]
    split_ifs <;> exact l2
  · simp only [c, ShiftCollider.initSlot]
    split_ifs <;> exact l4

/-- C37 (witness): `dir = 0` and `dir = 2` with the limit `limitLeft` and the offset
`(5, 7)`: the same `_limit`, with x range `[0, 1000]`. -/
theorem initSlot_dir_only_limit_witness :
    (freshCollider.initSlot wideSegment slotA limitLeft 0 0 ⟨0, 0⟩ ⟨5, 7⟩ 0)._limit
        = (freshCollider.initSlot wideSegment slotA limitLeft 0 0 ⟨0, 0⟩ ⟨5, 7⟩ 2)._limit
    ∧ (freshCollider.initSlot wideSegment slotA limitLeft 0 0 ⟨0, 0⟩ ⟨5, 7⟩ 0)._limit.bl.x
        = -limitLeft.tr.x
    ∧ (freshCollider.initSlot wideSegment slotA limitLeft 0 0 ⟨0, 0⟩ ⟨5, 7⟩ 0)._limit.tr.x
        = -limitLeft.bl.x :=
  ⟨(initSlot_dir_only_limit freshCollider wideSegment slotA limitLeft 0 0 ⟨0, 0⟩ ⟨5, 7⟩ 0
      2).2.2.2.2.2.2.2.2.2.2.2.2.1 (by decide),
    (initSlot_dir_only_limit freshCollider wideSegment slotA limitLeft 0 0 ⟨0, 0⟩ ⟨5, 7⟩ 0
      2).2.2.2.2.2.2.2.2.2.2.2.2.2.1 (by decide)⟩

/-! ## The recursion on the exclusion glyph -/

/-- When the records found for the neighbor and for the phantom slot both name an exclusion
glyph, no recursion budget suffices: every nested call makes a further nested call. -/
theorem mergeSlot_phantom_chain (seg : Segment) (currShift : Position)
    (isAfter sameCluster : Bool) (n : Nat)
    (hph : ∀ s : Slot, s.index = n → (seg.collisionInfo s).exclGlyph > 0) :
    ∀ (fuel : Nat) (c : ShiftCollider) (slot : Slot), c.exclSlot.index = n →
      (seg.collisionInfo slot).exclGlyph > 0 →
      c.mergeSlot fuel seg slot currShift isAfter sameCluster = none := by
  intro fuel
  induction fuel with
  | zero => intro c slot _ _; rfl
  | succ fuel ih =>
    intro c slot hc hs
    rw [ShiftCollider.mergeSlot]
    simp only [hs, if_true]
    rw [ih _ _ (by simpa [Slot.setGlyph] using hc)
      (hph _ (by simpa [Slot.setGlyph] using hc))]

/-- C35: the code at the failing input. In `firstExclSegment` the record of the first
slot names an exclusion glyph, and it is also the record `collisionInfo` finds for the
phantom slot. Merging the first slot into the collider of the second one never returns:
whatever the recursion budget, the chain of nested calls has not ended. In general, when
the neighbor's record and the record found for the phantom slot name an exclusion glyph,
the nested call on the phantom triggers a further nested call, without end. In
`exclSegment`, where the phantom's record names none, the call returns after one nested
call. -/
theorem mergeSlot_phantom_recursion_unbounded :
    (firstExclSegment.collisionInfo slotFirst).exclGlyph > 0
    ∧ (firstExclSegment.collisionInfo colliderSecond.exclSlot).exclGlyph > 0
    ∧ (∀ fuel, colliderSecond.mergeSlot fuel firstExclSegment slotFirst ⟨0, 0⟩ false false = none)
    ∧ (∀ (seg : Segment) (c : ShiftCollider) (slot : Slot) (currShift : Position)
        (isAfter sameCluster : Bool),
        (seg.collisionInfo slot).exclGlyph > 0 →
        (∀ s : Slot, s.index = c.exclSlot.index → (seg.collisionInfo s).exclGlyph > 0) →
        ∀ fuel, c.mergeSlot fuel seg slot currShift isAfter sameCluster = none)
    ∧ (colliderAt31.mergeSlot 2 exclSegment slotNear ⟨0, 0⟩ false false).isSome = true := by
  refine ⟨by decide, by decide, ?_, ?_, ?_⟩
  · intro fuel
    exact mergeSlot_phantom_chain firstExclSegment ⟨0, 0⟩ false false 0
      (fun s hs => by simp [firstExclSegment, hs]) fuel colliderSecond slotFirst rfl (by decide)
  · intro seg c slot currShift isAfter sameCluster hs hph fuel
    exact mergeSlot_phantom_chain seg currShift isAfter sameCluster c.exclSlot.index hph fuel c
      slot rfl hs
  · rw [ShiftCollider.mergeSlot]
    have h1 : (exclSegment.collisionInfo slotNear).exclGlyph > 0 := by decide
    simp only [h1, if_true]
    rw [ShiftCollider.mergeSlot]
    have h2 : ¬ (exclSegment.collisionInfo
        { (Slot.setGlyph (colliderAt31.mergeBody exclSegment slotNear ⟨0, 0⟩ false false).2.exclSlot
            (exclSegment.collisionInfo slotNear).exclGlyph) with
          origin := slotNear.origin + (exclSegment.collisionInfo slotNear).exclOffset }).exclGlyph
        > 0 := by
      decide
    simp only [h2, if_false]
    rfl

/-! ## The glyph edges `get_left` and `get_right` -/

theorem foldl_min_assoc (vs : List ℚ) : ∀ a b : ℚ, vs.foldl min (min a b) = min a (vs.foldl min b) := by
  induction vs with
  | nil => intro a b; rfl
  | cons v vs ih =>
    intro a b
    simp only [List.foldl_cons]
    rw [min_assoc, ih]

theorem foldl_max_assoc (vs : List ℚ) : ∀ a b : ℚ, vs.foldl max (max a b) = max a (vs.foldl max b) := by
  induction vs with
  | nil => intro a b; rfl
  | cons v vs ih =>
    intro a b
    simp only [List.foldl_cons]
    rw [max_assoc, ih]

/-- A running minimum started at `d` is `d` capped by the minimum of the list. -/
theorem foldl_min_eq (vs : List ℚ) (d : ℚ) :
    vs.foldl min d = match vs.min? with
      | none => d
      | some m => min d m := by
  cases vs with
  | nil => rfl
  | cons v vs =>
    simp only [List.foldl_cons, List.min?]
    exact foldl_min_assoc vs d v

theorem foldl_max_eq (vs : List ℚ) (d : ℚ) :
    vs.foldl max d = match vs.max? with
      | none => d
      | some m => max d m := by
  cases vs with
  | nil => rfl
  | cons v vs =>
    simp only [List.foldl_cons, List.max?]
    exact foldl_max_assoc vs d v

theorem foldl_min_le (vs : List ℚ) : ∀ a : ℚ,
    vs.foldl min a ≤ a ∧ (∀ v ∈ vs, vs.foldl min a ≤ v)
    ∧ (vs.foldl min a = a ∨ vs.foldl min a ∈ vs) := by
  induction vs with
  | nil => intro a; exact ⟨le_refl _, fun v hv => absurd hv (by simp), Or.inl rfl⟩
  | cons w vs ih =>
    intro a
    simp only [List.foldl_cons]
    obtain ⟨h1, h2, h3⟩ := ih (min a w)
    refine ⟨le_trans h1 (min_le_left _ _), fun v hv => ?_, ?_⟩
    · rcases List.mem_cons.mp hv with rfl | hv
      · exact le_trans h1 (min_le_right _ _)
      · exact h2 v hv
    · rcases h3 with h3 | h3
      · rcases min_choice a w with hc | hc
        · exact Or.inl (h3.trans hc)
        · exact Or.inr (List.mem_cons.mpr (Or.inl (h3.trans hc)))
      · exact Or.inr (List.mem_cons_of_mem _ h3)

theorem foldl_le_max (vs : List ℚ) : ∀ a : ℚ,
    a ≤ vs.foldl max a ∧ (∀ v ∈ vs, v ≤ vs.foldl max a)
    ∧ (vs.foldl max a = a ∨ vs.foldl max a ∈ vs) := by
  induction vs with
  | nil => intro a; exact ⟨le_refl _, fun v hv => absurd hv (by simp), Or.inl rfl⟩
  | cons w vs ih =>
    intro a
    simp only [List.foldl_cons]
    obtain ⟨h1, h2, h3⟩ := ih (max a w)
    refine ⟨le_trans (le_max_left _ _) h1, fun v hv => ?_, ?_⟩
    · rcases List.mem_cons.mp hv with rfl | hv
      · exact le_trans (le_max_right _ _) h1
      · exact h2 v hv
    · rcases h3 with h3 | h3
      · rcases max_choice a w with hc | hc
        · exact Or.inl (h3.trans hc)
        · exact Or.inr (List.mem_cons.mpr (Or.inl (h3.trans hc)))
      · exact Or.inr (List.mem_cons_of_mem _ h3)

/-- The minimum of a list is a member of it and a lower bound of it. -/
theorem min?_spec (vs : List ℚ) (m : ℚ) (h : vs.min? = some m) :
    m ∈ vs ∧ ∀ v ∈ vs, m ≤ v := by
  cases vs with
  | nil => exact absurd h (by simp)
  | cons w vs =>
    simp only [List.min?, Option.some.injEq] at h
    obtain ⟨h1, h2, h3⟩ := foldl_min_le vs w
    rw [h] at h1 h2 h3
    refine ⟨?_, fun v hv => ?_⟩
    · rcases h3 with h3 | h3
      · exact List.mem_cons.mpr (Or.inl h3)
      · exact List.mem_cons_of_mem _ h3
    · rcases List.mem_cons.mp hv with rfl | hv
      · exact h1
      · exact h2 v hv

/-- The maximum of a list is a member of it and an upper bound of it. -/
theorem max?_spec (vs : List ℚ) (m : ℚ) (h : vs.max? = some m) :
    m ∈ vs ∧ ∀ v ∈ vs, v ≤ m := by
  cases vs with
  | nil => exact absurd h (by simp)
  | cons w vs =>
    simp only [List.max?, Option.some.injEq] at h
    obtain ⟨h1, h2, h3⟩ := foldl_le_max vs w
    rw [h] at h1 h2 h3
    refine ⟨?_, fun v hv => ?_⟩
    · rcases h3 with h3 | h3
      · exact List.mem_cons.mpr (Or.inl h3)
      · exact List.mem_cons_of_mem _ h3
    · rcases List.mem_cons.mp hv with rfl | hv
      · exact h1
      · exact h2 v hv

/-- One iteration of the loop of `get_left`: the early skip changes nothing, the running
result becomes its minimum with the sub-box's left edge when the sub-box meets the band. -/
theorem get_left_step_eq (seg : Segment) (gid : Nat) (sx sy y width res : ℚ) (i : Nat) :
    get_left_step seg gid sx sy y width res i
      = if subBoxMeetsBand seg gid sy y width i = true then min res (subBoxLeft seg gid sx sy y i)
        else res := by
  unfold get_left_step subBoxMeetsBand subBoxLeft
  simp only [decide_eq_true_eq]
  by_cases hm : sy + (seg.getSubBoundingBBox gid i).yi ≤ y + width / 2
      ∧ y - width / 2 ≤ sy + (seg.getSubBoundingBBox gid i).ya
  · have hs : ¬ (sy + (seg.getSubBoundingBBox gid i).yi > y + width / 2
        ∨ sy + (seg.getSubBoundingBBox gid i).ya < y - width / 2) := by
      rintro (h | h) <;> [exact absurd hm.1 (not_le.mpr h); exact absurd hm.2 (not_le.mpr h)]
    rw [if_neg hs, if_pos hm]
    have hswap : max (sx - sy + (seg.getSubBoundingSlantBox gid i).di + y)
        (max (sx + sy + (seg.getSubBoundingSlantBox gid i).si - y)
          (sx + (seg.getSubBoundingBBox gid i).xi))
        = max (sx + (seg.getSubBoundingBBox gid i).xi)
          (max (sx - sy + (seg.getSubBoundingSlantBox gid i).di + y)
            (sx + sy + (seg.getSubBoundingSlantBox gid i).si - y)) := by
      rw [max_comm (sx + sy + (seg.getSubBoundingSlantBox gid i).si - y), ← max_assoc,
        max_comm (sx - sy + (seg.getSubBoundingSlantBox gid i).di + y), max_assoc]
    simp only [hswap]
    have hx2 : sx + (seg.getSubBoundingBBox gid i).xi
        ≤ max (sx + (seg.getSubBoundingBBox gid i).xi)
          (max (sx - sy + (seg.getSubBoundingSlantBox gid i).di + y)
            (sx + sy + (seg.getSubBoundingSlantBox gid i).si - y)) := le_max_left _ _
    generalize max (sx + (seg.getSubBoundingBBox gid i).xi)
      (max (sx - sy + (seg.getSubBoundingSlantBox gid i).di + y)
        (sx + sy + (seg.getSubBoundingSlantBox gid i).si - y)) = x2 at hx2 ⊢
    split_ifs with h1 h2
    · exact (min_eq_right (le_of_lt h2)).symm
    · exact (min_eq_left (not_lt.mp h2)).symm
    · exact (min_eq_left (le_trans (not_lt.mp h1) hx2)).symm
  · have hs : (sy + (seg.getSubBoundingBBox gid i).yi > y + width / 2
        ∨ sy + (seg.getSubBoundingBBox gid i).ya < y - width / 2) := by
      by_contra hc
      push_neg at hc
      exact hm ⟨hc.1, hc.2⟩
    rw [if_pos hs, if_neg hm]

/-- One iteration of the loop of `get_right`: the early skip changes nothing, the running
result becomes its maximum with the sub-box's right edge when the sub-box meets the band. -/
theorem get_right_step_eq (seg : Segment) (gid : Nat) (sx sy y width res : ℚ) (i : Nat) :
    get_right_step seg gid sx sy y width res i
      = if subBoxMeetsBand seg gid sy y width i = true then max res (subBoxRight seg gid sx sy y i)
        else res := by
  unfold get_right_step subBoxMeetsBand subBoxRight
  simp only [decide_eq_true_eq]
  by_cases hm : sy + (seg.getSubBoundingBBox gid i).yi ≤ y + width / 2
      ∧ y - width / 2 ≤ sy + (seg.getSubBoundingBBox gid i).ya
  · have hs : ¬ (sy + (seg.getSubBoundingBBox gid i).yi > y + width / 2
        ∨ sy + (seg.getSubBoundingBBox gid i).ya < y - width / 2) := by
      rintro (h | h) <;> [exact absurd hm.1 (not_le.mpr h); exact absurd hm.2 (not_le.mpr h)]
    rw [if_neg hs, if_pos hm]
    have hswap : min (sx - sy + (seg.getSubBoundingSlantBox gid i).da + y)
        (min (sx + sy + (seg.getSubBoundingSlantBox gid i).sa - y)
          (sx + (seg.getSubBoundingBBox gid i).xa))
        = min (sx + (seg.getSubBoundingBBox gid i).xa)
          (min (sx - sy + (seg.getSubBoundingSlantBox gid i).da + y)
            (sx + sy + (seg.getSubBoundingSlantBox gid i).sa - y)) := by
      rw [min_comm (sx + sy + (seg.getSubBoundingSlantBox gid i).sa - y), ← min_assoc,
        min_comm (sx - sy + (seg.getSubBoundingSlantBox gid i).da + y), min_assoc]
    simp only [hswap]
    have hx2 : min (sx + (seg.getSubBoundingBBox gid i).xa)
          (min (sx - sy + (seg.getSubBoundingSlantBox gid i).da + y)
            (sx + sy + (seg.getSubBoundingSlantBox gid i).sa - y))
        ≤ sx + (seg.getSubBoundingBBox gid i).xa := min_le_left _ _
    generalize min (sx + (seg.getSubBoundingBBox gid i).xa)
      (min (sx - sy + (seg.getSubBoundingSlantBox gid i).da + y)
        (sx + sy + (seg.getSubBoundingSlantBox gid i).sa - y)) = x2 at hx2 ⊢
    split_ifs with h1 h2
    · exact (max_eq_right (le_of_lt h2)).symm
    · exact (max_eq_left (not_lt.mp h2)).symm
    · exact (max_eq_left (le_trans hx2 (not_lt.mp h1))).symm
  · have hs : (sy + (seg.getSubBoundingBBox gid i).yi > y + width / 2
        ∨ sy + (seg.getSubBoundingBBox gid i).ya < y - width / 2) := by
      by_contra hc
      push_neg at hc
      exact hm ⟨hc.1, hc.2⟩
    rw [if_pos hs, if_neg hm]

/-- A loop that updates a running value for the selected indices only is the loop over
the selected indices. -/
theorem foldl_filter_map (p : Nat → Bool) (g : Nat → ℚ) (op : ℚ → ℚ → ℚ) (l : List Nat) :
    ∀ r : ℚ, l.foldl (fun r i => if p i = true then op r (g i) else r) r
      = ((l.filter p).map g).foldl op r := by
  induction l with
  | nil => intro r; rfl
  | cons i l ih =>
    intro r
    simp only [List.foldl_cons, List.filter_cons]
    by_cases hp : p i = true
    · simp only [hp, if_true, List.map_cons, List.foldl_cons]
      exact ih _
    · simp only [hp, if_false, Bool.false_eq_true]
      exact ih _

/-- The loop of `get_left` is the running minimum, started at the sentinel, of the left
edges of the sub-boxes that meet the band. -/
theorem get_left_fold (seg : Segment) (s : Slot) (shift : Position) (y width : ℚ)
    (h : seg.numSubBounds s.gid > 0) :
    get_left seg s shift y width
      = (((List.range (seg.numSubBounds s.gid)).filter
          (subBoxMeetsBand seg s.gid (s.origin.y + shift.y) y width)).map
          (subBoxLeft seg s.gid (s.origin.x + shift.x) (s.origin.y + shift.y) y)).foldl min
          FLOAT_1E38 := by
  unfold get_left
  simp only [h, if_true]
  rw [← foldl_filter_map]
  congr 1
  funext r i
  exact get_left_step_eq _ _ _ _ _ _ _ _

theorem get_right_fold (seg : Segment) (s : Slot) (shift : Position) (y width : ℚ)
    (h : seg.numSubBounds s.gid > 0) :
    get_right seg s shift y width
      = (((List.range (seg.numSubBounds s.gid)).filter
          (subBoxMeetsBand seg s.gid (s.origin.y + shift.y) y width)).map
          (subBoxRight seg s.gid (s.origin.x + shift.x) (s.origin.y + shift.y) y)).foldl max
          (-FLOAT_1E38) := by
  unfold get_right
  simp only [h, if_true]
  rw [← foldl_filter_map]
  congr 1
  funext r i
  exact get_right_step_eq _ _ _ _ _ _ _ _

/-- C38: for a glyph with sub-boxes, the loop of `get_left` with its early skip returns the
sentinel `1e38` capped by the specified left edge `get_left_spec`, the minimum over the
sub-boxes meeting the band of `max(sx + sbb.xi, sx - sy + ssb.di + y, sx + sy + ssb.si - y)`
(the sentinel when no sub-box meets the band); when no such value exceeds the sentinel,
`get_left` returns `get_left_spec`. Symmetrically `get_right` returns `get_right_spec`, the
maximum of `min(sx + sbb.xa, sx - sy + ssb.da + y, sx + sy + ssb.sa - y)`, or `-1e38`.
Without sub-boxes `get_left` is at least `sx + bb.xi` and `get_right` at most
`sx + bb.xa`. -/
theorem get_left_right_refine (seg : Segment) (s : Slot) (shift : Position) (y width : ℚ) :
    let sx := s.origin.x + shift.x
    let sy := s.origin.y + shift.y
    let boxes := (List.range (seg.numSubBounds s.gid)).filter
      (subBoxMeetsBand seg s.gid sy y width)
    (seg.numSubBounds s.gid > 0 →
      get_left seg s shift y width = min FLOAT_1E38 (get_left_spec seg s shift y width)
      ∧ get_right seg s shift y width = max (-FLOAT_1E38) (get_right_spec seg s shift y width)
      ∧ ((∀ i ∈ boxes, subBoxLeft seg s.gid sx sy y i ≤ FLOAT_1E38) →
          get_left seg s shift y width = get_left_spec seg s shift y width)
      ∧ ((∀ i ∈ boxes, -FLOAT_1E38 ≤ subBoxRight seg s.gid sx sy y i) →
          get_right seg s shift y width = get_right_spec seg s shift y width))
    ∧ (boxes = [] → get_left_spec seg s shift y width = FLOAT_1E38
        ∧ get_right_spec seg s shift y width = -FLOAT_1E38)
    ∧ (boxes ≠ [] →
        (∃ i ∈ boxes, get_left_spec seg s shift y width = subBoxLeft seg s.gid sx sy y i)
        ∧ (∀ i ∈ boxes, get_left_spec seg s shift y width ≤ subBoxLeft seg s.gid sx sy y i)
        ∧ (∃ i ∈ boxes, get_right_spec seg s shift y width = subBoxRight seg s.gid sx sy y i)
        ∧ (∀ i ∈ boxes, subBoxRight seg s.gid sx sy y i ≤ get_right_spec seg s shift y width))
    ∧ (¬ seg.numSubBounds s.gid > 0 →
        sx + (seg.getBoundingBBox s.gid).xi ≤ get_left seg s shift y width
        ∧ get_right seg s shift y width ≤ sx + (seg.getBoundingBBox s.gid).xa) := by
  intro sx sy boxes
  have hLs : get_left_spec seg s shift y width
      = ((boxes.map (subBoxLeft seg s.gid sx sy y)).min?).getD FLOAT_1E38 := rfl
  have hRs : get_right_spec seg s shift y width
      = ((boxes.map (subBoxRight seg s.gid sx sy y)).max?).getD (-FLOAT_1E38) := rfl
  refine ⟨fun hn => ?_, fun he => ?_, fun hne => ?_, fun hn => ?_⟩
  · have hL : get_left seg s shift y width
        = (boxes.map (subBoxLeft seg s.gid sx sy y)).foldl min FLOAT_1E38 :=
      get_left_fold seg s shift y width hn
    have hR : get_right seg s shift y width
        = (boxes.map (subBoxRight seg s.gid sx sy y)).foldl max (-FLOAT_1E38) :=
      get_right_fold seg s shift y width hn
    rw [hL, hR, hLs, hRs, foldl_min_eq, foldl_max_eq]
    refine ⟨?_, ?_, fun hb => ?_, fun hb => ?_⟩
    · cases (boxes.map (subBoxLeft seg s.gid sx sy y)).min? with
      | none => exact (min_self _).symm
      | some m => rfl
    · cases (boxes.map (subBoxRight seg s.gid sx sy y)).max? with
      | none => exact (max_self _).symm
      | some m => rfl
    · cases hm : (boxes.map (subBoxLeft seg s.gid sx sy y)).min? with
      | none => rfl
      | some m =>
        obtain ⟨hmem, -⟩ := min?_spec _ m hm
        obtain ⟨i, hi, rfl⟩ := List.mem_map.mp hmem
        exact min_eq_right (hb i hi)
    · cases hm : (boxes.map (subBoxRight seg s.gid sx sy y)).max? with
      | none => rfl
      | some m =>
        obtain ⟨hmem, -⟩ := max?_spec _ m hm
        obtain ⟨i, hi, rfl⟩ := List.mem_map.mp hmem
        exact max_eq_right (hb i hi)
  · rw [hLs, hRs, he]
    exact ⟨rfl, rfl⟩
  · rw [hLs, hRs]
    obtain ⟨b, bs, hb⟩ := List.exists_cons_of_ne_nil hne
    have h1 : ∃ m, (boxes.map (subBoxLeft seg s.gid sx sy y)).min? = some m := by
      rw [hb]
      exact ⟨_, rfl⟩
    have h2 : ∃ m, (boxes.map (subBoxRight seg s.gid sx sy y)).max? = some m := by
      rw [hb]
      exact ⟨_, rfl⟩
    obtain ⟨m1, hm1⟩ := h1
    obtain ⟨m2, hm2⟩ := h2
    obtain ⟨a1, a2⟩ := min?_spec _ m1 hm1
    obtain ⟨c1, c2⟩ := max?_spec _ m2 hm2
    rw [hm1, hm2]
    obtain ⟨i1, hi1, e1⟩ := List.mem_map.mp a1
    obtain ⟨i2, hi2, e2⟩ := List.mem_map.mp c1
    exact ⟨⟨i1, hi1, e1.symm⟩, fun i hi => a2 _ (List.mem_map.mpr ⟨i, hi, rfl⟩),
      ⟨i2, hi2, e2.symm⟩, fun i hi => c2 _ (List.mem_map.mpr ⟨i, hi, rfl⟩)⟩
  · unfold get_left get_right
    rw [if_neg hn, if_neg hn]
    exact ⟨le_max_left _ _, min_le_left _ _⟩

/-- C38 (witness): the glyph of `slotSplit` has two sub-boxes, both meeting the band of
height 52 around `y = 26`; the second one is passed over by the early skip, and the edges
found are those of the specification. -/
theorem get_left_right_refine_witness :
    get_left splitSegment slotSplit ⟨0, 0⟩ 26 52 = get_left_spec splitSegment slotSplit ⟨0, 0⟩ 26 52
    ∧ get_right splitSegment slotSplit ⟨0, 0⟩ 26 52
        = get_right_spec splitSegment slotSplit ⟨0, 0⟩ 26 52 :=
  ⟨((get_left_right_refine splitSegment slotSplit ⟨0, 0⟩ 26 52).1 (by decide)).2.2.1
      (fun i hi => by
        have h2 : i < 2 := by
          have := (List.mem_filter.mp hi).1
          simpa [splitSegment, slotSplit] using this
        interval_cases i <;> norm_num [subBoxLeft, splitSegment, slotSplit, FLOAT_1E38]),
    ((get_left_right_refine splitSegment slotSplit ⟨0, 0⟩ 26 52).1 (by decide)).2.2.2
      (fun i hi => by
        have h2 : i < 2 := by
          have := (List.mem_filter.mp hi).1
          simpa [splitSegment, slotSplit] using this
        interval_cases i <;> norm_num [subBoxRight, splitSegment, slotSplit, FLOAT_1E38])⟩

/-! ## The state `KernCollider::initSlot` leaves -/

/-- The shape of the state `initSlot` leaves for a cluster whose vertical extent is not
inverted: the call returns, the number of bands is at least one, and `_edges` holds one
value per band. -/
theorem kern_initSlot_state (seg : Segment) (cluster : List Slot) (aSlot : Slot)
    (limit : Rect) (margin marginMin : ℚ) (currShift offsetPrev : Position) (dir : Int)
    (maxy miny : ℚ)
    (hext : cluster.foldl (kernExtentStep seg) (-FLOAT_1E38, FLOAT_1E38) = (maxy, miny))
    (hle : miny ≤ maxy) :
    ∃ (N : Int) (st : List ℚ × ℚ),
      1 ≤ N ∧ (N : ℚ) ≤ (maxy - miny + 2) / max margin 10 + 1
      ∧ (maxy - miny + 2) / max margin 10 + 1 < (N : ℚ) + 1
      ∧ cluster.foldlM (kernSlotStep seg currShift dir miny maxy N ((maxy - miny + 2) / N))
          (List.replicate N.toNat (if dir % 2 ≠ 0 then FLOAT_1E38 else -FLOAT_1E38),
            if dir % 2 ≠ 0 then FLOAT_1E38 else -FLOAT_1E38) = some st
      ∧ st.1.length = N.toNat
      ∧ KernCollider.initSlot seg cluster aSlot limit margin marginMin currShift offsetPrev dir
        = some { _target := aSlot, _limit := limit,
                 _margin := if margin < 10 then 10 else margin, _offsetPrev := offsetPrev,
                 _currShift := currShift, _miny := miny, _maxy := maxy, _edges := st.1,
                 _numSlices := N, _mingap := FLOAT_1E38, _xbound := st.2,
                 _othermax := -(if dir % 2 ≠ 0 then FLOAT_1E38 else -FLOAT_1E38) } := by
  have hm : (if margin < 10 then (10 : ℚ) else margin) = max margin 10 := by
    split_ifs with h
    · exact (max_eq_right (le_of_lt h)).symm
    · exact (max_eq_left (not_lt.mp h)).symm
  have hm10 : (10 : ℚ) ≤ max margin 10 := le_max_right _ _
  have hq : (1 : ℚ) ≤ (maxy - miny + 2) / max margin 10 + 1 := by
    have : 0 ≤ (maxy - miny + 2) / max margin 10 := div_nonneg (by linarith) (by linarith)
    linarith
  have hN : truncInt ((maxy - miny + 2) / (if margin < 10 then 10 else margin) + 1)
      = ⌊(maxy - miny + 2) / max margin 10 + 1⌋ := by
    rw [hm]
    unfold truncInt
    rw [if_pos (by linarith)]
  generalize hNdef : ⌊(maxy - miny + 2) / max margin 10 + 1⌋ = N at hN
  have hN1 : 1 ≤ N := by
    rw [← hNdef]
    exact Int.le_floor.mpr (by exact_mod_cast hq)
  have hlo : (N : ℚ) ≤ (maxy - miny + 2) / max margin 10 + 1 := by
    rw [← hNdef]
    exact Int.floor_le _
  have hhi : (maxy - miny + 2) / max margin 10 + 1 < (N : ℚ) + 1 := by
    rw [← hNdef]
    exact Int.lt_floor_add_one _
  obtain ⟨st, hst, hlen⟩ := foldlM_option_inv
    (kernSlotStep seg currShift dir miny maxy N ((maxy - miny + 2) / N))
    (fun (a : List ℚ × ℚ) => a.1.length = N.toNat) (fun _ => True)
    (fun a t ha _ => kernSlotStep_total seg currShift dir miny maxy N _ a t ha)
    cluster
    (List.replicate N.toNat (if dir % 2 ≠ 0 then FLOAT_1E38 else -FLOAT_1E38),
      if dir % 2 ≠ 0 then FLOAT_1E38 else -FLOAT_1E38)
    (by simp) (fun _ _ => trivial)
  exact ⟨N, st, hN1, hlo, hhi, hst, hlen,
    KernCollider.initSlot_of seg cluster aSlot limit margin marginMin currShift offsetPrev dir
      maxy miny N st hext hN hst⟩

theorem edgeAt_some (v : List ℚ) (i : Int) (e : ℚ) (h : edgeAt v i = some e) :
    0 ≤ i ∧ v[i.toNat]? = some e := by
  unfold edgeAt at h
  split_ifs at h with h0
  exact ⟨h0, h⟩

theorem mem_edgeAt (v : List ℚ) (e : ℚ) (h : e ∈ v) :
    ∃ i : Int, 0 ≤ i ∧ i < v.length ∧ edgeAt v i = some e := by
  obtain ⟨n, hn⟩ := List.mem_iff_getElem?.mp h
  have hlt : n < v.length := by
    obtain ⟨hl, -⟩ := List.getElem?_eq_some.mp hn
    exact hl
  refine ⟨(n : Int), by omega, by omega, ?_⟩
  unfold edgeAt
  rw [if_pos (by omega)]
  simpa using hn

/-- One band step of `initSlot` in a reversed run keeps `_xbound` the least of `_edges`. -/
theorem kernEdgeStep_xbound_odd (seg : Segment) (s : Slot) (currShift : Position) (dir : Int)
    (miny sliceWidth x : ℚ) (st st' : List ℚ × ℚ) (i : Int) (hd : dir % 2 ≠ 0)
    (h : kernEdgeStep seg s currShift dir miny sliceWidth x st i = some st')
    (hP : st.2 ∈ st.1 ∧ ∀ e ∈ st.1, st.2 ≤ e) :
    st'.2 ∈ st'.1 ∧ ∀ e ∈ st'.1, st'.2 ≤ e := by
  unfold kernEdgeStep at h
  split at h
  · exact absurd h (by simp)
  · rename_i e he
    obtain ⟨h0, hget⟩ := edgeAt_some _ _ _ he
    have hlt : i.toNat < st.1.length := (List.getElem?_eq_some.mp hget).1
    simp only at h
    by_cases h1 : dir % 2 ≠ 0 ∧ x < e
    · rw [if_pos h1] at h
      by_cases h2 : get_left seg s currShift (miny - 1 + ((i : ℚ) + 1 / 2) * sliceWidth)
          sliceWidth < e
      · rw [if_pos h2] at h
        simp only [Option.some.injEq] at h
        subst h
        generalize get_left seg s currShift (miny - 1 + ((i : ℚ) + 1 / 2) * sliceWidth)
          sliceWidth = t at h2 ⊢
        simp only
        constructor
        · split_ifs with h5
          · exact List.mem_set _ _ hlt _
          · obtain ⟨n, hn⟩ := List.mem_iff_getElem?.mp hP.1
            have hne : i.toNat ≠ n := by
              intro heq
              rw [← heq, hget] at hn
              simp only [Option.some.injEq] at hn
              rw [hn] at h2
              exact h5 h2
            exact List.mem_iff_getElem?.mpr ⟨n, by rw [List.getElem?_set_ne hne]; exact hn⟩
        · intro e1 he1
          rcases List.mem_or_eq_of_mem_set he1 with hm | rfl
          · split_ifs with h5
            · exact le_trans (le_of_lt h5) (hP.2 e1 hm)
            · exact hP.2 e1 hm
          · split_ifs with h5
            · exact le_refl _
            · exact not_lt.mp h5
      · rw [if_neg h2] at h
        simp only [Option.some.injEq] at h
        subst h
        exact hP
    · rw [if_neg h1] at h
      have h3 : ¬ (¬ dir % 2 ≠ 0 ∧ x > e) := fun hc => hc.1 hd
      rw [if_neg h3] at h
      simp only [Option.some.injEq] at h
      subst h
      exact hP

/-- One band step of `initSlot` in a run that is not reversed keeps `_xbound` the greatest
of `_edges`. -/
theorem kernEdgeStep_xbound_even (seg : Segment) (s : Slot) (currShift : Position) (dir : Int)
    (miny sliceWidth x : ℚ) (st st' : List ℚ × ℚ) (i : Int) (hd : ¬ dir % 2 ≠ 0)
    (h : kernEdgeStep seg s currShift dir miny sliceWidth x st i = some st')
    (hP : st.2 ∈ st.1 ∧ ∀ e ∈ st.1, e ≤ st.2) :
    st'.2 ∈ st'.1 ∧ ∀ e ∈ st'.1, e ≤ st'.2 := by
  unfold kernEdgeStep at h
  split at h
  · exact absurd h (by simp)
  · rename_i e he
    obtain ⟨h0, hget⟩ := edgeAt_some _ _ _ he
    have hlt : i.toNat < st.1.length := (List.getElem?_eq_some.mp hget).1
    simp only at h
    have h1 : ¬ (dir % 2 ≠ 0 ∧ x < e) := fun hc => hd hc.1
    rw [if_neg h1] at h
    by_cases h3 : ¬ dir % 2 ≠ 0 ∧ x > e
    · rw [if_pos h3] at h
      by_cases h2 : get_right seg s currShift (miny - 1 + ((i : ℚ) + 1 / 2) * sliceWidth)
          sliceWidth > e
      · rw [if_pos h2] at h
        simp only [Option.some.injEq] at h
        subst h
        generalize get_right seg s currShift (miny - 1 + ((i : ℚ) + 1 / 2) * sliceWidth)
          sliceWidth = t at h2 ⊢
        simp only
        constructor
        · split_ifs with h5
          · exact List.mem_set _ _ hlt _
          · obtain ⟨n, hn⟩ := List.mem_iff_getElem?.mp hP.1
            have hne : i.toNat ≠ n := by
              intro heq
              rw [← heq, hget] at hn
              simp only [Option.some.injEq] at hn
              rw [hn] at h2
              exact h5 h2
            exact List.mem_iff_getElem?.mpr ⟨n, by rw [List.getElem?_set_ne hne]; exact hn⟩
        · intro e1 he1
          rcases List.mem_or_eq_of_mem_set he1 with hm | rfl
          · split_ifs with h5
            · exact le_trans (hP.2 e1 hm) (le_of_lt h5)
            · exact hP.2 e1 hm
          · split_ifs with h5
            · exact le_refl _
            · exact not_lt.mp h5
      · rw [if_neg h2] at h
        simp only [Option.some.injEq] at h
        subst h
        exact hP
    · rw [if_neg h3] at h
      simp only [Option.some.injEq] at h
      subst h
      exact hP

/-- The second cluster scan of `initSlot` keeps `_xbound` the extreme of `_edges`: the
least value in a reversed run, the greatest otherwise. -/
theorem kernSlotFold_xbound (seg : Segment) (currShift : Position) (dir : Int) (miny maxy : ℚ)
    (N : Int) (sliceWidth : ℚ) (cluster : List Slot) (st0 st : List ℚ × ℚ)
    (h : cluster.foldlM (kernSlotStep seg currShift dir miny maxy N sliceWidth) st0 = some st) :
    (dir % 2 ≠ 0 → (st0.2 ∈ st0.1 ∧ ∀ e ∈ st0.1, st0.2 ≤ e) → (st.2 ∈ st.1 ∧ ∀ e ∈ st.1, st.2 ≤ e))
    ∧ (¬ dir % 2 ≠ 0 → (st0.2 ∈ st0.1 ∧ ∀ e ∈ st0.1, e ≤ st0.2) →
        (st.2 ∈ st.1 ∧ ∀ e ∈ st.1, e ≤ st.2)) := by
  constructor
  · intro hd h0
    exact foldlM_option_preserves _ (fun (a : List ℚ × ℚ) => a.2 ∈ a.1 ∧ ∀ e ∈ a.1, a.2 ≤ e)
      (fun a s a' ha hs => by
        unfold kernSlotStep at hs
        exact foldlM_option_preserves _
          (fun (b : List ℚ × ℚ) => b.2 ∈ b.1 ∧ ∀ e ∈ b.1, b.2 ≤ e)
          (fun b i b' hb hi => kernEdgeStep_xbound_odd _ _ _ _ _ _ _ _ _ _ hd hi hb)
          _ _ _ ha hs)
      cluster st0 st h0 h
  · intro hd h0
    exact foldlM_option_preserves _ (fun (a : List ℚ × ℚ) => a.2 ∈ a.1 ∧ ∀ e ∈ a.1, e ≤ a.2)
      (fun a s a' ha hs => by
        unfold kernSlotStep at hs
        exact foldlM_option_preserves _
          (fun (b : List ℚ × ℚ) => b.2 ∈ b.1 ∧ ∀ e ∈ b.1, e ≤ b.2)
          (fun b i b' hb hi => kernEdgeStep_xbound_even _ _ _ _ _ _ _ _ _ _ hd hi hb)
          _ _ _ ha hs)
      cluster st0 st h0 h

/-- C31: for a cluster whose vertical extent is not inverted (`_miny ≤ _maxy`, so that
there is at least one band), `KernCollider::initSlot` returns with `_mingap` reset to the
sentinel `1e38`, every band `i` of `0 .. _numSlices - 1` has an edge `_edges[i]`, and
`_xbound` is the extreme of these edges: it is one of them, and in a reversed run (`dir`
odd) `_xbound ≤ _edges[i]` for every band, otherwise `_edges[i] ≤ _xbound` for every
band. -/
theorem kern_initSlot_xbound_extreme (seg : Segment) (cluster : List Slot) (aSlot : Slot)
    (limit : Rect) (margin marginMin : ℚ) (currShift offsetPrev : Position) (dir : Int)
    (hle : (cluster.foldl (kernExtentStep seg) (-FLOAT_1E38, FLOAT_1E38)).2
      ≤ (cluster.foldl (kernExtentStep seg) (-FLOAT_1E38, FLOAT_1E38)).1) :
    ∃ k, KernCollider.initSlot seg cluster aSlot limit margin marginMin currShift offsetPrev dir
        = some k
      ∧ k._mingap = FLOAT_1E38
      ∧ 1 ≤ k._numSlices
      ∧ (∃ i : Int, 0 ≤ i ∧ i < k._numSlices ∧ edgeAt k._edges i = some k._xbound)
      ∧ (∀ i : Int, 0 ≤ i → i < k._numSlices →
          ∃ e, edgeAt k._edges i = some e
            ∧ (dir % 2 ≠ 0 → k._xbound ≤ e) ∧ (dir % 2 = 0 → e ≤ k._xbound)) := by
  obtain ⟨N, st, hN1, -, -, hst, hlen, hinit⟩ := kern_initSlot_state seg cluster aSlot limit
    margin marginMin currShift offsetPrev dir _ _ rfl hle
  obtain ⟨hodd, heven⟩ := kernSlotFold_xbound _ _ _ _ _ _ _ _ _ _ hst
  have hN0 : N.toNat ≠ 0 := by omega
  have hr : ∀ s0 : ℚ, s0 ∈ List.replicate N.toNat s0 ∧ ∀ e ∈ List.replicate N.toNat s0, e = s0 :=
    fun s0 => ⟨List.mem_replicate.mpr ⟨hN0, rfl⟩, fun e he => (List.mem_replicate.mp he).2⟩
  have hO : dir % 2 ≠ 0 → st.2 ∈ st.1 ∧ ∀ e ∈ st.1, st.2 ≤ e :=
    fun hd => hodd hd ⟨(hr _).1, fun e he => le_of_eq ((hr _).2 e he).symm⟩
  have hE : ¬ dir % 2 ≠ 0 → st.2 ∈ st.1 ∧ ∀ e ∈ st.1, e ≤ st.2 :=
    fun hd => heven hd ⟨(hr _).1, fun e he => le_of_eq ((hr _).2 e he)⟩
  have hmem : st.2 ∈ st.1 := by
    by_cases hd : dir % 2 ≠ 0
    · exact (hO hd).1
    · exact (hE hd).1
  refine ⟨_, hinit, rfl, hN1, ?_, ?_⟩
  · show ∃ i : Int, 0 ≤ i ∧ i < N ∧ edgeAt st.1 i = some st.2
    obtain ⟨i, h0, h1, h2⟩ := mem_edgeAt _ _ hmem
    exact ⟨i, h0, by rw [hlen] at h1; omega, h2⟩
  · show ∀ i : Int, 0 ≤ i → i < N → ∃ e, edgeAt st.1 i = some e
      ∧ (dir % 2 ≠ 0 → st.2 ≤ e) ∧ (dir % 2 = 0 → e ≤ st.2)
    intro i h0 h1
    obtain ⟨e, he⟩ := edgeAt_isSome st.1 i h0 (by rw [hlen]; omega)
    exact ⟨e, he, fun hd => (hO hd).2 e (edgeAt_mem _ _ _ he),
      fun hd => (hE (fun hc => hc hd)).2 e (edgeAt_mem _ _ _ he)⟩

/-- C31 (witness): the cluster of `kernTarget` alone, margin 40, reversed run. -/
theorem kern_initSlot_xbound_extreme_witness :
    ∃ k, KernCollider.initSlot kernSegment [kernTarget] kernTarget limitWide 40 0 ⟨0, 0⟩ ⟨0, 0⟩ 1
        = some k
      ∧ k._mingap = FLOAT_1E38
      ∧ 1 ≤ k._numSlices
      ∧ (∃ i : Int, 0 ≤ i ∧ i < k._numSlices ∧ edgeAt k._edges i = some k._xbound)
      ∧ (∀ i : Int, 0 ≤ i → i < k._numSlices →
          ∃ e, edgeAt k._edges i = some e
            ∧ ((1 : Int) % 2 ≠ 0 → k._xbound ≤ e) ∧ ((1 : Int) % 2 = 0 → e ≤ k._xbound)) :=
  kern_initSlot_xbound_extreme kernSegment [kernTarget] kernTarget limitWide 40 0 ⟨0, 0⟩ ⟨0, 0⟩ 1
    (by norm_num [kernExtentStep, kernSegment, kernTarget, wideBBox, zeroCollision, FLOAT_1E38])

/-! ## The bands a glyph spans -/

theorem intRange_mem (lo hi i : Int) (h1 : lo ≤ i) (h2 : i ≤ hi) : i ∈ intRange lo hi := by
  unfold intRange
  rw [List.mem_map]
  exact ⟨(i - lo).toNat, List.mem_range.mpr (by omega), by omega⟩

theorem le_truncInt_of_le (q : ℚ) (i : Int) (h0 : 0 ≤ i) (h : (i : ℚ) ≤ q) : i ≤ truncInt q := by
  unfold truncInt
  have hq : (0 : ℚ) ≤ q := le_trans (by exact_mod_cast h0) h
  rw [if_pos hq]
  exact Int.le_floor.mpr h

theorem sameBands_trans (k1 k2 k3 : KernCollider) (h12 : k1.SameBands k2)
    (h23 : k2.SameBands k3) : k1.SameBands k3 := by
  obtain ⟨a1, a2, a3, a4, a5, a6, a7, a8, a9, a10⟩ := h12
  obtain ⟨b1, b2, b3, b4, b5, b6, b7, b8, b9, b10⟩ := h23
  exact ⟨b1.trans a1, b2.trans a2, b3.trans a3, b4.trans a4, b5.trans a5, b6.trans a6,
    b7.trans a7, b8.trans a8, b9.trans a9, b10.trans a10⟩

/-- The band indices computed for any vertical range lie in `0 .. numSlices - 1`. -/
theorem slice_range_in_bounds (miny maxy : ℚ) (N : Int) (ylo yhi : ℚ) (i : Int)
    (h : i ∈ intRange (KernCollider.sliceMin miny maxy N ylo)
      (KernCollider.sliceMax miny maxy N yhi)) : 0 ≤ i ∧ i ≤ N - 1 := by
  have := mem_intRange _ _ _ h
  unfold KernCollider.sliceMin KernCollider.sliceMax at this
  exact ⟨le_trans (le_max_left _ _) this.1, le_trans this.2 (min_le_left _ _)⟩

/-! ## The edges of a cluster of one glyph -/

theorem edgeAt_set_self (v : List ℚ) (i : Int) (t : ℚ) (h0 : 0 ≤ i) (hlt : i.toNat < v.length) :
    edgeAt (v.set i.toNat t) i = some t := by
  unfold edgeAt
  rw [if_pos h0]
  exact List.getElem?_set_self hlt

theorem edgeAt_set_ne (v : List ℚ) (i j : Int) (t : ℚ) (h0 : 0 ≤ i) (hne : j ≠ i) :
    edgeAt (v.set i.toNat t) j = edgeAt v j := by
  unfold edgeAt
  by_cases hj : 0 ≤ j
  · rw [if_pos hj, if_pos hj]
    exact List.getElem?_set_ne (by omega)
  · rw [if_neg hj, if_neg hj]

theorem edgeAt_replicate (n : Nat) (a : ℚ) (i : Int) (h0 : 0 ≤ i) (h1 : i < n) :
    edgeAt (List.replicate n a) i = some a := by
  unfold edgeAt
  rw [if_pos h0, List.getElem?_replicate, if_pos (by omega)]

theorem intRange_nodup (lo hi : Int) : (intRange lo hi).Nodup := by
  unfold intRange
  exact List.Nodup.map (fun a b h => by simpa using h) (List.nodup_range _)

/-- The band loop of `initSlot` for a glyph in a reversed run, over bands that still hold
the sentinel: each band visited receives the glyph's left edge at the band's centre, the
other bands are untouched. -/
theorem kernEdgeFold_fresh_odd (seg : Segment) (s : Slot) (currShift : Position) (dir : Int)
    (miny w x : ℚ) (hd : dir % 2 ≠ 0) (hx : x < FLOAT_1E38) :
    ∀ (l : List Int), l.Nodup → ∀ st : List ℚ × ℚ,
      (∀ i ∈ l, edgeAt st.1 i = some FLOAT_1E38) →
      (∀ i ∈ l, get_left seg s currShift (miny - 1 + ((i : ℚ) + 1 / 2) * w) w < FLOAT_1E38) →
      ∃ st', l.foldlM (kernEdgeStep seg s currShift dir miny w x) st = some st'
        ∧ st'.1.length = st.1.length
        ∧ (∀ i ∈ l, edgeAt st'.1 i
            = some (get_left seg s currShift (miny - 1 + ((i : ℚ) + 1 / 2) * w) w))
        ∧ (∀ j, j ∉ l → edgeAt st'.1 j = edgeAt st.1 j) := by
  intro l
  induction l with
  | nil =>
    intro _ st _ _
    exact ⟨st, rfl, rfl, fun i hi => absurd hi (by simp), fun _ _ => rfl⟩
  | cons i l ih =>
    intro hnd st hs ht
    obtain ⟨hil, hl⟩ := List.nodup_cons.mp hnd
    have he := hs i (List.mem_cons_self _ _)
    have hti := ht i (List.mem_cons_self _ _)
    obtain ⟨h0, hget⟩ := edgeAt_some _ _ _ he
    have hlt : i.toNat < st.1.length := (List.getElem?_eq_some.mp hget).1
    have hstep : kernEdgeStep seg s currShift dir miny w x st i
        = some (st.1.set i.toNat (get_left seg s currShift (miny - 1 + ((i : ℚ) + 1 / 2) * w) w),
            if get_left seg s currShift (miny - 1 + ((i : ℚ) + 1 / 2) * w) w < st.2
            then get_left seg s currShift (miny - 1 + ((i : ℚ) + 1 / 2) * w) w else st.2) := by
      unfold kernEdgeStep
      simp only [he]
      rw [if_pos ⟨hd, hx⟩, if_pos hti]
    obtain ⟨st', h1, h2, h3, h4⟩ := ih hl
      (st.1.set i.toNat (get_left seg s currShift (miny - 1 + ((i : ℚ) + 1 / 2) * w) w),
        if get_left seg s currShift (miny - 1 + ((i : ℚ) + 1 / 2) * w) w < st.2
        then get_left seg s currShift (miny - 1 + ((i : ℚ) + 1 / 2) * w) w else st.2)
      (fun j hj => by
        show edgeAt (st.1.set i.toNat _) j = some FLOAT_1E38
        rw [edgeAt_set_ne _ _ _ _ h0 (fun hc => hil (hc ▸ hj))]
        exact hs j (List.mem_cons_of_mem _ hj))
      (fun j hj => ht j (List.mem_cons_of_mem _ hj))
    refine ⟨st', ?_, ?_, ?_, ?_⟩
    · simp only [List.foldlM, bind, Option.bind, hstep]
      exact h1
    · rw [h2]
      simp
    · intro j hj
      rcases List.mem_cons.mp hj with rfl | hj
      · rw [h4 j hil]
        exact edgeAt_set_self _ _ _ h0 hlt
      · exact h3 j hj
    · intro j hj
      have hji : j ≠ i := fun hc => hj (hc ▸ List.mem_cons_self _ _)
      have hjl : j ∉ l := fun hc => hj (List.mem_cons_of_mem _ hc)
      rw [h4 j hjl]
      exact edgeAt_set_ne _ _ _ _ h0 hji

/-- The band loop of `initSlot` for a glyph in a run that is not reversed, over bands that
still hold the sentinel: each band visited receives the glyph's right edge at the band's
centre, the other bands are untouched. -/
theorem kernEdgeFold_fresh_even (seg : Segment) (s : Slot) (currShift : Position) (dir : Int)
    (miny w x : ℚ) (hd : ¬ dir % 2 ≠ 0) (hx : x > -FLOAT_1E38) :
    ∀ (l : List Int), l.Nodup → ∀ st : List ℚ × ℚ,
      (∀ i ∈ l, edgeAt st.1 i = some (-FLOAT_1E38)) →
      (∀ i ∈ l, get_right seg s currShift (miny - 1 + ((i : ℚ) + 1 / 2) * w) w > -FLOAT_1E38) →
      ∃ st', l.foldlM (kernEdgeStep seg s currShift dir miny w x) st = some st'
        ∧ st'.1.length = st.1.length
        ∧ (∀ i ∈ l, edgeAt st'.1 i
            = some (get_right seg s currShift (miny - 1 + ((i : ℚ) + 1 / 2) * w) w))
        ∧ (∀ j, j ∉ l → edgeAt st'.1 j = edgeAt st.1 j) := by
  intro l
  induction l with
  | nil =>
    intro _ st _ _
    exact ⟨st, rfl, rfl, fun i hi => absurd hi (by simp), fun _ _ => rfl⟩
  | cons i l ih =>
    intro hnd st hs ht
    obtain ⟨hil, hl⟩ := List.nodup_cons.mp hnd
    have he := hs i (List.mem_cons_self _ _)
    have hti := ht i (List.mem_cons_self _ _)
    obtain ⟨h0, hget⟩ := edgeAt_some _ _ _ he
    have hlt : i.toNat < st.1.length := (List.getElem?_eq_some.mp hget).1
    have hstep : kernEdgeStep seg s currShift dir miny w x st i
        = some (st.1.set i.toNat (get_right seg s currShift (miny - 1 + ((i : ℚ) + 1 / 2) * w) w),
            if get_right seg s currShift (miny - 1 + ((i : ℚ) + 1 / 2) * w) w > st.2
            then get_right seg s currShift (miny - 1 + ((i : ℚ) + 1 / 2) * w) w else st.2) := by
      unfold kernEdgeStep
      simp only [he]
      rw [if_neg (fun hc => hd hc.1), if_pos ⟨hd, hx⟩, if_pos hti]
    obtain ⟨st', h1, h2, h3, h4⟩ := ih hl
      (st.1.set i.toNat (get_right seg s currShift (miny - 1 + ((i : ℚ) + 1 / 2) * w) w),
        if get_right seg s currShift (miny - 1 + ((i : ℚ) + 1 / 2) * w) w > st.2
        then get_right seg s currShift (miny - 1 + ((i : ℚ) + 1 / 2) * w) w else st.2)
      (fun j hj => by
        show edgeAt (st.1.set i.toNat _) j = some (-FLOAT_1E38)
        rw [edgeAt_set_ne _ _ _ _ h0 (fun hc => hil (hc ▸ hj))]
        exact hs j (List.mem_cons_of_mem _ hj))
      (fun j hj => ht j (List.mem_cons_of_mem _ hj))
    refine ⟨st', ?_, ?_, ?_, ?_⟩
    · simp only [List.foldlM, bind, Option.bind, hstep]
      exact h1
    · rw [h2]
      simp
    · intro j hj
      rcases List.mem_cons.mp hj with rfl | hj
      · rw [h4 j hil]
        exact edgeAt_set_self _ _ _ h0 hlt
      · exact h3 j hj
    · intro j hj
      have hji : j ≠ i := fun hc => hj (hc ▸ List.mem_cons_self _ _)
      have hjl : j ∉ l := fun hc => hj (List.mem_cons_of_mem _ hc)
      rw [h4 j hjl]
      exact edgeAt_set_ne _ _ _ _ h0 hji

/-- For a cluster of one glyph the band range computed for the glyph is all the bands. -/
theorem slice_range_single (lo hi m : ℚ) (N : Int) (hbox : lo ≤ hi) (hm : 10 ≤ m)
    (hN1 : 1 ≤ N) (hNle : (N : ℚ) ≤ (hi - lo + 2) / m + 1) :
    KernCollider.sliceMin lo hi N lo = 0 ∧ KernCollider.sliceMax lo hi N hi = N - 1 := by
  have hH : (0 : ℚ) < hi - lo + 2 := by linarith
  have hNpos : (0 : ℚ) < N := by exact_mod_cast (by omega : 0 < N)
  have hdiv : (hi - lo + 2) / m ≤ (hi - lo + 2) / 10 :=
    div_le_div_of_nonneg_left (le_of_lt hH) (by norm_num) hm
  have hNH : (N : ℚ) < hi - lo + 2 := by linarith
  have hq : (N : ℚ) / (hi - lo + 2) < 1 := (div_lt_one hH).mpr hNH
  have hq0 : (0 : ℚ) ≤ (N : ℚ) / (hi - lo + 2) := div_nonneg (le_of_lt hNpos) (le_of_lt hH)
  constructor
  · unfold KernCollider.sliceMin
    have e : (lo - lo + 1) / (hi - lo + 2) * (N : ℚ) = (N : ℚ) / (hi - lo + 2) := by
      field_simp
    rw [e, truncInt_eq _ 0 hq0 (by simpa using hq0) (by simpa using hq)]
    rfl
  · unfold KernCollider.sliceMax
    have e : (hi - lo + 1) / (hi - lo + 2) * (N : ℚ) = (N : ℚ) - (N : ℚ) / (hi - lo + 2) := by
      field_simp
      ring
    refine min_eq_left (le_truncInt_of_le _ (N - 1) (by omega) ?_)
    rw [e]
    push_cast
    linarith

/-- The centre of every band lies within the vertical extent of the cluster, widened by
one unit at both ends. -/
theorem band_centre_range (lo hi : ℚ) (N i : Int) (hbox : lo ≤ hi) (hN1 : 1 ≤ N) (h0 : 0 ≤ i)
    (h1 : i < N) :
    lo - 1 ≤ lo - 1 + ((i : ℚ) + 1 / 2) * ((hi - lo + 2) / N)
    ∧ lo - 1 + ((i : ℚ) + 1 / 2) * ((hi - lo + 2) / N) ≤ hi + 1 := by
  have hH : (0 : ℚ) < hi - lo + 2 := by linarith
  have hNpos : (0 : ℚ) < N := by exact_mod_cast (by omega : 0 < N)
  have hi0 : (0 : ℚ) ≤ i := by exact_mod_cast h0
  have hiN : (i : ℚ) + 1 ≤ N := by exact_mod_cast (by omega : i + 1 ≤ N)
  have hw : (0 : ℚ) < (hi - lo + 2) / N := div_pos hH hNpos
  have hNw : (N : ℚ) * ((hi - lo + 2) / N) = hi - lo + 2 := by
    field_simp
  constructor
  · have : 0 ≤ ((i : ℚ) + 1 / 2) * ((hi - lo + 2) / N) := mul_nonneg (by linarith) (le_of_lt hw)
    linarith
  · have : ((i : ℚ) + 1 / 2) * ((hi - lo + 2) / N) ≤ (N : ℚ) * ((hi - lo + 2) / N) :=
      mul_le_mul_of_nonneg_right (by linarith) (le_of_lt hw)
    linarith

/-- C34: for a cluster of a single glyph without sub-boxes, with a box that is not inverted
and with the positioned coordinates of the glyph (its box edges and its slanted edges at
the heights of the cluster) of magnitude below `1e38`, `KernCollider::initSlot` returns,
`_edges` holds `_numSlices ≥ 1` values, and every band holds the glyph's edge at the
band's centre (`get_left` in a reversed run, `get_right` otherwise), which lies strictly
between the sentinels: no band is left at `1e38` or `-1e38`. -/
theorem kern_initSlot_single_glyph (seg : Segment) (s aSlot : Slot) (limit : Rect)
    (margin marginMin : ℚ) (currShift offsetPrev : Position) (dir : Int)
    (hsub : seg.numSubBounds s.gid = 0)
    (hbox : (seg.getBoundingBBox s.gid).yi ≤ (seg.getBoundingBBox s.gid).ya)
    (hy : |s.origin.y + (seg.collisionInfo s).shift.y + (seg.getBoundingBBox s.gid).yi|
        < FLOAT_1E38
      ∧ |s.origin.y + (seg.collisionInfo s).shift.y + (seg.getBoundingBBox s.gid).ya|
        < FLOAT_1E38)
    (hx : |s.origin.x + (seg.collisionInfo s).shift.x + (seg.getBoundingBBox s.gid).xi|
        < FLOAT_1E38
      ∧ |s.origin.x + (seg.collisionInfo s).shift.x + (seg.getBoundingBBox s.gid).xa|
        < FLOAT_1E38)
    (hedge : ∀ y : ℚ,
      s.origin.y + (seg.collisionInfo s).shift.y + (seg.getBoundingBBox s.gid).yi - 1 ≤ y →
      y ≤ s.origin.y + (seg.collisionInfo s).shift.y + (seg.getBoundingBBox s.gid).ya + 1 →
      |s.origin.x + currShift.x + (seg.getBoundingBBox s.gid).xi| < FLOAT_1E38
      ∧ |s.origin.x + currShift.x - (s.origin.y + currShift.y)
          + (seg.getBoundingSlantBox s.gid).di + y| < FLOAT_1E38
      ∧ |s.origin.x + currShift.x + (s.origin.y + currShift.y)
          + (seg.getBoundingSlantBox s.gid).si - y| < FLOAT_1E38
      ∧ |s.origin.x + currShift.x + (seg.getBoundingBBox s.gid).xa| < FLOAT_1E38
      ∧ |s.origin.x + currShift.x - (s.origin.y + currShift.y)
          + (seg.getBoundingSlantBox s.gid).da + y| < FLOAT_1E38
      ∧ |s.origin.x + currShift.x + (s.origin.y + currShift.y)
          + (seg.getBoundingSlantBox s.gid).sa - y| < FLOAT_1E38) :
    ∃ k, KernCollider.initSlot seg [s] aSlot limit margin marginMin currShift offsetPrev dir
        = some k
      ∧ 1 ≤ k._numSlices
      ∧ (k._edges.length : Int) = k._numSlices
      ∧ (∀ i : Int, 0 ≤ i → i < k._numSlices →
          ∃ e, edgeAt k._edges i = some e
            ∧ e = (if dir % 2 ≠ 0 then
                get_left seg s currShift
                  (k._miny - 1 + ((i : ℚ) + 1 / 2) * ((k._maxy - k._miny + 2) / k._numSlices))
                  ((k._maxy - k._miny + 2) / k._numSlices)
              else
                get_right seg s currShift
                  (k._miny - 1 + ((i : ℚ) + 1 / 2) * ((k._maxy - k._miny + 2) / k._numSlices))
                  ((k._maxy - k._miny + 2) / k._numSlices))
            ∧ -FLOAT_1E38 < e ∧ e < FLOAT_1E38)
      ∧ (∀ e ∈ k._edges, e ≠ FLOAT_1E38 ∧ e ≠ -FLOAT_1E38) := by
  obtain ⟨hy1, hy2⟩ := hy
  obtain ⟨hx1, hx2⟩ := hx
  rw [abs_lt] at hy1 hy2 hx1 hx2
  generalize hlo : s.origin.y + (seg.collisionInfo s).shift.y + (seg.getBoundingBBox s.gid).yi
    = lo at hy1 hedge
  generalize hhi : s.origin.y + (seg.collisionInfo s).shift.y + (seg.getBoundingBBox s.gid).ya
    = hi at hy2 hedge
  have hlohi : lo ≤ hi := by rw [← hlo, ← hhi]; linarith
  have hext : [s].foldl (kernExtentStep seg) (-FLOAT_1E38, FLOAT_1E38) = (hi, lo) := by
    simp only [List.foldl, kernExtentStep, hlo, hhi]
    rw [max_eq_right (le_of_lt hy2.1), min_eq_right (le_of_lt hy1.2)]
  obtain ⟨N, st, hN1, hNle, -, hst, hlen, hinit⟩ := kern_initSlot_state seg [s] aSlot limit
    margin marginMin currShift offsetPrev dir hi lo hext hlohi
  obtain ⟨hmin, hmax⟩ := slice_range_single lo hi (max margin 10) N hlohi (le_max_right _ _) hN1
    hNle
  have hst1 : kernSlotStep seg currShift dir lo hi N ((hi - lo + 2) / N)
      (List.replicate N.toNat (if dir % 2 ≠ 0 then FLOAT_1E38 else -FLOAT_1E38),
        if dir % 2 ≠ 0 then FLOAT_1E38 else -FLOAT_1E38) s = some st := by
    simp only [List.foldlM, bind, Option.bind] at hst
    split at hst
    · exact absurd hst (by simp)
    · rename_i a ha
      simp only [pure] at hst
      rw [ha, hst]
  rw [kernSlotStep_of seg currShift dir lo hi N _ _ s 0 (N - 1) (by rw [hlo]; exact hmin)
    (by rw [hhi]; exact hmax)] at hst1
  have hget : ∀ i : Int, 0 ≤ i → i < N →
      (-FLOAT_1E38 < get_left seg s currShift (lo - 1 + ((i : ℚ) + 1 / 2) * ((hi - lo + 2) / N))
        ((hi - lo + 2) / N)
      ∧ get_left seg s currShift (lo - 1 + ((i : ℚ) + 1 / 2) * ((hi - lo + 2) / N))
        ((hi - lo + 2) / N) < FLOAT_1E38)
      ∧ (-FLOAT_1E38 < get_right seg s currShift
          (lo - 1 + ((i : ℚ) + 1 / 2) * ((hi - lo + 2) / N)) ((hi - lo + 2) / N)
      ∧ get_right seg s currShift (lo - 1 + ((i : ℚ) + 1 / 2) * ((hi - lo + 2) / N))
        ((hi - lo + 2) / N) < FLOAT_1E38) := by
    intro i h0 h1
    obtain ⟨c1, c2⟩ := band_centre_range lo hi N i hlohi hN1 h0 h1
    obtain ⟨e1, e2, e3, e4, e5, e6⟩ := hedge _ c1 c2
    rw [abs_lt] at e1 e2 e3 e4 e5 e6
    have hn : ¬ seg.numSubBounds s.gid > 0 := by omega
    unfold get_left get_right
    simp only [hn, if_false]
    exact ⟨⟨lt_of_lt_of_le e1.1 (le_max_left _ _), max_lt e1.2 (max_lt e2.2 e3.2)⟩,
      ⟨lt_min e4.1 (lt_min e5.1 e6.1), lt_of_le_of_lt (min_le_left _ _) e4.2⟩⟩
  have hrange : ∀ i : Int, i ∈ intRange 0 (N - 1) → 0 ≤ i ∧ i < N := by
    intro i hi
    have := mem_intRange _ _ _ hi
    omega
  have hfinal : ∀ i : Int, 0 ≤ i → i < N →
      edgeAt st.1 i = some (if dir % 2 ≠ 0 then
          get_left seg s currShift (lo - 1 + ((i : ℚ) + 1 / 2) * ((hi - lo + 2) / N))
            ((hi - lo + 2) / N)
        else
          get_right seg s currShift (lo - 1 + ((i : ℚ) + 1 / 2) * ((hi - lo + 2) / N))
            ((hi - lo + 2) / N)) := by
    intro i h0 h1
    by_cases hd : dir % 2 ≠ 0
    · obtain ⟨st', f1, -, f3, -⟩ := kernEdgeFold_fresh_odd seg s currShift dir lo
        ((hi - lo + 2) / N) _ hd hx1.2 (intRange 0 (N - 1)) (intRange_nodup _ _)
        (List.replicate N.toNat (if dir % 2 ≠ 0 then FLOAT_1E38 else -FLOAT_1E38),
          if dir % 2 ≠ 0 then FLOAT_1E38 else -FLOAT_1E38)
        (fun j hj => by
          obtain ⟨j0, j1⟩ := hrange j hj
          simp only [hd, if_true, ne_eq, not_false_eq_true]
          exact edgeAt_replicate _ _ _ j0 (by omega))
        (fun j hj => ((hget j (hrange j hj).1 (hrange j hj).2).1).2)
      simp only [hd, if_true, ne_eq, not_false_eq_true] at hst1 f1 ⊢
      rw [f1] at hst1
      rw [← Option.some.inj hst1]
      exact f3 i (intRange_mem _ _ _ h0 (by omega))
    · obtain ⟨st', f1, -, f3, -⟩ := kernEdgeFold_fresh_even seg s currShift dir lo
        ((hi - lo + 2) / N) _ hd hx2.1 (intRange 0 (N - 1)) (intRange_nodup _ _)
        (List.replicate N.toNat (if dir % 2 ≠ 0 then FLOAT_1E38 else -FLOAT_1E38),
          if dir % 2 ≠ 0 then FLOAT_1E38 else -FLOAT_1E38)
        (fun j hj => by
          obtain ⟨j0, j1⟩ := hrange j hj
          simp only [hd, if_false]
          exact edgeAt_replicate _ _ _ j0 (by omega))
        (fun j hj => ((hget j (hrange j hj).1 (hrange j hj).2).2).1)
      simp only [hd, if_false] at hst1 f1 ⊢
      rw [f1] at hst1
      rw [← Option.some.inj hst1]
      exact f3 i (intRange_mem _ _ _ h0 (by omega))
  have hval : ∀ i : Int, 0 ≤ i → i < N →
      -FLOAT_1E38 < (if dir % 2 ≠ 0 then
          get_left seg s currShift (lo - 1 + ((i : ℚ) + 1 / 2) * ((hi - lo + 2) / N))
            ((hi - lo + 2) / N)
        else
          get_right seg s currShift (lo - 1 + ((i : ℚ) + 1 / 2) * ((hi - lo + 2) / N))
            ((hi - lo + 2) / N))
      ∧ (if dir % 2 ≠ 0 then
          get_left seg s currShift (lo - 1 + ((i : ℚ) + 1 / 2) * ((hi - lo + 2) / N))
            ((hi - lo + 2) / N)
        else
          get_right seg s currShift (lo - 1 + ((i : ℚ) + 1 / 2) * ((hi - lo + 2) / N))
            ((hi - lo + 2) / N)) < FLOAT_1E38 := by
    intro i h0 h1
    obtain ⟨g1, g2⟩ := hget i h0 h1
    split_ifs
    · exact g1
    · exact g2
  refine ⟨_, hinit, hN1, ?_, ?_, ?_⟩
  · show (st.1.length : Int) = N
    rw [hlen]
    omega
  · intro i h0 h1
    exact ⟨_, hfinal i h0 h1, rfl, hval i h0 h1⟩
  · intro e he
    show e ≠ FLOAT_1E38 ∧ e ≠ -FLOAT_1E38
    obtain ⟨i, h0, h1, h2⟩ := mem_edgeAt st.1 e he
    have h1N : i < N := by rw [hlen] at h1; omega
    rw [hfinal i h0 h1N] at h2
    obtain ⟨v1, v2⟩ := hval i h0 h1N
    rw [Option.some.inj h2] at v1 v2
    exact ⟨ne_of_lt v2, fun hc => absurd v1 (by rw [hc]; exact lt_irrefl _)⟩

/-- C34 (witness): the cluster of `kernTarget` alone, margin 40, reversed run: no band is
left at a sentinel. -/
theorem kern_initSlot_single_glyph_witness :
    ∃ k, KernCollider.initSlot kernSegment [kernTarget] kernTarget limitWide 40 0 ⟨0, 0⟩ ⟨0, 0⟩ 1
        = some k
      ∧ 1 ≤ k._numSlices
      ∧ (k._edges.length : Int) = k._numSlices
      ∧ (∀ e ∈ k._edges, e ≠ FLOAT_1E38 ∧ e ≠ -FLOAT_1E38) := by
  obtain ⟨k, hk, h1, h2, -, h4⟩ := kern_initSlot_single_glyph kernSegment kernTarget kernTarget
    limitWide 40 0 ⟨0, 0⟩ ⟨0, 0⟩ 1 rfl
    (by norm_num [kernSegment, wideBBox])
    (by norm_num [abs_lt, kernSegment, kernTarget, wideBBox, zeroCollision, FLOAT_1E38])
    (by norm_num [abs_lt, kernSegment, kernTarget, wideBBox, zeroCollision, FLOAT_1E38])
    (fun y h1 h2 => by
      norm_num [kernSegment, kernTarget, wideBBox, zeroCollision] at h1 h2
      norm_num [abs_lt, kernSegment, kernTarget, wideBBox, FLOAT_1E38]
      refine ⟨⟨?_, ?_⟩, ⟨?_, ?_⟩, ⟨?_, ?_⟩, ⟨?_, ?_⟩⟩ <;> linarith)
  exact ⟨k, hk, h1, h2, h4⟩

/-! ## Rounding to nearest -/

theorem roundEven_of_near (q : ℚ) (n : Int) (h1 : (n : ℚ) - 1 / 2 < q) (h2 : q < n + 1 / 2) :
    roundEven q = n := by
  unfold roundEven
  by_cases hq : (n : ℚ) ≤ q
  · have hf : ⌊q⌋ = n := Int.floor_eq_iff.mpr ⟨hq, by linarith⟩
    rw [hf, if_pos (by linarith)]
  · have hq2 : q < n := not_le.mp hq
    have hf : ⌊q⌋ = n - 1 := Int.floor_eq_iff.mpr ⟨by push_cast; linarith, by push_cast; linarith⟩
    rw [hf, if_neg (by push_cast; linarith), if_pos (by push_cast; linarith)]
    omega

theorem roundEven_of_tie (q : ℚ) (n : Int) (h : q = n + 1 / 2) :
    roundEven q = if n % 2 = 0 then n else n + 1 := by
  unfold roundEven
  have hf : ⌊q⌋ = n := Int.floor_eq_iff.mpr ⟨by linarith, by linarith⟩
  rw [hf, if_neg (by linarith), if_neg (by linarith)]

theorem floor_le_roundEven (q : ℚ) : ⌊q⌋ ≤ roundEven q := by
  unfold roundEven
  split_ifs <;> omega

theorem roundEven_ge (q : ℚ) (n : Int) (h : (n : ℚ) ≤ q) : n ≤ roundEven q :=
  le_trans (Int.le_floor.mpr h) (floor_le_roundEven q)

/-- Rounding keeps the sign of a value that is not negative. -/
theorem roundBin_nonneg (t : Nat) (emin : Int) (q : ℚ) (h : 0 ≤ q) : 0 ≤ roundBin t emin q := by
  unfold roundBin
  split_ifs
  · exact le_refl _
  · have hp : (0 : ℚ) < 2 ^ (max (Int.log 2 |q|) emin - t) := zpow_pos (by norm_num) _
    have h0 : (0 : Int) ≤ roundEven (q / 2 ^ (max (Int.log 2 |q|) emin - t)) :=
      roundEven_ge _ 0 (by exact_mod_cast div_nonneg h (le_of_lt hp))
    exact mul_nonneg (by exact_mod_cast h0) (le_of_lt hp)

theorem log_two_eq (q : ℚ) (e : Int) (hlo : (2 : ℚ) ^ e ≤ q) (hhi : q < 2 ^ (e + 1)) :
    Int.log 2 q = e := by
  have hq : (0 : ℚ) < q := lt_of_lt_of_le (zpow_pos (by norm_num) _) hlo
  have h1 : e ≤ Int.log 2 q := (Int.zpow_le_iff_le_log (by norm_num) hq).mp (by exact_mod_cast hlo)
  have h2 : Int.log 2 q < e + 1 :=
    (Int.lt_zpow_iff_log_lt (by norm_num) hq).mp (by exact_mod_cast hhi)
  omega

/-- The value of a rounding: a positive `q` in the binade of `2^e` whose significand
`q / 2^(e - t)` is nearer to the integer `n` than to any other is rounded to
`n * 2^(e - t)`. -/
theorem roundBin_pos_eval (t : Nat) (emin e n : Int) (q : ℚ) (hemin : emin ≤ e)
    (hlo : (2 : ℚ) ^ e ≤ q) (hhi : q < 2 ^ (e + 1))
    (h1 : (n : ℚ) - 1 / 2 < q / 2 ^ (e - t)) (h2 : q / 2 ^ (e - t) < n + 1 / 2) :
    roundBin t emin q = n * 2 ^ (e - t) := by
  have hq : (0 : ℚ) < q := lt_of_lt_of_le (zpow_pos (by norm_num) _) hlo
  unfold roundBin
  rw [if_neg (ne_of_gt hq), abs_of_pos hq, log_two_eq q e hlo hhi, max_eq_left hemin,
    roundEven_of_near _ n h1 h2]

/-- Rounding does not go below a power of two that the value reaches. -/
theorem roundBin_two_pow_le (t : Nat) (emin k : Int) (q : ℚ) (hk : emin ≤ k)
    (h : (2 : ℚ) ^ k ≤ q) : (2 : ℚ) ^ k ≤ roundBin t emin q := by
  have hq : (0 : ℚ) < q := lt_of_lt_of_le (zpow_pos (by norm_num) _) h
  have hlog : k ≤ Int.log 2 q := (Int.zpow_le_iff_le_log (by norm_num) hq).mp (by exact_mod_cast h)
  have hpow : ((2 : ℕ) : ℚ) ^ Int.log 2 q ≤ q := Int.zpow_log_le_self (by norm_num) hq
  have hpow2 : (2 : ℚ) ^ Int.log 2 q ≤ q := by exact_mod_cast hpow
  unfold roundBin
  rw [if_neg (ne_of_gt hq), abs_of_pos hq, max_eq_left (le_trans hk hlog)]
  have hu : (0 : ℚ) < 2 ^ (Int.log 2 q - t) := zpow_pos (by norm_num) _
  have hsig : (((2 : Int) ^ t : Int) : ℚ) ≤ q / 2 ^ (Int.log 2 q - t) := by
    rw [le_div_iff₀ hu]
    push_cast
    rw [← zpow_natCast, ← zpow_add₀ (by norm_num : (2 : ℚ) ≠ 0)]
    have : (t : Int) + (Int.log 2 q - t) = Int.log 2 q := by ring
    rw [this]
    exact hpow2
  have hr := roundEven_ge _ _ hsig
  have hr2 : (((2 : Int) ^ t : Int) : ℚ) ≤ (roundEven (q / 2 ^ (Int.log 2 q - t)) : ℚ) := by
    exact_mod_cast hr
  calc (2 : ℚ) ^ k ≤ 2 ^ Int.log 2 q := zpow_le_zpow_right₀ (by norm_num) hlog
    _ = (((2 : Int) ^ t : Int) : ℚ) * 2 ^ (Int.log 2 q - t) := by
        push_cast
        rw [← zpow_natCast, ← zpow_add₀ (by norm_num : (2 : ℚ) ≠ 0)]
        congr 1
        ring
    _ ≤ (roundEven (q / 2 ^ (Int.log 2 q - t)) : ℚ) * 2 ^ (Int.log 2 q - t) :=
        mul_le_mul_of_nonneg_right hr2 (le_of_lt hu)

theorem roundEven_neg (q : ℚ) : roundEven (-q) = -roundEven q := by
  have hf := Int.floor_le q
  have hf2 := Int.lt_floor_add_one q
  rcases lt_trichotomy (q - ⌊q⌋) (1 / 2) with h | h | h
  · rw [roundEven_of_near q ⌊q⌋ (by linarith) (by linarith),
      roundEven_of_near (-q) (-⌊q⌋) (by push_cast; linarith) (by push_cast; linarith)]
  · have e1 : q = (⌊q⌋ : ℚ) + 1 / 2 := by linarith
    have e2 : -q = ((-(⌊q⌋ + 1) : Int) : ℚ) + 1 / 2 := by push_cast; linarith
    rw [roundEven_of_tie q ⌊q⌋ e1, roundEven_of_tie (-q) (-(⌊q⌋ + 1)) e2]
    split_ifs <;> omega
  · rw [roundEven_of_near q (⌊q⌋ + 1) (by push_cast; linarith) (by push_cast; linarith),
      roundEven_of_near (-q) (-(⌊q⌋ + 1)) (by push_cast; linarith) (by push_cast; linarith)]

/-- Rounding is symmetric about zero. -/
theorem roundBin_neg (t : Nat) (emin : Int) (q : ℚ) :
    roundBin t emin (-q) = -roundBin t emin q := by
  unfold roundBin
  by_cases h : q = 0
  · rw [if_pos h, if_pos (by rw [h]; simp)]
    simp
  · rw [if_neg h, if_neg (by simpa using h), abs_neg, neg_div, roundEven_neg]
    push_cast
    ring

/-- Rounding a value of magnitude at least one does not give zero. -/
theorem roundBin_ne_zero (t : Nat) (emin : Int) (q : ℚ) (hemin : emin ≤ 0) (h : 1 ≤ |q|) :
    roundBin t emin q ≠ 0 := by
  rcases le_or_lt 0 q with hq | hq
  · rw [abs_of_nonneg hq] at h
    have := roundBin_two_pow_le t emin 0 q hemin (by simpa using h)
    have h1 : (1 : ℚ) ≤ roundBin t emin q := by simpa using this
    linarith
  · rw [abs_of_neg hq] at h
    have := roundBin_two_pow_le t emin 0 (-q) hemin (by simpa using h)
    have h1 : (1 : ℚ) ≤ roundBin t emin (-q) := by simpa using this
    rw [roundBin_neg] at h1
    linarith

theorem roundF32_eval (e n : Int) (q r : ℚ) (hemin : -126 ≤ e) (hlo : (2 : ℚ) ^ e ≤ q)
    (hhi : q < 2 ^ (e + 1)) (h1 : (n : ℚ) - 1 / 2 < q / 2 ^ (e - 23))
    (h2 : q / 2 ^ (e - 23) < n + 1 / 2) (hr : (n : ℚ) * 2 ^ (e - 23) = r) : roundF32 q = r := by
  rw [← hr]
  exact roundBin_pos_eval 23 (-126) e n q hemin hlo hhi h1 h2

theorem roundF64_eval (e n : Int) (q r : ℚ) (hemin : -1022 ≤ e) (hlo : (2 : ℚ) ^ e ≤ q)
    (hhi : q < 2 ^ (e + 1)) (h1 : (n : ℚ) - 1 / 2 < q / 2 ^ (e - 52))
    (h2 : q / 2 ^ (e - 52) < n + 1 / 2) (hr : (n : ℚ) * 2 ^ (e - 52) = r) : roundF64 q = r := by
  rw [← hr]
  exact roundBin_pos_eval 52 (-1022) e n q hemin hlo hhi h1 h2

theorem roundF32_zero : roundF32 0 = 0 := by
  unfold roundF32 roundBin
  rw [if_pos rfl]

/-- IEEE-754 arithmetic has the sign properties the kern collider relies on. -/
theorem ieeeOps_signExact : ieeeOps.SignExact := by
  refine ⟨?_, ?_, ?_, ?_, ?_, ?_⟩
  · intro a b h
    exact roundBin_nonneg _ _ _ (by linarith)
  · intro x h
    have := roundBin_two_pow_le 23 (-126) 1 (x + 2) (by norm_num) (by norm_num; linarith)
    simpa using this
  · intro x m hx hm
    exact roundBin_nonneg _ _ _ (div_nonneg hx (le_of_lt hm))
  · intro q h
    have := roundBin_two_pow_le 52 (-1022) 0 (q + 1) (by norm_num) (by norm_num; linarith)
    simpa using this
  · intro v h
    show 1 ≤ int32 v ∨ int32 v < 0
    unfold int32
    split_ifs with hr
    · left
      unfold truncInt
      rw [if_pos (by linarith)]
      exact Int.le_floor.mpr (by exact_mod_cast h)
    · right
      decide
  · intro n h
    have h1 : (1 : ℚ) ≤ |(n : ℚ)| := by
      have : (1 : Int) ≤ |n| := Int.one_le_abs h
      exact_mod_cast this
    exact roundBin_ne_zero 23 (-126) (n : ℚ) (by norm_num) h1

theorem machine_kernEdgeStep_total (A : FloatOps) (seg : Segment) (s : Slot)
    (currShift : Position) (dir : Int) (miny sliceWidth x : ℚ) (st : List ℚ × ℚ) (i : Int)
    (h0 : 0 ≤ i) (h1 : i < st.1.length) :
    ∃ st', Machine.kernEdgeStep A seg s currShift dir miny sliceWidth x st i = some st'
      ∧ st'.1.length = st.1.length := by
  obtain ⟨e, he⟩ := edgeAt_isSome st.1 i h0 h1
  simp only [Machine.kernEdgeStep, he]
  split_ifs <;> exact ⟨_, rfl, by simp⟩

/-- The band indices computed for any vertical range lie in `0 .. numSlices - 1`, whatever
the arithmetic. -/
theorem machine_slice_range_in_bounds (A : FloatOps) (miny maxy : ℚ) (N : Int) (ylo yhi : ℚ)
    (i : Int)
    (h : i ∈ intRange (Machine.sliceMin A miny maxy N ylo) (Machine.sliceMax A miny maxy N yhi)) :
    0 ≤ i ∧ i ≤ N - 1 := by
  have := mem_intRange _ _ _ h
  unfold Machine.sliceMin Machine.sliceMax at this
  exact ⟨le_trans (le_max_left _ _) this.1, le_trans this.2 (min_le_left _ _)⟩

/-- The second cluster scan of `initSlot` never reads `_edges` out of bounds, whatever the
arithmetic. -/
theorem machine_kernSlotStep_total (A : FloatOps) (seg : Segment) (currShift : Position)
    (dir : Int) (miny maxy : ℚ) (numSlices : Int) (sliceWidth : ℚ) (st : List ℚ × ℚ) (s : Slot)
    (h : st.1.length = numSlices.toNat) :
    ∃ st', Machine.kernSlotStep A seg currShift dir miny maxy numSlices sliceWidth st s = some st'
      ∧ st'.1.length = numSlices.toNat := by
  unfold Machine.kernSlotStep
  exact foldlM_option_inv _ (fun (a : List ℚ × ℚ) => a.1.length = numSlices.toNat)
    (fun i => 0 ≤ i ∧ i ≤ numSlices - 1)
    (fun a i ha hi => by
      obtain ⟨a', h1, h2⟩ := machine_kernEdgeStep_total A seg s currShift dir miny sliceWidth _ a i
        hi.1 (by rw [ha]; omega)
      exact ⟨a', h1, h2.trans ha⟩)
    _ st h
    (fun i hi => machine_slice_range_in_bounds A _ _ _ _ _ _ hi)

/-- The signs of the values line 941 computes, for a cluster whose vertical extent is not
inverted: the height is at least 2, the effective margin at least 10, the quotient not
negative, the value converted to `int` at least 1. -/
theorem machine_numSlices_signs (A : FloatOps) (hA : A.SignExact) (miny maxy margin : ℚ)
    (hle : miny ≤ maxy) :
    2 ≤ Machine.height A miny maxy
    ∧ (10 : ℚ) ≤ (if margin < 10 then 10 else margin)
    ∧ 0 ≤ A.div (Machine.height A miny maxy) (if margin < 10 then 10 else margin)
    ∧ 1 ≤ A.dadd (A.div (Machine.height A miny maxy) (if margin < 10 then 10 else margin)) 1
    ∧ (1 ≤ Machine.numSlices A miny maxy (if margin < 10 then 10 else margin)
      ∨ Machine.numSlices A miny maxy (if margin < 10 then 10 else margin) < 0) := by
  have h1 : 2 ≤ Machine.height A miny maxy := hA.add_two _ (hA.sub_nonneg _ _ hle)
  have h2 : (10 : ℚ) ≤ (if margin < 10 then 10 else margin) := by
    split_ifs with h
    · exact le_refl _
    · exact not_lt.mp h
  have h3 := hA.div_nonneg (Machine.height A miny maxy) (if margin < 10 then 10 else margin)
    (by linarith) (by linarith)
  have h4 := hA.dadd_one _ h3
  exact ⟨h1, h2, h3, h4, hA.toInt_pos _ h4⟩

/-- Evaluation of `initSlot` in stages: the vertical extent, the number of bands, then the
band edges. -/
theorem machine_initSlot_of (A : FloatOps) (seg : Segment) (cluster : List Slot) (aSlot : Slot)
    (limit : Rect) (margin marginMin : ℚ) (currShift offsetPrev : Position) (dir : Int)
    (maxy miny : ℚ) (N : Int) (st : List ℚ × ℚ)
    (hext : cluster.foldl (Machine.kernExtentStep A seg) (-FLOAT_1E38, FLOAT_1E38) = (maxy, miny))
    (hN : Machine.numSlices A miny maxy (if margin < 10 then 10 else margin) = N)
    (hN0 : ¬ N < 0)
    (hfold : cluster.foldlM (Machine.kernSlotStep A seg currShift dir miny maxy N
        (A.div (Machine.height A miny maxy) (A.ofInt N)))
      (List.replicate N.toNat (if dir % 2 ≠ 0 then FLOAT_1E38 else -FLOAT_1E38),
        if dir % 2 ≠ 0 then FLOAT_1E38 else -FLOAT_1E38) = some st) :
    Machine.initSlot A seg cluster aSlot limit margin marginMin currShift offsetPrev dir
      = Except.ok
          { _target := aSlot, _limit := limit,
            _margin := if margin < 10 then 10 else margin, _offsetPrev := offsetPrev,
            _currShift := currShift, _miny := miny, _maxy := maxy, _edges := st.1,
            _numSlices := N, _mingap := FLOAT_1E38, _xbound := st.2,
            _othermax := -(if dir % 2 ≠ 0 then FLOAT_1E38 else -FLOAT_1E38) } := by
  simp only [Machine.initSlot, hext, hN, hfold, if_neg hN0]

/-- A negative `_numSlices` stops `initSlot` at the insert of line 944. -/
theorem machine_initSlot_badInsert (A : FloatOps) (seg : Segment) (cluster : List Slot)
    (aSlot : Slot) (limit : Rect) (margin marginMin : ℚ) (currShift offsetPrev : Position)
    (dir : Int) (maxy miny : ℚ)
    (hext : cluster.foldl (Machine.kernExtentStep A seg) (-FLOAT_1E38, FLOAT_1E38) = (maxy, miny))
    (hN : Machine.numSlices A miny maxy (if margin < 10 then 10 else margin) < 0) :
    Machine.initSlot A seg cluster aSlot limit margin marginMin currShift offsetPrev dir
      = Except.error KernFault.badInsert := by
  simp only [Machine.initSlot, hext, if_pos hN]

/-- The shape of the state `initSlot` leaves when the number of bands is at least one: the
call returns and `_edges` holds one value per band. -/
theorem machine_initSlot_state (A : FloatOps) (seg : Segment) (cluster : List Slot)
    (aSlot : Slot) (limit : Rect) (margin marginMin : ℚ) (currShift offsetPrev : Position)
    (dir : Int) (maxy miny : ℚ) (N : Int)
    (hext : cluster.foldl (Machine.kernExtentStep A seg) (-FLOAT_1E38, FLOAT_1E38) = (maxy, miny))
    (hN : Machine.numSlices A miny maxy (if margin < 10 then 10 else margin) = N)
    (hN1 : 1 ≤ N) :
    ∃ st : List ℚ × ℚ,
      st.1.length = N.toNat
      ∧ Machine.initSlot A seg cluster aSlot limit margin marginMin currShift offsetPrev dir
        = Except.ok
            { _target := aSlot, _limit := limit,
              _margin := if margin < 10 then 10 else margin, _offsetPrev := offsetPrev,
              _currShift := currShift, _miny := miny, _maxy := maxy, _edges := st.1,
              _numSlices := N, _mingap := FLOAT_1E38, _xbound := st.2,
              _othermax := -(if dir % 2 ≠ 0 then FLOAT_1E38 else -FLOAT_1E38) } := by
  obtain ⟨st, hst, hlen⟩ := foldlM_option_inv
    (Machine.kernSlotStep A seg currShift dir miny maxy N
      (A.div (Machine.height A miny maxy) (A.ofInt N)))
    (fun (a : List ℚ × ℚ) => a.1.length = N.toNat) (fun _ => True)
    (fun a t ha _ => machine_kernSlotStep_total A seg currShift dir miny maxy N _ a t ha)
    cluster
    (List.replicate N.toNat (if dir % 2 ≠ 0 then FLOAT_1E38 else -FLOAT_1E38),
      if dir % 2 ≠ 0 then FLOAT_1E38 else -FLOAT_1E38)
    (by simp) (fun _ _ => trivial)
  exact ⟨st, hlen, machine_initSlot_of A seg cluster aSlot limit margin marginMin currShift
    offsetPrev dir maxy miny N st hext hN (by omega) hst⟩

/-- The gap of a band is defined for every band index of a collider whose `_edges` holds
at least `_numSlices` values. -/
theorem machine_bandGap_isSome (A : FloatOps) (k : KernCollider) (reversed : Bool) (m : ℚ)
    (i : Int) (hinv : k._numSlices ≤ k._edges.length) (h0 : 0 ≤ i) (h1 : i ≤ k._numSlices - 1) :
    ∃ t, Machine.bandGap A k reversed m i = some t := by
  obtain ⟨e, he⟩ := edgeAt_isSome k._edges i h0 (by omega)
  unfold Machine.bandGap
  rw [he]
  by_cases hu : i < k._numSlices - 1
  · obtain ⟨e1, he1⟩ := edgeAt_isSome k._edges (i + 1) (by omega) (by omega)
    by_cases hd : i > 0
    · obtain ⟨e2, he2⟩ := edgeAt_isSome k._edges (i - 1) (by omega) (by omega)
      simp [hu, hd, he1, he2]
    · simp [hu, hd, he1]
  · by_cases hd : i > 0
    · obtain ⟨e2, he2⟩ := edgeAt_isSome k._edges (i - 1) (by omega) (by omega)
      simp [hu, hd, he2]
    · simp [hu, hd]

theorem machine_bandGap_congr (A : FloatOps) (k1 k2 : KernCollider) (reversed : Bool) (m : ℚ)
    (i : Int) (he : k2._edges = k1._edges) (hn : k2._numSlices = k1._numSlices) :
    Machine.bandGap A k2 reversed m i = Machine.bandGap A k1 reversed m i := by
  unfold Machine.bandGap
  rw [he, hn]

/-- The band loop of `mergeSlot` for a reversed run reads `_edges` in bounds and changes
only `_mingap` and `_othermax`. -/
theorem machine_mergeStepOdd_inv (A : FloatOps) (k0 : KernCollider) (seg : Segment) (slot : Slot)
    (currShift : Position) (currSpace sliceWidth x : ℚ)
    (hinv : k0._numSlices ≤ k0._edges.length) (st : KernCollider × Bool) (i : Int)
    (hst : k0.SameBands st.1) (hi : 0 ≤ i ∧ i ≤ k0._numSlices - 1) :
    ∃ st', Machine.mergeStepOdd A seg slot currShift currSpace sliceWidth x st i = some st'
      ∧ k0.SameBands st'.1 := by
  obtain ⟨s1, s2, s3, s4, s5, s6, s7, s8, s9, s10⟩ := hst
  obtain ⟨e, he⟩ := edgeAt_isSome k0._edges i hi.1 (by omega)
  rw [← s8] at he
  have key : ∀ (k1 : KernCollider) (m : ℚ), k1._edges = k0._edges →
      k1._numSlices = k0._numSlices → ∃ t, Machine.bandGap A k1 true m i = some t := by
    intro k1 m h1 h2
    rw [machine_bandGap_congr A k0 k1 true m i h1 h2]
    exact machine_bandGap_isSome A k0 true m i hinv hi.1 hi.2
  simp only [Machine.mergeStepOdd, he]
  split_ifs with hx ho
  · split
    · rename_i hnone
      obtain ⟨t, ht⟩ := key _ _ s8 s9
      exact absurd (hnone.symm.trans ht) (by simp)
    · rename_i t ht
      split_ifs with hlt
      · exact ⟨_, rfl, ⟨s1, s2, s3, s4, s5, s6, s7, s8, s9, s10⟩⟩
      · exact ⟨_, rfl, ⟨s1, s2, s3, s4, s5, s6, s7, s8, s9, s10⟩⟩
  · split
    · rename_i hnone
      obtain ⟨t, ht⟩ := key _ _ s8 s9
      exact absurd (hnone.symm.trans ht) (by simp)
    · rename_i t ht
      split_ifs with hlt
      · exact ⟨_, rfl, ⟨s1, s2, s3, s4, s5, s6, s7, s8, s9, s10⟩⟩
      · exact ⟨_, rfl, ⟨s1, s2, s3, s4, s5, s6, s7, s8, s9, s10⟩⟩
  · exact ⟨_, rfl, ⟨s1, s2, s3, s4, s5, s6, s7, s8, s9, s10⟩⟩

/-- The band loop of `mergeSlot` for a run that is not reversed reads `_edges` in bounds
and changes only `_mingap` and `_othermax`. -/
theorem machine_mergeStepEven_inv (A : FloatOps) (k0 : KernCollider) (seg : Segment) (slot : Slot)
    (currShift : Position) (currSpace sliceWidth x : ℚ)
    (hinv : k0._numSlices ≤ k0._edges.length) (st : KernCollider × Bool) (i : Int)
    (hst : k0.SameBands st.1) (hi : 0 ≤ i ∧ i ≤ k0._numSlices - 1) :
    ∃ st', Machine.mergeStepEven A seg slot currShift currSpace sliceWidth x st i = some st'
      ∧ k0.SameBands st'.1 := by
  obtain ⟨s1, s2, s3, s4, s5, s6, s7, s8, s9, s10⟩ := hst
  obtain ⟨e, he⟩ := edgeAt_isSome k0._edges i hi.1 (by omega)
  rw [← s8] at he
  have key : ∀ (k1 : KernCollider) (m : ℚ), k1._edges = k0._edges →
      k1._numSlices = k0._numSlices → ∃ t, Machine.bandGap A k1 false m i = some t := by
    intro k1 m h1 h2
    rw [machine_bandGap_congr A k0 k1 false m i h1 h2]
    exact machine_bandGap_isSome A k0 false m i hinv hi.1 hi.2
  simp only [Machine.mergeStepEven, he]
  split_ifs with hx ho
  · split
    · rename_i hnone
      obtain ⟨t, ht⟩ := key _ _ s8 s9
      exact absurd (hnone.symm.trans ht) (by simp)
    · rename_i t ht
      split_ifs with hlt
      · exact ⟨_, rfl, ⟨s1, s2, s3, s4, s5, s6, s7, s8, s9, s10⟩⟩
      · exact ⟨_, rfl, ⟨s1, s2, s3, s4, s5, s6, s7, s8, s9, s10⟩⟩
  · split
    · rename_i hnone
      obtain ⟨t, ht⟩ := key _ _ s8 s9
      exact absurd (hnone.symm.trans ht) (by simp)
    · rename_i t ht
      split_ifs with hlt
      · exact ⟨_, rfl, ⟨s1, s2, s3, s4, s5, s6, s7, s8, s9, s10⟩⟩
      · exact ⟨_, rfl, ⟨s1, s2, s3, s4, s5, s6, s7, s8, s9, s10⟩⟩
  · exact ⟨_, rfl, ⟨s1, s2, s3, s4, s5, s6, s7, s8, s9, s10⟩⟩

/-- Whatever the arithmetic and the run direction, `mergeSlot` returns for a collider
whose `_edges` holds at least `_numSlices` values, and it changes only `_mingap` and
`_othermax`. -/
theorem machine_mergeSlot_inv (A : FloatOps) (k : KernCollider) (seg : Segment)
    (bbox : Nat → Rect) (slot : Slot) (currShift : Position) (currSpace : ℚ) (dir : Int)
    (hinv : k._numSlices ≤ k._edges.length) :
    ∃ r, Machine.mergeSlot A k seg bbox slot currShift currSpace dir = some r
      ∧ k.SameBands r.2 := by
  unfold Machine.mergeSlot
  simp only
  split_ifs with hd hr hr
  · exact ⟨_, rfl, sameBands_self k⟩
  · obtain ⟨st, h1, h2⟩ := foldlM_option_inv
      (Machine.mergeStepOdd A seg slot currShift currSpace
        (A.div (Machine.height A k._miny k._maxy) (A.ofInt k._numSlices))
        (A.add (A.add slot.origin.x currShift.x) (bbox slot.gid).tr.x))
      (fun st => k.SameBands st.1)
      (fun i => 0 ≤ i ∧ i ≤ k._numSlices - 1)
      (fun st i hst hi => machine_mergeStepOdd_inv A k seg slot currShift currSpace _ _ hinv st i
        hst hi)
      (intRange (Machine.sliceMin A k._miny k._maxy k._numSlices
          (A.add (A.add slot.origin.y currShift.y) (bbox slot.gid).bl.y))
        (Machine.sliceMax A k._miny k._maxy k._numSlices
          (A.add (A.add slot.origin.y currShift.y) (bbox slot.gid).tr.y)))
      (k, false) (sameBands_self k)
      (fun i hi => machine_slice_range_in_bounds A _ _ _ _ _ _ hi)
    rw [h1]
    exact ⟨_, rfl, h2⟩
  · exact ⟨_, rfl, sameBands_self k⟩
  · obtain ⟨st, h1, h2⟩ := foldlM_option_inv
      (Machine.mergeStepEven A seg slot currShift currSpace
        (A.div (Machine.height A k._miny k._maxy) (A.ofInt k._numSlices))
        (A.add (A.add slot.origin.x currShift.x) (bbox slot.gid).bl.x))
      (fun st => k.SameBands st.1)
      (fun i => 0 ≤ i ∧ i ≤ k._numSlices - 1)
      (fun st i hst hi => machine_mergeStepEven_inv A k seg slot currShift currSpace _ _ hinv st i
        hst hi)
      (intRange (Machine.sliceMin A k._miny k._maxy k._numSlices
          (A.add (A.add slot.origin.y currShift.y) (bbox slot.gid).bl.y))
        (Machine.sliceMax A k._miny k._maxy k._numSlices
          (A.add (A.add slot.origin.y currShift.y) (bbox slot.gid).tr.y) - 1))
      (k, false) (sameBands_self k)
      (fun i hi => by
        have := mem_intRange _ _ _ hi
        unfold Machine.sliceMin Machine.sliceMax at this
        have h3 := min_le_left (k._numSlices - 1) (A.toInt (A.add
          (Machine.sliceIndex A k._miny k._maxy k._numSlices
            (A.add (A.add slot.origin.y currShift.y) (bbox slot.gid).tr.y)) 1))
        exact ⟨le_trans (le_max_left _ _) this.1, by omega⟩)
    rw [h1]
    exact ⟨_, rfl, h2⟩

/-! ## The machine embedding in exact arithmetic -/

theorem machine_get_left_exact (seg : Segment) (s : Slot) (shift : Position) (y width : ℚ) :
    Machine.get_left exactOps seg s shift y width = get_left seg s shift y width := rfl

theorem machine_get_right_exact (seg : Segment) (s : Slot) (shift : Position) (y width : ℚ) :
    Machine.get_right exactOps seg s shift y width = get_right seg s shift y width := rfl

theorem machine_kernExtentStep_exact (seg : Segment) :
    Machine.kernExtentStep exactOps seg = kernExtentStep seg := rfl

theorem machine_sliceMin_exact (miny maxy : ℚ) (N : Int) (y : ℚ) :
    Machine.sliceMin exactOps miny maxy N y = KernCollider.sliceMin miny maxy N y := rfl

theorem machine_sliceMax_exact (miny maxy : ℚ) (N : Int) (y : ℚ) :
    Machine.sliceMax exactOps miny maxy N y = KernCollider.sliceMax miny maxy N y := rfl

theorem machine_kernSlotStep_exact (seg : Segment) (currShift : Position) (dir : Int)
    (miny maxy : ℚ) (N : Int) (sliceWidth : ℚ) :
    Machine.kernSlotStep exactOps seg currShift dir miny maxy N sliceWidth
      = kernSlotStep seg currShift dir miny maxy N sliceWidth := rfl

/-- In exact arithmetic the machine embedding of `initSlot` is the embedding given first,
as long as the number of bands is not negative. -/
theorem machine_initSlot_exact (seg : Segment) (cluster : List Slot) (aSlot : Slot)
    (limit : Rect) (margin marginMin : ℚ) (currShift offsetPrev : Position) (dir : Int)
    (hN : ¬ Machine.numSlices exactOps
        (cluster.foldl (kernExtentStep seg) (-FLOAT_1E38, FLOAT_1E38)).2
        (cluster.foldl (kernExtentStep seg) (-FLOAT_1E38, FLOAT_1E38)).1
        (if margin < 10 then 10 else margin) < 0) :
    Machine.initSlot exactOps seg cluster aSlot limit margin marginMin currShift offsetPrev dir
      = match KernCollider.initSlot seg cluster aSlot limit margin marginMin currShift
          offsetPrev dir with
        | some k => Except.ok k
        | none => Except.error KernFault.outOfBounds := by
  have hNeq : ∀ a b c : ℚ, Machine.numSlices exactOps a b c = truncInt ((b - a + 2) / c + 1) :=
    fun _ _ _ => rfl
  have hW : ∀ (a b : ℚ) (n : Int),
      exactOps.div (Machine.height exactOps a b) (exactOps.ofInt n) = (b - a + 2) / n :=
    fun _ _ _ => rfl
  rw [hNeq] at hN
  unfold Machine.initSlot KernCollider.initSlot
  simp only [machine_kernExtentStep_exact, machine_kernSlotStep_exact, hNeq, hW, if_neg hN]
  split <;> rfl

theorem machine_bandGap_exact (k : KernCollider) (m : ℚ) (i : Int) :
    Machine.bandGap exactOps k true m i = k.bandGap 1 m i
    ∧ Machine.bandGap exactOps k false m i = k.bandGap (-1) m i := by
  have e1 : ∀ e : ℚ, exactOps.sub e m = 1 * (e - m) := fun e => (one_mul _).symm
  have e2 : ∀ e : ℚ, exactOps.sub m e = -1 * (e - m) := fun e => by
    show m - e = -1 * (e - m)
    ring
  constructor
  · simp only [Machine.bandGap, KernCollider.bandGap, if_true, e1]
  · simp only [Machine.bandGap, KernCollider.bandGap, Bool.false_eq_true, if_false, e2]

/-- In exact arithmetic the machine embedding of `mergeSlot` is the embedding given
first. -/
theorem machine_mergeSlot_exact (k : KernCollider) (seg : Segment) (bbox : Nat → Rect)
    (slot : Slot) (currShift : Position) (currSpace : ℚ) (dir : Int) :
    Machine.mergeSlot exactOps k seg bbox slot currShift currSpace dir
      = k.mergeSlot seg bbox slot currShift currSpace dir := by
  have hodd : ∀ w x, Machine.mergeStepOdd exactOps seg slot currShift currSpace w x
      = KernCollider.mergeStepOdd seg slot currShift currSpace w x := by
    intro w x
    funext st i
    simp only [Machine.mergeStepOdd, KernCollider.mergeStepOdd, (machine_bandGap_exact _ _ _).1]
    rfl
  have heven : ∀ w x, Machine.mergeStepEven exactOps seg slot currShift currSpace w x
      = KernCollider.mergeStepEven seg slot currShift currSpace w x := by
    intro w x
    funext st i
    simp only [Machine.mergeStepEven, KernCollider.mergeStepEven, (machine_bandGap_exact _ _ _).2]
    rfl
  unfold Machine.mergeSlot KernCollider.mergeSlot
  simp only [hodd, heven]
  rfl

/-! ## Evaluation of the examples in IEEE-754 arithmetic -/

theorem roundF32_62 : roundF32 62 = 62 :=
  roundF32_eval 5 16252928 _ _ (by norm_num) (by norm_num) (by norm_num) (by norm_num)
    (by norm_num) (by norm_num)

theorem roundF32_64 : roundF32 64 = 64 :=
  roundF32_eval 6 8388608 _ _ (by norm_num) (by norm_num) (by norm_num) (by norm_num)
    (by norm_num) (by norm_num)

theorem roundF32_4 : roundF32 4 = 4 :=
  roundF32_eval 2 8388608 _ _ (by norm_num) (by norm_num) (by norm_num) (by norm_num)
    (by norm_num) (by norm_num)

theorem roundF64_5 : roundF64 5 = 5 :=
  roundF64_eval 2 5629499534213120 _ _ (by norm_num) (by norm_num) (by norm_num) (by norm_num)
    (by norm_num) (by norm_num)

/-- The vertical extent of the cluster of glyph `1` alone. -/
theorem bandOne_extent :
    [bandSlot 1].foldl (Machine.kernExtentStep ieeeOps bandSegment) (-FLOAT_1E38, FLOAT_1E38)
      = (62, 0) := by
  simp only [List.foldl, Machine.kernExtentStep, ieeeOps, bandSegment, bandSlot, bandBox,
    zeroCollision, FLOAT_1E38]
  norm_num [roundF32_zero, roundF32_62]

theorem bandOne_height : Machine.height ieeeOps 0 62 = 64 := by
  simp only [Machine.height, ieeeOps]
  norm_num [roundF32_62, roundF32_64]

/-- The cluster of glyph `1` alone with margin 16: five bands. -/
theorem bandOne_numSlices : Machine.numSlices ieeeOps 0 62 16 = 5 := by
  simp only [Machine.numSlices, bandOne_height]
  simp only [ieeeOps]
  norm_num [roundF32_4, roundF64_5, int32, truncInt]

/-- C32: in every arithmetic with the sign properties `SignExact` (IEEE-754 arithmetic is
one), for a cluster with `_maxy ≥ _miny`: the divisors of lines 941, 942, 963, 964 and
1008-1010 are not zero (`_maxy - _miny + 2` as computed is at least 2, the margin at least
10, and `_numSlices` converts to a `float` other than zero); `KernCollider::initSlot`
either stops at the insert of line 944 because the conversion to `int` of line 941 gave a
negative `_numSlices`, before any access to `_edges`, or returns with `_numSlices ≥ 1` and
`_edges` of exactly `_numSlices` values, and in neither case reads `_edges` out of bounds;
the band indices computed for any vertical range, also one entirely above or below the
cluster, lie in `0 .. _numSlices - 1`; and from the state returned, and from every state
later merges leave, `KernCollider::mergeSlot` returns without an out-of-bounds access for
every neighbor, position, spacing and direction, keeping `_edges`, `_numSlices`, `_miny`
and `_maxy`. -/
theorem machine_edges_in_bounds (A : FloatOps) (hA : A.SignExact) (seg : Segment)
    (cluster : List Slot) (aSlot : Slot) (limit : Rect) (margin marginMin : ℚ)
    (currShift offsetPrev : Position) (dir : Int)
    (hle : (cluster.foldl (Machine.kernExtentStep A seg) (-FLOAT_1E38, FLOAT_1E38)).2
      ≤ (cluster.foldl (Machine.kernExtentStep A seg) (-FLOAT_1E38, FLOAT_1E38)).1) :
    2 ≤ Machine.height A (cluster.foldl (Machine.kernExtentStep A seg) (-FLOAT_1E38, FLOAT_1E38)).2
        (cluster.foldl (Machine.kernExtentStep A seg) (-FLOAT_1E38, FLOAT_1E38)).1
    ∧ (10 : ℚ) ≤ (if margin < 10 then 10 else margin)
    ∧ A.ofInt (Machine.numSlices A
        (cluster.foldl (Machine.kernExtentStep A seg) (-FLOAT_1E38, FLOAT_1E38)).2
        (cluster.foldl (Machine.kernExtentStep A seg) (-FLOAT_1E38, FLOAT_1E38)).1
        (if margin < 10 then 10 else margin)) ≠ 0
    ∧ ((Machine.numSlices A
          (cluster.foldl (Machine.kernExtentStep A seg) (-FLOAT_1E38, FLOAT_1E38)).2
          (cluster.foldl (Machine.kernExtentStep A seg) (-FLOAT_1E38, FLOAT_1E38)).1
          (if margin < 10 then 10 else margin) < 0
        ∧ Machine.initSlot A seg cluster aSlot limit margin marginMin currShift offsetPrev dir
          = Except.error KernFault.badInsert)
      ∨ ∃ k, Machine.initSlot A seg cluster aSlot limit margin marginMin currShift offsetPrev dir
          = Except.ok k
        ∧ k._miny = (cluster.foldl (Machine.kernExtentStep A seg) (-FLOAT_1E38, FLOAT_1E38)).2
        ∧ k._maxy = (cluster.foldl (Machine.kernExtentStep A seg) (-FLOAT_1E38, FLOAT_1E38)).1
        ∧ k._margin = (if margin < 10 then 10 else margin)
        ∧ k._numSlices = Machine.numSlices A k._miny k._maxy k._margin
        ∧ 1 ≤ k._numSlices
        ∧ (k._edges.length : Int) = k._numSlices
        ∧ (∀ (ylo yhi : ℚ) (i : Int),
            i ∈ intRange (Machine.sliceMin A k._miny k._maxy k._numSlices ylo)
              (Machine.sliceMax A k._miny k._maxy k._numSlices yhi) →
            0 ≤ i ∧ i ≤ k._numSlices - 1 ∧ ∃ e, edgeAt k._edges i = some e)
        ∧ (∀ (k2 : KernCollider), k.SameBands k2 →
            ∀ (seg2 : Segment) (bbox : Nat → Rect) (slot : Slot) (shift : Position)
              (currSpace : ℚ) (dir2 : Int),
            ∃ r, Machine.mergeSlot A k2 seg2 bbox slot shift currSpace dir2 = some r
              ∧ k.SameBands r.2)) := by
  obtain ⟨h1, h2, -, -, h5⟩ := machine_numSlices_signs A hA _ _ margin hle
  refine ⟨h1, h2, hA.ofInt_ne_zero _ (by omega), ?_⟩
  obtain ⟨N, hN⟩ : ∃ N, Machine.numSlices A
      (cluster.foldl (Machine.kernExtentStep A seg) (-FLOAT_1E38, FLOAT_1E38)).2
      (cluster.foldl (Machine.kernExtentStep A seg) (-FLOAT_1E38, FLOAT_1E38)).1
      (if margin < 10 then 10 else margin) = N := ⟨_, rfl⟩
  rw [hN] at h5 ⊢
  rcases h5 with hN1 | hN0
  · right
    obtain ⟨st, hlen, hinit⟩ := machine_initSlot_state A seg cluster aSlot limit margin marginMin
      currShift offsetPrev dir _ _ N rfl hN hN1
    refine ⟨_, hinit, rfl, rfl, rfl, hN.symm, hN1, ?_, ?_, ?_⟩
    · show (st.1.length : Int) = N
      rw [hlen]
      omega
    · intro ylo yhi i hi
      obtain ⟨h0, h1⟩ := machine_slice_range_in_bounds A _ _ _ _ _ _ hi
      have h1N : i ≤ N - 1 := h1
      exact ⟨h0, h1, edgeAt_isSome st.1 i h0 (by rw [hlen]; omega)⟩
    · intro k2 hk2 seg2 bbox slot shift currSpace dir2
      have hinv : k2._numSlices ≤ k2._edges.length := by
        obtain ⟨-, -, -, -, -, -, -, a8, a9, -⟩ := hk2
        rw [a8, a9]
        show N ≤ (st.1.length : Int)
        rw [hlen]
        omega
      obtain ⟨r, hr, hsb⟩ := machine_mergeSlot_inv A k2 seg2 bbox slot shift currSpace dir2 hinv
      exact ⟨r, hr, sameBands_trans _ _ _ hk2 hsb⟩
  · left
    exact ⟨hN0, machine_initSlot_badInsert A seg cluster aSlot limit margin marginMin currShift
      offsetPrev dir _ _ rfl (by rw [hN]; exact hN0)⟩

/-- C32 (witness): in IEEE-754 arithmetic the cluster of glyph `1` alone (heights 0 to 62)
with margin 16 gets five bands; a neighbor 500 units above the cluster is merged without
an out-of-bounds access. -/
theorem machine_edges_in_bounds_witness :
    ∃ k, Machine.initSlot ieeeOps bandSegment [bandSlot 1] (bandSlot 1) limitWide 16 0 ⟨0, 0⟩
        ⟨0, 0⟩ 1 = Except.ok k
      ∧ k._numSlices = 5
      ∧ (k._edges.length : Int) = 5
      ∧ ∃ r, Machine.mergeSlot ieeeOps k kernSegment wideGlyphBox kernNeighborAbove ⟨0, 0⟩ 0 1
          = some r := by
  have hm : (if (16 : ℚ) < 10 then (10 : ℚ) else 16) = 16 := by norm_num
  obtain ⟨-, -, -, h⟩ := machine_edges_in_bounds ieeeOps ieeeOps_signExact bandSegment
    [bandSlot 1] (bandSlot 1) limitWide 16 0 ⟨0, 0⟩ ⟨0, 0⟩ 1
    (by rw [bandOne_extent]; norm_num)
  rw [bandOne_extent, hm] at h
  rcases h with ⟨hneg, -⟩ | ⟨k, hk, hminy, hmaxy, hmargin, hN, -, hlen, -, hmerge⟩
  · rw [bandOne_numSlices] at hneg
    exact absurd hneg (by decide)
  · rw [hminy, hmaxy, hmargin, bandOne_numSlices] at hN
    obtain ⟨r, hr, -⟩ := hmerge k (sameBands_self k) kernSegment wideGlyphBox kernNeighborAbove
      ⟨0, 0⟩ 0 1
    exact ⟨k, hk, hN, by rw [hlen, hN], r, hr⟩

/-! ## The number of bands in machine arithmetic -/

end graphite2
